import Mathlib

/-!
# BVH construction, compaction and traversal of the renderer

A shallow embedding of `src/src/BVH.cc` (scalar variant of `Recurse` and
`CreateBVH`) and of the BVH part of `src/src/Raytracer.cc`
(`RayIntersectsBox`, `BVH_IntersectTriangles`, `CountBoxes`, `CountTriangles`,
`CountDepth`, `PopulateCacheFriendlyBVH`, `CreateCFBVH`).

Conventions of the embedding.

* `coord` (a C `float`) is modelled in exact arithmetic by `ℚ`; `FLT_MAX` is the
  exact value of the largest finite single-precision number.
* A `const Triangle*` that points into `Scene::_triangles` is modelled by the
  index of the triangle (`&_triangles[j]` is `j`, `p - pFirstTriangle` is `p`);
  a possibly-null pointer is an `Option Nat`.
* Loops whose trip count is not bounded syntactically (`for (testSplit ...)` in
  `Recurse`, the recursion of `Recurse`, `while (stackIdx)` in the traversal)
  take a fuel argument; running out of fuel is reported, never hidden.
* The unsigned 32-bit counters of the compactor are naturals; the theorems that
  read the leaf tag bit assume that the node count and the leaf counts are below
  `2^31`, the range in which no wrap-around happens.
-/

namespace Renderer

/-! ## Types.h -/

/-- The constant `FLT_MAX` of `<cfloat>`: `(2 - 2^-23) * 2^127`. -/
def FLT_MAX : ℚ := 340282346638528859811704183484516925440

/-- The struct `Vector3` of `Types.h`. -/
structure Vector3 where
  _x : ℚ
  _y : ℚ
  _z : ℚ
deriving DecidableEq

/-- The default constructor `Vector3()` : all coordinates zero. -/
def Vector3.zero : Vector3 := ⟨0, 0, 0⟩

instance : Inhabited Vector3 := ⟨Vector3.zero⟩

/-- The method `Vector3::assignSmaller`. -/
def Vector3.assignSmaller (a rhs : Vector3) : Vector3 :=
  ⟨min a._x rhs._x, min a._y rhs._y, min a._z rhs._z⟩

/-- The method `Vector3::assignBigger`. -/
def Vector3.assignBigger (a rhs : Vector3) : Vector3 :=
  ⟨max a._x rhs._x, max a._y rhs._y, max a._z rhs._z⟩

/-- The operator `Vector3::operator+=`. -/
def Vector3.add (a rhs : Vector3) : Vector3 :=
  ⟨a._x + rhs._x, a._y + rhs._y, a._z + rhs._z⟩

/-- The operator `Vector3::operator-=`. -/
def Vector3.sub (a rhs : Vector3) : Vector3 :=
  ⟨a._x - rhs._x, a._y - rhs._y, a._z - rhs._z⟩

/-- The operators `Vector3::operator*=` and `operator*` (scaling by a coord). -/
def Vector3.scale (a : Vector3) (rhs : ℚ) : Vector3 :=
  ⟨a._x * rhs, a._y * rhs, a._z * rhs⟩

/-- Componentwise `a ≤ b`. -/
def Vector3.le (a b : Vector3) : Prop :=
  a._x ≤ b._x ∧ a._y ≤ b._y ∧ a._z ≤ b._z

instance (a b : Vector3) : Decidable (Vector3.le a b) := by
  unfold Vector3.le; infer_instance

/-- The vector `Vector3(FLT_MAX,FLT_MAX,FLT_MAX)`. -/
def vecMax : Vector3 := ⟨FLT_MAX, FLT_MAX, FLT_MAX⟩

/-- The vector `Vector3(-FLT_MAX,-FLT_MAX,-FLT_MAX)`. -/
def vecMin : Vector3 := ⟨-FLT_MAX, -FLT_MAX, -FLT_MAX⟩

/-! ## Algebra.h -/

/-- The function `distancesq` of `Algebra.h`. -/
def distancesq (a b : Vector3) : ℚ :=
  let dx := a._x - b._x
  let dy := a._y - b._y
  let dz := a._z - b._z
  dx * dx + dy * dy + dz * dz

/-- The function `dot` of `Algebra.h`. -/
def dot (l r : Vector3) : ℚ :=
  l._x * r._x + l._y * r._y + l._z * r._z

/-! ## Base3d.h -/

/-- The struct `Triangle` of `Base3d.h`, restricted to the fields read by the
BVH builder and by the traversal.  `_vertexA`, `_vertexB`, `_vertexC` hold the
positions of the vertices pointed to. -/
structure Triangle where
  _vertexA : Vector3
  _vertexB : Vector3
  _vertexC : Vector3
  _center : Vector3
  _normal : Vector3
  _twoSided : Bool
  _d : ℚ
  _d1 : ℚ
  _d2 : ℚ
  _d3 : ℚ
  _e1 : Vector3
  _e2 : Vector3
  _e3 : Vector3
deriving DecidableEq

/-! ## BVH.cc, scalar variant -/

/-- The work item `BBoxTmp` of `BVH.cc`. -/
structure BBoxTmp where
  _bottom : Vector3
  _top : Vector3
  _center : Vector3
  _pTri : Nat
deriving DecidableEq

/-- The tree form of the hierarchy: the classes `BVHInner` and `BVHLeaf` derived
from `BVHNode`.  Every node carries the box `_bottom`, `_top` of `BVHNode`. -/
inductive BVHNode where
  | BVHInner (_bottom _top : Vector3) (_left _right : BVHNode) : BVHNode
  | BVHLeaf (_bottom _top : Vector3) (_triangles : List Nat) : BVHNode
deriving DecidableEq

/-- The member `_bottom` of a node. -/
def BVHNode._bottom : BVHNode → Vector3
  | .BVHInner b _ _ _ => b
  | .BVHLeaf b _ _ => b

/-- The member `_top` of a node. -/
def BVHNode._top : BVHNode → Vector3
  | .BVHInner _ t _ _ => t
  | .BVHLeaf _ t _ => t

/-- The method `IsLeaf`. -/
def BVHNode.IsLeaf : BVHNode → Bool
  | .BVHInner _ _ _ _ => false
  | .BVHLeaf _ _ _ => true

/-- The two assignments `node->_bottom = b; node->_top = t;`. -/
def BVHNode.setBox (n : BVHNode) (b t : Vector3) : BVHNode :=
  match n with
  | .BVHInner _ _ l r => .BVHInner b t l r
  | .BVHLeaf _ _ ts => .BVHLeaf b t ts

/-- The leaf made by `new BVHLeaf` followed by the `push_back` loop over the work
list (lines 100-103 and 212-215).  The box of a fresh node is the
default-constructed `Vector3`; it is overwritten by the caller. -/
def mkLeaf (work : List BBoxTmp) : BVHNode :=
  .BVHLeaf Vector3.zero Vector3.zero (work.map BBoxTmp._pTri)

/-- Coordinate selection `axis==0 ? _x : axis==1 ? _y : _z` (lines 130-139,
174-176, 226-228). -/
def Vector3.onAxis (v : Vector3) (axis : Int) : ℚ :=
  if axis = 0 then v._x else if axis = 1 then v._y else v._z

/-- The loop of lines 107-111 (and each accumulation of a box over a list of work
items): `bottom.assignSmaller(v._bottom)` started from `vecMax`. -/
def boxBottom (work : List BBoxTmp) : Vector3 :=
  work.foldl (fun acc v => acc.assignSmaller v._bottom) vecMax

/-- The loop of lines 107-111: `top.assignBigger(v._top)` started from `vecMin`. -/
def boxTop (work : List BBoxTmp) : Vector3 :=
  work.foldl (fun acc v => acc.assignBigger v._top) vecMin

/-- The surface measure `side1*side2 + side2*side3 + side3*side1` of a box. -/
def surface (bottom top : Vector3) : ℚ :=
  let side1 := top._x - bottom._x
  let side2 := top._y - bottom._y
  let side3 := top._z - bottom._z
  side1 * side2 + side2 * side3 + side3 * side1

/-- The accumulators of the loop over the work list for one candidate split
(lines 165-187). -/
structure SplitAcc where
  lbottom : Vector3
  ltop : Vector3
  rbottom : Vector3
  rtop : Vector3
  countLeft : Nat
  countRight : Nat
deriving DecidableEq

/-- The initial accumulators (lines 165-168). -/
def SplitAcc.init : SplitAcc := ⟨vecMax, vecMin, vecMax, vecMin, 0, 0⟩

/-- One iteration of the loop of lines 170-187. -/
def splitStep (axis : Int) (testSplit : ℚ) (acc : SplitAcc) (v : BBoxTmp) : SplitAcc :=
  let value := v._center.onAxis axis
  if value < testSplit then
    { acc with lbottom := acc.lbottom.assignSmaller v._bottom,
               ltop := acc.ltop.assignBigger v._top,
               countLeft := acc.countLeft + 1 }
  else
    { acc with rbottom := acc.rbottom.assignSmaller v._bottom,
               rtop := acc.rtop.assignBigger v._top,
               countRight := acc.countRight + 1 }

/-- The loop of lines 170-187. -/
def splitScan (work : List BBoxTmp) (axis : Int) (testSplit : ℚ) : SplitAcc :=
  work.foldl (splitStep axis testSplit) SplitAcc.init

/-- The variables `minCost`, `bestSplit`, `bestAxis` of `Recurse`. -/
structure Best where
  minCost : ℚ
  bestSplit : ℚ
  bestAxis : Int
deriving DecidableEq

/-- The body of the sampling loop after the progress report (lines 164-206). -/
def tryCandidate (work : List BBoxTmp) (axis : Int) (testSplit : ℚ) (best : Best) : Best :=
  let acc := splitScan work axis testSplit
  if acc.countLeft ≤ 1 ∨ acc.countRight ≤ 1 then best
  else
    let surfaceLeft := surface acc.lbottom acc.ltop
    let surfaceRight := surface acc.rbottom acc.rtop
    let totalCost := surfaceLeft * acc.countLeft + surfaceRight * acc.countRight
    if totalCost < best.minCost then ⟨totalCost, testSplit, axis⟩ else best

/-- The sampling loop `for(testSplit=...; testSplit<stop-step; testSplit+=step)`
of line 154, entered with the current value of `testSplit`.  The result is `none`
when `fuel` iterations did not reach the exit. -/
def sampleLoop (work : List BBoxTmp) (axis : Int) (stop step : ℚ)
    (fuel : Nat) (testSplit : ℚ) (best : Best) : Option Best :=
  if testSplit < stop - step then
    match fuel with
    | 0 => none
    | f + 1 =>
      sampleLoop work axis stop step f (testSplit + step)
        (tryCandidate work axis testSplit best)
  else some best

/-- One iteration of the loop over the axes (lines 122-208). -/
def axisPass (work : List BBoxTmp) (depth : Nat) (bottom top : Vector3)
    (fuel : Nat) (axis : Int) (best : Best) : Option Best :=
  let start := bottom.onAxis axis
  let stop := top.onAxis axis
  if |stop - start| < 1 / 10000 then some best
  else
    let step := (stop - start) / (1024 / ((depth : ℚ) + 1))
    sampleLoop work axis stop step fuel (start + step) best

/-- The search of lines 105-208: the state of `minCost`, `bestSplit`, `bestAxis`
after the three axes. -/
def searchSplit (work : List BBoxTmp) (depth : Nat) (fuel : Nat) : Option Best :=
  let bottom := boxBottom work
  let top := boxTop work
  let minCost := (work.length : ℚ) * surface bottom top
  (axisPass work depth bottom top fuel 0 ⟨minCost, FLT_MAX, -1⟩).bind fun b0 =>
  (axisPass work depth bottom top fuel 1 b0).bind fun b1 =>
  axisPass work depth bottom top fuel 2 b1

/-- The list `left` of lines 219-263. -/
def leftPart (work : List BBoxTmp) (bestAxis : Int) (bestSplit : ℚ) : List BBoxTmp :=
  work.filter fun v => decide (v._center.onAxis bestAxis < bestSplit)

/-- The list `right` of lines 219-263. -/
def rightPart (work : List BBoxTmp) (bestAxis : Int) (bestSplit : ℚ) : List BBoxTmp :=
  work.filter fun v => !decide (v._center.onAxis bestAxis < bestSplit)

/-- The function `Recurse` of `BVH.cc` (scalar variant), without the progress
report.  `fuel` bounds both the nesting of the recursion and the trip count of
each sampling loop; `none` means that the fuel did not suffice. -/
def Recurse : Nat → List BBoxTmp → Nat → Option BVHNode
  | 0, work, _ => if work.length < 4 then some (mkLeaf work) else none
  | f + 1, work, depth =>
    if work.length < 4 then some (mkLeaf work)
    else
      match searchSplit work depth f with
      | none => none
      | some best =>
        if best.bestAxis = -1 then some (mkLeaf work)
        else
          let left := leftPart work best.bestAxis best.bestSplit
          let right := rightPart work best.bestAxis best.bestSplit
          match Recurse f left (depth + 1), Recurse f right (depth + 1) with
          | some l, some r =>
            some (.BVHInner Vector3.zero Vector3.zero
              (l.setBox (boxBottom left) (boxTop left))
              (r.setBox (boxBottom right) (boxTop right)))
          | _, _ => none

/-- The corner `b._bottom` computed for a triangle in `CreateBVH` (lines 334-336). -/
def triBottom (triangle : Triangle) : Vector3 :=
  ((vecMax.assignSmaller triangle._vertexA).assignSmaller
    triangle._vertexB).assignSmaller triangle._vertexC

/-- The corner `b._top` computed for a triangle in `CreateBVH` (lines 337-339). -/
def triTop (triangle : Triangle) : Vector3 :=
  ((vecMin.assignBigger triangle._vertexA).assignBigger
    triangle._vertexB).assignBigger triangle._vertexC

/-- The work item built for triangle `j` in `CreateBVH` (lines 331-346). -/
def mkBBoxTmp (j : Nat) (triangle : Triangle) : BBoxTmp :=
  let bottom := triBottom triangle
  let top := triTop triangle
  { _bottom := bottom, _top := top, _center := (top.add bottom).scale (1 / 2), _pTri := j }

/-- The work list gathered by the loop of lines 328-360: item `j` is built from
triangle `j` and points to it. -/
def gatherWork (triangles : List Triangle) : List BBoxTmp :=
  triangles.enum.map fun p => mkBBoxTmp p.1 p.2

/-- The function `CreateBVH` of `BVH.cc` (scalar variant, lines 322-371): the work
list is gathered, `bottom` and `top` accumulate the boxes of all items (lines
341-342, the same fold as `boxBottom`, `boxTop`), `Recurse` is called at depth 0
and the root receives that box (lines 367-368).  There is no test for an empty
triangle list in this variant. -/
def CreateBVH (fuel : Nat) (triangles : List Triangle) : Option BVHNode :=
  let work := gatherWork triangles
  (Recurse fuel work 0).map fun root => root.setBox (boxBottom work) (boxTop work)

/-! ## Raytracer.cc: compaction of the tree -/

/-- The function `CountBoxes`. -/
def CountBoxes : BVHNode → Nat
  | .BVHInner _ _ l r => 1 + CountBoxes l + CountBoxes r
  | .BVHLeaf _ _ _ => 1

/-- The function `CountTriangles`. -/
def CountTriangles : BVHNode → Nat
  | .BVHInner _ _ l r => CountTriangles l + CountTriangles r
  | .BVHLeaf _ _ ts => ts.length

/-- The function `CountDepth`; the reference parameter `maxDepth` is passed in and
returned. -/
def CountDepth : BVHNode → Nat → Nat → Nat
  | .BVHInner _ _ l r, depth, maxDepth =>
    let m := if maxDepth < depth then depth else maxDepth
    CountDepth r (depth + 1) (CountDepth l (depth + 1) m)
  | .BVHLeaf _ _ _, depth, maxDepth =>
    if maxDepth < depth then depth else maxDepth

/-- The record `CacheFriendlyBVHNode`: a box and the two 32-bit words of the union
`u`.  `word0` is `u.inner._idxLeft` and `u.leaf._count`; `word1` is
`u.inner._idxRight` and `u.leaf._startIndexInTriIndexList`. -/
structure CacheFriendlyBVHNode where
  _bottom : Vector3
  _top : Vector3
  word0 : Nat
  word1 : Nat
deriving DecidableEq

/-- The member `u.inner._idxLeft`. -/
def CacheFriendlyBVHNode.idxLeft (n : CacheFriendlyBVHNode) : Nat := n.word0

/-- The member `u.inner._idxRight`. -/
def CacheFriendlyBVHNode.idxRight (n : CacheFriendlyBVHNode) : Nat := n.word1

/-- The member `u.leaf._count`. -/
def CacheFriendlyBVHNode.count (n : CacheFriendlyBVHNode) : Nat := n.word0

/-- The member `u.leaf._startIndexInTriIndexList`. -/
def CacheFriendlyBVHNode.startIndexInTriIndexList (n : CacheFriendlyBVHNode) : Nat :=
  n.word1

/-- The leaf test of the traversal, `u.leaf._count & 0x80000000` (line 223). -/
def CacheFriendlyBVHNode.leafBit (n : CacheFriendlyBVHNode) : Bool :=
  n.count &&& 0x80000000 != 0

/-- An assignment through `xs[i]`: `none` when `i` is outside the array. -/
def writeAt {α : Type} (xs : List α) (i : Nat) (f : α → α) : Option (List α) :=
  match xs[i]? with
  | none => none
  | some x => some (xs.set i (f x))

/-- The state that `PopulateCacheFriendlyBVH` works on: the two arrays of the
scene and the two reference parameters. -/
structure CFState where
  _pCFBVH : List CacheFriendlyBVHNode
  _triIndexList : List Nat
  idxBoxes : Nat
  idxTriList : Nat
deriving DecidableEq

/-- The loop of lines 668-673: `_triIndexList[idxTriList++] = *it - pFirstTriangle`. -/
def storeTriangles : List Nat → List Nat → Nat → Option (List Nat × Nat)
  | [], triIndexList, idxTriList => some (triIndexList, idxTriList)
  | t :: ts, triIndexList, idxTriList =>
    match writeAt triIndexList idxTriList (fun _ => t) with
    | none => none
    | some l => storeTriangles ts l (idxTriList + 1)

/-- The function `Scene::PopulateCacheFriendlyBVH`.  The result is `none` when a
write falls outside `_pCFBVH` or `_triIndexList`. -/
def PopulateCacheFriendlyBVH : BVHNode → CFState → Option CFState
  | .BVHInner b t l r, st =>
    let currIdxBoxes := st.idxBoxes
    match writeAt st._pCFBVH currIdxBoxes (fun n => { n with _bottom := b, _top := t }) with
    | none => none
    | some a1 =>
      let idxLeft := st.idxBoxes + 1
      match PopulateCacheFriendlyBVH l { st with _pCFBVH := a1, idxBoxes := idxLeft } with
      | none => none
      | some st2 =>
        let idxRight := st2.idxBoxes + 1
        match PopulateCacheFriendlyBVH r { st2 with idxBoxes := idxRight } with
        | none => none
        | some st3 =>
          match writeAt st3._pCFBVH currIdxBoxes
              (fun n => { n with word0 := idxLeft, word1 := idxRight }) with
          | none => none
          | some a4 => some { st3 with _pCFBVH := a4 }
  | .BVHLeaf b t ts, st =>
    let currIdxBoxes := st.idxBoxes
    match writeAt st._pCFBVH currIdxBoxes (fun n => { n with _bottom := b, _top := t }) with
    | none => none
    | some a1 =>
      let count := ts.length
      match writeAt a1 currIdxBoxes
          (fun n => { n with word0 := 0x80000000 ||| count, word1 := st.idxTriList }) with
      | none => none
      | some a2 =>
        match storeTriangles ts st._triIndexList st.idxTriList with
        | none => none
        | some (l, k) => some { st with _pCFBVH := a2, _triIndexList := l, idxTriList := k }

/-- The constant `BVH_STACK_SIZE` of `Defines.h` and `Raytracer.cc`. -/
def BVH_STACK_SIZE : Nat := 32

/-- The ways in which `CreateCFBVH` leaves through `exit(1)`, and the write outside
an array that the model reports instead of undefined behaviour. -/
inductive CFError where
  | internalBug : CFError
  | maxDepthExceeded (maxDepth : Nat) : CFError
  | outOfBounds : CFError
deriving DecidableEq

deriving instance DecidableEq for Except

/-- The four members of `Scene` that hold the compacted hierarchy. -/
structure CFBVH where
  _triIndexListNo : Nat
  _triIndexList : List Nat
  _pCFBVH_No : Nat
  _pCFBVH : List CacheFriendlyBVHNode
deriving DecidableEq

/-- The first half of `Scene::CreateCFBVH` (lines 684-697): the counters are
zeroed, the two arrays are allocated with the sizes given by `CountTriangles` and
`CountBoxes`, and `PopulateCacheFriendlyBVH` is run on them.  The contents of the
freshly allocated arrays are arbitrary: slot `i` of the node array starts as
`junk i`, slot `i` of the index list as `junkTri i`. -/
def compactArrays (root : BVHNode)
    (junk : Nat → CacheFriendlyBVHNode) (junkTri : Nat → Nat) : Option CFState :=
  let _triIndexListNo := CountTriangles root
  let _triIndexList := (List.range _triIndexListNo).map junkTri
  let _pCFBVH_No := CountBoxes root
  let _pCFBVH := (List.range _pCFBVH_No).map junk
  PopulateCacheFriendlyBVH root ⟨_pCFBVH, _triIndexList, 0, 0⟩

/-- The function `Scene::CreateCFBVH`, on the member `_pSceneBVH`. -/
def CreateCFBVH (_pSceneBVH : Option BVHNode)
    (junk : Nat → CacheFriendlyBVHNode) (junkTri : Nat → Nat) : Except CFError CFBVH :=
  match _pSceneBVH with
  | none => .error .internalBug
  | some root =>
    let _triIndexListNo := CountTriangles root
    let _pCFBVH_No := CountBoxes root
    match compactArrays root junk junkTri with
    | none => .error .outOfBounds
    | some st =>
      if st.idxBoxes ≠ _pCFBVH_No - 1 ∨ st.idxTriList ≠ _triIndexListNo then
        .error .internalBug
      else
        let maxDepth := CountDepth root 0 0
        if maxDepth ≥ BVH_STACK_SIZE then .error (.maxDepthExceeded maxDepth)
        else .ok ⟨_triIndexListNo, st._triIndexList, _pCFBVH_No, st._pCFBVH⟩

/-! ## Raytracer.cc: traversal -/

/-- The constant `NUDGE_FACTOR`. -/
def NUDGE_FACTOR : ℚ := 1 / 100000

/-- The macro `CHECK_NEAR_AND_FAR_INTERSECTION(c)` of `RayIntersectsBox` on one
coordinate: `o`, `r` are the coordinates of the origin and of the ray, `bottom`,
`top` those of the box, `T = (Tnear, Tfar)`.  `none` stands for `return false`. -/
def checkNearAndFar (o r bottom top : ℚ) (T : ℚ × ℚ) : Option (ℚ × ℚ) :=
  if r = 0 then
    if o < bottom then none
    else if o > top then none
    else some T
  else
    let T1 := (bottom - o) / r
    let T2 := (top - o) / r
    let T1s := if T1 > T2 then T2 else T1
    let T2s := if T1 > T2 then T1 else T2
    let Tnear := if T1s > T.1 then T1s else T.1
    let Tfar := if T2s < T.2 then T2s else T.2
    if Tnear > Tfar then none
    else if Tfar < 0 then none
    else some (Tnear, Tfar)

/-- The function `RayIntersectsBox`. -/
def RayIntersectsBox (originInWorldSpace rayInWorldSpace : Vector3)
    (box : CacheFriendlyBVHNode) : Bool :=
  match checkNearAndFar originInWorldSpace._x rayInWorldSpace._x
      box._bottom._x box._top._x (-FLT_MAX, FLT_MAX) with
  | none => false
  | some Tx =>
    match checkNearAndFar originInWorldSpace._y rayInWorldSpace._y
        box._bottom._y box._top._y Tx with
    | none => false
    | some Ty =>
      match checkNearAndFar originInWorldSpace._z rayInWorldSpace._z
          box._bottom._z box._top._z Ty with
      | none => false
      | some _ => true

/-- The members of `Scene` that `BVH_IntersectTriangles` reads. -/
structure Scene where
  _triangles : List Triangle
  _triIndexList : List Nat
  _pCFBVH : List CacheFriendlyBVHNode

/-- The output parameters of `BVH_IntersectTriangles` together with its local
`bestTriDist`.  In shadow mode `pointHitInWorldSpace` is the light position. -/
structure RayState where
  pBestTri : Option Nat
  pointHitInWorldSpace : Vector3
  kAB : ℚ
  kBC : ℚ
  kCA : ℚ
  bestTriDist : ℚ
deriving DecidableEq

/-- The tests of lines 241-274 on one triangle: `none` stands for `continue`,
otherwise the hit point and `kt1`, `kt2`, `kt3`.  `idx` is the index of `triangle`
in `_triangles`, so that `avoidSelf == &triangle` is `avoidSelf = some idx`. -/
def triangleTest (doCulling : Bool) (origin ray : Vector3) (avoidSelf : Option Nat)
    (idx : Nat) (triangle : Triangle) : Option (Vector3 × ℚ × ℚ × ℚ) :=
  if avoidSelf = some idx then none
  else if doCulling ∧ ¬ triangle._twoSided ∧
      dot (origin.sub triangle._center) triangle._normal < 0 then none
  else
    let k := dot triangle._normal ray
    if k = 0 then none
    else
      let s := (triangle._d - dot triangle._normal origin) / k
      if s ≤ 0 then none
      else if s ≤ NUDGE_FACTOR then none
      else
        let hit := (ray.scale s).add origin
        let kt1 := dot triangle._e1 hit - triangle._d1
        if kt1 < 0 then none
        else
          let kt2 := dot triangle._e2 hit - triangle._d2
          if kt2 < 0 then none
          else
            let kt3 := dot triangle._e3 hit - triangle._d3
            if kt3 < 0 then none
            else some (hit, kt1, kt2, kt3)

/-- What the body of the loop over the triangles of a leaf does next: it goes on
with the next triangle, or the function returns `true` (line 283); both carry the
current values of the outputs. -/
inductive Flow where
  | next (st : RayState) : Flow
  | returnTrue (st : RayState) : Flow
deriving DecidableEq

/-- The body of the loop of lines 234-297 for one triangle.  `lightPos` is the
reference to `pointHitInWorldSpace` taken at line 206. -/
def triangleStep (stopAtfirstRayHit doCulling : Bool) (origin ray : Vector3)
    (avoidSelf : Option Nat) (idx : Nat) (triangle : Triangle) (st : RayState) : Flow :=
  match triangleTest doCulling origin ray avoidSelf idx triangle with
  | none => .next st
  | some (hit, kt1, kt2, kt3) =>
    if stopAtfirstRayHit then
      let lightPos := st.pointHitInWorldSpace
      let dist := distancesq lightPos hit
      if dist < st.bestTriDist then .returnTrue st else .next st
    else
      let hitZ := distancesq origin hit
      if hitZ < st.bestTriDist then
        .next { pBestTri := some idx, pointHitInWorldSpace := hit,
                kAB := kt1, kBC := kt2, kCA := kt3, bestTriDist := hitZ }
      else .next st

/-- The faults of the traversal that the model reports: the loop did not end
within the fuel, a read outside `_pCFBVH`, `_triIndexList` or `_triangles`, and a
push beyond `stack[BVH_STACK_SIZE-1]` (the failure of the assertion of line 227). -/
inductive TravError where
  | outOfFuel : TravError
  | outOfBounds : TravError
  | stackOverflow : TravError
deriving DecidableEq

/-- The loop of lines 234-297 over `n` entries of `_triIndexList` from index `i`. -/
def leafLoop (stopAtfirstRayHit doCulling : Bool) (scene : Scene) (origin ray : Vector3)
    (avoidSelf : Option Nat) : Nat → Nat → RayState → Except TravError Flow
  | 0, _, st => .ok (.next st)
  | n + 1, i, st =>
    match scene._triIndexList[i]? with
    | none => .error .outOfBounds
    | some ti =>
      match scene._triangles[ti]? with
      | none => .error .outOfBounds
      | some triangle =>
        match triangleStep stopAtfirstRayHit doCulling origin ray avoidSelf ti triangle st with
        | .returnTrue st1 => .ok (.returnTrue st1)
        | .next st1 => leafLoop stopAtfirstRayHit doCulling scene origin ray avoidSelf n (i + 1) st1

/-- The loop `while(stackIdx)` of lines 219-299 and the final `return`.  The stack
holds indices into `_pCFBVH`, its top first, so `stackIdx` is the length of the
list.  The result is the returned flag and the final outputs. -/
def traverse (stopAtfirstRayHit doCulling : Bool) (scene : Scene) (origin ray : Vector3)
    (avoidSelf : Option Nat) : Nat → List Nat → RayState → Except TravError (Bool × RayState)
  | _, [], st => .ok (if stopAtfirstRayHit then false else st.pBestTri.isSome, st)
  | 0, _ :: _, _ => .error .outOfFuel
  | fuel + 1, cur :: stack, st =>
    match scene._pCFBVH[cur]? with
    | none => .error .outOfBounds
    | some pCurrent =>
      if !pCurrent.leafBit then
        if RayIntersectsBox origin ray pCurrent then
          if stack.length + 2 > BVH_STACK_SIZE then .error .stackOverflow
          else
            traverse stopAtfirstRayHit doCulling scene origin ray avoidSelf fuel
              (pCurrent.idxLeft :: pCurrent.idxRight :: stack) st
        else traverse stopAtfirstRayHit doCulling scene origin ray avoidSelf fuel stack st
      else
        match leafLoop stopAtfirstRayHit doCulling scene origin ray avoidSelf
            (pCurrent.count &&& 0x7fffffff) pCurrent.startIndexInTriIndexList st with
        | .error e => .error e
        | .ok (.returnTrue st1) => .ok (true, st1)
        | .ok (.next st1) =>
          traverse stopAtfirstRayHit doCulling scene origin ray avoidSelf fuel stack st1

/-- The template member `BVH_IntersectTriangles<stopAtfirstRayHit, doCulling>`:
the inputs, the incoming values of the in-out parameters, and the fuel of the
`while` loop. -/
def BVH_IntersectTriangles (stopAtfirstRayHit doCulling : Bool) (scene : Scene)
    (origin ray : Vector3) (avoidSelf : Option Nat)
    (pointHitInWorldSpace : Vector3) (kAB kBC kCA : ℚ) (fuel : Nat) :
    Except TravError (Bool × RayState) :=
  let lightPos := pointHitInWorldSpace
  let bestTriDist := if stopAtfirstRayHit then distancesq origin lightPos else FLT_MAX
  traverse stopAtfirstRayHit doCulling scene origin ray avoidSelf fuel [0]
    { pBestTri := none, pointHitInWorldSpace := pointHitInWorldSpace,
      kAB := kAB, kBC := kBC, kCA := kCA, bestTriDist := bestTriDist }

/-! ## Reference descriptions used by the statements -/

/-- The triangles of the leaves of a tree, from left to right. -/
def leafTris : BVHNode → List Nat
  | .BVHInner _ _ l r => leafTris l ++ leafTris r
  | .BVHLeaf _ _ ts => ts

/-- The pre-order image of a tree whose root is placed at index `i` of the node
array and whose first leaf starts at offset `off` of the index list. -/
def layout : BVHNode → Nat → Nat → List CacheFriendlyBVHNode
  | .BVHInner b t l r, i, off =>
    ⟨b, t, i + 1, i + 1 + CountBoxes l⟩ ::
      (layout l (i + 1) off ++ layout r (i + 1 + CountBoxes l) (off + CountTriangles l))
  | .BVHLeaf b t ts, _, off => [⟨b, t, 0x80000000 ||| ts.length, off⟩]

/-- The list `xs` with the segment that starts at index `i` overwritten by `ys`. -/
def splice {α : Type} (xs : List α) (i : Nat) (ys : List α) : List α :=
  xs.take i ++ ys ++ xs.drop (i + ys.length)

/-- The largest number of triangles held by one leaf of the tree. -/
def maxLeafCount : BVHNode → Nat
  | .BVHInner _ _ l r => max (maxLeafCount l) (maxLeafCount r)
  | .BVHLeaf _ _ ts => ts.length

/-- The height of a tree: 0 for a leaf. -/
def height : BVHNode → Nat
  | .BVHInner _ _ l r => 1 + max (height l) (height r)
  | .BVHLeaf _ _ _ => 0

/-- Reading a tree back from the compacted arrays `A` (nodes) and `T` (triangle
index list), starting at node index `i`: an inner record is followed through its
two child indices, a leaf record yields the `count` entries of the index list from
its start offset. -/
def readBack (A : List CacheFriendlyBVHNode) (T : List Nat) : Nat → Nat → Option BVHNode
  | 0, _ => none
  | fuel + 1, i =>
    match A[i]? with
    | none => none
    | some n =>
      if n.leafBit then
        let cnt := n.count &&& 0x7fffffff
        if n.startIndexInTriIndexList + cnt ≤ T.length then
          some (.BVHLeaf n._bottom n._top ((T.drop n.startIndexInTriIndexList).take cnt))
        else none
      else
        match readBack A T fuel n.idxLeft, readBack A T fuel n.idxRight with
        | some l, some r => some (.BVHInner n._bottom n._top l r)
        | _, _ => none

/-- A depth-first walk over the node array with an explicit stack (top first),
left child first; it returns the indices in the order of the visits, `none` when
an index falls outside the array or the fuel runs out. -/
def dfsWalk (arr : List CacheFriendlyBVHNode) : Nat → List Nat → List Nat → Option (List Nat)
  | _, [], visited => some visited.reverse
  | 0, _ :: _, _ => none
  | fuel + 1, i :: stack, visited =>
    match arr[i]? with
    | none => none
    | some n =>
      if n.leafBit then dfsWalk arr fuel stack (i :: visited)
      else dfsWalk arr fuel (n.idxLeft :: n.idxRight :: stack) (i :: visited)

/-- The arrays `A`, `T` hold the layout of the tree `t` with its root at node
index `i` and its first leaf at offset `off` of the index list. -/
def Embeds (A : List CacheFriendlyBVHNode) (T : List Nat) (t : BVHNode) (i off : Nat) : Prop :=
  (∀ j, j < CountBoxes t → A[i + j]? = (layout t i off)[j]?) ∧
  (∀ j, j < CountTriangles t → T[off + j]? = (leafTris t)[j]?) ∧
  i + CountBoxes t ≤ A.length ∧ off + CountTriangles t ≤ T.length

/-- Every work item of the list has `_bottom ≤ _top` on each axis, as the items
gathered by `CreateBVH` have. -/
def WellFormed (work : List BBoxTmp) : Prop :=
  ∀ v ∈ work, v._bottom.le v._top

/-- The split recorded in `best` is none (`bestAxis == -1`) or leaves at least two
work items on each side. -/
def GoodBest (work : List BBoxTmp) (best : Best) : Prop :=
  best.bestAxis = -1 ∨
    (2 ≤ (leftPart work best.bestAxis best.bestSplit).length ∧
     2 ≤ (rightPart work best.bestAxis best.bestSplit).length)

/-- The box of every node of the tree contains the box of every triangle held in
the leaves below it; `boxOf j` is the box (bottom, top) of triangle `j`. -/
def BoxesContain (boxOf : Nat → Vector3 × Vector3) : BVHNode → Prop
  | .BVHInner b t l r =>
    (∀ j ∈ leafTris l ++ leafTris r, b.le (boxOf j).1 ∧ (boxOf j).2.le t) ∧
    BoxesContain boxOf l ∧ BoxesContain boxOf r
  | .BVHLeaf b t ts => ∀ j ∈ ts, b.le (boxOf j).1 ∧ (boxOf j).2.le t

/-- The subtrees of a tree in pre-order, the tree itself first. -/
def subtrees : BVHNode → List BVHNode
  | .BVHInner b t l r => .BVHInner b t l r :: (subtrees l ++ subtrees r)
  | .BVHLeaf b t ts => [.BVHLeaf b t ts]

/-- The box of triangle `j` of a triangle list, as `CreateBVH` computes it; the
default-constructed box when `j` is not an index of the list. -/
def boxOfTriangle (triangles : List Triangle) (j : Nat) : Vector3 × Vector3 :=
  match triangles[j]? with
  | some tri => (triBottom tri, triTop tri)
  | none => (Vector3.zero, Vector3.zero)

/-- The loop of lines 234-297 over an explicit list of triangle indices. -/
def leafFold (stopAtfirstRayHit doCulling : Bool) (triangles : List Triangle)
    (origin ray : Vector3) (avoidSelf : Option Nat) : List Nat → RayState → Except TravError Flow
  | [], st => .ok (.next st)
  | ti :: rest, st =>
    match triangles[ti]? with
    | none => .error .outOfBounds
    | some triangle =>
      match triangleStep stopAtfirstRayHit doCulling origin ray avoidSelf ti triangle st with
      | .returnTrue st1 => .ok (.returnTrue st1)
      | .next st1 => leafFold stopAtfirstRayHit doCulling triangles origin ray avoidSelf rest st1

/-- The traversal described on the tree itself: a leaf runs the triangle loop over
its triangles (as many as the 31-bit count field holds), an inner node whose box
the ray hits runs its left subtree and then its right subtree. -/
def travTree (stopAtfirstRayHit doCulling : Bool) (triangles : List Triangle)
    (origin ray : Vector3) (avoidSelf : Option Nat) : BVHNode → RayState → Except TravError Flow
  | .BVHLeaf _ _ ts, st =>
    leafFold stopAtfirstRayHit doCulling triangles origin ray avoidSelf
      (ts.take (ts.length % 2 ^ 31)) st
  | .BVHInner b t l r, st =>
    if RayIntersectsBox origin ray ⟨b, t, 0, 0⟩ then
      match travTree stopAtfirstRayHit doCulling triangles origin ray avoidSelf l st with
      | .error e => .error e
      | .ok (.returnTrue s) => .ok (.returnTrue s)
      | .ok (.next s) => travTree stopAtfirstRayHit doCulling triangles origin ray avoidSelf r s
    else .ok (.next st)

/-- The traversal of a list of pending subtrees, the first one first, followed by
the final `return`. -/
def travList (stopAtfirstRayHit doCulling : Bool) (triangles : List Triangle)
    (origin ray : Vector3) (avoidSelf : Option Nat) :
    List BVHNode → RayState → Except TravError (Bool × RayState)
  | [], st => .ok (if stopAtfirstRayHit then false else st.pBestTri.isSome, st)
  | t :: rest, st =>
    match travTree stopAtfirstRayHit doCulling triangles origin ray avoidSelf t st with
    | .error e => .error e
    | .ok (.returnTrue s) => .ok (true, s)
    | .ok (.next s) => travList stopAtfirstRayHit doCulling triangles origin ray avoidSelf rest s

/-- Every pending subtree fits the stack: the entries below it, itself and its
height stay within `BVH_STACK_SIZE`. -/
def StackOK : List BVHNode → Prop
  | [] => True
  | t :: rest => rest.length + 1 + height t ≤ BVH_STACK_SIZE ∧ StackOK rest

/-- The stack of node indices `is` holds the roots of the pending subtrees `ts`. -/
def StackRep (A : List CacheFriendlyBVHNode) (T : List Nat) : List Nat → List BVHNode → Prop
  | [], [] => True
  | i :: is, t :: ts =>
    (∃ off, Embeds A T t i off) ∧ i + CountBoxes t ≤ 2 ^ 31 ∧ StackRep A T is ts
  | _, _ => False

/-- The number of nodes of a list of trees. -/
def totalBoxes : List BVHNode → Nat
  | [] => 0
  | t :: rest => CountBoxes t + totalBoxes rest

/-- One step of the linear scan of the specification: the triangle `ti` is put to
the per-triangle test of the traversal and replaces the hit kept so far when its
hit point is strictly closer to the origin. -/
def scanStep (doCulling : Bool) (triangles : List Triangle) (origin ray : Vector3)
    (avoidSelf : Option Nat) (st : RayState) (ti : Nat) : RayState :=
  match triangles[ti]? with
  | none => st
  | some triangle =>
    match triangleTest doCulling origin ray avoidSelf ti triangle with
    | none => st
    | some (hit, kt1, kt2, kt3) =>
      if distancesq origin hit < st.bestTriDist then
        { pBestTri := some ti, pointHitInWorldSpace := hit,
          kAB := kt1, kBC := kt2, kCA := kt3, bestTriDist := distancesq origin hit }
      else st

/-- The linear scan of the specification: all triangles in the order of the
triangle index list, starting from "no hit" at distance `FLT_MAX`; the result is
the hit flag and the outputs. -/
def scanAll (doCulling : Bool) (triangles : List Triangle) (triIndexList : List Nat)
    (origin ray : Vector3) (avoidSelf : Option Nat)
    (pointHitInWorldSpace : Vector3) (kAB kBC kCA : ℚ) : Bool × RayState :=
  let st := triIndexList.foldl (scanStep doCulling triangles origin ray avoidSelf)
    { pBestTri := none, pointHitInWorldSpace := pointHitInWorldSpace,
      kAB := kAB, kBC := kBC, kCA := kCA, bestTriDist := FLT_MAX }
  (st.pBestTri.isSome, st)

/-- The triangle accepts only points of its own box: every point of its plane that
passes the three edge tests lies between `triBottom` and `triTop`. -/
def AcceptsInsideBox (triangle : Triangle) : Prop :=
  ∀ p : Vector3, dot triangle._normal p = triangle._d →
    0 ≤ dot triangle._e1 p - triangle._d1 → 0 ≤ dot triangle._e2 p - triangle._d2 →
    0 ≤ dot triangle._e3 p - triangle._d3 →
    (triBottom triangle).le p ∧ p.le (triTop triangle)

/-! ## Concrete inputs -/

/-- A node record with all fields zero, used as the initial content of arrays. -/
def junk0 : Nat → CacheFriendlyBVHNode := fun _ => ⟨Vector3.zero, Vector3.zero, 0, 0⟩

/-- An index list content of zeros, used as the initial content of arrays. -/
def junkTri0 : Nat → Nat := fun _ => 0

/-- A right comb with `n` inner nodes: its maximum depth is `n`. -/
def comb : Nat → BVHNode
  | 0 => .BVHLeaf Vector3.zero Vector3.zero [0, 1]
  | n + 1 => .BVHInner Vector3.zero Vector3.zero (.BVHLeaf Vector3.zero Vector3.zero [0, 1]) (comb n)

/-- A tree of maximum depth 32. -/
def deepTree : BVHNode := comb 32

/-- A tree with one inner node and two leaves. -/
def smallTree : BVHNode :=
  .BVHInner ⟨0, 0, 0⟩ ⟨3, 1, 1⟩
    (.BVHLeaf ⟨0, 0, 0⟩ ⟨1, 1, 1⟩ [0, 1]) (.BVHLeaf ⟨2, 0, 0⟩ ⟨3, 1, 1⟩ [2, 3])

/-- A triangle with the given vertices in the plane `z = c`, facing `+z`, with the
edge planes of the Loader for the corners `(x0, y0)`, `(x0 + 1, y0)`, `(x0, y0 + 1)`
left unnormalised. -/
def flatTriangle (x0 y0 c : ℚ) : Triangle :=
  { _vertexA := ⟨x0, y0, c⟩, _vertexB := ⟨x0 + 1, y0, c⟩, _vertexC := ⟨x0, y0 + 1, c⟩,
    _center := ⟨x0 + 1 / 3, y0 + 1 / 3, c⟩, _normal := ⟨0, 0, 1⟩, _twoSided := true,
    _d := c, _d1 := y0, _d2 := -(x0 + y0 + 1), _d3 := x0,
    _e1 := ⟨0, 1, 0⟩, _e2 := ⟨-1, -1, 0⟩, _e3 := ⟨1, 0, 0⟩ }

/-- Four triangles in the plane `z = 1`, two near the origin and two near
`(10, 10, 1)`. -/
def fourTriangles : List Triangle :=
  [flatTriangle 0 0 1, flatTriangle 0 0 1, flatTriangle 10 10 1, flatTriangle 10 10 1]

/-- The four work items of `fourTriangles`. -/
def goodWork : List BBoxTmp := gatherWork fourTriangles

/-- The compacted form of `smallTree`. -/
def smallCF : CFBVH :=
  ⟨4, [0, 1, 2, 3], 3,
    [⟨⟨0, 0, 0⟩, ⟨3, 1, 1⟩, 1, 2⟩, ⟨⟨0, 0, 0⟩, ⟨1, 1, 1⟩, 0x80000000 ||| 2, 0⟩,
     ⟨⟨2, 0, 0⟩, ⟨3, 1, 1⟩, 0x80000000 ||| 2, 2⟩]⟩

/-- A scene with the single triangle `(0,0,3/2), (1,0,3/2), (0,1,3/2)` and the
compacted hierarchy that `CreateBVH` and `CreateCFBVH` make of it: one leaf. -/
def shadowScene : Scene :=
  ⟨[flatTriangle 0 0 (3 / 2)], [0],
    [⟨⟨0, 0, 3 / 2⟩, ⟨1, 1, 3 / 2⟩, 0x80000000 ||| 1, 0⟩]⟩

/-! ## Reference descriptions for the populated arrays and the avoided triangle -/

/-- The sum of the triangle counts `count & 0x7fffffff` of the leaf records of a
node array. -/
def leafCountSum : List CacheFriendlyBVHNode → Nat
  | [] => 0
  | n :: rest => (if n.leafBit then n.count &&& 0x7fffffff else 0) + leafCountSum rest

/-- The loop over the entries of a leaf in which every entry of `_triIndexList`
that refers to the triangle `skip` is passed over without being looked at, and
the other entries are tested with no triangle to avoid. -/
def leafLoopSkipping (stopAtfirstRayHit doCulling : Bool) (scene : Scene)
    (origin ray : Vector3) (skip : Nat) : Nat → Nat → RayState → Except TravError Flow
  | 0, _, st => .ok (.next st)
  | n + 1, i, st =>
    match scene._triIndexList[i]? with
    | none => .error .outOfBounds
    | some ti =>
      if ti = skip then
        leafLoopSkipping stopAtfirstRayHit doCulling scene origin ray skip n (i + 1) st
      else
        match scene._triangles[ti]? with
        | none => .error .outOfBounds
        | some triangle =>
          match triangleStep stopAtfirstRayHit doCulling origin ray none ti triangle st with
          | .returnTrue st1 => .ok (.returnTrue st1)
          | .next st1 =>
            leafLoopSkipping stopAtfirstRayHit doCulling scene origin ray skip n (i + 1) st1

/-- The traversal of `traverse` with `leafLoopSkipping` as the loop of the leaves. -/
def traverseSkipping (stopAtfirstRayHit doCulling : Bool) (scene : Scene)
    (origin ray : Vector3) (skip : Nat) :
    Nat → List Nat → RayState → Except TravError (Bool × RayState)
  | _, [], st => .ok (if stopAtfirstRayHit then false else st.pBestTri.isSome, st)
  | 0, _ :: _, _ => .error .outOfFuel
  | fuel + 1, cur :: stack, st =>
    match scene._pCFBVH[cur]? with
    | none => .error .outOfBounds
    | some pCurrent =>
      if !pCurrent.leafBit then
        if RayIntersectsBox origin ray pCurrent then
          if stack.length + 2 > BVH_STACK_SIZE then .error .stackOverflow
          else
            traverseSkipping stopAtfirstRayHit doCulling scene origin ray skip fuel
              (pCurrent.idxLeft :: pCurrent.idxRight :: stack) st
        else traverseSkipping stopAtfirstRayHit doCulling scene origin ray skip fuel stack st
      else
        match leafLoopSkipping stopAtfirstRayHit doCulling scene origin ray skip
            (pCurrent.count &&& 0x7fffffff) pCurrent.startIndexInTriIndexList st with
        | .error e => .error e
        | .ok (.returnTrue st1) => .ok (true, st1)
        | .ok (.next st1) =>
          traverseSkipping stopAtfirstRayHit doCulling scene origin ray skip fuel stack st1

/-- The query of `BVH_IntersectTriangles` with no triangle to avoid, run with
every entry of the index list that refers to the triangle `skip` passed over. -/
def intersectSkipping (stopAtfirstRayHit doCulling : Bool) (scene : Scene)
    (origin ray : Vector3) (skip : Nat)
    (pointHitInWorldSpace : Vector3) (kAB kBC kCA : ℚ) (fuel : Nat) :
    Except TravError (Bool × RayState) :=
  let lightPos := pointHitInWorldSpace
  let bestTriDist := if stopAtfirstRayHit then distancesq origin lightPos else FLT_MAX
  traverseSkipping stopAtfirstRayHit doCulling scene origin ray skip fuel [0]
    { pBestTri := none, pointHitInWorldSpace := pointHitInWorldSpace,
      kAB := kAB, kBC := kBC, kCA := kCA, bestTriDist := bestTriDist }

/-! ## The traversal with its work counted -/

/-- The work done by one call of `BVH_IntersectTriangles`: the calls of
`RayIntersectsBox`, the node pointers pushed on the stack after the root, the
leaves whose triangle loop was entered, and the triangles taken from the index
list. -/
structure Work where
  boxTests : Nat
  pushes : Nat
  leafVisits : Nat
  triangleTests : Nat
deriving DecidableEq

/-- The loop of lines 234-297 as `leafLoop`, with the number of triangles taken
from the index list added to `k`. -/
def leafLoopCounted (stopAtfirstRayHit doCulling : Bool) (scene : Scene)
    (origin ray : Vector3) (avoidSelf : Option Nat) :
    Nat → Nat → RayState → Nat → Except TravError (Flow × Nat)
  | 0, _, st, k => .ok (.next st, k)
  | n + 1, i, st, k =>
    match scene._triIndexList[i]? with
    | none => .error .outOfBounds
    | some ti =>
      match scene._triangles[ti]? with
      | none => .error .outOfBounds
      | some triangle =>
        match triangleStep stopAtfirstRayHit doCulling origin ray avoidSelf ti triangle st with
        | .returnTrue st1 => .ok (.returnTrue st1, k + 1)
        | .next st1 =>
          leafLoopCounted stopAtfirstRayHit doCulling scene origin ray avoidSelf n (i + 1) st1
            (k + 1)

/-- The loop `while(stackIdx)` as `traverse`, with the work counted in `w`. -/
def traverseCounted (stopAtfirstRayHit doCulling : Bool) (scene : Scene)
    (origin ray : Vector3) (avoidSelf : Option Nat) :
    Nat → List Nat → RayState → Work → Except TravError ((Bool × RayState) × Work)
  | _, [], st, w => .ok ((if stopAtfirstRayHit then false else st.pBestTri.isSome, st), w)
  | 0, _ :: _, _, _ => .error .outOfFuel
  | fuel + 1, cur :: stack, st, w =>
    match scene._pCFBVH[cur]? with
    | none => .error .outOfBounds
    | some pCurrent =>
      if !pCurrent.leafBit then
        if RayIntersectsBox origin ray pCurrent then
          if stack.length + 2 > BVH_STACK_SIZE then .error .stackOverflow
          else
            traverseCounted stopAtfirstRayHit doCulling scene origin ray avoidSelf fuel
              (pCurrent.idxLeft :: pCurrent.idxRight :: stack) st
              { w with boxTests := w.boxTests + 1, pushes := w.pushes + 2 }
        else
          traverseCounted stopAtfirstRayHit doCulling scene origin ray avoidSelf fuel stack st
            { w with boxTests := w.boxTests + 1 }
      else
        match leafLoopCounted stopAtfirstRayHit doCulling scene origin ray avoidSelf
            (pCurrent.count &&& 0x7fffffff) pCurrent.startIndexInTriIndexList st
            w.triangleTests with
        | .error e => .error e
        | .ok (.returnTrue st1, k) =>
          .ok ((true, st1), { w with leafVisits := w.leafVisits + 1, triangleTests := k })
        | .ok (.next st1, k) =>
          traverseCounted stopAtfirstRayHit doCulling scene origin ray avoidSelf fuel stack st1
            { w with leafVisits := w.leafVisits + 1, triangleTests := k }

/-- The member `BVH_IntersectTriangles` as above, with the work counted from zero. -/
def intersectCounted (stopAtfirstRayHit doCulling : Bool) (scene : Scene)
    (origin ray : Vector3) (avoidSelf : Option Nat)
    (pointHitInWorldSpace : Vector3) (kAB kBC kCA : ℚ) (fuel : Nat) :
    Except TravError ((Bool × RayState) × Work) :=
  let lightPos := pointHitInWorldSpace
  let bestTriDist := if stopAtfirstRayHit then distancesq origin lightPos else FLT_MAX
  traverseCounted stopAtfirstRayHit doCulling scene origin ray avoidSelf fuel [0]
    { pBestTri := none, pointHitInWorldSpace := pointHitInWorldSpace,
      kAB := kAB, kBC := kBC, kCA := kCA, bestTriDist := bestTriDist } ⟨0, 0, 0, 0⟩

/-! ## The box test with the rejections taken at the end -/

/-- The narrowing of the interval `(Tnear, Tfar)` that the macro
`CHECK_NEAR_AND_FAR_INTERSECTION(c)` makes on one coordinate, without its tests:
the interval is left as it is when the ray is parallel to the planes. -/
def slabNarrow (o r bottom top : ℚ) (T : ℚ × ℚ) : ℚ × ℚ :=
  if r = 0 then T
  else
    let T1 := (bottom - o) / r
    let T2 := (top - o) / r
    let T1s := if T1 > T2 then T2 else T1
    let T2s := if T1 > T2 then T1 else T2
    (if T1s > T.1 then T1s else T.1, if T2s < T.2 then T2s else T.2)

/-- The ray is parallel to the two planes of one coordinate and its origin is not
between them. -/
def parallelOutside (o r bottom top : ℚ) : Bool :=
  decide (r = 0 ∧ (o < bottom ∨ o > top))

/-- The box test that narrows the interval on the three coordinates first and
takes the rejections `Tnear > Tfar` and `Tfar < 0` once, at the end. -/
def RayIntersectsBoxLate (originInWorldSpace rayInWorldSpace : Vector3)
    (box : CacheFriendlyBVHNode) : Bool :=
  let Tx := slabNarrow originInWorldSpace._x rayInWorldSpace._x
    box._bottom._x box._top._x (-FLT_MAX, FLT_MAX)
  let Ty := slabNarrow originInWorldSpace._y rayInWorldSpace._y box._bottom._y box._top._y Tx
  let Tz := slabNarrow originInWorldSpace._z rayInWorldSpace._z box._bottom._z box._top._z Ty
  !parallelOutside originInWorldSpace._x rayInWorldSpace._x box._bottom._x box._top._x &&
  !parallelOutside originInWorldSpace._y rayInWorldSpace._y box._bottom._y box._top._y &&
  !parallelOutside originInWorldSpace._z rayInWorldSpace._z box._bottom._z box._top._z &&
  decide (Tz.1 ≤ Tz.2) && decide (0 ≤ Tz.2)

/-- The scene of `fourTriangles` with the arrays of `smallCF`: an inner root with
two leaves. -/
def smallScene : Scene := ⟨fourTriangles, smallCF._triIndexList, smallCF._pCFBVH⟩

/-! ## BVH.cc, scalar variant, with the progress report -/

/-- The constant `PRINT_REPORT_EVERY`. -/
def PRINT_REPORT_EVERY : Nat := 65535

/-- The state of the progress report: the global `g_reportCounter` (an `unsigned`)
and the values whose integer part has been printed so far. -/
structure Report where
  g_reportCounter : Nat
  printed : List ℚ
deriving DecidableEq

/-- The statement `if ((PRINT_REPORT_EVERY&g_reportCounter++) == 0) { printf ... }`
with `value` the percentage to print. -/
def reportTick (value : ℚ) (rep : Report) : Report :=
  { g_reportCounter := (rep.g_reportCounter + 1) % 2 ^ 32,
    printed := if PRINT_REPORT_EVERY &&& rep.g_reportCounter = 0 then rep.printed ++ [value]
               else rep.printed }

/-- The sampling loop of line 154 with the progress report of lines 155-163. -/
def sampleLoopR (work : List BBoxTmp) (axis : Int) (stop step pctStep : ℚ)
    (fuel : Nat) (testSplit pctStart : ℚ) (best : Best) (rep : Report) :
    Option (Best × Report) :=
  if testSplit < stop - step then
    match fuel with
    | 0 => none
    | f + 1 =>
      sampleLoopR work axis stop step pctStep f (testSplit + step) (pctStart + pctStep)
        (tryCandidate work axis testSplit best) (reportTick pctStart rep)
  else some (best, rep)

/-- One iteration of the loop over the axes (lines 122-208) with the variables
`pctStart`, `pctStep` of lines 151-152. -/
def axisPassR (work : List BBoxTmp) (depth : Nat) (bottom top : Vector3) (pct pctSpan : ℚ)
    (fuel : Nat) (axis : Int) (best : Best) (rep : Report) : Option (Best × Report) :=
  let start := bottom.onAxis axis
  let stop := top.onAxis axis
  if |stop - start| < 1 / 10000 then some (best, rep)
  else
    let step := (stop - start) / (1024 / ((depth : ℚ) + 1))
    let pctStart := pct + (axis : ℚ) * pctSpan
    let pctStep := pctSpan / ((stop - start - 2 * step) / step)
    sampleLoopR work axis stop step pctStep fuel (start + step) pctStart best rep

/-- The search of lines 105-208 with the progress report. -/
def searchSplitR (work : List BBoxTmp) (depth : Nat) (pct pctSpan : ℚ) (fuel : Nat)
    (rep : Report) : Option (Best × Report) :=
  let bottom := boxBottom work
  let top := boxTop work
  let minCost := (work.length : ℚ) * surface bottom top
  (axisPassR work depth bottom top pct pctSpan fuel 0 ⟨minCost, FLT_MAX, -1⟩ rep).bind fun p0 =>
  (axisPassR work depth bottom top pct pctSpan fuel 1 p0.1 p0.2).bind fun p1 =>
  axisPassR work depth bottom top pct pctSpan fuel 2 p1.1 p1.2

/-- The function `Recurse` of `BVH.cc` (scalar variant) as compiled with
`PROGRESS_REPORT`: the parameter `pct`, the local `pctSpan` of line 98, and the
two reports of lines 266-271 and 278-283 around the recursive calls. -/
def RecurseR : Nat → List BBoxTmp → ℚ → Nat → Report → Option (BVHNode × Report)
  | 0, work, _, _, rep => if work.length < 4 then some (mkLeaf work, rep) else none
  | f + 1, work, pct, depth, rep =>
    let pctSpan : ℚ := 11 / 3 ^ depth
    if work.length < 4 then some (mkLeaf work, rep)
    else
      match searchSplitR work depth pct pctSpan f rep with
      | none => none
      | some (best, rep1) =>
        if best.bestAxis = -1 then some (mkLeaf work, rep1)
        else
          let left := leftPart work best.bestAxis best.bestSplit
          let right := rightPart work best.bestAxis best.bestSplit
          match RecurseR f left (pct + 3 * pctSpan) (depth + 1)
              (reportTick (pct + 3 * pctSpan) rep1) with
          | none => none
          | some (l, rep2) =>
            match RecurseR f right (pct + 6 * pctSpan) (depth + 1)
                (reportTick (pct + 6 * pctSpan) rep2) with
            | none => none
            | some (r, rep3) =>
              some (.BVHInner Vector3.zero Vector3.zero
                (l.setBox (boxBottom left) (boxTop left))
                (r.setBox (boxBottom right) (boxTop right)), rep3)

/-- The function `CreateBVH` of `BVH.cc` (scalar variant) with the progress
report: `Recurse` is called with the default `pct = 0`. -/
def CreateBVHR (fuel : Nat) (triangles : List Triangle) (rep : Report) :
    Option (BVHNode × Report) :=
  let work := gatherWork triangles
  (RecurseR fuel work 0 0 rep).map fun p => (p.1.setBox (boxBottom work) (boxTop work), p.2)

/-! ## BVH.cc, SSE variant -/

/-- The type `__m128` as four lanes, `e0` the lowest; the element type is left
open so that the order of the operations can be read off. -/
structure M128 (α : Type) where
  e0 : α
  e1 : α
  e2 : α
  e3 : α
deriving DecidableEq

/-- Lane `i` of a vector, `i` taken modulo 4 as the two bits of a selector are. -/
def M128.lane {α : Type} (a : M128 α) (i : Nat) : α :=
  match i % 4 with
  | 0 => a.e0
  | 1 => a.e1
  | 2 => a.e2
  | _ => a.e3

/-- The intrinsic `_mm_set1_ps`. -/
def _mm_set1_ps {α : Type} (a : α) : M128 α := ⟨a, a, a, a⟩

/-- The intrinsic `_mm_set_ps(e3, e2, e1, e0)`. -/
def _mm_set_ps {α : Type} (e3 e2 e1 e0 : α) : M128 α := ⟨e0, e1, e2, e3⟩

/-- The intrinsic `_mm_min_ps`. -/
def _mm_min_ps {α : Type} [Min α] (a b : M128 α) : M128 α :=
  ⟨min a.e0 b.e0, min a.e1 b.e1, min a.e2 b.e2, min a.e3 b.e3⟩

/-- The intrinsic `_mm_max_ps`. -/
def _mm_max_ps {α : Type} [Max α] (a b : M128 α) : M128 α :=
  ⟨max a.e0 b.e0, max a.e1 b.e1, max a.e2 b.e2, max a.e3 b.e3⟩

/-- The intrinsic `_mm_sub_ps`. -/
def _mm_sub_ps {α : Type} [Sub α] (a b : M128 α) : M128 α :=
  ⟨a.e0 - b.e0, a.e1 - b.e1, a.e2 - b.e2, a.e3 - b.e3⟩

/-- The intrinsic `_mm_mul_ps`. -/
def _mm_mul_ps {α : Type} [Mul α] (a b : M128 α) : M128 α :=
  ⟨a.e0 * b.e0, a.e1 * b.e1, a.e2 * b.e2, a.e3 * b.e3⟩

/-- The intrinsic `_mm_add_ps`. -/
def _mm_add_ps {α : Type} [Add α] (a b : M128 α) : M128 α :=
  ⟨a.e0 + b.e0, a.e1 + b.e1, a.e2 + b.e2, a.e3 + b.e3⟩

/-- The intrinsic `_mm_shuffle_ps(a, b, _MM_SHUFFLE(z, y, x, w))`: the two low
lanes of the result are the lanes `w`, `x` of `a`, the two high lanes are the lanes
`y`, `z` of `b`. -/
def _mm_shuffle_ps {α : Type} (a b : M128 α) (z y x w : Nat) : M128 α :=
  ⟨a.lane w, a.lane x, b.lane y, b.lane z⟩

/-- The intrinsic `_mm_cvtss_f32`: the lowest lane. -/
def _mm_cvtss_f32 {α : Type} (a : M128 α) : α := a.e0

/-- The macro `SSETOVECTOR3`: `_x` from lane 3, `_y` from lane 2, `_z` from lane 1. -/
def SSETOVECTOR3 (varSSE : M128 ℚ) : Vector3 :=
  ⟨_mm_cvtss_f32 (_mm_shuffle_ps varSSE varSSE 0 0 0 3),
   _mm_cvtss_f32 (_mm_shuffle_ps varSSE varSSE 0 0 0 2),
   _mm_cvtss_f32 (_mm_shuffle_ps varSSE varSSE 0 0 0 1)⟩

/-- The shuffle sequence of lines 443-454 (and 543-553, 556-566) and the
`_mm_cvtss_f32` that follows it, on `top` and `bottom`. -/
def sseSurface {α : Type} [Sub α] [Mul α] [Add α] (ssetop ssebottom : M128 α) : α :=
  let topMinusBottom := _mm_sub_ps ssetop ssebottom
  let topMinusBottomShifted := _mm_shuffle_ps topMinusBottom topMinusBottom 2 1 3 0
  let topMinusBottom := _mm_mul_ps topMinusBottom topMinusBottomShifted
  let topMinusBottomShifted := _mm_shuffle_ps topMinusBottom topMinusBottom 2 0 0 0
  let topMinusBottomShifted2 := _mm_shuffle_ps topMinusBottom topMinusBottom 1 0 0 0
  let topMinusBottom := _mm_add_ps topMinusBottom topMinusBottomShifted
  let topMinusBottom := _mm_add_ps topMinusBottom topMinusBottomShifted2
  let topMinusBottom := _mm_shuffle_ps topMinusBottom topMinusBottom 0 0 0 3
  _mm_cvtss_f32 topMinusBottom

/-- The work item `BBoxTmp` of the SSE variant. -/
structure BBoxTmpSSE where
  _bottom : M128 ℚ
  _top : M128 ℚ
  _center : M128 ℚ
  _pTri : Nat
deriving DecidableEq

/-- The `value` of lines 515-522 and 596-603: the coordinate of the centre on the
axis. -/
def centerValue (axis : Int) (v : BBoxTmpSSE) : ℚ :=
  let hlp :=
    if axis = 0 then _mm_shuffle_ps v._center v._center 0 0 0 3
    else if axis = 1 then _mm_shuffle_ps v._center v._center 0 0 0 2
    else _mm_shuffle_ps v._center v._center 0 0 0 1
  _mm_cvtss_f32 hlp

/-- The accumulators of the loop of lines 512-533. -/
structure SplitAccSSE where
  lbottom : M128 ℚ
  ltop : M128 ℚ
  rbottom : M128 ℚ
  rtop : M128 ℚ
  countLeft : Nat
  countRight : Nat
deriving DecidableEq

/-- The initial accumulators (lines 506-510). -/
def SplitAccSSE.init : SplitAccSSE :=
  ⟨_mm_set1_ps FLT_MAX, _mm_set1_ps (-FLT_MAX), _mm_set1_ps FLT_MAX, _mm_set1_ps (-FLT_MAX),
    0, 0⟩

/-- One iteration of the loop of lines 512-533. -/
def splitStepSSE (axis : Int) (testSplit : ℚ) (acc : SplitAccSSE) (v : BBoxTmpSSE) :
    SplitAccSSE :=
  if centerValue axis v < testSplit then
    { acc with lbottom := _mm_min_ps acc.lbottom v._bottom,
               ltop := _mm_max_ps acc.ltop v._top,
               countLeft := acc.countLeft + 1 }
  else
    { acc with rbottom := _mm_min_ps acc.rbottom v._bottom,
               rtop := _mm_max_ps acc.rtop v._top,
               countRight := acc.countRight + 1 }

/-- The loop of lines 512-533. -/
def splitScanSSE (work : List BBoxTmpSSE) (axis : Int) (testSplit : ℚ) : SplitAccSSE :=
  work.foldl (splitStepSSE axis testSplit) SplitAccSSE.init

/-- The variables `minCost`, `bestSplit`, `bestAxis`, `bestCountLeft`,
`bestCountRight` of the SSE `Recurse`. -/
structure BestSSE where
  minCost : ℚ
  bestSplit : ℚ
  bestAxis : Int
  bestCountLeft : Nat
  bestCountRight : Nat
deriving DecidableEq

/-- The body of the sampling loop after the progress report (lines 505-577). -/
def tryCandidateSSE (work : List BBoxTmpSSE) (axis : Int) (testSplit : ℚ) (best : BestSSE) :
    BestSSE :=
  let acc := splitScanSSE work axis testSplit
  if acc.countLeft ≤ 1 ∨ acc.countRight ≤ 1 then best
  else
    let leftCost := (acc.countLeft : ℚ) * sseSurface acc.ltop acc.lbottom
    let rightCost := (acc.countRight : ℚ) * sseSurface acc.rtop acc.rbottom
    let totalCost := leftCost + rightCost
    if totalCost < best.minCost then ⟨totalCost, testSplit, axis, acc.countLeft, acc.countRight⟩
    else best

/-- The sampling loop of line 494. -/
def sampleLoopSSE (work : List BBoxTmpSSE) (axis : Int) (stop step : ℚ)
    (fuel : Nat) (testSplit : ℚ) (best : BestSSE) : Option BestSSE :=
  if testSplit < stop - step then
    match fuel with
    | 0 => none
    | f + 1 =>
      sampleLoopSSE work axis stop step f (testSplit + step)
        (tryCandidateSSE work axis testSplit best)
  else some best

/-- One iteration of the loop over the axes (lines 465-578). -/
def axisPassSSE (work : List BBoxTmpSSE) (depth : Nat) (bottom top : Vector3)
    (fuel : Nat) (axis : Int) (best : BestSSE) : Option BestSSE :=
  let start := bottom.onAxis axis
  let stop := top.onAxis axis
  if |stop - start| < 1 / 10000 then some best
  else
    let step := (stop - start) / (1024 / ((depth : ℚ) + 1))
    sampleLoopSSE work axis stop step fuel (start + step) best

/-- The box accumulated by the loop of lines 436-440, lower corner. -/
def sseBottom (work : List BBoxTmpSSE) : M128 ℚ :=
  work.foldl (fun acc v => _mm_min_ps acc v._bottom) (_mm_set1_ps FLT_MAX)

/-- The box accumulated by the loop of lines 436-440, upper corner. -/
def sseTop (work : List BBoxTmpSSE) : M128 ℚ :=
  work.foldl (fun acc v => _mm_max_ps acc v._top) (_mm_set1_ps (-FLT_MAX))

/-- The search of lines 434-578 of the SSE `Recurse`, without the progress
report. -/
def searchSplitSSE (work : List BBoxTmpSSE) (depth : Nat) (fuel : Nat) : Option BestSSE :=
  let ssebottom := sseBottom work
  let ssetop := sseTop work
  let minCost := (work.length : ℚ) * sseSurface ssetop ssebottom
  let bottom := SSETOVECTOR3 ssebottom
  let top := SSETOVECTOR3 ssetop
  (axisPassSSE work depth bottom top fuel 0 ⟨minCost, FLT_MAX, -1, 0, 0⟩).bind fun b0 =>
  (axisPassSSE work depth bottom top fuel 1 b0).bind fun b1 =>
  axisPassSSE work depth bottom top fuel 2 b1

/-- The faults of the SSE build that the model reports: the fuel did not suffice,
`ASSERT_OR_DIE` failed, a store beyond the entries allocated for `left` or
`right`, a read beyond the entries of `work`. -/
inductive BuildFault where
  | outOfFuel : BuildFault
  | assertFailed : BuildFault
  | overflow : BuildFault
  | outOfBounds : BuildFault
deriving DecidableEq

/-- The arrays `left`, `right` with the entries stored so far, and the boxes
`lbottom`, `ltop`, `rbottom`, `rtop` of lines 590-591. -/
structure PartSSE where
  left : List BBoxTmpSSE
  right : List BBoxTmpSSE
  lbottom : M128 ℚ
  ltop : M128 ℚ
  rbottom : M128 ℚ
  rtop : M128 ℚ
deriving DecidableEq

/-- The state before the loop of lines 593-630. -/
def PartSSE.init : PartSSE :=
  ⟨[], [], _mm_set1_ps FLT_MAX, _mm_set1_ps (-FLT_MAX), _mm_set1_ps FLT_MAX,
    _mm_set1_ps (-FLT_MAX)⟩

/-- The loop of lines 593-630 over the work items: `left[countLeft++] = v` and
`right[countRight++] = v` store into arrays of `capLeft` and `capRight` entries
(the `_mm_malloc` of lines 586-587). -/
def partitionSSE (bestAxis : Int) (bestSplit : ℚ) (capLeft capRight : Nat) :
    List BBoxTmpSSE → PartSSE → Except BuildFault PartSSE
  | [], acc => .ok acc
  | v :: vs, acc =>
    if centerValue bestAxis v < bestSplit then
      if acc.left.length < capLeft then
        partitionSSE bestAxis bestSplit capLeft capRight vs
          { acc with lbottom := _mm_min_ps acc.lbottom v._bottom,
                     ltop := _mm_max_ps acc.ltop v._top,
                     left := acc.left ++ [v] }
      else .error .overflow
    else
      if acc.right.length < capRight then
        partitionSSE bestAxis bestSplit capLeft capRight vs
          { acc with rbottom := _mm_min_ps acc.rbottom v._bottom,
                     rtop := _mm_max_ps acc.rtop v._top,
                     right := acc.right ++ [v] }
      else .error .overflow

/-- The leaf made from the first `size` work items (lines 430-433 and 581-584). -/
def mkLeafSSE (work : List BBoxTmpSSE) : BVHNode :=
  .BVHLeaf Vector3.zero Vector3.zero (work.map BBoxTmpSSE._pTri)

/-- The function `Recurse(size, work, depth)` of the SSE variant, without the
progress report.  `work` holds the entries of the array; the function reads the
first `size` of them. -/
def RecurseSSE : Nat → Nat → List BBoxTmpSSE → Nat → Except BuildFault BVHNode
  | 0, size, work, _ =>
    if work.length < size then .error .outOfBounds
    else if size < 4 then .ok (mkLeafSSE (work.take size))
    else .error .outOfFuel
  | f + 1, size, work, depth =>
    if work.length < size then .error .outOfBounds
    else if size < 4 then .ok (mkLeafSSE (work.take size))
    else
      match searchSplitSSE (work.take size) depth f with
      | none => .error .outOfFuel
      | some best =>
        if best.bestAxis = -1 then .ok (mkLeafSSE (work.take size))
        else
          match partitionSSE best.bestAxis best.bestSplit best.bestCountLeft
              best.bestCountRight (work.take size) PartSSE.init with
          | .error e => .error e
          | .ok p =>
            match RecurseSSE f p.left.length p.left (depth + 1) with
            | .error e => .error e
            | .ok l =>
              match RecurseSSE f p.right.length p.right (depth + 1) with
              | .error e => .error e
              | .ok r =>
                .ok (.BVHInner Vector3.zero Vector3.zero
                  (l.setBox (SSETOVECTOR3 p.lbottom) (SSETOVECTOR3 p.ltop))
                  (r.setBox (SSETOVECTOR3 p.rbottom) (SSETOVECTOR3 p.rtop)))

/-- The work item built for triangle `j` in the SSE `CreateBVH` (lines 716-732). -/
def mkBBoxTmpSSE (j : Nat) (triangle : Triangle) : BBoxTmpSSE :=
  let p1 := triangle._vertexA
  let p2 := triangle._vertexB
  let p3 := triangle._vertexC
  let bottom := _mm_min_ps (_mm_min_ps (_mm_min_ps (_mm_set1_ps FLT_MAX)
    (_mm_set_ps p1._x p1._y p1._z 0)) (_mm_set_ps p2._x p2._y p2._z 0))
    (_mm_set_ps p3._x p3._y p3._z 0)
  let top := _mm_max_ps (_mm_max_ps (_mm_max_ps (_mm_set1_ps (-FLT_MAX))
    (_mm_set_ps p1._x p1._y p1._z 0)) (_mm_set_ps p2._x p2._y p2._z 0))
    (_mm_set_ps p3._x p3._y p3._z 0)
  { _bottom := bottom, _top := top,
    _center := _mm_mul_ps (_mm_add_ps top bottom) (_mm_set1_ps (1 / 2)), _pTri := j }

/-- The work array filled by the loop of lines 714-744. -/
def gatherWorkSSE (triangles : List Triangle) : List BBoxTmpSSE :=
  triangles.enum.map fun p => mkBBoxTmpSSE p.1 p.2

/-- The function `CreateBVH` of the SSE variant (lines 704-762). -/
def CreateBVHSSE (fuel : Nat) (triangles : List Triangle) : Except BuildFault BVHNode :=
  if triangles.length = 0 then .error .assertFailed
  else
    let work := gatherWorkSSE triangles
    match RecurseSSE fuel triangles.length work 0 with
    | .error e => .error e
    | .ok root => .ok (root.setBox (SSETOVECTOR3 (sseBottom work)) (SSETOVECTOR3 (sseTop work)))

/-- The scalar work item that holds the three coordinates of an SSE work item. -/
def BBoxTmpSSE.toScalar (v : BBoxTmpSSE) : BBoxTmp :=
  ⟨SSETOVECTOR3 v._bottom, SSETOVECTOR3 v._top, SSETOVECTOR3 v._center, v._pTri⟩

/-- The variables that the two variants of `Recurse` share. -/
def BestSSE.toBest (b : BestSSE) : Best := ⟨b.minCost, b.bestSplit, b.bestAxis⟩

/-- The result of the scalar build as a result of the SSE build: no tree means
that the fuel did not suffice. -/
def ofScalar (r : Option BVHNode) : Except BuildFault BVHNode :=
  match r with
  | some t => .ok t
  | none => .error .outOfFuel

/-- The counts recorded with the best split are the sizes of the two parts. -/
def CountsOK (sw : List BBoxTmpSSE) (best : BestSSE) : Prop :=
  best.bestAxis = -1 ∨
    (best.bestCountLeft =
        (leftPart (sw.map BBoxTmpSSE.toScalar) best.bestAxis best.bestSplit).length ∧
     best.bestCountRight =
        (rightPart (sw.map BBoxTmpSSE.toScalar) best.bestAxis best.bestSplit).length)

/-- The work items that the loop of lines 593-630 stores in `left`. -/
def leftPartSSE (work : List BBoxTmpSSE) (bestAxis : Int) (bestSplit : ℚ) : List BBoxTmpSSE :=
  work.filter fun v => decide (centerValue bestAxis v < bestSplit)

/-- The work items that the loop of lines 593-630 stores in `right`. -/
def rightPartSSE (work : List BBoxTmpSSE) (bestAxis : Int) (bestSplit : ℚ) : List BBoxTmpSSE :=
  work.filter fun v => !decide (centerValue bestAxis v < bestSplit)

/-! ## Raytracer.cc: the cache file -/

/-- The representation of the values that `fwrite` and `fread` copy between the
memory and the cache file.  The declarations that fix it (`BVH.h` for the record
`CacheFriendlyBVHNode`, the platform for `unsigned`, `int` and `coord`) are not
among the sources, so the three sizes and the byte images are parameters:
`unsignedSize` is `sizeof(unsigned)`, `nodeSize` is `sizeof(CacheFriendlyBVHNode)`,
`intSize` is `sizeof(int)`.  A byte is a `Nat`. -/
structure Layout where
  unsignedSize : Nat
  unsignedBytes : Nat → List Nat
  bytesUnsigned : List Nat → Nat
  nodeSize : Nat
  nodeBytes : CacheFriendlyBVHNode → List Nat
  bytesNode : List Nat → CacheFriendlyBVHNode
  intSize : Nat
  intBytes : Nat → List Nat
  bytesInt : List Nat → Nat

/-- The files as `Scene::UpdateBoundingVolumeHierarchy` sees them: the content of
`<filename>.bvh` (`none` when `fopen(..., "rb")` fails), whether
`fopen(..., "wb")` succeeds, the number of bytes that can be written before
`fwrite` comes up short, and the number of `FILE` handles that are open. -/
structure Files where
  cache : Option (List Nat)
  writable : Bool
  room : Nat
  openHandles : Nat
deriving DecidableEq

/-- The call `fopen(BVHcacheFilename.c_str(), "rb")`: the stream of the bytes of the
file, or `none` for a null pointer. -/
def Files.fopenRead (fs : Files) : Option (List Nat × Files) :=
  fs.cache.map fun content => (content, { fs with openHandles := fs.openHandles + 1 })

/-- The call `fopen(BVHcacheFilename.c_str(), "wb")`: the file is emptied, or
`none` for a null pointer. -/
def Files.fopenWrite (fs : Files) : Option Files :=
  if fs.writable then some { fs with cache := some [], openHandles := fs.openHandles + 1 }
  else none

/-- The call `fclose(fp)`. -/
def Files.fclose (fs : Files) : Files :=
  { fs with openHandles := fs.openHandles - 1 }

/-- The call `fwrite(ptr, size, count, fp)` on the file opened for writing, with
`bytes` the `size * count` bytes at `ptr`: the number of complete items written
and the files afterwards. -/
def fwrite (bytes : List Nat) (size : Nat) (fs : Files) : Nat × Files :=
  let written := bytes.take fs.room
  (written.length / size,
    { fs with cache := some (fs.cache.getD [] ++ written), room := fs.room - written.length })

/-- The call `fread(ptr, size, count, fp)` on a stream: the number of complete
items read, the bytes stored at `ptr` (those of a last, partial item included),
and the rest of the stream. -/
def fread (size count : Nat) (stream : List Nat) : Nat × List Nat × List Nat :=
  (min count (stream.length / size), stream.take (size * count), stream.drop (size * count))

/-- The `count` items of `size` bytes each at the start of `bytes`, decoded. -/
def readItems {α : Type} (decode : List Nat → α) (size : Nat) : Nat → List Nat → List α
  | 0, _ => []
  | k + 1, bytes => decode (bytes.take size) :: readItems decode size k (bytes.drop size)

/-- The members of `Scene` that `UpdateBoundingVolumeHierarchy` reads and writes;
a null pointer is `none`. -/
structure SceneState where
  _triangles : List Triangle
  _pSceneBVH : Option BVHNode
  _triIndexListNo : Nat
  _triIndexList : Option (List Nat)
  _pCFBVH_No : Nat
  _pCFBVH : Option (List CacheFriendlyBVHNode)
deriving DecidableEq

/-- The ways in which `UpdateBoundingVolumeHierarchy` does not return: the fuel of
the build did not suffice, `CreateCFBVH` left through `exit(1)`, or one of the two
`new[]` of the load path (lines 757-758) threw `std::bad_alloc`, which nothing
catches. -/
inductive UpdateError where
  | outOfFuel : UpdateError
  | fatal (e : CFError) : UpdateError
  | badAlloc : UpdateError
deriving DecidableEq

/-- The lines 739-746 of `UpdateBoundingVolumeHierarchy`: the cache file is opened
for writing and receives the two counts and the two arrays; every `return` after
the `fopen` is preceded by `fclose(fp)`. -/
def storeCache (L : Layout) (cf : CFBVH) (fs : Files) : Files :=
  match fs.fopenWrite with
  | none => fs
  | some f0 =>
    let w1 := fwrite (L.unsignedBytes cf._pCFBVH_No) L.unsignedSize f0
    if 1 ≠ w1.1 then w1.2.fclose
    else
      let w2 := fwrite (L.unsignedBytes cf._triIndexListNo) L.unsignedSize w1.2
      if 1 ≠ w2.1 then w2.2.fclose
      else
        let w3 := fwrite ((cf._pCFBVH.take cf._pCFBVH_No).flatMap L.nodeBytes) L.nodeSize w2.2
        if cf._pCFBVH_No ≠ w3.1 then w3.2.fclose
        else
          let w4 := fwrite ((cf._triIndexList.take cf._triIndexListNo).flatMap L.intBytes)
            L.intSize w3.2
          if cf._triIndexListNo ≠ w4.1 then w4.2.fclose
          else w4.2.fclose

/-- The branch `if (forceRecalc || !fp)` of `UpdateBoundingVolumeHierarchy` (lines
719-746): `CreateBVH`, `CreateCFBVH`, the `fclose` of the handle opened for
reading when there is one (`fpOpen`), and the writing of the cache file. -/
def rebuildAndStore (L : Layout) (junk : Nat → CacheFriendlyBVHNode) (junkTri : Nat → Nat)
    (fuel : Nat) (fpOpen : Bool) (st : SceneState) (fs : Files) :
    Except UpdateError (SceneState × Files) :=
  match CreateBVH fuel st._triangles with
  | none => .error .outOfFuel
  | some root =>
    match CreateCFBVH (some root) junk junkTri with
    | .error e => .error (.fatal e)
    | .ok cf =>
      let st1 : SceneState :=
        { st with _pSceneBVH := some root,
                  _triIndexListNo := cf._triIndexListNo, _triIndexList := some cf._triIndexList,
                  _pCFBVH_No := cf._pCFBVH_No, _pCFBVH := some cf._pCFBVH }
      let fs1 := if fpOpen then fs.fclose else fs
      .ok (st1, storeCache L cf fs1)

/-- The body of `Scene::UpdateBoundingVolumeHierarchy` (lines 713-778), with the
calls `UpdateBoundingVolumeHierarchy(filename, true)` of the short reads given as
`recurse`.  A count keeps the value that the layout gives to the bytes stored by
its `fread`, also when the read was short.  `memory` is the number of bytes that
`operator new[]` can still give: `new CacheFriendlyBVHNode[_pCFBVH_No]` (line 757)
asks for `_pCFBVH_No` records and `new int[_triIndexListNo]` (line 758) for
`_triIndexListNo` entries out of what the first left, both before the third
`fread`; a request beyond that throws `std::bad_alloc`.  The `delete[]` of the
short reads give the two arrays back before the recursive call. -/
def updateBody (L : Layout) (memory : Nat) (junk : Nat → CacheFriendlyBVHNode)
    (junkTri : Nat → Nat)
    (fuel : Nat) (recurse : SceneState → Files → Except UpdateError (SceneState × Files))
    (forceRecalc : Bool) (st : SceneState) (fs : Files) :
    Except UpdateError (SceneState × Files) :=
  if st._pCFBVH.isSome then .ok (st, fs)
  else
    match fs.fopenRead with
    | none => rebuildAndStore L junk junkTri fuel false st fs
    | some (stream, fs1) =>
      if forceRecalc then rebuildAndStore L junk junkTri fuel true st fs1
      else
        let r1 := fread L.unsignedSize 1 stream
        let n := L.bytesUnsigned r1.2.1
        let st1 := { st with _pCFBVH_No := n }
        if 1 ≠ r1.1 then recurse st1 fs1
        else
          let r2 := fread L.unsignedSize 1 r1.2.2
          let m := L.bytesUnsigned r2.2.1
          let st2 := { st1 with _triIndexListNo := m }
          if 1 ≠ r2.1 then recurse st2 fs1
          else if memory < n * L.nodeSize then .error .badAlloc
          else if memory - n * L.nodeSize < m * L.intSize then .error .badAlloc
          else
            let r3 := fread L.nodeSize n r2.2.2
            if n ≠ r3.1 then
              recurse { st2 with _pCFBVH := none, _triIndexList := none } fs1
            else
              let r4 := fread L.intSize m r3.2.2
              if m ≠ r4.1 then
                recurse { st2 with _pCFBVH := none, _triIndexList := none } fs1
              else
                let nodes := readItems L.bytesNode L.nodeSize n r3.2.1
                let entries := readItems L.bytesInt L.intSize m r4.2.1
                .ok ({ st2 with _pCFBVH := some nodes, _triIndexList := some entries },
                  fs1.fclose)

/-- The call `UpdateBoundingVolumeHierarchy(filename, true)`.  With `forceRecalc`
set the body reaches neither its recursive calls nor its allocations, so the
function given for the calls is immaterial. -/
def UpdateForced (L : Layout) (memory : Nat) (junk : Nat → CacheFriendlyBVHNode)
    (junkTri : Nat → Nat)
    (fuel : Nat) (st : SceneState) (fs : Files) : Except UpdateError (SceneState × Files) :=
  updateBody L memory junk junkTri fuel (fun s f => .ok (s, f)) true st fs

/-- The member `Scene::UpdateBoundingVolumeHierarchy(filename, forceRecalc)`. -/
def UpdateBoundingVolumeHierarchy (L : Layout) (memory : Nat)
    (junk : Nat → CacheFriendlyBVHNode)
    (junkTri : Nat → Nat) (fuel : Nat) (forceRecalc : Bool) (st : SceneState) (fs : Files) :
    Except UpdateError (SceneState × Files) :=
  updateBody L memory junk junkTri fuel (UpdateForced L memory junk junkTri fuel) forceRecalc
    st fs

/-- What a build from scratch (`CreateBVH` and `CreateCFBVH`) makes of the scene:
the tree and the compacted arrays of its triangles. -/
def freshBuild (junk : Nat → CacheFriendlyBVHNode) (junkTri : Nat → Nat) (fuel : Nat)
    (st : SceneState) : Except UpdateError SceneState :=
  match CreateBVH fuel st._triangles with
  | none => .error .outOfFuel
  | some root =>
    match CreateCFBVH (some root) junk junkTri with
    | .error e => .error (.fatal e)
    | .ok cf =>
      .ok { _triangles := st._triangles, _pSceneBVH := some root,
            _triIndexListNo := cf._triIndexListNo, _triIndexList := some cf._triIndexList,
            _pCFBVH_No := cf._pCFBVH_No, _pCFBVH := some cf._pCFBVH }

/-- One of the four reads of the load path comes up short on a cache file with
the given content: the node count, the index count, the node array, the index
list. -/
def ReadsShort (L : Layout) (content : List Nat) : Prop :=
  let r1 := fread L.unsignedSize 1 content
  let n := L.bytesUnsigned r1.2.1
  let r2 := fread L.unsignedSize 1 r1.2.2
  let m := L.bytesUnsigned r2.2.1
  let r3 := fread L.nodeSize n r2.2.2
  let r4 := fread L.intSize m r3.2.2
  1 ≠ r1.1 ∨ 1 ≠ r2.1 ∨ n ≠ r3.1 ∨ m ≠ r4.1

/-- The two counts of a cache file with the given content are read in full and
the two arrays that they announce are more than `operator new[]` can give. -/
def AllocFails (L : Layout) (memory : Nat) (content : List Nat) : Prop :=
  let r1 := fread L.unsignedSize 1 content
  let n := L.bytesUnsigned r1.2.1
  let r2 := fread L.unsignedSize 1 r1.2.2
  let m := L.bytesUnsigned r2.2.1
  1 = r1.1 ∧ 1 = r2.1 ∧ memory < n * L.nodeSize + m * L.intSize

/-- The values whose byte image has the size given by the layout and is decoded
back to the value. -/
def Layout.Faithful (L : Layout) (cf : CFBVH) : Prop :=
  0 < L.unsignedSize ∧ 0 < L.nodeSize ∧ 0 < L.intSize ∧
  (∀ k ∈ [cf._pCFBVH_No, cf._triIndexListNo],
    (L.unsignedBytes k).length = L.unsignedSize ∧ L.bytesUnsigned (L.unsignedBytes k) = k) ∧
  (∀ n ∈ cf._pCFBVH, (L.nodeBytes n).length = L.nodeSize ∧ L.bytesNode (L.nodeBytes n) = n) ∧
  (∀ t ∈ cf._triIndexList, (L.intBytes t).length = L.intSize ∧ L.bytesInt (L.intBytes t) = t)

/-- The bytes of a cache file that holds the two counts and the two arrays of a
compacted hierarchy, in the order of the four `fwrite` calls. -/
def cacheImage (L : Layout) (cf : CFBVH) : List Nat :=
  L.unsignedBytes cf._pCFBVH_No ++ (L.unsignedBytes cf._triIndexListNo ++
    (cf._pCFBVH.flatMap L.nodeBytes ++ cf._triIndexList.flatMap L.intBytes))

/-! ## Concrete inputs for the cache file -/

/-- The four bytes of an `unsigned`, the least significant first. -/
def u32Bytes (n : Nat) : List Nat :=
  [n % 256, n / 256 % 256, n / 65536 % 256, n / 16777216 % 256]

/-- The value of four bytes, the least significant first. -/
def bytesU32 (bs : List Nat) : Nat :=
  bs.getD 0 0 + 256 * bs.getD 1 0 + 65536 * bs.getD 2 0 + 16777216 * bs.getD 3 0

/-- A stand-in for the four bytes of a `coord`, exact on the whole numbers below
`2^32`: the bytes of the numerator. -/
def coordBytes (q : ℚ) : List Nat := u32Bytes q.num.toNat

/-- The whole number held by four bytes, as a `coord`. -/
def bytesCoord (bs : List Nat) : ℚ := (bytesU32 bs : ℚ)

/-- The twelve bytes of a `Vector3` under `coordBytes`. -/
def vecBytes (v : Vector3) : List Nat :=
  coordBytes v._x ++ coordBytes v._y ++ coordBytes v._z

/-- The `Vector3` held by twelve bytes under `bytesCoord`. -/
def bytesVec (bs : List Nat) : Vector3 :=
  ⟨bytesCoord (bs.take 4), bytesCoord ((bs.drop 4).take 4), bytesCoord ((bs.drop 8).take 4)⟩

/-- A layout with 4-byte counts and entries and 32-byte records (two corners and
the two words of the union), used for the concrete inputs. -/
def exampleLayout : Layout :=
  { unsignedSize := 4, unsignedBytes := u32Bytes, bytesUnsigned := bytesU32,
    nodeSize := 32,
    nodeBytes := fun n => vecBytes n._bottom ++ vecBytes n._top ++ u32Bytes n.word0 ++
      u32Bytes n.word1,
    bytesNode := fun bs => ⟨bytesVec (bs.take 12), bytesVec ((bs.drop 12).take 12),
      bytesU32 ((bs.drop 24).take 4), bytesU32 ((bs.drop 28).take 4)⟩,
    intSize := 4, intBytes := u32Bytes, bytesInt := bytesU32 }

/-- A scene of one triangle with no hierarchy in memory. -/
def oneTriangleState : SceneState := ⟨[flatTriangle 0 0 (3 / 2)], none, 0, none, 0, none⟩

/-- The cache file exists and is empty; it can be rewritten. -/
def emptyCacheFiles : Files := ⟨some [], true, 1000, 0⟩

/-- There is no cache file; it can be written. -/
def noCacheFiles : Files := ⟨none, true, 1000, 0⟩

/-- The cache file holds the two counts 0 and 0 and nothing else. -/
def zeroCountsFiles : Files := ⟨some [0, 0, 0, 0, 0, 0, 0, 0], true, 1000, 0⟩

/-- The cache file holds the eight bytes `ff ff ff ff 00 00 00 00`: the count
`4294967295` of records, the count 0 of entries, and no array. -/
def hugeCountFiles : Files := ⟨some [255, 255, 255, 255, 0, 0, 0, 0], true, 1000, 0⟩

/-- The scene of one triangle after the cache file of `zeroCountsFiles` has been
loaded into it: two arrays of length 0. -/
def loadedZeroState : SceneState :=
  ⟨[flatTriangle 0 0 (3 / 2)], none, 0, some [], 0, some []⟩

/-! ## The candidates of the split search -/

/-- The values taken by `testSplit` in the loop
`for(testSplit=...; testSplit<stop-step; testSplit+=step)` of line 154, entered
with the current value of `testSplit`, in the order of the iterations; `none` when
`fuel` iterations did not reach the exit. -/
def sampleValues (stop step : ℚ) (fuel : Nat) (testSplit : ℚ) : Option (List ℚ) :=
  if testSplit < stop - step then
    match fuel with
    | 0 => none
    | f + 1 => (sampleValues stop step f (testSplit + step)).map fun vs => testSplit :: vs
  else some []

/-- The values of `testSplit` tried on one axis (lines 122-154): none when the
extent of the box on the axis is below `1e-4`. -/
def axisValues (depth : Nat) (bottom top : Vector3) (fuel : Nat) (axis : Int) :
    Option (List ℚ) :=
  let start := bottom.onAxis axis
  let stop := top.onAxis axis
  if |stop - start| < 1 / 10000 then some []
  else
    let step := (stop - start) / (1024 / ((depth : ℚ) + 1))
    sampleValues stop step fuel (start + step)

/-- The candidates (axis, split value) that the search of `Recurse` evaluates on a
work list, in the order of their evaluation: the axes 0, 1, 2 in turn, the split
values ascending by `step`. -/
def candidates (work : List BBoxTmp) (depth fuel : Nat) : Option (List (Int × ℚ)) :=
  let bottom := boxBottom work
  let top := boxTop work
  (axisValues depth bottom top fuel 0).bind fun v0 =>
  (axisValues depth bottom top fuel 1).bind fun v1 =>
  (axisValues depth bottom top fuel 2).map fun v2 =>
    v0.map (fun s => ((0 : Int), s)) ++ v1.map (fun s => ((1 : Int), s)) ++
      v2.map (fun s => ((2 : Int), s))

/-- The split leaves at least two work items on each side. -/
def Usable (work : List BBoxTmp) (axis : Int) (split : ℚ) : Prop :=
  2 ≤ (leftPart work axis split).length ∧ 2 ≤ (rightPart work axis split).length

instance (work : List BBoxTmp) (axis : Int) (split : ℚ) : Decidable (Usable work axis split) := by
  unfold Usable; infer_instance

/-- The cost `surfaceArea(leftBox)*leftCount + surfaceArea(rightBox)*rightCount` of
a split, with the boxes and the counts of the two parts. -/
def sahCost (work : List BBoxTmp) (axis : Int) (split : ℚ) : ℚ :=
  let left := leftPart work axis split
  let right := rightPart work axis split
  surface (boxBottom left) (boxTop left) * (left.length : ℚ) +
    surface (boxBottom right) (boxTop right) * (right.length : ℚ)

/-- The baseline cost `count*surfaceArea(unionBox)` of a work list. -/
def baseCost (work : List BBoxTmp) : ℚ :=
  (work.length : ℚ) * surface (boxBottom work) (boxTop work)

/-- What the search holds after the candidates `cs`: no split, the baseline cost,
and no usable candidate strictly below it; or the first of the usable candidates
of least cost, that cost being strictly below the baseline. -/
def BestOf (work : List BBoxTmp) (cs : List (Int × ℚ)) (best : Best) : Prop :=
  (best.bestAxis = -1 ∧ best.minCost = baseCost work ∧
    ∀ c ∈ cs, Usable work c.1 c.2 → baseCost work ≤ sahCost work c.1 c.2) ∨
  (∃ i, cs[i]? = some (best.bestAxis, best.bestSplit) ∧
    Usable work best.bestAxis best.bestSplit ∧
    best.minCost = sahCost work best.bestAxis best.bestSplit ∧
    best.minCost < baseCost work ∧
    (∀ c ∈ cs, Usable work c.1 c.2 → best.minCost ≤ sahCost work c.1 c.2) ∧
    (∀ (j : Nat) (c : Int × ℚ), j < i → cs[j]? = some c → Usable work c.1 c.2 →
      best.minCost < sahCost work c.1 c.2))

/-- The number of split values tried on an axis at a depth: the `k ≥ 1` with
`(k + 1) * (depth + 1) < 1024`. -/
def sampleCount (depth : Nat) : Nat := 1023 / (depth + 1) - 1

/-! ## The build with its work counted -/

/-- The work done by a call of `Recurse`: the calls of `Recurse` made (itself
included) and the candidate splits evaluated. -/
structure BuildWork where
  calls : Nat
  candidates : Nat
deriving DecidableEq

/-- The sampling loop of line 154 as `sampleLoop`, with the iterations counted. -/
def sampleLoopC (work : List BBoxTmp) (axis : Int) (stop step : ℚ)
    (fuel : Nat) (testSplit : ℚ) (best : Best) (k : Nat) : Option (Best × Nat) :=
  if testSplit < stop - step then
    match fuel with
    | 0 => none
    | f + 1 =>
      sampleLoopC work axis stop step f (testSplit + step)
        (tryCandidate work axis testSplit best) (k + 1)
  else some (best, k)

/-- One iteration of the loop over the axes as `axisPass`, with the candidates
counted. -/
def axisPassC (work : List BBoxTmp) (depth : Nat) (bottom top : Vector3)
    (fuel : Nat) (axis : Int) (best : Best) (k : Nat) : Option (Best × Nat) :=
  let start := bottom.onAxis axis
  let stop := top.onAxis axis
  if |stop - start| < 1 / 10000 then some (best, k)
  else
    let step := (stop - start) / (1024 / ((depth : ℚ) + 1))
    sampleLoopC work axis stop step fuel (start + step) best k

/-- The search of lines 105-208 as `searchSplit`, with the candidates counted. -/
def searchSplitC (work : List BBoxTmp) (depth : Nat) (fuel : Nat) (k : Nat) :
    Option (Best × Nat) :=
  let bottom := boxBottom work
  let top := boxTop work
  let minCost := (work.length : ℚ) * surface bottom top
  (axisPassC work depth bottom top fuel 0 ⟨minCost, FLT_MAX, -1⟩ k).bind fun p0 =>
  (axisPassC work depth bottom top fuel 1 p0.1 p0.2).bind fun p1 =>
  axisPassC work depth bottom top fuel 2 p1.1 p1.2

/-- The function `Recurse` (scalar variant) as `Recurse`, with the calls and the
candidates counted. -/
def RecurseC : Nat → List BBoxTmp → Nat → BuildWork → Option (BVHNode × BuildWork)
  | 0, work, _, w =>
    if work.length < 4 then some (mkLeaf work, { w with calls := w.calls + 1 }) else none
  | f + 1, work, depth, w =>
    if work.length < 4 then some (mkLeaf work, { w with calls := w.calls + 1 })
    else
      match searchSplitC work depth f w.candidates with
      | none => none
      | some (best, k) =>
        if best.bestAxis = -1 then some (mkLeaf work, ⟨w.calls + 1, k⟩)
        else
          let left := leftPart work best.bestAxis best.bestSplit
          let right := rightPart work best.bestAxis best.bestSplit
          match RecurseC f left (depth + 1) ⟨w.calls + 1, k⟩ with
          | none => none
          | some (l, w1) =>
            match RecurseC f right (depth + 1) w1 with
            | none => none
            | some (r, w2) =>
              some (.BVHInner Vector3.zero Vector3.zero
                (l.setBox (boxBottom left) (boxTop left))
                (r.setBox (boxBottom right) (boxTop right)), w2)

/-! ## Reference descriptions for the shape of the tree -/

/-- The number of leaves of a tree. -/
def countLeaves : BVHNode → Nat
  | .BVHInner _ _ l r => countLeaves l + countLeaves r
  | .BVHLeaf _ _ _ => 1

/-- Every leaf of the tree holds at least `k` triangles and each child of an inner
node holds at least `k` triangles in its leaves. -/
def MinLeaf (k : Nat) : BVHNode → Prop
  | .BVHInner _ _ l r =>
    k ≤ CountTriangles l ∧ k ≤ CountTriangles r ∧ MinLeaf k l ∧ MinLeaf k r
  | .BVHLeaf _ _ ts => k ≤ ts.length

/-- The triangle lists of the leaves of a tree, from left to right. -/
def leafLists : BVHNode → List (List Nat)
  | .BVHInner _ _ l r => leafLists l ++ leafLists r
  | .BVHLeaf _ _ ts => [ts]

/-- The ranges (start, count) of the index list taken by the leaves of a tree,
from left to right, when the first leaf starts at `off`. -/
def leafSpans : BVHNode → Nat → List (Nat × Nat)
  | .BVHInner _ _ l r, off => leafSpans l off ++ leafSpans r (off + CountTriangles l)
  | .BVHLeaf _ _ ts, off => [(off, ts.length)]

/-- The ranges (start, count) read from the leaf records of a node array, in the
order of the array: `_startIndexInTriIndexList` and `_count & 0x7fffffff`. -/
def arraySpans (A : List CacheFriendlyBVHNode) : List (Nat × Nat) :=
  (A.filter fun n => n.leafBit).map fun n =>
    (n.startIndexInTriIndexList, n.count &&& 0x7fffffff)

/-- The ranges follow one another without gap or overlap from index `a` to index
`b`: each starts where the one before it ends. -/
def Chained : List (Nat × Nat) → Nat → Nat → Prop
  | [], a, b => a = b
  | p :: rest, a, b => p.1 = a ∧ Chained rest (a + p.2) b

/-- The three vertices of triangle `j` of a triangle list; no vertex when `j` is
not an index of the list. -/
def triVertices (triangles : List Triangle) (j : Nat) : List Vector3 :=
  match triangles[j]? with
  | some tri => [tri._vertexA, tri._vertexB, tri._vertexC]
  | none => []

/-- The vertices of the triangles held in the leaves of a subtree. -/
def subtreeVertices (triangles : List Triangle) (t : BVHNode) : List Vector3 :=
  (leafTris t).flatMap (triVertices triangles)

/-- The accumulation `assignSmaller` over a list of points, started from `vecMax`. -/
def vertexMin (vs : List Vector3) : Vector3 := vs.foldl Vector3.assignSmaller vecMax

/-- The accumulation `assignBigger` over a list of points, started from `vecMin`. -/
def vertexMax (vs : List Vector3) : Vector3 := vs.foldl Vector3.assignBigger vecMin

/-- The point `b` is the componentwise minimum of the points `vs`: it is below all
of them and each of its coordinates is the coordinate of one of them. -/
def IsMinOf (b : Vector3) (vs : List Vector3) : Prop :=
  (∀ v ∈ vs, b.le v) ∧ (∃ v ∈ vs, b._x = v._x) ∧ (∃ v ∈ vs, b._y = v._y) ∧
    (∃ v ∈ vs, b._z = v._z)

/-- The point `t` is the componentwise maximum of the points `vs`. -/
def IsMaxOf (t : Vector3) (vs : List Vector3) : Prop :=
  (∀ v ∈ vs, v.le t) ∧ (∃ v ∈ vs, t._x = v._x) ∧ (∃ v ∈ vs, t._y = v._y) ∧
    (∃ v ∈ vs, t._z = v._z)

/-- The coordinates of the point are values of the type `coord` (a `float`): none
is beyond `FLT_MAX` in magnitude. -/
def InFloatRange (v : Vector3) : Prop := vecMin.le v ∧ v.le vecMax

instance (v : Vector3) : Decidable (InFloatRange v) := by
  unfold InFloatRange; infer_instance

/-- The three vertices of the triangle have coordinates in the range of `coord`. -/
def Triangle.InFloatRange (tri : Triangle) : Prop :=
  Renderer.InFloatRange tri._vertexA ∧ Renderer.InFloatRange tri._vertexB ∧
    Renderer.InFloatRange tri._vertexC

instance (tri : Triangle) : Decidable tri.InFloatRange := by
  unfold Triangle.InFloatRange; infer_instance

/-- The box of every node of the tree is the accumulation of `assignSmaller`,
`assignBigger` over the points `V j` of the entries `j` of the leaves below it. -/
def TightBoxes (V : Nat → List Vector3) : BVHNode → Prop
  | .BVHInner b t l r =>
    b = vertexMin ((leafTris l ++ leafTris r).flatMap V) ∧
    t = vertexMax ((leafTris l ++ leafTris r).flatMap V) ∧
    TightBoxes V l ∧ TightBoxes V r
  | .BVHLeaf b t ts => b = vertexMin (ts.flatMap V) ∧ t = vertexMax (ts.flatMap V)

/-! ## Raytracer.cc: what the traversal writes -/

/-- The locations that an assignment in `BVH_IntersectTriangles` could name: the
slots of the array `stack`, the variables `stackIdx`, `bestTriDist` and the loop
counter `i` of the call, the five reference parameters, and the entries of the
three arrays of the scene. -/
inductive Loc where
  | stackSlot (i : Nat) : Loc
  | stackIdx : Loc
  | bestTriDist : Loc
  | loopIndex : Loc
  | pBestTri : Loc
  | pointHitInWorldSpace : Loc
  | kAB : Loc
  | kBC : Loc
  | kCA : Loc
  | pCFBVH (i : Nat) : Loc
  | triIndexList (i : Nat) : Loc
  | triangles (i : Nat) : Loc
deriving DecidableEq

/-- The location is private to the call: a slot of `stack` or one of its
variables. -/
def Loc.isPrivate : Loc → Bool
  | .stackSlot _ => true
  | .stackIdx => true
  | .bestTriDist => true
  | .loopIndex => true
  | _ => false

/-- The location is one of the output parameters. -/
def Loc.isOutput : Loc → Bool
  | .pBestTri => true
  | .pointHitInWorldSpace => true
  | .kAB => true
  | .kBC => true
  | .kCA => true
  | _ => false

/-- The location is the hit point or one of the three edge distances. -/
def Loc.isHitOutput : Loc → Bool
  | .pointHitInWorldSpace => true
  | .kAB => true
  | .kBC => true
  | .kCA => true
  | _ => false

/-- The location is an entry of the node array, of the triangle index list or of
the triangles. -/
def Loc.isScene : Loc → Bool
  | .pCFBVH _ => true
  | .triIndexList _ => true
  | .triangles _ => true
  | _ => false

/-- The body of the loop of lines 234-297 for one triangle, as `triangleStep`, with
the locations assigned, in the order of the assignments (lines 287-292).  The
temporaries declared in the body (`k`, `s`, `hit`, `kt1`, ...) are values. -/
def triangleStepW (stopAtfirstRayHit doCulling : Bool) (origin ray : Vector3)
    (avoidSelf : Option Nat) (idx : Nat) (triangle : Triangle) (st : RayState) :
    Flow × List Loc :=
  match triangleTest doCulling origin ray avoidSelf idx triangle with
  | none => (.next st, [])
  | some (hit, kt1, kt2, kt3) =>
    if stopAtfirstRayHit then
      let lightPos := st.pointHitInWorldSpace
      let dist := distancesq lightPos hit
      if dist < st.bestTriDist then (.returnTrue st, []) else (.next st, [])
    else
      let hitZ := distancesq origin hit
      if hitZ < st.bestTriDist then
        (.next { pBestTri := some idx, pointHitInWorldSpace := hit,
                 kAB := kt1, kBC := kt2, kCA := kt3, bestTriDist := hitZ },
          [.bestTriDist, .pBestTri, .pointHitInWorldSpace, .kAB, .kBC, .kCA])
      else (.next st, [])

/-- The loop of lines 234-297, as `leafLoop`, with the locations assigned so far
(`log`, the oldest first); `i++` assigns the loop counter. -/
def leafLoopW (stopAtfirstRayHit doCulling : Bool) (scene : Scene) (origin ray : Vector3)
    (avoidSelf : Option Nat) : Nat → Nat → RayState → List Loc →
    Except TravError Flow × List Loc
  | 0, _, st, log => (.ok (.next st), log)
  | n + 1, i, st, log =>
    match scene._triIndexList[i]? with
    | none => (.error .outOfBounds, log)
    | some ti =>
      match scene._triangles[ti]? with
      | none => (.error .outOfBounds, log)
      | some triangle =>
        let r := triangleStepW stopAtfirstRayHit doCulling origin ray avoidSelf ti triangle st
        match r.1 with
        | .returnTrue st1 => (.ok (.returnTrue st1), log ++ r.2)
        | .next st1 =>
          leafLoopW stopAtfirstRayHit doCulling scene origin ray avoidSelf n (i + 1) st1
            (log ++ r.2 ++ [.loopIndex])

/-- The loop `while(stackIdx)` of lines 219-299, as `traverse`, with the locations
assigned so far: `stackIdx--` (line 221), and for the two pushes of lines 225-226
the slot and `stackIdx`, both made before the assertion of line 227 is tested. -/
def traverseW (stopAtfirstRayHit doCulling : Bool) (scene : Scene) (origin ray : Vector3)
    (avoidSelf : Option Nat) : Nat → List Nat → RayState → List Loc →
    Except TravError (Bool × RayState) × List Loc
  | _, [], st, log => (.ok (if stopAtfirstRayHit then false else st.pBestTri.isSome, st), log)
  | 0, _ :: _, _, log => (.error .outOfFuel, log)
  | fuel + 1, cur :: stack, st, log =>
    let log1 := log ++ [.stackIdx]
    match scene._pCFBVH[cur]? with
    | none => (.error .outOfBounds, log1)
    | some pCurrent =>
      if !pCurrent.leafBit then
        if RayIntersectsBox origin ray pCurrent then
          let log2 := log1 ++
            [.stackSlot stack.length, .stackIdx, .stackSlot (stack.length + 1), .stackIdx]
          if stack.length + 2 > BVH_STACK_SIZE then (.error .stackOverflow, log2)
          else
            traverseW stopAtfirstRayHit doCulling scene origin ray avoidSelf fuel
              (pCurrent.idxLeft :: pCurrent.idxRight :: stack) st log2
        else traverseW stopAtfirstRayHit doCulling scene origin ray avoidSelf fuel stack st log1
      else
        let r := leafLoopW stopAtfirstRayHit doCulling scene origin ray avoidSelf
          (pCurrent.count &&& 0x7fffffff) pCurrent.startIndexInTriIndexList st log1
        match r.1 with
        | .error e => (.error e, r.2)
        | .ok (.returnTrue st1) => (.ok (true, st1), r.2)
        | .ok (.next st1) =>
          traverseW stopAtfirstRayHit doCulling scene origin ray avoidSelf fuel stack st1 r.2

/-- The member `BVH_IntersectTriangles`, with the locations it assigns: lines 200
to 217 assign `pBestTri`, `bestTriDist`, `stackIdx`, `stack[0]` and `stackIdx`. -/
def BVH_IntersectTrianglesW (stopAtfirstRayHit doCulling : Bool) (scene : Scene)
    (origin ray : Vector3) (avoidSelf : Option Nat)
    (pointHitInWorldSpace : Vector3) (kAB kBC kCA : ℚ) (fuel : Nat) :
    Except TravError (Bool × RayState) × List Loc :=
  let lightPos := pointHitInWorldSpace
  let bestTriDist := if stopAtfirstRayHit then distancesq origin lightPos else FLT_MAX
  traverseW stopAtfirstRayHit doCulling scene origin ray avoidSelf fuel [0]
    { pBestTri := none, pointHitInWorldSpace := pointHitInWorldSpace,
      kAB := kAB, kBC := kBC, kCA := kCA, bestTriDist := bestTriDist }
    [.pBestTri, .bestTriDist, .stackIdx, .stackSlot 0, .stackIdx]

/-! ## Concrete inputs for the split search -/

/-- The tree that `Recurse` makes of `goodWork` at depth 255: two leaves of two
triangles each. -/
def twoLeafTree : BVHNode :=
  .BVHInner Vector3.zero Vector3.zero
    (.BVHLeaf ⟨0, 0, 1⟩ ⟨1, 1, 1⟩ [0, 1]) (.BVHLeaf ⟨10, 10, 1⟩ ⟨11, 11, 1⟩ [2, 3])

/-- Four work items at the same point: the box of the list has no extent. -/
def pointWork : List BBoxTmp :=
  [⟨⟨0, 0, 0⟩, ⟨0, 0, 0⟩, ⟨0, 0, 0⟩, 0⟩, ⟨⟨0, 0, 0⟩, ⟨0, 0, 0⟩, ⟨0, 0, 0⟩, 1⟩,
   ⟨⟨0, 0, 0⟩, ⟨0, 0, 0⟩, ⟨0, 0, 0⟩, 2⟩, ⟨⟨0, 0, 0⟩, ⟨0, 0, 0⟩, ⟨0, 0, 0⟩, 3⟩]

/-- Three work items. -/
def threeWork : List BBoxTmp :=
  [⟨⟨0, 0, 0⟩, ⟨1, 1, 0⟩, ⟨1 / 2, 1 / 2, 0⟩, 7⟩, ⟨⟨5, 0, 0⟩, ⟨6, 1, 0⟩, ⟨11 / 2, 1 / 2, 0⟩, 3⟩,
   ⟨⟨9, 0, 0⟩, ⟨10, 1, 0⟩, ⟨19 / 2, 1 / 2, 0⟩, 5⟩]

/-! # Theorems -/

/-! ## Lists: overwriting a segment -/

theorem splice_length {α : Type} (xs ys : List α) (i : Nat) (h : i + ys.length ≤ xs.length) :
    (splice xs i ys).length = xs.length := by
  simp [splice]; omega

theorem splice_nil {α : Type} (xs : List α) (i : Nat) : splice xs i [] = xs := by
  simp [splice]

theorem splice_all {α : Type} (xs ys : List α) (h : ys.length = xs.length) :
    splice xs 0 ys = ys := by
  simp [splice, h]

theorem splice_getElem? {α : Type} (xs ys : List α) (i j : Nat)
    (h : i + ys.length ≤ xs.length) :
    (splice xs i ys)[j]? =
      if j < i then xs[j]? else if j < i + ys.length then ys[j - i]? else xs[j]? := by
  have h1 : (xs.take i).length = i := by simp; omega
  simp only [splice]
  by_cases hj : j < i
  · rw [List.append_assoc, List.getElem?_append_left (by omega)]
    simp [hj, List.getElem?_take]
  · by_cases hj2 : j < i + ys.length
    · rw [List.getElem?_append_left (by simp; omega), List.getElem?_append_right (by omega)]
      simp [hj, hj2, h1]
    · rw [List.getElem?_append_right (by simp; omega)]
      simp [hj, hj2, h1]
      congr 1
      omega

theorem splice_splice {α : Type} (xs ys zs : List α) (i : Nat)
    (h : i + ys.length + zs.length ≤ xs.length) :
    splice (splice xs i ys) (i + ys.length) zs = splice xs i (ys ++ zs) := by
  apply List.ext_getElem?
  intro j
  rw [splice_getElem? _ _ _ _ (by rw [splice_length _ _ _ (by omega)]; omega),
    splice_getElem? _ _ _ _ (by omega), splice_getElem? _ _ _ _ (by simp; omega)]
  by_cases h1 : j < i
  · simp [h1, show j < i + ys.length by omega]
  · by_cases h2 : j < i + ys.length
    · simp [h1, h2, show j < i + (ys.length + zs.length) by omega,
        List.getElem?_append_left (show j - i < ys.length by omega)]
    · by_cases h3 : j < i + ys.length + zs.length
      · simp [h1, h2, h3, show j < i + (ys.length + zs.length) by omega]
        rw [List.getElem?_append_right (by omega)]
        congr 1
        omega
      · simp [h1, h2, h3, show ¬ j < i + (ys.length + zs.length) by omega]

theorem splice_head {α : Type} (xs ys : List α) (y y1 : α) (i : Nat)
    (h : i + (ys.length + 1) ≤ xs.length) :
    splice (splice xs i (y :: ys)) i [y1] = splice xs i (y1 :: ys) := by
  apply List.ext_getElem?
  intro j
  rw [splice_getElem? _ _ _ _ (by rw [splice_length _ _ _ (by simpa using h)]; simp; omega),
    splice_getElem? _ _ _ _ (by simpa using h), splice_getElem? _ _ _ _ (by simpa using h)]
  by_cases h1 : j < i
  · simp [h1]
  · by_cases h2 : j = i
    · subst h2; simp
    · have h3 : ¬ j < i + 1 := by omega
      simp only [h1, List.length_cons, List.length_nil, h3, if_false, zero_add]
      obtain ⟨k, hk⟩ : ∃ k, j - i = k + 1 := ⟨j - i - 1, by omega⟩
      simp [hk]

theorem writeAt_eq {α : Type} (xs : List α) (i : Nat) (f : α → α) (h : i < xs.length) :
    writeAt xs i f = some (splice xs i [f (xs.get ⟨i, h⟩)]) := by
  unfold writeAt
  rw [List.getElem?_eq_getElem h]
  simp only [splice, Option.some.injEq]
  rw [List.set_eq_take_append_cons_drop]
  simp [h]

/-! ## Compaction writes the pre-order layout -/

theorem writeAt_of_get {α : Type} (xs : List α) (i : Nat) (f : α → α) (x : α)
    (h : xs[i]? = some x) : writeAt xs i f = some (splice xs i [f x]) := by
  have hi : i < xs.length := by
    by_contra hc
    rw [List.getElem?_eq_none (by omega)] at h
    cases h
  rw [writeAt_eq xs i f hi]
  rw [List.getElem?_eq_getElem hi] at h
  simp only [Option.some.injEq] at h
  simp [h]

theorem writeAt_splice_head {α : Type} (xs ys : List α) (y : α) (i : Nat) (f : α → α)
    (h : i + (ys.length + 1) ≤ xs.length) :
    writeAt (splice xs i (y :: ys)) i f = some (splice xs i (f y :: ys)) := by
  rw [writeAt_of_get _ i f y (by rw [splice_getElem? _ _ _ _ (by simpa using h)]; simp)]
  rw [splice_head xs ys y (f y) i h]

theorem CountBoxes_pos (t : BVHNode) : 1 ≤ CountBoxes t := by
  cases t <;> simp [CountBoxes]; omega

theorem layout_length (t : BVHNode) (i off : Nat) : (layout t i off).length = CountBoxes t := by
  induction t generalizing i off with
  | BVHInner b t l r ihl ihr => simp [layout, CountBoxes, ihl, ihr]; omega
  | BVHLeaf b t ts => simp [layout, CountBoxes]

theorem leafTris_length (t : BVHNode) : (leafTris t).length = CountTriangles t := by
  induction t with
  | BVHInner b t l r ihl ihr => simp [leafTris, CountTriangles, ihl, ihr]
  | BVHLeaf b t ts => simp [leafTris, CountTriangles]

theorem storeTriangles_eq (ts : List Nat) (tri : List Nat) (off : Nat)
    (h : off + ts.length ≤ tri.length) :
    storeTriangles ts tri off = some (splice tri off ts, off + ts.length) := by
  induction ts generalizing tri off with
  | nil => simp [storeTriangles, splice_nil]
  | cons t ts ih =>
    have h1 : off < tri.length := by simp at h; omega
    simp only [storeTriangles, writeAt_eq tri off _ h1]
    rw [ih _ _ (by rw [splice_length _ _ _ (by simpa using h1)]; simp at h; omega)]
    have := splice_splice tri [t] ts off (by simp at h ⊢; omega)
    simp only [List.length_singleton, List.singleton_append] at this
    rw [this]
    simp; omega

theorem populate_eq (t : BVHNode) (st : CFState)
    (hA : st.idxBoxes + CountBoxes t ≤ st._pCFBVH.length)
    (hT : st.idxTriList + CountTriangles t ≤ st._triIndexList.length) :
    PopulateCacheFriendlyBVH t st = some
      { _pCFBVH := splice st._pCFBVH st.idxBoxes (layout t st.idxBoxes st.idxTriList),
        _triIndexList := splice st._triIndexList st.idxTriList (leafTris t),
        idxBoxes := st.idxBoxes + CountBoxes t - 1,
        idxTriList := st.idxTriList + CountTriangles t } := by
  induction t generalizing st with
  | BVHLeaf b t ts =>
    obtain ⟨A, T, i, off⟩ := st
    simp only [CountBoxes, CountTriangles] at hA hT
    have hi : i < A.length := by omega
    obtain ⟨x, hx⟩ : ∃ x, A[i]? = some x := ⟨_, List.getElem?_eq_getElem hi⟩
    simp only [PopulateCacheFriendlyBVH, writeAt_of_get A i _ x hx]
    rw [writeAt_splice_head A [] _ i _ (by simpa using hi)]
    simp only
    rw [storeTriangles_eq ts T off hT]
    simp [layout, leafTris, CountBoxes, CountTriangles]
  | BVHInner b t l r ihl ihr =>
    obtain ⟨A, T, i, off⟩ := st
    simp only [CountBoxes, CountTriangles] at hA hT
    have hl := CountBoxes_pos l
    have hr := CountBoxes_pos r
    have hi : i < A.length := by omega
    obtain ⟨x, hx⟩ : ∃ x, A[i]? = some x := ⟨_, List.getElem?_eq_getElem hi⟩
    simp only [PopulateCacheFriendlyBVH, writeAt_of_get A i _ x hx]
    have hlen1 : (splice A i [{ x with _bottom := b, _top := t }]).length = A.length :=
      splice_length _ _ _ (by simpa using hi)
    rw [ihl _ (by simp only [hlen1]; omega) (by simpa using (by omega : off + CountTriangles l ≤ T.length))]
    simp only
    have e1 := splice_splice A [{ x with _bottom := b, _top := t }]
      (layout l (i + 1) off) i (by simp [layout_length]; omega)
    simp only [List.length_singleton, List.singleton_append] at e1
    rw [e1]
    have hlen2 : (splice A i ({ x with _bottom := b, _top := t } :: layout l (i + 1) off)).length
        = A.length := splice_length _ _ _ (by simp [layout_length]; omega)
    have hlenT : (splice T off (leafTris l)).length = T.length :=
      splice_length _ _ _ (by simp [leafTris_length]; omega)
    have hidx : i + 1 + CountBoxes l - 1 + 1 = i + 1 + CountBoxes l := by omega
    rw [ihr _ (by simp only [hlen2, hidx]; omega) (by simp only [hlenT]; omega)]
    simp only [hidx]
    have e2 := splice_splice A ({ x with _bottom := b, _top := t } :: layout l (i + 1) off)
      (layout r (i + 1 + CountBoxes l) (off + CountTriangles l)) i
      (by simp [layout_length]; omega)
    simp only [List.length_cons, layout_length, List.cons_append] at e2
    rw [show i + (CountBoxes l + 1) = i + 1 + CountBoxes l by omega] at e2
    rw [e2]
    have e3 := splice_splice T (leafTris l) (leafTris r) off (by simp [leafTris_length]; omega)
    simp only [leafTris_length] at e3
    rw [e3]
    rw [writeAt_splice_head A _ _ i _ (by simp [layout_length]; omega)]
    simp only [layout, leafTris, CountBoxes, CountTriangles, Option.some.injEq, CFState.mk.injEq]
    refine ⟨trivial, trivial, by omega, by omega⟩

theorem CountDepth_eq (t : BVHNode) (d m : Nat) : CountDepth t d m = max m (d + height t) := by
  induction t generalizing d m with
  | BVHLeaf b t ts =>
    simp only [CountDepth, height]
    split <;> omega
  | BVHInner b t l r ihl ihr =>
    simp only [CountDepth, height, ihl, ihr]
    split <;> omega

theorem CountDepth_root (t : BVHNode) : CountDepth t 0 0 = height t := by
  rw [CountDepth_eq]; omega

theorem compactArrays_eq (root : BVHNode) (junk : Nat → CacheFriendlyBVHNode)
    (junkTri : Nat → Nat) :
    compactArrays root junk junkTri =
      some ⟨layout root 0 0, leafTris root, CountBoxes root - 1, CountTriangles root⟩ := by
  unfold compactArrays
  simp only
  rw [populate_eq root _ (by simp) (by simp)]
  simp only [zero_add]
  rw [splice_all _ (layout root 0 0) (by simp [layout_length]),
    splice_all _ (leafTris root) (by simp [leafTris_length])]

theorem CreateCFBVH_eq (root : BVHNode) (junk : Nat → CacheFriendlyBVHNode)
    (junkTri : Nat → Nat) :
    CreateCFBVH (some root) junk junkTri =
      if CountDepth root 0 0 ≥ BVH_STACK_SIZE then
        .error (.maxDepthExceeded (CountDepth root 0 0))
      else .ok ⟨CountTriangles root, leafTris root, CountBoxes root, layout root 0 0⟩ := by
  unfold CreateCFBVH
  simp only
  rw [compactArrays_eq]
  simp

/-! ## The tag bit -/

theorem tag_and_high (n : Nat) : (0x80000000 ||| n) &&& 0x80000000 = 0x80000000 := by
  apply Nat.eq_of_testBit_eq
  intro i
  simp only [Nat.testBit_and, Nat.testBit_or]
  cases h : Nat.testBit 0x80000000 i <;> simp

theorem tag_and_low (n : Nat) (h : n < 2 ^ 31) : (0x80000000 ||| n) &&& 0x7fffffff = n := by
  apply Nat.eq_of_testBit_eq
  intro i
  simp only [Nat.testBit_and, Nat.testBit_or]
  have e1 : (0x80000000 : Nat) = 2 ^ 31 := by norm_num
  have e2 : (0x7fffffff : Nat) = 2 ^ 31 - 1 := by norm_num
  rw [e1, e2, Nat.testBit_two_pow, Nat.testBit_two_pow_sub_one]
  by_cases hi : i < 31
  · have : ¬ (31 = i) := by omega
    simp [hi, this]
  · have : n.testBit i = false := Nat.testBit_lt_two_pow (lt_of_lt_of_le h (Nat.pow_le_pow_right (by norm_num) (by omega)))
    simp [hi, this]

theorem small_and_high (n : Nat) (h : n < 2 ^ 31) : n &&& 0x80000000 = 0 := by
  apply Nat.eq_of_testBit_eq
  intro i
  simp only [Nat.testBit_and, Nat.zero_testBit]
  have e1 : (0x80000000 : Nat) = 2 ^ 31 := by norm_num
  rw [e1, Nat.testBit_two_pow]
  by_cases hi : 31 = i
  · subst hi
    simp [Nat.testBit_lt_two_pow h]
  · simp [hi]

theorem leafBit_leaf (b t : Vector3) (n off : Nat) :
    (CacheFriendlyBVHNode.mk b t (0x80000000 ||| n) off).leafBit = true := by
  simp only [CacheFriendlyBVHNode.leafBit, CacheFriendlyBVHNode.count, tag_and_high]
  decide

theorem leafBit_inner (b t : Vector3) (i j : Nat) (h : i < 2 ^ 31) :
    (CacheFriendlyBVHNode.mk b t i j).leafBit = false := by
  simp [CacheFriendlyBVHNode.leafBit, CacheFriendlyBVHNode.count, small_and_high i h]

/-! ## Reading the layout -/

theorem embeds_root (t : BVHNode) : Embeds (layout t 0 0) (leafTris t) t 0 0 := by
  refine ⟨?_, ?_, ?_, ?_⟩
  · intro j _; simp
  · intro j _; simp
  · simp [layout_length]
  · simp [leafTris_length]

theorem embeds_inner {A : List CacheFriendlyBVHNode} {T : List Nat} {b t : Vector3}
    {l r : BVHNode} {i off : Nat} (h : Embeds A T (.BVHInner b t l r) i off) :
    A[i]? = some ⟨b, t, i + 1, i + 1 + CountBoxes l⟩ ∧
    Embeds A T l (i + 1) off ∧
    Embeds A T r (i + 1 + CountBoxes l) (off + CountTriangles l) := by
  obtain ⟨hA, hT, hAl, hTl⟩ := h
  simp only [CountBoxes, CountTriangles, layout, leafTris] at hA hT hAl hTl
  refine ⟨?_, ⟨?_, ?_, by omega, by omega⟩, ⟨?_, ?_, by omega, by omega⟩⟩
  · have := hA 0 (by omega)
    simpa using this
  · intro j hj
    have := hA (j + 1) (by omega)
    rw [show i + (j + 1) = i + 1 + j by omega] at this
    rw [this]
    simp only [List.getElem?_cons_succ]
    rw [List.getElem?_append_left (by rw [layout_length]; exact hj)]
  · intro j hj
    have := hT j (by omega)
    rw [this, List.getElem?_append_left (by rw [leafTris_length]; exact hj)]
  · intro j hj
    have := hA (CountBoxes l + j + 1) (by omega)
    rw [show i + (CountBoxes l + j + 1) = i + 1 + CountBoxes l + j by omega] at this
    rw [this]
    simp only [List.getElem?_cons_succ]
    rw [List.getElem?_append_right (by rw [layout_length]; omega)]
    simp [layout_length]
  · intro j hj
    have := hT (CountTriangles l + j) (by omega)
    rw [show off + (CountTriangles l + j) = off + CountTriangles l + j by omega] at this
    rw [this, List.getElem?_append_right (by rw [leafTris_length]; omega)]
    simp [leafTris_length]

theorem embeds_leaf {A : List CacheFriendlyBVHNode} {T : List Nat} {b t : Vector3}
    {ts : List Nat} {i off : Nat} (h : Embeds A T (.BVHLeaf b t ts) i off) :
    A[i]? = some ⟨b, t, 0x80000000 ||| ts.length, off⟩ ∧
    off + ts.length ≤ T.length ∧
    (∀ j, j < ts.length → T[off + j]? = ts[j]?) := by
  obtain ⟨hA, hT, _, hTl⟩ := h
  simp only [CountBoxes, CountTriangles, layout, leafTris] at hA hT hTl
  refine ⟨?_, hTl, hT⟩
  have := hA 0 (by omega)
  simpa using this

theorem segment_eq {T ts : List Nat} {off : Nat}
    (h : ∀ j, j < ts.length → T[off + j]? = ts[j]?) :
    (T.drop off).take ts.length = ts := by
  apply List.ext_getElem?
  intro j
  by_cases hj : j < ts.length
  · rw [List.getElem?_take_of_lt hj, List.getElem?_drop, h j hj]
  · rw [List.getElem?_eq_none (by simp; omega), List.getElem?_eq_none (by omega)]

/-! ## Reading the tree back -/

theorem readBack_embeds (A : List CacheFriendlyBVHNode) (T : List Nat) (t : BVHNode)
    (i off fuel : Nat) (h : Embeds A T t i off)
    (hA : i + CountBoxes t ≤ 2 ^ 31) (hL : maxLeafCount t < 2 ^ 31)
    (hf : CountBoxes t ≤ fuel) : readBack A T fuel i = some t := by
  induction t generalizing i off fuel with
  | BVHLeaf b t ts =>
    obtain ⟨h1, h2, h3⟩ := embeds_leaf h
    obtain ⟨f, rfl⟩ : ∃ f, fuel = f + 1 := ⟨fuel - 1, by simp [CountBoxes] at hf; omega⟩
    simp only [maxLeafCount] at hL
    simp only [readBack, h1, leafBit_leaf, if_true, CacheFriendlyBVHNode.count,
      CacheFriendlyBVHNode.startIndexInTriIndexList, tag_and_low _ hL, h2, segment_eq h3]
  | BVHInner b t l r ihl ihr =>
    obtain ⟨h1, h2, h3⟩ := embeds_inner h
    simp only [CountBoxes] at hA hf
    simp only [maxLeafCount] at hL
    obtain ⟨f, rfl⟩ : ∃ f, fuel = f + 1 := ⟨fuel - 1, by omega⟩
    have hr := CountBoxes_pos r
    have hl := CountBoxes_pos l
    simp only [readBack, h1, leafBit_inner b t (i + 1) _ (by omega), Bool.false_eq_true, if_false,
      CacheFriendlyBVHNode.idxLeft, CacheFriendlyBVHNode.idxRight]
    rw [ihl (i + 1) off f h2 (by omega) (by omega) (by omega),
      ihr _ _ f h3 (by omega) (by omega) (by omega)]

/-! ## The depth-first walk -/

theorem range'_split (i a b : Nat) :
    List.range' i (1 + a + b) = i :: (List.range' (i + 1) a ++ List.range' (i + 1 + a) b) := by
  rw [show 1 + a + b = (b + a) + 1 by omega, List.range'_succ]
  congr 1
  rw [← List.range'_append_1]

theorem dfsWalk_embeds (A : List CacheFriendlyBVHNode) (T : List Nat) (t : BVHNode)
    (i off fuel : Nat) (stack visited : List Nat) (h : Embeds A T t i off)
    (hA : i + CountBoxes t ≤ 2 ^ 31) :
    dfsWalk A (fuel + CountBoxes t) (i :: stack) visited =
      dfsWalk A fuel stack ((List.range' i (CountBoxes t)).reverse ++ visited) := by
  induction t generalizing i off fuel stack visited with
  | BVHLeaf b t ts =>
    obtain ⟨h1, _, _⟩ := embeds_leaf h
    simp [CountBoxes, dfsWalk, h1, leafBit_leaf, List.range']
  | BVHInner b t l r ihl ihr =>
    obtain ⟨h1, h2, h3⟩ := embeds_inner h
    simp only [CountBoxes] at hA ⊢
    have hr := CountBoxes_pos r
    have hl := CountBoxes_pos l
    rw [show fuel + (1 + CountBoxes l + CountBoxes r) = (fuel + CountBoxes r + CountBoxes l) + 1 by omega]
    simp only [dfsWalk, h1, leafBit_inner b t (i + 1) _ (by omega), Bool.false_eq_true, if_false,
      CacheFriendlyBVHNode.idxLeft, CacheFriendlyBVHNode.idxRight]
    rw [ihl (i + 1) off _ _ _ h2 (by omega), ihr _ _ _ _ _ h3 (by omega)]
    rw [range'_split i (CountBoxes l) (CountBoxes r)]
    simp only [List.reverse_cons, List.reverse_append, List.append_assoc, List.singleton_append]

theorem layout_inner_indices (t : BVHNode) (i off j : Nat) (n : CacheFriendlyBVHNode)
    (h : (layout t i off)[j]? = some n) (hb : n.leafBit = false) :
    i + j < n.idxLeft ∧ n.idxLeft < i + CountBoxes t ∧
    i + j < n.idxRight ∧ n.idxRight < i + CountBoxes t := by
  induction t generalizing i off j with
  | BVHLeaf b t ts =>
    cases j with
    | zero =>
      simp only [layout, List.getElem?_cons_zero, Option.some.injEq] at h
      subst h
      rw [leafBit_leaf] at hb
      cases hb
    | succ k => simp [layout] at h
  | BVHInner b t l r ihl ihr =>
    have hl := CountBoxes_pos l
    have hr := CountBoxes_pos r
    cases j with
    | zero =>
      simp only [layout, List.getElem?_cons_zero, Option.some.injEq] at h
      subst h
      simp only [CacheFriendlyBVHNode.idxLeft, CacheFriendlyBVHNode.idxRight, CountBoxes]
      omega
    | succ k =>
      simp only [layout, List.getElem?_cons_succ] at h
      simp only [CountBoxes]
      by_cases hk : k < CountBoxes l
      · rw [List.getElem?_append_left (by rw [layout_length]; exact hk)] at h
        have := ihl _ _ _ h
        omega
      · rw [List.getElem?_append_right (by rw [layout_length]; omega), layout_length] at h
        have := ihr _ _ _ h
        omega

/-- C3: in the array written by the compaction of any tree with fewer than `2^31`
nodes, the two child indices of every inner record (tag bit clear) are smaller than
the array length and differ from the index of the record, and the depth-first walk
from index 0 ends and visits the slots `0, 1, ..., n-1`, each exactly once. -/
theorem C3_index_validity (root : BVHNode) (junk : Nat → CacheFriendlyBVHNode)
    (junkTri : Nat → Nat) (hsize : CountBoxes root < 2 ^ 31) :
    ∃ st, compactArrays root junk junkTri = some st ∧
      st._pCFBVH.length = CountBoxes root ∧
      (∀ cf, CreateCFBVH (some root) junk junkTri = .ok cf → cf._pCFBVH = st._pCFBVH) ∧
      (∀ (i : Nat) (n : CacheFriendlyBVHNode), st._pCFBVH[i]? = some n → n.leafBit = false →
        n.idxLeft < st._pCFBVH.length ∧ n.idxRight < st._pCFBVH.length ∧
        n.idxLeft ≠ i ∧ n.idxRight ≠ i) ∧
      dfsWalk st._pCFBVH st._pCFBVH.length [0] [] = some (List.range st._pCFBVH.length) ∧
      (List.range st._pCFBVH.length).Nodup := by
  refine ⟨_, compactArrays_eq root junk junkTri, layout_length _ _ _, ?_, ?_, ?_, List.nodup_range _⟩
  · intro cf hcf
    rw [CreateCFBVH_eq] at hcf
    split at hcf
    · cases hcf
    · cases hcf; rfl
  · intro i n hn hb
    have := layout_inner_indices root 0 0 i n (by simpa using hn) hb
    simp only [layout_length]
    omega
  · simp only [layout_length]
    have := dfsWalk_embeds _ _ root 0 0 0 [] [] (embeds_root root) (by omega)
    simp only [zero_add] at this
    rw [this]
    simp [dfsWalk, List.range_eq_range']

/-- C3, at a tree with one inner node and two leaves. -/
theorem C3_index_validity_witness :
    CountBoxes smallTree < 2 ^ 31 ∧
    ∃ st, compactArrays smallTree junk0 junkTri0 = some st ∧
      st._pCFBVH.length = CountBoxes smallTree ∧
      (∀ cf, CreateCFBVH (some smallTree) junk0 junkTri0 = .ok cf → cf._pCFBVH = st._pCFBVH) ∧
      (∀ (i : Nat) (n : CacheFriendlyBVHNode), st._pCFBVH[i]? = some n → n.leafBit = false →
        n.idxLeft < st._pCFBVH.length ∧ n.idxRight < st._pCFBVH.length ∧
        n.idxLeft ≠ i ∧ n.idxRight ≠ i) ∧
      dfsWalk st._pCFBVH st._pCFBVH.length [0] [] = some (List.range st._pCFBVH.length) ∧
      (List.range st._pCFBVH.length).Nodup :=
  ⟨by decide, C3_index_validity smallTree junk0 junkTri0 (by decide)⟩

/-- C4: for any tree with fewer than `2^31` nodes and fewer than `2^31` triangles
in each leaf, reading the arrays written by the compaction back from index 0
returns exactly the tree: same shape, same box at every node, same triangle
sequence at every leaf. -/
theorem C4_readback (root : BVHNode) (junk : Nat → CacheFriendlyBVHNode)
    (junkTri : Nat → Nat) (hsize : CountBoxes root < 2 ^ 31)
    (hleaf : maxLeafCount root < 2 ^ 31) :
    ∃ st, compactArrays root junk junkTri = some st ∧
      (∀ cf, CreateCFBVH (some root) junk junkTri = .ok cf →
        cf._pCFBVH = st._pCFBVH ∧ cf._triIndexList = st._triIndexList) ∧
      ∀ fuel, CountBoxes root ≤ fuel →
        readBack st._pCFBVH st._triIndexList fuel 0 = some root := by
  refine ⟨_, compactArrays_eq root junk junkTri, ?_, ?_⟩
  · intro cf hcf
    rw [CreateCFBVH_eq] at hcf
    split at hcf
    · cases hcf
    · cases hcf; exact ⟨rfl, rfl⟩
  · intro fuel hf
    exact readBack_embeds _ _ root 0 0 fuel (embeds_root root) (by omega) hleaf hf

/-- C4, at a tree with one inner node and two leaves. -/
theorem C4_readback_witness :
    CountBoxes smallTree < 2 ^ 31 ∧ maxLeafCount smallTree < 2 ^ 31 ∧
    ∃ st, compactArrays smallTree junk0 junkTri0 = some st ∧
      (∀ cf, CreateCFBVH (some smallTree) junk0 junkTri0 = .ok cf →
        cf._pCFBVH = st._pCFBVH ∧ cf._triIndexList = st._triIndexList) ∧
      ∀ fuel, CountBoxes smallTree ≤ fuel →
        readBack st._pCFBVH st._triIndexList fuel 0 = some smallTree :=
  ⟨by decide, by decide, C4_readback smallTree junk0 junkTri0 (by decide) (by decide)⟩

theorem height_comb (n : Nat) : height (comb n) = n := by
  induction n with
  | zero => rfl
  | succ k ih => simp [comb, height, ih]; omega

/-- C8 as the code has it: `CreateCFBVH` leaves with the depth diagnostic exactly
when the maximum depth computed by `CountDepth` (root at depth 0, the height of the
tree) is at least `BVH_STACK_SIZE = 32`, and it accepts the tree exactly when that
depth is at most 31. -/
theorem C8_depth_check (root : BVHNode) (junk : Nat → CacheFriendlyBVHNode)
    (junkTri : Nat → Nat) :
    CountDepth root 0 0 = height root ∧ BVH_STACK_SIZE = 32 ∧
    ((∃ d, CreateCFBVH (some root) junk junkTri = .error (.maxDepthExceeded d)) ↔
      32 ≤ CountDepth root 0 0) ∧
    (32 ≤ CountDepth root 0 0 →
      CreateCFBVH (some root) junk junkTri = .error (.maxDepthExceeded (CountDepth root 0 0))) ∧
    ((∃ cf, CreateCFBVH (some root) junk junkTri = .ok cf) ↔ CountDepth root 0 0 ≤ 31) := by
  refine ⟨CountDepth_root root, rfl, ?_, ?_, ?_⟩
  · rw [CreateCFBVH_eq]
    simp only [BVH_STACK_SIZE]
    constructor
    · rintro ⟨d, hd⟩
      split at hd
      · assumption
      · cases hd
    · intro h
      exact ⟨_, if_pos h⟩
  · intro h
    rw [CreateCFBVH_eq, if_pos (show CountDepth root 0 0 ≥ BVH_STACK_SIZE from h)]
  · rw [CreateCFBVH_eq]
    simp only [BVH_STACK_SIZE]
    constructor
    · rintro ⟨cf, hcf⟩
      split at hcf
      · cases hcf
      · omega
    · intro h
      exact ⟨_, if_neg (by omega)⟩

/-- C8 as stated fails at a tree of maximum depth exactly 32: the depth does not
exceed 32, yet `CreateCFBVH` leaves with the depth diagnostic. -/
theorem C8_counterexample :
    CountDepth deepTree 0 0 = 32 ∧
    CreateCFBVH (some deepTree) junk0 junkTri0 = .error (.maxDepthExceeded 32) ∧
    ¬ ((∃ d, CreateCFBVH (some deepTree) junk0 junkTri0 = .error (.maxDepthExceeded d)) ↔
      32 < CountDepth deepTree 0 0) := by
  have h1 : CountDepth deepTree 0 0 = 32 := by
    rw [CountDepth_root, deepTree, height_comb]
  have h2 : CreateCFBVH (some deepTree) junk0 junkTri0 = .error (.maxDepthExceeded 32) := by
    rw [CreateCFBVH_eq, h1]; rfl
  refine ⟨h1, h2, ?_⟩
  intro h
  have := h.mp ⟨_, h2⟩
  omega

/-! ## The split search -/

theorem splitScan_fold_counts (axis : Int) (s : ℚ) (work : List BBoxTmp) (acc : SplitAcc) :
    (work.foldl (splitStep axis s) acc).countLeft =
      acc.countLeft + (leftPart work axis s).length ∧
    (work.foldl (splitStep axis s) acc).countRight =
      acc.countRight + (rightPart work axis s).length := by
  induction work generalizing acc with
  | nil => simp [leftPart, rightPart]
  | cons v vs ih =>
    simp only [List.foldl_cons]
    obtain ⟨h1, h2⟩ := ih (splitStep axis s acc v)
    rw [h1, h2]
    by_cases hv : v._center.onAxis axis < s
    · simp [splitStep, leftPart, rightPart, hv, List.filter_cons] at *
      omega
    · simp [splitStep, leftPart, rightPart, hv, List.filter_cons] at *
      omega

theorem splitScan_counts (work : List BBoxTmp) (axis : Int) (s : ℚ) :
    (splitScan work axis s).countLeft = (leftPart work axis s).length ∧
    (splitScan work axis s).countRight = (rightPart work axis s).length := by
  have := splitScan_fold_counts axis s work SplitAcc.init
  simpa [splitScan, SplitAcc.init] using this

theorem part_lengths (work : List BBoxTmp) (axis : Int) (s : ℚ) :
    (leftPart work axis s).length + (rightPart work axis s).length = work.length := by
  induction work with
  | nil => simp [leftPart, rightPart]
  | cons v vs ih =>
    by_cases hv : v._center.onAxis axis < s
    · simp [leftPart, rightPart, hv, List.filter_cons] at *
      omega
    · simp [leftPart, rightPart, hv, List.filter_cons] at *
      omega

theorem tryCandidate_good (work : List BBoxTmp) (axis : Int) (s : ℚ) (best : Best)
    (h : GoodBest work best) : GoodBest work (tryCandidate work axis s best) := by
  unfold tryCandidate
  simp only
  split
  · exact h
  · rename_i hc
    split
    · right
      obtain ⟨h1, h2⟩ := splitScan_counts work axis s
      simp only
      rw [← h1, ← h2]
      omega
    · exact h

theorem sampleLoop_good (work : List BBoxTmp) (axis : Int) (stop step : ℚ) (fuel : Nat)
    (ts : ℚ) (best b : Best) (h : GoodBest work best)
    (hs : sampleLoop work axis stop step fuel ts best = some b) : GoodBest work b := by
  induction fuel generalizing ts best with
  | zero =>
    unfold sampleLoop at hs
    split at hs
    · cases hs
    · cases hs; exact h
  | succ f ih =>
    unfold sampleLoop at hs
    split at hs
    · exact ih _ _ (tryCandidate_good work axis ts best h) hs
    · cases hs; exact h

theorem axisPass_good (work : List BBoxTmp) (depth : Nat) (bottom top : Vector3) (fuel : Nat)
    (axis : Int) (best b : Best) (h : GoodBest work best)
    (hs : axisPass work depth bottom top fuel axis best = some b) : GoodBest work b := by
  unfold axisPass at hs
  simp only at hs
  split at hs
  · cases hs; exact h
  · exact sampleLoop_good _ _ _ _ _ _ _ _ h hs

theorem searchSplit_good (work : List BBoxTmp) (depth fuel : Nat) (b : Best)
    (hs : searchSplit work depth fuel = some b) : GoodBest work b := by
  unfold searchSplit at hs
  simp only [Option.bind_eq_some] at hs
  obtain ⟨b0, h0, b1, h1, h2⟩ := hs
  have g0 := axisPass_good _ _ _ _ _ _ _ _ (Or.inl rfl) h0
  have g1 := axisPass_good _ _ _ _ _ _ _ _ g0 h1
  exact axisPass_good _ _ _ _ _ _ _ _ g1 h2

theorem searchSplit_parts (work : List BBoxTmp) (depth fuel : Nat) (b : Best)
    (hs : searchSplit work depth fuel = some b) (hb : b.bestAxis ≠ -1) :
    2 ≤ (leftPart work b.bestAxis b.bestSplit).length ∧
    (leftPart work b.bestAxis b.bestSplit).length + 2 ≤ work.length ∧
    2 ≤ (rightPart work b.bestAxis b.bestSplit).length ∧
    (rightPart work b.bestAxis b.bestSplit).length + 2 ≤ work.length := by
  have hg := searchSplit_good work depth fuel b hs
  have hp := part_lengths work b.bestAxis b.bestSplit
  rcases hg with h | ⟨h1, h2⟩
  · exact absurd h hb
  · omega

/-! ## Termination of the sampling loop and of the recursion -/

theorem sampleLoop_some (work : List BBoxTmp) (axis : Int) (stop step : ℚ) (fuel : Nat)
    (ts : ℚ) (best : Best) (hf : stop - step - ts ≤ fuel * step) :
    ∃ b, sampleLoop work axis stop step fuel ts best = some b := by
  induction fuel generalizing ts best with
  | zero =>
    unfold sampleLoop
    have : ¬ ts < stop - step := by
      simp only [Nat.cast_zero, zero_mul] at hf
      linarith
    simp [this]
  | succ f ih =>
    unfold sampleLoop
    split
    · apply ih
      push_cast at hf
      linarith
    · exact ⟨_, rfl⟩

theorem sampleLoop_mono (work : List BBoxTmp) (axis : Int) (stop step : ℚ) (fuel : Nat)
    (ts : ℚ) (best b : Best) (hs : sampleLoop work axis stop step fuel ts best = some b) :
    sampleLoop work axis stop step (fuel + 1) ts best = some b := by
  induction fuel generalizing ts best with
  | zero =>
    unfold sampleLoop at hs ⊢
    split at hs
    · cases hs
    · rename_i h; simp [h]; simpa using hs
  | succ f ih =>
    unfold sampleLoop at hs ⊢
    split at hs
    · rename_i h
      simp only [h, if_true]
      exact ih _ _ hs
    · rename_i h; simp [h]; simpa using hs

/-! ## Boxes of work lists -/

theorem le_refl3 (a : Vector3) : a.le a := ⟨le_refl _, le_refl _, le_refl _⟩

theorem le_trans3 {a b c : Vector3} (h1 : a.le b) (h2 : b.le c) : a.le c :=
  ⟨le_trans h1.1 h2.1, le_trans h1.2.1 h2.2.1, le_trans h1.2.2 h2.2.2⟩

theorem foldBottom_le (work : List BBoxTmp) (acc : Vector3) :
    (work.foldl (fun acc v => acc.assignSmaller v._bottom) acc).le acc ∧
    ∀ v ∈ work, (work.foldl (fun acc v => acc.assignSmaller v._bottom) acc).le v._bottom := by
  induction work generalizing acc with
  | nil => exact ⟨le_refl3 _, by simp⟩
  | cons w ws ih =>
    simp only [List.foldl_cons]
    obtain ⟨h1, h2⟩ := ih (acc.assignSmaller w._bottom)
    have ha : (acc.assignSmaller w._bottom).le acc :=
      ⟨min_le_left _ _, min_le_left _ _, min_le_left _ _⟩
    have hw : (acc.assignSmaller w._bottom).le w._bottom :=
      ⟨min_le_right _ _, min_le_right _ _, min_le_right _ _⟩
    refine ⟨le_trans3 h1 ha, ?_⟩
    intro v hv
    rcases List.mem_cons.mp hv with rfl | hv
    · exact le_trans3 h1 hw
    · exact h2 v hv

theorem foldTop_le (work : List BBoxTmp) (acc : Vector3) :
    acc.le (work.foldl (fun acc v => acc.assignBigger v._top) acc) ∧
    ∀ v ∈ work, v._top.le (work.foldl (fun acc v => acc.assignBigger v._top) acc) := by
  induction work generalizing acc with
  | nil => exact ⟨le_refl3 _, by simp⟩
  | cons w ws ih =>
    simp only [List.foldl_cons]
    obtain ⟨h1, h2⟩ := ih (acc.assignBigger w._top)
    have ha : acc.le (acc.assignBigger w._top) :=
      ⟨le_max_left _ _, le_max_left _ _, le_max_left _ _⟩
    have hw : w._top.le (acc.assignBigger w._top) :=
      ⟨le_max_right _ _, le_max_right _ _, le_max_right _ _⟩
    refine ⟨le_trans3 ha h1, ?_⟩
    intro v hv
    rcases List.mem_cons.mp hv with rfl | hv
    · exact le_trans3 hw h1
    · exact h2 v hv

theorem boxBottom_le (work : List BBoxTmp) (v : BBoxTmp) (hv : v ∈ work) :
    (boxBottom work).le v._bottom := (foldBottom_le work vecMax).2 v hv

theorem le_boxTop (work : List BBoxTmp) (v : BBoxTmp) (hv : v ∈ work) :
    v._top.le (boxTop work) := (foldTop_le work vecMin).2 v hv

theorem box_ordered (work : List BBoxTmp) (hw : WellFormed work) (hne : work ≠ []) :
    (boxBottom work).le (boxTop work) := by
  obtain ⟨v, hv⟩ := List.exists_mem_of_ne_nil work hne
  exact le_trans3 (le_trans3 (boxBottom_le work v hv) (hw v hv)) (le_boxTop work v hv)

theorem onAxis_le {a b : Vector3} (h : a.le b) (axis : Int) : a.onAxis axis ≤ b.onAxis axis := by
  unfold Vector3.onAxis
  split
  · exact h.1
  · split
    · exact h.2.1
    · exact h.2.2

/-! ## Termination of the search -/

theorem step_pos (depth : Nat) (start stop : ℚ) (hle : start ≤ stop)
    (hbig : ¬ |stop - start| < 1 / 10000) :
    0 < (stop - start) / (1024 / ((depth : ℚ) + 1)) := by
  have h1 : 0 ≤ stop - start := by linarith
  rw [abs_of_nonneg h1] at hbig
  have h2 : 0 < stop - start := by linarith
  have h3 : (0 : ℚ) < (depth : ℚ) + 1 := by positivity
  positivity

theorem axisPass_some (work : List BBoxTmp) (depth : Nat) (bottom top : Vector3) (fuel : Nat)
    (axis : Int) (best : Best) (hle : bottom.le top) (hf : 1022 ≤ fuel) :
    ∃ b, axisPass work depth bottom top fuel axis best = some b := by
  unfold axisPass
  simp only
  split
  · exact ⟨_, rfl⟩
  · rename_i hbig
    have hle' := onAxis_le hle axis
    have hpos := step_pos depth _ _ hle' hbig
    apply sampleLoop_some
    have h3 : (0 : ℚ) < (depth : ℚ) + 1 := by positivity
    have hd : (1 : ℚ) ≤ (depth : ℚ) + 1 := by
      have : (0 : ℚ) ≤ (depth : ℚ) := Nat.cast_nonneg depth
      linarith
    have h1 : 0 ≤ top.onAxis axis - bottom.onAxis axis := by linarith
    have e : (top.onAxis axis - bottom.onAxis axis) / (1024 / ((depth : ℚ) + 1)) * 1024
        = (top.onAxis axis - bottom.onAxis axis) * ((depth : ℚ) + 1) := by
      field_simp
    have hge : top.onAxis axis - bottom.onAxis axis ≤
        (top.onAxis axis - bottom.onAxis axis) / (1024 / ((depth : ℚ) + 1)) * 1024 := by
      rw [e]; nlinarith
    have hfq : (1022 : ℚ) ≤ (fuel : ℚ) := by exact_mod_cast hf
    nlinarith

theorem searchSplit_some (work : List BBoxTmp) (depth fuel : Nat) (hw : WellFormed work)
    (hne : work ≠ []) (hf : 1022 ≤ fuel) : ∃ b, searchSplit work depth fuel = some b := by
  have hbox := box_ordered work hw hne
  unfold searchSplit
  simp only
  obtain ⟨b0, h0⟩ := axisPass_some work depth _ _ fuel 0 ⟨_, FLT_MAX, -1⟩ hbox hf
  obtain ⟨b1, h1⟩ := axisPass_some work depth _ _ fuel 1 b0 hbox hf
  obtain ⟨b2, h2⟩ := axisPass_some work depth _ _ fuel 2 b1 hbox hf
  exact ⟨b2, by rw [h0, Option.some_bind, h1, Option.some_bind, h2]⟩

theorem axisPass_mono (work : List BBoxTmp) (depth : Nat) (bottom top : Vector3) (fuel : Nat)
    (axis : Int) (best b : Best) (hs : axisPass work depth bottom top fuel axis best = some b) :
    axisPass work depth bottom top (fuel + 1) axis best = some b := by
  unfold axisPass at hs ⊢
  simp only at hs ⊢
  by_cases h : |top.onAxis axis - bottom.onAxis axis| < 1 / 10000
  · rw [if_pos h] at hs ⊢; exact hs
  · rw [if_neg h] at hs ⊢
    exact sampleLoop_mono _ _ _ _ _ _ _ _ hs

theorem searchSplit_mono (work : List BBoxTmp) (depth fuel : Nat) (b : Best)
    (hs : searchSplit work depth fuel = some b) : searchSplit work depth (fuel + 1) = some b := by
  unfold searchSplit at hs ⊢
  simp only [Option.bind_eq_some] at hs ⊢
  obtain ⟨b0, h0, b1, h1, h2⟩ := hs
  exact ⟨b0, axisPass_mono _ _ _ _ _ _ _ _ h0, b1, axisPass_mono _ _ _ _ _ _ _ _ h1,
    axisPass_mono _ _ _ _ _ _ _ _ h2⟩

theorem wellFormed_left (work : List BBoxTmp) (axis : Int) (s : ℚ) (hw : WellFormed work) :
    WellFormed (leftPart work axis s) := fun v hv => hw v (List.mem_of_mem_filter hv)

theorem wellFormed_right (work : List BBoxTmp) (axis : Int) (s : ℚ) (hw : WellFormed work) :
    WellFormed (rightPart work axis s) := fun v hv => hw v (List.mem_of_mem_filter hv)

theorem Recurse_zero (work : List BBoxTmp) (depth : Nat) :
    Recurse 0 work depth = if work.length < 4 then some (mkLeaf work) else none := rfl

theorem Recurse_succ (f : Nat) (work : List BBoxTmp) (depth : Nat) :
    Recurse (f + 1) work depth =
    if work.length < 4 then some (mkLeaf work)
    else
      match searchSplit work depth f with
      | none => none
      | some best =>
        if best.bestAxis = -1 then some (mkLeaf work)
        else
          match Recurse f (leftPart work best.bestAxis best.bestSplit) (depth + 1),
            Recurse f (rightPart work best.bestAxis best.bestSplit) (depth + 1) with
          | some l, some r =>
            some (.BVHInner Vector3.zero Vector3.zero
              (l.setBox (boxBottom (leftPart work best.bestAxis best.bestSplit))
                (boxTop (leftPart work best.bestAxis best.bestSplit)))
              (r.setBox (boxBottom (rightPart work best.bestAxis best.bestSplit))
                (boxTop (rightPart work best.bestAxis best.bestSplit))))
          | _, _ => none := rfl

theorem Recurse_some (fuel : Nat) (work : List BBoxTmp) (depth : Nat) (hw : WellFormed work)
    (hf : 1023 + work.length ≤ fuel) : ∃ t, Recurse fuel work depth = some t := by
  induction fuel generalizing work depth with
  | zero => omega
  | succ f ih =>
    rw [Recurse_succ]
    by_cases hlen : work.length < 4
    · rw [if_pos hlen]; exact ⟨_, rfl⟩
    · rw [if_neg hlen]
      have hne : work ≠ [] := by
        intro h; rw [h] at hlen; simp at hlen
      obtain ⟨best, hb⟩ := searchSplit_some work depth f hw hne (by omega)
      rw [hb]
      simp only
      by_cases hax : best.bestAxis = -1
      · rw [if_pos hax]; exact ⟨_, rfl⟩
      · rw [if_neg hax]
        obtain ⟨p1, p2, p3, p4⟩ := searchSplit_parts work depth f best hb hax
        obtain ⟨l, hl⟩ := ih _ (depth + 1) (wellFormed_left work best.bestAxis best.bestSplit hw)
          (by omega)
        obtain ⟨r, hr⟩ := ih _ (depth + 1) (wellFormed_right work best.bestAxis best.bestSplit hw)
          (by omega)
        rw [hl, hr]
        exact ⟨_, rfl⟩

theorem Recurse_mono (fuel : Nat) (work : List BBoxTmp) (depth : Nat) (t : BVHNode)
    (h : Recurse fuel work depth = some t) : Recurse (fuel + 1) work depth = some t := by
  induction fuel generalizing work depth t with
  | zero =>
    rw [Recurse_zero] at h
    rw [Recurse_succ]
    by_cases hl : work.length < 4
    · rw [if_pos hl] at h ⊢; exact h
    · rw [if_neg hl] at h; cases h
  | succ f ih =>
    rw [Recurse_succ] at h
    rw [Recurse_succ]
    by_cases hl : work.length < 4
    · rw [if_pos hl] at h ⊢; exact h
    · rw [if_neg hl] at h ⊢
      cases hb : searchSplit work depth f with
      | none => rw [hb] at h; cases h
      | some best =>
        rw [hb] at h
        rw [searchSplit_mono _ _ _ _ hb]
        simp only at h ⊢
        by_cases hax : best.bestAxis = -1
        · rw [if_pos hax] at h ⊢; exact h
        · rw [if_neg hax] at h ⊢
          cases hl' : Recurse f (leftPart work best.bestAxis best.bestSplit) (depth + 1) with
          | none => rw [hl'] at h; cases h
          | some l =>
            cases hr' : Recurse f (rightPart work best.bestAxis best.bestSplit) (depth + 1) with
            | none => rw [hl', hr'] at h; cases h
            | some r =>
              rw [hl', hr'] at h
              rw [ih _ _ _ hl', ih _ _ _ hr']
              exact h

theorem Recurse_mono_le (fuel fuel' : Nat) (work : List BBoxTmp) (depth : Nat) (t : BVHNode)
    (h : Recurse fuel work depth = some t) (hle : fuel ≤ fuel') :
    Recurse fuel' work depth = some t := by
  induction fuel', hle using Nat.le_induction with
  | base => exact h
  | succ n _ ih => exact Recurse_mono _ _ _ _ ih

theorem Recurse_total (work : List BBoxTmp) (depth : Nat) (hw : WellFormed work) :
    ∃ t, ∀ fuel, 1023 + work.length ≤ fuel → Recurse fuel work depth = some t := by
  obtain ⟨t, ht⟩ := Recurse_some (1023 + work.length) work depth hw (le_refl _)
  exact ⟨t, fun fuel hf => Recurse_mono_le _ _ _ _ _ ht hf⟩

/-! ## C10: termination of `Recurse` -/

/-- C10: for every work list (its items have `_bottom ≤ _top`, as every box has)
and every depth, `Recurse` returns a tree (the same for every fuel from
`1023 + size` on); whenever the search selects a split, each of the two partitions
handed to the recursive calls holds at least 2 and at most `size - 2` items and is
again such a work list; and on every axis that is sampled the step is positive
and the sampling loop ends within 1022 iterations. -/
theorem C10_recurse_terminates (work : List BBoxTmp) (depth : Nat) (hw : WellFormed work) :
    (∃ t, ∀ fuel, 1023 + work.length ≤ fuel → Recurse fuel work depth = some t) ∧
    (∀ fuel best, searchSplit work depth fuel = some best → best.bestAxis ≠ -1 →
      2 ≤ (leftPart work best.bestAxis best.bestSplit).length ∧
      (leftPart work best.bestAxis best.bestSplit).length + 2 ≤ work.length ∧
      2 ≤ (rightPart work best.bestAxis best.bestSplit).length ∧
      (rightPart work best.bestAxis best.bestSplit).length + 2 ≤ work.length ∧
      WellFormed (leftPart work best.bestAxis best.bestSplit) ∧
      WellFormed (rightPart work best.bestAxis best.bestSplit)) ∧
    (∀ axis : Int, work ≠ [] →
      ¬ |(boxTop work).onAxis axis - (boxBottom work).onAxis axis| < 1 / 10000 →
      0 < ((boxTop work).onAxis axis - (boxBottom work).onAxis axis) / (1024 / ((depth : ℚ) + 1)) ∧
      ∀ best, ∃ b, axisPass work depth (boxBottom work) (boxTop work) 1022 axis best = some b) := by
  refine ⟨Recurse_total work depth hw, ?_, ?_⟩
  · intro fuel best hs hax
    obtain ⟨p1, p2, p3, p4⟩ := searchSplit_parts work depth fuel best hs hax
    exact ⟨p1, p2, p3, p4, wellFormed_left _ _ _ hw, wellFormed_right _ _ _ hw⟩
  · intro axis hne hbig
    have hbox := box_ordered work hw hne
    exact ⟨step_pos depth _ _ (onAxis_le hbox axis) hbig,
      fun best => axisPass_some work depth _ _ 1022 axis best hbox (le_refl _)⟩

theorem goodWork_wellFormed : WellFormed goodWork := by
  unfold WellFormed
  decide!

/-- C10, at four well-formed work items at depth 0. -/
theorem C10_recurse_terminates_witness :
    WellFormed goodWork ∧
    (∃ t, ∀ fuel, 1023 + goodWork.length ≤ fuel → Recurse fuel goodWork 0 = some t) ∧
    (∀ fuel best, searchSplit goodWork 0 fuel = some best → best.bestAxis ≠ -1 →
      2 ≤ (leftPart goodWork best.bestAxis best.bestSplit).length ∧
      (leftPart goodWork best.bestAxis best.bestSplit).length + 2 ≤ goodWork.length ∧
      2 ≤ (rightPart goodWork best.bestAxis best.bestSplit).length ∧
      (rightPart goodWork best.bestAxis best.bestSplit).length + 2 ≤ goodWork.length ∧
      WellFormed (leftPart goodWork best.bestAxis best.bestSplit) ∧
      WellFormed (rightPart goodWork best.bestAxis best.bestSplit)) ∧
    (∀ axis : Int, goodWork ≠ [] →
      ¬ |(boxTop goodWork).onAxis axis - (boxBottom goodWork).onAxis axis| < 1 / 10000 →
      0 < ((boxTop goodWork).onAxis axis - (boxBottom goodWork).onAxis axis) /
        (1024 / (((0 : Nat) : ℚ) + 1)) ∧
      ∀ best, ∃ b, axisPass goodWork 0 (boxBottom goodWork) (boxTop goodWork) 1022 axis best
        = some b) :=
  ⟨goodWork_wellFormed, C10_recurse_terminates goodWork 0 goodWork_wellFormed⟩

/-! ## The leaves of the tree built by `Recurse` -/

theorem leafTris_setBox (t : BVHNode) (b c : Vector3) : leafTris (t.setBox b c) = leafTris t := by
  cases t <;> rfl

theorem CountBoxes_setBox (t : BVHNode) (b c : Vector3) :
    CountBoxes (t.setBox b c) = CountBoxes t := by
  cases t <;> rfl

theorem CountTriangles_setBox (t : BVHNode) (b c : Vector3) :
    CountTriangles (t.setBox b c) = CountTriangles t := by
  cases t <;> rfl

theorem maxLeafCount_setBox (t : BVHNode) (b c : Vector3) :
    maxLeafCount (t.setBox b c) = maxLeafCount t := by
  cases t <;> rfl

theorem height_setBox (t : BVHNode) (b c : Vector3) : height (t.setBox b c) = height t := by
  cases t <;> rfl

theorem parts_perm (work : List BBoxTmp) (axis : Int) (s : ℚ) :
    (leftPart work axis s ++ rightPart work axis s).Perm work :=
  List.filter_append_perm _ work

/-- The shape of every successful call of `Recurse`: a leaf of the whole work list,
or an inner node over the results of the calls on the two parts of a split that
leaves at least two items on each side. -/
theorem Recurse_cases (fuel : Nat) (work : List BBoxTmp) (depth : Nat) (t : BVHNode)
    (h : Recurse fuel work depth = some t) :
    t = mkLeaf work ∨
    ∃ f best l r, fuel = f + 1 ∧ ¬ work.length < 4 ∧
      searchSplit work depth f = some best ∧ best.bestAxis ≠ -1 ∧
      Recurse f (leftPart work best.bestAxis best.bestSplit) (depth + 1) = some l ∧
      Recurse f (rightPart work best.bestAxis best.bestSplit) (depth + 1) = some r ∧
      t = .BVHInner Vector3.zero Vector3.zero
        (l.setBox (boxBottom (leftPart work best.bestAxis best.bestSplit))
          (boxTop (leftPart work best.bestAxis best.bestSplit)))
        (r.setBox (boxBottom (rightPart work best.bestAxis best.bestSplit))
          (boxTop (rightPart work best.bestAxis best.bestSplit))) := by
  cases fuel with
  | zero =>
    rw [Recurse_zero] at h
    by_cases hl : work.length < 4
    · rw [if_pos hl] at h; cases h; exact Or.inl rfl
    · rw [if_neg hl] at h; cases h
  | succ f =>
    rw [Recurse_succ] at h
    by_cases hl : work.length < 4
    · rw [if_pos hl] at h; cases h; exact Or.inl rfl
    · rw [if_neg hl] at h
      cases hb : searchSplit work depth f with
      | none => rw [hb] at h; cases h
      | some best =>
        rw [hb] at h
        simp only at h
        by_cases hax : best.bestAxis = -1
        · rw [if_pos hax] at h; cases h; exact Or.inl rfl
        · rw [if_neg hax] at h
          cases hl' : Recurse f (leftPart work best.bestAxis best.bestSplit) (depth + 1) with
          | none => rw [hl'] at h; cases h
          | some l =>
            cases hr' : Recurse f (rightPart work best.bestAxis best.bestSplit) (depth + 1) with
            | none => rw [hl', hr'] at h; cases h
            | some r =>
              rw [hl', hr'] at h
              cases h
              exact Or.inr ⟨f, best, l, r, rfl, hl, hb, hax, hl', hr', rfl⟩

theorem Recurse_perm (fuel : Nat) (work : List BBoxTmp) (depth : Nat) (t : BVHNode)
    (h : Recurse fuel work depth = some t) :
    (leafTris t).Perm (work.map BBoxTmp._pTri) := by
  induction fuel generalizing work depth t with
  | zero =>
    rcases Recurse_cases _ _ _ _ h with rfl | ⟨f, _, _, _, hf, _⟩
    · exact List.Perm.refl _
    · omega
  | succ f ih =>
    rcases Recurse_cases _ _ _ _ h with rfl | ⟨f', best, l, r, hf, _, _, _, hl, hr, rfl⟩
    · exact List.Perm.refl _
    · obtain rfl : f' = f := by omega
      simp only [leafTris, leafTris_setBox]
      have h1 := ih _ _ _ hl
      have h2 := ih _ _ _ hr
      refine (List.Perm.append h1 h2).trans ?_
      rw [← List.map_append]
      exact (parts_perm work best.bestAxis best.bestSplit).map _

theorem Recurse_count (fuel : Nat) (work : List BBoxTmp) (depth : Nat) (t : BVHNode)
    (h : Recurse fuel work depth = some t) :
    (work.length < 2 → CountBoxes t = 1) ∧ (2 ≤ work.length → CountBoxes t + 1 ≤ work.length) ∧
    maxLeafCount t ≤ work.length := by
  induction fuel generalizing work depth t with
  | zero =>
    rcases Recurse_cases _ _ _ _ h with rfl | ⟨f, _, _, _, hf, _⟩
    · simp [mkLeaf, CountBoxes, maxLeafCount]
    · omega
  | succ f ih =>
    rcases Recurse_cases _ _ _ _ h with rfl | ⟨f', best, l, r, hf, hlen, hb, hax, hl, hr, rfl⟩
    · simp [mkLeaf, CountBoxes, maxLeafCount]
    · obtain rfl : f' = f := by omega
      obtain ⟨p1, p2, p3, p4⟩ := searchSplit_parts work depth _ best hb hax
      have hp := part_lengths work best.bestAxis best.bestSplit
      obtain ⟨_, l2, l3⟩ := ih _ _ _ hl
      obtain ⟨_, r2, r3⟩ := ih _ _ _ hr
      have := l2 p1
      have := r2 p3
      simp only [CountBoxes, maxLeafCount, CountBoxes_setBox, maxLeafCount_setBox]
      refine ⟨by omega, by omega, ?_⟩
      rw [max_le_iff]
      omega

/-! ## `CreateBVH` -/

theorem triBox_ordered (tri : Triangle) : (triBottom tri).le (triTop tri) := by
  simp only [triBottom, triTop, Vector3.le, Vector3.assignSmaller, Vector3.assignBigger]
  refine ⟨?_, ?_, ?_⟩
  · exact le_trans (min_le_left _ _) (le_trans (min_le_left _ _)
      (le_trans (min_le_right _ _) (le_trans (le_max_right _ _)
        (le_trans (le_max_left _ _) (le_max_left _ _)))))
  · exact le_trans (min_le_left _ _) (le_trans (min_le_left _ _)
      (le_trans (min_le_right _ _) (le_trans (le_max_right _ _)
        (le_trans (le_max_left _ _) (le_max_left _ _)))))
  · exact le_trans (min_le_left _ _) (le_trans (min_le_left _ _)
      (le_trans (min_le_right _ _) (le_trans (le_max_right _ _)
        (le_trans (le_max_left _ _) (le_max_left _ _)))))

theorem gatherWork_wellFormed (triangles : List Triangle) : WellFormed (gatherWork triangles) := by
  intro v hv
  simp only [gatherWork, List.mem_map] at hv
  obtain ⟨p, _, rfl⟩ := hv
  exact triBox_ordered p.2

theorem gatherWork_length (triangles : List Triangle) :
    (gatherWork triangles).length = triangles.length := by
  simp [gatherWork]

theorem gatherWork_pTri (triangles : List Triangle) :
    (gatherWork triangles).map BBoxTmp._pTri = List.range triangles.length := by
  simp only [gatherWork, List.map_map]
  rw [← List.enum_map_fst]
  rfl

theorem CreateBVH_total (triangles : List Triangle) :
    ∃ t, (∀ fuel, 1023 + triangles.length ≤ fuel →
        Recurse fuel (gatherWork triangles) 0 = some t) ∧
      ∀ fuel, 1023 + triangles.length ≤ fuel →
        CreateBVH fuel triangles =
          some (t.setBox (boxBottom (gatherWork triangles)) (boxTop (gatherWork triangles))) := by
  obtain ⟨t, ht⟩ := Recurse_total (gatherWork triangles) 0 (gatherWork_wellFormed triangles)
  rw [gatherWork_length] at ht
  refine ⟨t, ht, ?_⟩
  intro fuel hf
  simp only [CreateBVH, ht fuel hf, Option.map_some']

/-- C1: for every non-empty list of `N` triangles, `CreateBVH` returns a tree, the
compaction of that tree succeeds, and the triangle index list it writes (the one
`CreateCFBVH` delivers when it accepts the tree) has exactly `N` entries and is a
permutation of `[0, N)`: it is the concatenation of the leaves, so every triangle
is in exactly one leaf, once. -/
theorem C1_index_list_permutation (triangles : List Triangle) (hne : triangles ≠ [])
    (junk : Nat → CacheFriendlyBVHNode) (junkTri : Nat → Nat) :
    ∃ root, (∀ fuel, 1023 + triangles.length ≤ fuel → CreateBVH fuel triangles = some root) ∧
      ∃ st, compactArrays root junk junkTri = some st ∧
        st._triIndexList = leafTris root ∧
        st._triIndexList.length = triangles.length ∧
        st._triIndexList.Perm (List.range triangles.length) ∧
        st._triIndexList.Nodup ∧ st._triIndexList ≠ [] ∧
        (∀ cf, CreateCFBVH (some root) junk junkTri = .ok cf →
          cf._triIndexList = st._triIndexList ∧ cf._triIndexListNo = triangles.length) := by
  obtain ⟨t, ht, hc⟩ := CreateBVH_total triangles
  have hperm := Recurse_perm _ _ _ _ (ht _ (le_refl _))
  rw [gatherWork_pTri] at hperm
  have hlen : (leafTris t).length = triangles.length := by
    rw [hperm.length_eq, List.length_range]
  refine ⟨_, hc, _, compactArrays_eq _ junk junkTri, rfl, ?_, ?_, ?_, ?_, ?_⟩
  · simpa [leafTris_setBox] using hlen
  · simpa [leafTris_setBox] using hperm
  · simp only [leafTris_setBox]
    exact hperm.nodup_iff.mpr (List.nodup_range _)
  · simp only [leafTris_setBox]
    intro h
    rw [h] at hlen
    exact hne (List.length_eq_zero.mp hlen.symm)
  · intro cf hcf
    rw [CreateCFBVH_eq] at hcf
    split at hcf
    · cases hcf
    · cases hcf
      refine ⟨rfl, ?_⟩
      simp only [CountTriangles_setBox, ← leafTris_length, leafTris_setBox, hlen]

/-- C1, at a list of four triangles. -/
theorem C1_index_list_permutation_witness :
    fourTriangles ≠ [] ∧
    ∃ root, (∀ fuel, 1023 + fourTriangles.length ≤ fuel →
        CreateBVH fuel fourTriangles = some root) ∧
      ∃ st, compactArrays root junk0 junkTri0 = some st ∧
        st._triIndexList = leafTris root ∧
        st._triIndexList.length = fourTriangles.length ∧
        st._triIndexList.Perm (List.range fourTriangles.length) ∧
        st._triIndexList.Nodup ∧ st._triIndexList ≠ [] ∧
        (∀ cf, CreateCFBVH (some root) junk0 junkTri0 = .ok cf →
          cf._triIndexList = st._triIndexList ∧
          cf._triIndexListNo = fourTriangles.length) :=
  ⟨by simp [fourTriangles],
    C1_index_list_permutation fourTriangles (by simp [fourTriangles]) junk0 junkTri0⟩

/-! ## Containment of the triangle boxes -/

theorem boxesContain_setBox (boxOf : Nat → Vector3 × Vector3) (t : BVHNode) (b c : Vector3)
    (hroot : ∀ j ∈ leafTris t, b.le (boxOf j).1 ∧ (boxOf j).2.le c)
    (hsub : ∀ b1 t1 l r, t = .BVHInner b1 t1 l r → BoxesContain boxOf l ∧ BoxesContain boxOf r) :
    BoxesContain boxOf (t.setBox b c) := by
  cases t with
  | BVHLeaf b1 t1 ts => exact hroot
  | BVHInner b1 t1 l r => exact ⟨hroot, hsub b1 t1 l r rfl⟩

theorem boxesContain_root (boxOf : Nat → Vector3 × Vector3) (t : BVHNode)
    (h : BoxesContain boxOf t) :
    ∀ j ∈ leafTris t, t._bottom.le (boxOf j).1 ∧ (boxOf j).2.le t._top := by
  cases t with
  | BVHLeaf b1 t1 ts => exact h
  | BVHInner b1 t1 l r => exact h.1

theorem workBox_contains (boxOf : Nat → Vector3 × Vector3) (work : List BBoxTmp)
    (hbox : ∀ v ∈ work, boxOf v._pTri = (v._bottom, v._top)) :
    ∀ j ∈ work.map BBoxTmp._pTri,
      (boxBottom work).le (boxOf j).1 ∧ (boxOf j).2.le (boxTop work) := by
  intro j hj
  obtain ⟨v, hv, rfl⟩ := List.mem_map.mp hj
  rw [hbox v hv]
  exact ⟨boxBottom_le work v hv, le_boxTop work v hv⟩

theorem Recurse_contain (boxOf : Nat → Vector3 × Vector3) (fuel : Nat) (work : List BBoxTmp)
    (depth : Nat) (t : BVHNode) (hbox : ∀ v ∈ work, boxOf v._pTri = (v._bottom, v._top))
    (h : Recurse fuel work depth = some t) :
    BoxesContain boxOf (t.setBox (boxBottom work) (boxTop work)) := by
  induction fuel generalizing work depth t with
  | zero =>
    rcases Recurse_cases _ _ _ _ h with rfl | ⟨f, _, _, _, hf, _⟩
    · exact workBox_contains boxOf work hbox
    · omega
  | succ f ih =>
    have hperm := Recurse_perm _ _ _ _ h
    rcases Recurse_cases _ _ _ _ h with rfl | ⟨f', best, l, r, hf, _, _, _, hl, hr, rfl⟩
    · exact workBox_contains boxOf work hbox
    · obtain rfl : f' = f := by omega
      refine ⟨?_, ?_, ?_⟩
      · intro j hj
        simp only [leafTris_setBox] at hj
        simp only [leafTris, leafTris_setBox] at hperm
        exact workBox_contains boxOf work hbox j (hperm.mem_iff.mp hj)
      · exact ih _ _ _ (fun v hv => hbox v (List.mem_of_mem_filter hv)) hl
      · exact ih _ _ _ (fun v hv => hbox v (List.mem_of_mem_filter hv)) hr

theorem gatherWork_boxOf (triangles : List Triangle) :
    ∀ v ∈ gatherWork triangles, boxOfTriangle triangles v._pTri = (v._bottom, v._top) := by
  intro v hv
  simp only [gatherWork, List.mem_map] at hv
  obtain ⟨p, hp, rfl⟩ := hv
  have := List.mem_enum_iff_getElem?.mp hp
  simp [boxOfTriangle, mkBBoxTmp, this]

/-! ## Every slot of the layout is the root of a subtree -/

theorem subtrees_length (t : BVHNode) : (subtrees t).length = CountBoxes t := by
  induction t with
  | BVHInner b t l r ihl ihr => simp [subtrees, CountBoxes, ihl, ihr]; omega
  | BVHLeaf b t ts => simp [subtrees, CountBoxes]

theorem subtrees_embeds (A : List CacheFriendlyBVHNode) (T : List Nat) (t : BVHNode)
    (i off k : Nat) (s : BVHNode) (h : Embeds A T t i off) (hs : (subtrees t)[k]? = some s) :
    ∃ off1, Embeds A T s (i + k) off1 ∧ i + k + CountBoxes s ≤ i + CountBoxes t := by
  induction t generalizing i off k with
  | BVHLeaf b t ts =>
    cases k with
    | zero =>
      simp only [subtrees, List.getElem?_cons_zero, Option.some.injEq] at hs
      subst hs
      exact ⟨off, h, le_refl _⟩
    | succ k => simp [subtrees] at hs
  | BVHInner b t l r ihl ihr =>
    cases k with
    | zero =>
      simp only [subtrees, List.getElem?_cons_zero, Option.some.injEq] at hs
      subst hs
      exact ⟨off, h, le_refl _⟩
    | succ k =>
      obtain ⟨_, h2, h3⟩ := embeds_inner h
      simp only [subtrees, List.getElem?_cons_succ] at hs
      simp only [CountBoxes]
      by_cases hk : k < CountBoxes l
      · rw [List.getElem?_append_left (by rw [subtrees_length]; exact hk)] at hs
        obtain ⟨off1, e1, e2⟩ := ihl _ _ _ h2 hs
        refine ⟨off1, ?_, by omega⟩
        rw [show i + (k + 1) = i + 1 + k by omega]
        exact e1
      · rw [List.getElem?_append_right (by rw [subtrees_length]; omega), subtrees_length] at hs
        obtain ⟨off1, e1, e2⟩ := ihr _ _ _ h3 hs
        refine ⟨off1, ?_, by omega⟩
        rw [show i + (k + 1) = i + 1 + CountBoxes l + (k - CountBoxes l) by omega]
        exact e1

theorem subtrees_contain (boxOf : Nat → Vector3 × Vector3) (t s : BVHNode)
    (h : BoxesContain boxOf t) (hs : s ∈ subtrees t) :
    BoxesContain boxOf s ∧ maxLeafCount s ≤ maxLeafCount t := by
  induction t with
  | BVHLeaf b t ts =>
    simp only [subtrees, List.mem_singleton] at hs
    subst hs
    exact ⟨h, le_refl _⟩
  | BVHInner b t l r ihl ihr =>
    simp only [subtrees, List.mem_cons, List.mem_append] at hs
    rcases hs with rfl | hs | hs
    · exact ⟨h, le_refl _⟩
    · obtain ⟨e1, e2⟩ := ihl h.2.1 hs
      exact ⟨e1, le_trans e2 (le_max_left _ _)⟩
    · obtain ⟨e1, e2⟩ := ihr h.2.2 hs
      exact ⟨e1, le_trans e2 (le_max_right _ _)⟩

theorem embeds_get (A : List CacheFriendlyBVHNode) (T : List Nat) (s : BVHNode) (i off : Nat)
    (h : Embeds A T s i off) :
    ∃ n, A[i]? = some n ∧ n._bottom = s._bottom ∧ n._top = s._top := by
  cases s with
  | BVHLeaf b t ts => exact ⟨_, (embeds_leaf h).1, rfl, rfl⟩
  | BVHInner b t l r => exact ⟨_, (embeds_inner h).1, rfl, rfl⟩

/-- C2: for every non-empty list of fewer than `2^31` triangles, in the arrays
that the compaction writes for the tree of `CreateBVH`, the box of every node
record contains, componentwise, the box of every triangle in the leaves reached by
reading the array from that record. -/
theorem C2_containment (triangles : List Triangle) (hne : triangles ≠ [])
    (hN : triangles.length < 2 ^ 31)
    (junk : Nat → CacheFriendlyBVHNode) (junkTri : Nat → Nat) :
    ∃ root, (∀ fuel, 1023 + triangles.length ≤ fuel → CreateBVH fuel triangles = some root) ∧
      ∃ st, compactArrays root junk junkTri = some st ∧
        (∀ cf, CreateCFBVH (some root) junk junkTri = .ok cf →
          cf._pCFBVH = st._pCFBVH ∧ cf._triIndexList = st._triIndexList) ∧
        ∀ i, i < st._pCFBVH.length →
          ∃ n sub, st._pCFBVH[i]? = some n ∧
            readBack st._pCFBVH st._triIndexList st._pCFBVH.length i = some sub ∧
            ∀ j ∈ leafTris sub, ∃ tri, triangles[j]? = some tri ∧
              n._bottom.le (triBottom tri) ∧ (triTop tri).le n._top := by
  obtain ⟨t, ht, hc⟩ := CreateBVH_total triangles
  have hR := ht _ (le_refl _)
  have hcont := Recurse_contain (boxOfTriangle triangles) _ _ _ _ (gatherWork_boxOf triangles) hR
  have hperm := Recurse_perm _ _ _ _ hR
  rw [gatherWork_pTri] at hperm
  obtain ⟨c1, c2, c3⟩ := Recurse_count _ _ _ _ hR
  rw [gatherWork_length] at c1 c2 c3
  have hlen : 1 ≤ triangles.length := List.length_pos.mpr hne
  generalize hroot : t.setBox (boxBottom (gatherWork triangles)) (boxTop (gatherWork triangles))
    = root at hc hcont
  have hcb : CountBoxes root ≤ triangles.length := by
    rw [← hroot, CountBoxes_setBox]
    by_cases h2 : triangles.length < 2
    · rw [c1 h2]; exact hlen
    · have := c2 (by omega); omega
  have hml : maxLeafCount root ≤ triangles.length := by
    rw [← hroot, maxLeafCount_setBox]; exact c3
  have hlt : ∀ j ∈ leafTris root, j < triangles.length := by
    intro j hj
    rw [← hroot, leafTris_setBox] at hj
    exact List.mem_range.mp (hperm.mem_iff.mp hj)
  refine ⟨root, hc, _, compactArrays_eq root junk junkTri, ?_, ?_⟩
  · intro cf hcf
    rw [CreateCFBVH_eq] at hcf
    split at hcf
    · cases hcf
    · cases hcf; exact ⟨rfl, rfl⟩
  · intro i hi
    simp only [layout_length] at hi ⊢
    obtain ⟨s, hs⟩ : ∃ s, (subtrees root)[i]? = some s :=
      ⟨_, List.getElem?_eq_getElem (by rw [subtrees_length]; exact hi)⟩
    obtain ⟨off1, e1, e2⟩ := subtrees_embeds _ _ root 0 0 i s (embeds_root root) hs
    simp only [zero_add] at e1 e2
    obtain ⟨n, hn, hb, htop⟩ := embeds_get _ _ s i off1 e1
    obtain ⟨k1, k2⟩ := subtrees_contain _ root s hcont (List.getElem?_mem hs)
    have hrb := readBack_embeds _ _ s i off1 (CountBoxes root) e1 (by omega) (by omega) (by omega)
    refine ⟨n, s, hn, hrb, ?_⟩
    intro j hj
    have hjr : j ∈ leafTris root := by
      have hsub : ∀ (t s : BVHNode), s ∈ subtrees t → ∀ j ∈ leafTris s, j ∈ leafTris t := by
        intro t
        induction t with
        | BVHLeaf b t ts =>
          intro s hs j hj
          simp only [subtrees, List.mem_singleton] at hs
          subst hs; exact hj
        | BVHInner b t l r ihl ihr =>
          intro s hs j hj
          simp only [subtrees, List.mem_cons, List.mem_append] at hs
          rcases hs with rfl | hs | hs
          · exact hj
          · simp only [leafTris, List.mem_append]; exact Or.inl (ihl s hs j hj)
          · simp only [leafTris, List.mem_append]; exact Or.inr (ihr s hs j hj)
      exact hsub root s (List.getElem?_mem hs) j hj
    have hjl := hlt j hjr
    have hbx := boxesContain_root _ s k1 j hj
    refine ⟨triangles[j], List.getElem?_eq_getElem hjl, ?_⟩
    simp only [boxOfTriangle, List.getElem?_eq_getElem hjl] at hbx
    rw [hb, htop]
    exact hbx

/-- C2, at a list of four triangles. -/
theorem C2_containment_witness :
    fourTriangles ≠ [] ∧ fourTriangles.length < 2 ^ 31 ∧
    ∃ root, (∀ fuel, 1023 + fourTriangles.length ≤ fuel →
        CreateBVH fuel fourTriangles = some root) ∧
      ∃ st, compactArrays root junk0 junkTri0 = some st ∧
        (∀ cf, CreateCFBVH (some root) junk0 junkTri0 = .ok cf →
          cf._pCFBVH = st._pCFBVH ∧ cf._triIndexList = st._triIndexList) ∧
        ∀ i, i < st._pCFBVH.length →
          ∃ n sub, st._pCFBVH[i]? = some n ∧
            readBack st._pCFBVH st._triIndexList st._pCFBVH.length i = some sub ∧
            ∀ j ∈ leafTris sub, ∃ tri, fourTriangles[j]? = some tri ∧
              n._bottom.le (triBottom tri) ∧ (triTop tri).le n._top :=
  ⟨by simp [fourTriangles], by simp [fourTriangles],
    C2_containment fourTriangles (by simp [fourTriangles]) (by simp [fourTriangles])
      junk0 junkTri0⟩

/-! ## The traversal follows the tree -/

theorem tag_and_low_mod (n : Nat) : (0x80000000 ||| n) &&& 0x7fffffff = n % 2 ^ 31 := by
  apply Nat.eq_of_testBit_eq
  intro i
  simp only [Nat.testBit_and, Nat.testBit_or, Nat.testBit_mod_two_pow]
  have e1 : (0x80000000 : Nat) = 2 ^ 31 := by norm_num
  have e2 : (0x7fffffff : Nat) = 2 ^ 31 - 1 := by norm_num
  rw [e1, e2, Nat.testBit_two_pow, Nat.testBit_two_pow_sub_one]
  by_cases hi : i < 31
  · have : ¬ (31 = i) := by omega
    simp [hi, this]
  · simp [hi]

theorem RayIntersectsBox_box (origin ray : Vector3) (n : CacheFriendlyBVHNode) :
    RayIntersectsBox origin ray n = RayIntersectsBox origin ray ⟨n._bottom, n._top, 0, 0⟩ := rfl

theorem leafLoop_eq_fold (stop cull : Bool) (triangles : List Triangle) (T : List Nat)
    (A : List CacheFriendlyBVHNode) (origin ray : Vector3) (avoidSelf : Option Nat)
    (ts : List Nat) (off : Nat) (st : RayState)
    (h : ∀ j, j < ts.length → T[off + j]? = ts[j]?) :
    leafLoop stop cull ⟨triangles, T, A⟩ origin ray avoidSelf ts.length off st =
      leafFold stop cull triangles origin ray avoidSelf ts st := by
  induction ts generalizing off st with
  | nil => rfl
  | cons ti rest ih =>
    have h0 := h 0 (by simp)
    simp only [Nat.add_zero, List.getElem?_cons_zero] at h0
    simp only [List.length_cons, leafLoop, leafFold, h0]
    cases triangles[ti]? with
    | none => rfl
    | some tri =>
      simp only
      cases triangleStep stop cull origin ray avoidSelf ti tri st with
      | returnTrue s => rfl
      | next s =>
        simp only
        apply ih
        intro j hj
        have := h (j + 1) (by simp; omega)
        rw [show off + (j + 1) = off + 1 + j by omega] at this
        simpa using this

theorem StackRep_length {A : List CacheFriendlyBVHNode} {T : List Nat} {is : List Nat}
    {ts : List BVHNode} (h : StackRep A T is ts) : is.length = ts.length := by
  induction is generalizing ts with
  | nil => cases ts with
    | nil => rfl
    | cons t ts => exact absurd h (by simp [StackRep])
  | cons i is ih => cases ts with
    | nil => exact absurd h (by simp [StackRep])
    | cons t ts =>
      simp only [StackRep] at h
      simp [ih h.2.2]

theorem height_pos_inner (b t : Vector3) (l r : BVHNode) :
    1 + height l ≤ height (.BVHInner b t l r) ∧ 1 + height r ≤ height (.BVHInner b t l r) := by
  simp only [height]
  constructor <;> omega

theorem traverse_eq_travList (stop cull : Bool) (triangles : List Triangle) (T : List Nat)
    (A : List CacheFriendlyBVHNode) (origin ray : Vector3) (avoidSelf : Option Nat)
    (fuel : Nat) (is : List Nat) (ts : List BVHNode) (st : RayState)
    (hrep : StackRep A T is ts) (hok : StackOK ts) (hf : totalBoxes ts ≤ fuel) :
    traverse stop cull ⟨triangles, T, A⟩ origin ray avoidSelf fuel is st =
      travList stop cull triangles origin ray avoidSelf ts st := by
  induction fuel generalizing is ts st with
  | zero =>
    cases is with
    | nil =>
      cases ts with
      | nil => simp [traverse, travList]
      | cons t ts => exact absurd hrep (by simp [StackRep])
    | cons i is =>
      cases ts with
      | nil => exact absurd hrep (by simp [StackRep])
      | cons t ts =>
        have := CountBoxes_pos t
        simp only [totalBoxes] at hf
        omega
  | succ f ih =>
    cases is with
    | nil =>
      cases ts with
      | nil => simp [traverse, travList]
      | cons t ts => exact absurd hrep (by simp [StackRep])
    | cons i is =>
      cases ts with
      | nil => exact absurd hrep (by simp [StackRep])
      | cons t ts =>
        simp only [StackRep] at hrep
        obtain ⟨⟨off, hemb⟩, hbound, hrest⟩ := hrep
        simp only [StackOK] at hok
        obtain ⟨hstack, hokrest⟩ := hok
        simp only [totalBoxes] at hf
        have hlen := StackRep_length hrest
        cases t with
        | BVHLeaf b t tris =>
          obtain ⟨h1, h2, h3⟩ := embeds_leaf hemb
          simp only [CountBoxes] at hf
          have hseg : ∀ j, j < (tris.take (tris.length % 2 ^ 31)).length →
              T[off + j]? = (tris.take (tris.length % 2 ^ 31))[j]? := by
            intro j hj
            simp only [List.length_take] at hj
            rw [List.getElem?_take_of_lt (by omega)]
            exact h3 j (by omega)
          have hl : (tris.take (tris.length % 2 ^ 31)).length = tris.length % 2 ^ 31 := by
            simp only [List.length_take]
            have := Nat.mod_le tris.length (2 ^ 31)
            omega
          simp only [traverse, h1, leafBit_leaf, Bool.not_true, Bool.false_eq_true, if_false,
            CacheFriendlyBVHNode.count, CacheFriendlyBVHNode.startIndexInTriIndexList,
            tag_and_low_mod, travList, travTree]
          have hloop := leafLoop_eq_fold stop cull triangles T A origin ray avoidSelf _ off st hseg
          rw [hl] at hloop
          rw [hloop]
          cases leafFold stop cull triangles origin ray avoidSelf
              (tris.take (tris.length % 2 ^ 31)) st with
          | error e => rfl
          | ok fl =>
            cases fl with
            | returnTrue s => rfl
            | next s =>
              simp only
              exact ih is ts s hrest hokrest (by omega)
        | BVHInner b t l r =>
          obtain ⟨h1, h2, h3⟩ := embeds_inner hemb
          simp only [CountBoxes] at hf hbound
          have hl := CountBoxes_pos l
          have hr := CountBoxes_pos r
          obtain ⟨hh1, hh2⟩ := height_pos_inner b t l r
          simp only [BVH_STACK_SIZE] at hstack
          simp only [traverse, h1, leafBit_inner b t (i + 1) _ (by omega), Bool.not_false,
            if_true, CacheFriendlyBVHNode.idxLeft, CacheFriendlyBVHNode.idxRight,
            travList, travTree]
          rw [RayIntersectsBox_box]
          simp only
          by_cases hhit : RayIntersectsBox origin ray ⟨b, t, 0, 0⟩ = true
          · simp only [hhit, if_true]
            have hno : ¬ is.length + 2 > BVH_STACK_SIZE := by
              simp only [BVH_STACK_SIZE]; omega
            simp only [hno, if_false]
            rw [ih ((i + 1) :: (i + 1 + CountBoxes l) :: is) (l :: r :: ts) st
              ⟨⟨off, h2⟩, by omega, ⟨_, h3⟩, by omega, hrest⟩
              ⟨by simp only [List.length_cons, BVH_STACK_SIZE]; omega,
               by simp only [BVH_STACK_SIZE]; omega, hokrest⟩
              (by simp only [totalBoxes]; omega)]
            simp only [travList]
            cases travTree stop cull triangles origin ray avoidSelf l st with
            | error e => rfl
            | ok fl =>
              cases fl with
              | returnTrue s => rfl
              | next s => rfl
          · simp only [hhit, Bool.false_eq_true, if_false]
            exact ih is ts st hrest hokrest (by omega)

/-! ## C7: the stack of the traversal -/

theorem traverse_mono (stop cull : Bool) (scene : Scene) (origin ray : Vector3)
    (avoidSelf : Option Nat) (fuel : Nat) (is : List Nat) (st : RayState)
    (r : Except TravError (Bool × RayState))
    (h : traverse stop cull scene origin ray avoidSelf fuel is st = r)
    (hr : r ≠ .error .outOfFuel) :
    traverse stop cull scene origin ray avoidSelf (fuel + 1) is st = r := by
  induction fuel generalizing is st with
  | zero =>
    cases is with
    | nil => simpa [traverse] using h
    | cons i is =>
      simp only [traverse] at h
      exact absurd h.symm hr
  | succ f ih =>
    cases is with
    | nil => simpa [traverse] using h
    | cons i is =>
      rw [traverse] at h ⊢
      cases hA : scene._pCFBVH[i]? with
      | none => rw [hA] at h; exact h
      | some n =>
        rw [hA] at h
        simp only at h ⊢
        by_cases hb : (!n.leafBit) = true
        · rw [if_pos hb] at h ⊢
          by_cases hhit : RayIntersectsBox origin ray n = true
          · rw [if_pos hhit] at h ⊢
            by_cases hov : is.length + 2 > BVH_STACK_SIZE
            · rw [if_pos hov] at h ⊢; exact h
            · rw [if_neg hov] at h ⊢
              exact ih _ _ h
          · rw [if_neg hhit] at h ⊢
            exact ih _ _ h
        · rw [if_neg hb] at h ⊢
          cases hl : leafLoop stop cull scene origin ray avoidSelf
              (n.count &&& 0x7fffffff) n.startIndexInTriIndexList st with
          | error e => rw [hl] at h; exact h
          | ok fl =>
            rw [hl] at h
            cases fl with
            | returnTrue s => exact h
            | next s => exact ih _ _ h

theorem traverse_mono_le (stop cull : Bool) (scene : Scene) (origin ray : Vector3)
    (avoidSelf : Option Nat) (fuel fuel' : Nat) (is : List Nat) (st : RayState)
    (r : Except TravError (Bool × RayState))
    (h : traverse stop cull scene origin ray avoidSelf fuel is st = r)
    (hr : r ≠ .error .outOfFuel) (hle : fuel ≤ fuel') :
    traverse stop cull scene origin ray avoidSelf fuel' is st = r := by
  induction fuel', hle using Nat.le_induction with
  | base => exact h
  | succ n _ ih => exact traverse_mono _ _ _ _ _ _ _ _ _ _ ih hr

theorem leafFold_error (stop cull : Bool) (triangles : List Triangle) (origin ray : Vector3)
    (avoidSelf : Option Nat) (ts : List Nat) (st : RayState) (e : TravError)
    (h : leafFold stop cull triangles origin ray avoidSelf ts st = .error e) :
    e = .outOfBounds := by
  induction ts generalizing st with
  | nil => simp [leafFold] at h
  | cons ti rest ih =>
    simp only [leafFold] at h
    cases ht : triangles[ti]? with
    | none => rw [ht] at h; cases h; rfl
    | some tri =>
      rw [ht] at h
      simp only at h
      cases hs : triangleStep stop cull origin ray avoidSelf ti tri st with
      | returnTrue s => rw [hs] at h; cases h
      | next s => rw [hs] at h; exact ih _ h

theorem travTree_error (stop cull : Bool) (triangles : List Triangle) (origin ray : Vector3)
    (avoidSelf : Option Nat) (t : BVHNode) (st : RayState) (e : TravError)
    (h : travTree stop cull triangles origin ray avoidSelf t st = .error e) :
    e = .outOfBounds := by
  induction t generalizing st with
  | BVHLeaf b t ts => exact leafFold_error _ _ _ _ _ _ _ _ _ h
  | BVHInner b t l r ihl ihr =>
    simp only [travTree] at h
    split at h
    · cases hl : travTree stop cull triangles origin ray avoidSelf l st with
      | error e1 =>
        rw [hl] at h
        cases h
        exact ihl _ hl
      | ok fl =>
        rw [hl] at h
        cases fl with
        | returnTrue s => cases h
        | next s => exact ihr _ h
    · cases h

theorem travList_error (stop cull : Bool) (triangles : List Triangle) (origin ray : Vector3)
    (avoidSelf : Option Nat) (ts : List BVHNode) (st : RayState) (e : TravError)
    (h : travList stop cull triangles origin ray avoidSelf ts st = .error e) :
    e = .outOfBounds := by
  induction ts generalizing st with
  | nil => simp [travList] at h
  | cons t rest ih =>
    simp only [travList] at h
    cases ht : travTree stop cull triangles origin ray avoidSelf t st with
    | error e1 =>
      rw [ht] at h
      cases h
      exact travTree_error _ _ _ _ _ _ _ _ _ ht
    | ok fl =>
      rw [ht] at h
      cases fl with
      | returnTrue s => cases h
      | next s => exact ih _ h

theorem traverse_root (stop cull : Bool) (triangles : List Triangle) (root : BVHNode)
    (origin ray : Vector3) (avoidSelf : Option Nat) (fuel : Nat) (st : RayState)
    (hsize : CountBoxes root < 2 ^ 31) (hdepth : height root < BVH_STACK_SIZE)
    (hf : CountBoxes root ≤ fuel) :
    traverse stop cull ⟨triangles, leafTris root, layout root 0 0⟩ origin ray avoidSelf fuel [0] st
      = travList stop cull triangles origin ray avoidSelf [root] st := by
  apply traverse_eq_travList
  · exact ⟨⟨0, embeds_root root⟩, by omega, trivial⟩
  · exact ⟨by simp only [List.length_nil]; omega, trivial⟩
  · simp only [totalBoxes]; omega

theorem CreateCFBVH_ok (root : BVHNode) (junk : Nat → CacheFriendlyBVHNode)
    (junkTri : Nat → Nat) (cf : CFBVH) (h : CreateCFBVH (some root) junk junkTri = .ok cf) :
    height root < BVH_STACK_SIZE ∧
    cf = ⟨CountTriangles root, leafTris root, CountBoxes root, layout root 0 0⟩ := by
  rw [CreateCFBVH_eq, CountDepth_root] at h
  split at h
  · cases h
  · cases h
    exact ⟨by omega, rfl⟩

/-- C7: for every tree with fewer than `2^31` nodes that `CreateCFBVH` accepts, and
every scene, ray, mode and culling choice, no prefix of the traversal pushes beyond
the 32 entries of the stack (the fault of the model that stands for the failure of
`assert(stackIdx<=BVH_STACK_SIZE)` and for a write outside `stack`), and with fuel
for one visit per node the loop ends. -/
theorem C7_stack_bound (root : BVHNode) (junk : Nat → CacheFriendlyBVHNode)
    (junkTri : Nat → Nat) (cf : CFBVH)
    (hcf : CreateCFBVH (some root) junk junkTri = .ok cf) (hsize : CountBoxes root < 2 ^ 31)
    (triangles : List Triangle) (stop cull : Bool) (origin ray : Vector3)
    (avoidSelf : Option Nat) (p : Vector3) (kAB kBC kCA : ℚ) (fuel : Nat) :
    BVH_IntersectTriangles stop cull ⟨triangles, cf._triIndexList, cf._pCFBVH⟩ origin ray
        avoidSelf p kAB kBC kCA fuel ≠ .error .stackOverflow ∧
    (CountBoxes root ≤ fuel →
      BVH_IntersectTriangles stop cull ⟨triangles, cf._triIndexList, cf._pCFBVH⟩ origin ray
        avoidSelf p kAB kBC kCA fuel ≠ .error .outOfFuel) := by
  obtain ⟨hd, rfl⟩ := CreateCFBVH_ok root junk junkTri cf hcf
  simp only [BVH_IntersectTriangles]
  constructor
  · intro h
    have h2 := traverse_mono_le _ _ _ _ _ _ _ (fuel + CountBoxes root) _ _ _ h (by simp)
      (by omega)
    rw [traverse_root _ _ _ _ _ _ _ _ _ hsize hd (by omega)] at h2
    have := travList_error _ _ _ _ _ _ _ _ _ h2
    cases this
  · intro hf h
    rw [traverse_root _ _ _ _ _ _ _ _ _ hsize hd hf] at h
    have := travList_error _ _ _ _ _ _ _ _ _ h
    cases this

theorem smallTree_cf : CreateCFBVH (some smallTree) junk0 junkTri0 = .ok smallCF := by
  rw [CreateCFBVH_eq]
  rfl

/-- C7, at a tree with one inner node and two leaves and a ray along `+z`. -/
theorem C7_stack_bound_witness :
    CreateCFBVH (some smallTree) junk0 junkTri0 = .ok smallCF ∧ CountBoxes smallTree < 2 ^ 31 ∧
    BVH_IntersectTriangles false true ⟨fourTriangles, smallCF._triIndexList, smallCF._pCFBVH⟩
        ⟨0, 0, 0⟩ ⟨0, 0, 1⟩ none ⟨0, 0, 0⟩ 0 0 0 3 ≠ .error .stackOverflow ∧
    (CountBoxes smallTree ≤ 3 →
      BVH_IntersectTriangles false true ⟨fourTriangles, smallCF._triIndexList, smallCF._pCFBVH⟩
        ⟨0, 0, 0⟩ ⟨0, 0, 1⟩ none ⟨0, 0, 0⟩ 0 0 0 3 ≠ .error .outOfFuel) :=
  ⟨smallTree_cf, by decide,
    C7_stack_bound smallTree junk0 junkTri0 smallCF smallTree_cf (by decide) fourTriangles
      false true ⟨0, 0, 0⟩ ⟨0, 0, 1⟩ none ⟨0, 0, 0⟩ 0 0 0 3⟩

/-! ## C9: the empty scene -/

/-- C9 fails on the scalar `CreateBVH`: for the empty triangle list it does not
fail but returns a leaf without triangles whose box is
`(FLT_MAX, FLT_MAX, FLT_MAX)`, `(-FLT_MAX, -FLT_MAX, -FLT_MAX)`, and `CreateCFBVH`
accepts that tree (one node, no index). -/
theorem C9_empty_scene_builds (fuel : Nat) :
    CreateBVH fuel [] = some (.BVHLeaf vecMax vecMin []) ∧
    CreateCFBVH (some (.BVHLeaf vecMax vecMin [])) junk0 junkTri0 =
      .ok ⟨0, [], 1, [⟨vecMax, vecMin, 0x80000000 ||| 0, 0⟩]⟩ := by
  constructor
  · cases fuel <;> rfl
  · rw [CreateCFBVH_eq]
    rfl

/-! ## C6: the threshold of the shadow mode -/

/-- C6 fails on the code: with the origin at `(1/4, 1/4, 0)`, the ray `(0, 0, 1)`
and the light at `(1/4, 1/4, 1)`, the only triangle lies beyond the light, in the
plane `z = 3/2`; the scene is the hierarchy built for that triangle.  The ray hits
it at squared distance `9/4` from the origin, which is not below the squared
distance `1` of the light, yet the shadow query returns `true`, because line 281
measures the distance from the light to the hit point (`1/4`). -/
theorem C6_shadow_beyond_light :
    CreateBVH 1 shadowScene._triangles = some (.BVHLeaf ⟨0, 0, 3 / 2⟩ ⟨1, 1, 3 / 2⟩ [0]) ∧
    CreateCFBVH (some (.BVHLeaf ⟨0, 0, 3 / 2⟩ ⟨1, 1, 3 / 2⟩ [0])) junk0 junkTri0 =
      .ok ⟨1, shadowScene._triIndexList, 1, shadowScene._pCFBVH⟩ ∧
    triangleTest true ⟨1 / 4, 1 / 4, 0⟩ ⟨0, 0, 1⟩ none 0 (flatTriangle 0 0 (3 / 2)) =
      some (⟨1 / 4, 1 / 4, 3 / 2⟩, 1 / 4, 1 / 2, 1 / 4) ∧
    distancesq ⟨1 / 4, 1 / 4, 0⟩ ⟨1 / 4, 1 / 4, 3 / 2⟩ = 9 / 4 ∧
    distancesq ⟨1 / 4, 1 / 4, 0⟩ ⟨1 / 4, 1 / 4, 1⟩ = 1 ∧
    distancesq ⟨1 / 4, 1 / 4, 1⟩ ⟨1 / 4, 1 / 4, 3 / 2⟩ = 1 / 4 ∧
    BVH_IntersectTriangles true true shadowScene ⟨1 / 4, 1 / 4, 0⟩ ⟨0, 0, 1⟩ none
        ⟨1 / 4, 1 / 4, 1⟩ 0 0 0 1 =
      .ok (true, ⟨none, ⟨1 / 4, 1 / 4, 1⟩, 0, 0, 0, 1⟩) := by
  refine ⟨by decide!, ?_, by decide!, by decide!, by decide!, by decide!, by decide!⟩
  rw [CreateCFBVH_eq]
  rfl

/-! ## The box test accepts every ray that passes through the box -/

theorem checkNearAndFar_hit (o r b t s : ℚ) (T : ℚ × ℚ)
    (hb : b ≤ r * s + o) (ht : r * s + o ≤ t) (hs : 0 < s) (h1 : T.1 ≤ s) (h2 : s ≤ T.2) :
    ∃ T1, checkNearAndFar o r b t T = some T1 ∧ T1.1 ≤ s ∧ s ≤ T1.2 := by
  unfold checkNearAndFar
  by_cases hr : r = 0
  · subst hr
    simp only [zero_mul, zero_add] at hb ht
    simp only [if_true, not_lt.mpr hb, if_false, gt_iff_lt, not_lt.mpr ht]
    exact ⟨T, rfl, h1, h2⟩
  · simp only [hr, if_false]
    have key : (if (b - o) / r > (t - o) / r then (t - o) / r else (b - o) / r) ≤ s ∧
        s ≤ (if (b - o) / r > (t - o) / r then (b - o) / r else (t - o) / r) := by
      rcases lt_or_gt_of_ne hr with hneg | hpos
      · have e1 : s ≤ (b - o) / r := by rw [le_div_iff_of_neg hneg]; linarith
        have e2 : (t - o) / r ≤ s := by rw [div_le_iff_of_neg hneg]; linarith
        split_ifs <;> constructor <;> linarith
      · have e1 : (b - o) / r ≤ s := by rw [div_le_iff₀ hpos]; linarith
        have e2 : s ≤ (t - o) / r := by rw [le_div_iff₀ hpos]; linarith
        split_ifs <;> constructor <;> linarith
    obtain ⟨k1, k2⟩ := key
    generalize (if (b - o) / r > (t - o) / r then (t - o) / r else (b - o) / r) = T1s at k1
    generalize (if (b - o) / r > (t - o) / r then (b - o) / r else (t - o) / r) = T2s at k2
    have n1 : (if T1s > T.1 then T1s else T.1) ≤ s := by split_ifs <;> assumption
    have n2 : s ≤ (if T2s < T.2 then T2s else T.2) := by split_ifs <;> assumption
    rw [if_neg (by linarith), if_neg (by linarith)]
    exact ⟨_, rfl, n1, n2⟩

theorem RayIntersectsBox_complete (origin ray b t : Vector3) (w0 w1 : Nat) (s : ℚ)
    (hb : b.le ((ray.scale s).add origin)) (ht : ((ray.scale s).add origin).le t)
    (hs : 0 < s) (hmax : s ≤ FLT_MAX) :
    RayIntersectsBox origin ray ⟨b, t, w0, w1⟩ = true := by
  obtain ⟨bx, by_, bz⟩ := hb
  obtain ⟨tx, ty, tz⟩ := ht
  simp only [Vector3.scale, Vector3.add] at bx by_ bz tx ty tz
  have hF : (0 : ℚ) < FLT_MAX := by norm_num [FLT_MAX]
  obtain ⟨Tx, hx, x1, x2⟩ := checkNearAndFar_hit origin._x ray._x b._x t._x s (-FLT_MAX, FLT_MAX)
    bx tx hs (by simp only; linarith) hmax
  obtain ⟨Ty, hy, y1, y2⟩ := checkNearAndFar_hit origin._y ray._y b._y t._y s Tx by_ ty hs x1 x2
  obtain ⟨Tz, hz, z1, z2⟩ := checkNearAndFar_hit origin._z ray._z b._z t._z s Ty bz tz hs y1 y2
  simp only [RayIntersectsBox, hx, hy, hz]

/-! ## The per-triangle test -/

theorem triangleTest_some (cull : Bool) (origin ray : Vector3) (avoidSelf : Option Nat)
    (idx : Nat) (tri : Triangle) (hit : Vector3) (k1 k2 k3 : ℚ)
    (h : triangleTest cull origin ray avoidSelf idx tri = some (hit, k1, k2, k3)) :
    ∃ s, 0 < s ∧ hit = (ray.scale s).add origin ∧ dot tri._normal hit = tri._d ∧
      k1 = dot tri._e1 hit - tri._d1 ∧ k2 = dot tri._e2 hit - tri._d2 ∧
      k3 = dot tri._e3 hit - tri._d3 ∧ 0 ≤ k1 ∧ 0 ≤ k2 ∧ 0 ≤ k3 := by
  unfold triangleTest at h
  simp only at h
  split_ifs at h with c1 c2 c3 c4 c5 c6 c7 c8
  simp only [Option.some.injEq, Prod.mk.injEq] at h
  obtain ⟨rfl, rfl, rfl, rfl⟩ := h
  refine ⟨(tri._d - dot tri._normal origin) / dot tri._normal ray, by linarith, rfl, ?_, rfl, rfl,
    rfl, by linarith, by linarith, by linarith⟩
  simp only [dot, Vector3.scale, Vector3.add] at c3 ⊢
  field_simp
  ring

theorem distancesq_hit (origin ray : Vector3) (s : ℚ) :
    distancesq origin ((ray.scale s).add origin) = s * s * dot ray ray := by
  simp only [distancesq, dot, Vector3.scale, Vector3.add]
  ring

theorem param_le_max (ray : Vector3) (s : ℚ) (hs : 0 < s) (hray : 1 ≤ FLT_MAX * dot ray ray)
    (hd : s * s * dot ray ray < FLT_MAX) : s ≤ FLT_MAX := by
  have hF : (0 : ℚ) < FLT_MAX := by norm_num [FLT_MAX]
  by_contra hc
  push_neg at hc
  have h1 : FLT_MAX * FLT_MAX < s * s := by nlinarith
  have h2 : 0 ≤ dot ray ray := by
    simp only [dot]; nlinarith [sq_nonneg ray._x, sq_nonneg ray._y, sq_nonneg ray._z]
  nlinarith

/-! ## Normal mode: the traversal against the linear scan -/

theorem triangleStep_normal (cull : Bool) (triangles : List Triangle) (origin ray : Vector3)
    (avoidSelf : Option Nat) (ti : Nat) (tri : Triangle) (st : RayState)
    (h : triangles[ti]? = some tri) :
    triangleStep false cull origin ray avoidSelf ti tri st =
      .next (scanStep cull triangles origin ray avoidSelf st ti) := by
  simp only [triangleStep, scanStep, h]
  cases triangleTest cull origin ray avoidSelf ti tri with
  | none => rfl
  | some x =>
    obtain ⟨hit, k1, k2, k3⟩ := x
    simp only [Bool.false_eq_true, if_false]
    split <;> rfl

theorem leafFold_normal (cull : Bool) (triangles : List Triangle) (origin ray : Vector3)
    (avoidSelf : Option Nat) (ts : List Nat) (st : RayState)
    (h : ∀ ti ∈ ts, ti < triangles.length) :
    leafFold false cull triangles origin ray avoidSelf ts st =
      .ok (.next (ts.foldl (scanStep cull triangles origin ray avoidSelf) st)) := by
  induction ts generalizing st with
  | nil => rfl
  | cons ti rest ih =>
    have hti := h ti (List.mem_cons_self _ _)
    have hget := List.getElem?_eq_getElem hti
    simp only [leafFold, hget, List.foldl_cons,
      triangleStep_normal cull triangles origin ray avoidSelf ti _ st hget]
    exact ih _ (fun x hx => h x (List.mem_cons_of_mem _ hx))

theorem scanStep_dist (cull : Bool) (triangles : List Triangle) (origin ray : Vector3)
    (avoidSelf : Option Nat) (st : RayState) (ti : Nat) :
    (scanStep cull triangles origin ray avoidSelf st ti).bestTriDist ≤ st.bestTriDist := by
  unfold scanStep
  split
  · exact le_refl _
  · split
    · exact le_refl _
    · split
      · rename_i h; exact le_of_lt h
      · exact le_refl _

theorem scanFold_dist (cull : Bool) (triangles : List Triangle) (origin ray : Vector3)
    (avoidSelf : Option Nat) (ts : List Nat) (st : RayState) :
    (ts.foldl (scanStep cull triangles origin ray avoidSelf) st).bestTriDist ≤ st.bestTriDist := by
  induction ts generalizing st with
  | nil => exact le_refl _
  | cons ti rest ih =>
    simp only [List.foldl_cons]
    exact le_trans (ih _) (scanStep_dist _ _ _ _ _ _ _)

theorem scanStep_pruned (cull : Bool) (triangles : List Triangle) (origin ray : Vector3)
    (avoidSelf : Option Nat) (st : RayState) (j : Nat) (b t : Vector3)
    (hacc : ∀ tri ∈ triangles, AcceptsInsideBox tri)
    (hbox : b.le (boxOfTriangle triangles j).1 ∧ (boxOfTriangle triangles j).2.le t)
    (hmiss : RayIntersectsBox origin ray ⟨b, t, 0, 0⟩ = false)
    (hst : st.bestTriDist ≤ FLT_MAX) (hray : 1 ≤ FLT_MAX * dot ray ray) :
    scanStep cull triangles origin ray avoidSelf st j = st := by
  unfold scanStep
  cases hj : triangles[j]? with
  | none => rfl
  | some tri =>
    simp only
    cases htest : triangleTest cull origin ray avoidSelf j tri with
    | none => rfl
    | some x =>
      obtain ⟨hit, k1, k2, k3⟩ := x
      simp only
      split
      · rename_i hlt
        exfalso
        obtain ⟨s, hs, rfl, hplane, rfl, rfl, rfl, g1, g2, g3⟩ :=
          triangleTest_some _ _ _ _ _ _ _ _ _ _ htest
        obtain ⟨i1, i2⟩ := hacc tri (List.getElem?_mem hj) _ hplane g1 g2 g3
        simp only [boxOfTriangle, hj] at hbox
        rw [distancesq_hit] at hlt
        have hmax := param_le_max ray s hs hray (lt_of_lt_of_le hlt hst)
        have := RayIntersectsBox_complete origin ray b t 0 0 s (le_trans3 hbox.1 i1)
          (le_trans3 i2 hbox.2) hs hmax
        rw [this] at hmiss
        cases hmiss
      · rfl

theorem foldl_fixed {α β : Type} (f : α → β → α) (a : α) (l : List β)
    (h : ∀ x ∈ l, f a x = a) : l.foldl f a = a := by
  induction l with
  | nil => rfl
  | cons x xs ih =>
    simp only [List.foldl_cons, h x (List.mem_cons_self _ _)]
    exact ih (fun y hy => h y (List.mem_cons_of_mem _ hy))

theorem travTree_normal (cull : Bool) (triangles : List Triangle) (origin ray : Vector3)
    (avoidSelf : Option Nat) (t : BVHNode) (st : RayState)
    (hcont : BoxesContain (boxOfTriangle triangles) t)
    (hidx : ∀ j ∈ leafTris t, j < triangles.length) (hleaf : maxLeafCount t < 2 ^ 31)
    (hacc : ∀ tri ∈ triangles, AcceptsInsideBox tri)
    (hray : 1 ≤ FLT_MAX * dot ray ray) (hst : st.bestTriDist ≤ FLT_MAX) :
    travTree false cull triangles origin ray avoidSelf t st =
      .ok (.next ((leafTris t).foldl (scanStep cull triangles origin ray avoidSelf) st)) := by
  induction t generalizing st with
  | BVHLeaf b t ts =>
    simp only [maxLeafCount] at hleaf
    simp only [travTree, leafTris, Nat.mod_eq_of_lt hleaf, List.take_length]
    exact leafFold_normal _ _ _ _ _ _ _ hidx
  | BVHInner b t l r ihl ihr =>
    simp only [maxLeafCount] at hleaf
    simp only [leafTris] at hidx
    obtain ⟨hroot, hl, hr⟩ := hcont
    simp only [travTree, leafTris]
    by_cases hhit : RayIntersectsBox origin ray ⟨b, t, 0, 0⟩ = true
    · simp only [hhit, if_true]
      rw [ihl st hl (fun j hj => hidx j (List.mem_append_left _ hj))
        (lt_of_le_of_lt (le_max_left _ _) hleaf) hst]
      simp only
      rw [ihr _ hr (fun j hj => hidx j (List.mem_append_right _ hj))
        (lt_of_le_of_lt (le_max_right _ _) hleaf) (le_trans (scanFold_dist _ _ _ _ _ _ _) hst)]
      rw [List.foldl_append]
    · simp only [hhit, Bool.false_eq_true, if_false]
      rw [foldl_fixed]
      intro j hj
      exact scanStep_pruned cull triangles origin ray avoidSelf st j b t hacc (hroot j hj)
        (by simpa using hhit) hst hray

/-- C5: in exact arithmetic, for every non-empty list of fewer than `2^31`
triangles (the range of the `int` counters) that accept only points of their own
box, for the hierarchy that `CreateBVH` and `CreateCFBVH` build of it, and for
every ray whose squared length is at least `1/FLT_MAX` (every ray that is passed
is normalised, so its squared length is 1; the bound keeps the ray parameter `s`
of a recorded hit within the range of `coord`), the normal-mode traversal returns
the hit flag, the triangle, the hit point and the edge distances of the linear
scan over the triangle index list. -/
theorem C5_traversal_matches_scan (triangles : List Triangle) (hne : triangles ≠ [])
    (hN : triangles.length < 2 ^ 31) (hacc : ∀ tri ∈ triangles, AcceptsInsideBox tri)
    (junk : Nat → CacheFriendlyBVHNode) (junkTri : Nat → Nat)
    (cull : Bool) (origin ray : Vector3) (hray : 1 ≤ FLT_MAX * dot ray ray)
    (avoidSelf : Option Nat) (p : Vector3) (kAB kBC kCA : ℚ) :
    ∃ root, (∀ fuel, 1023 + triangles.length ≤ fuel → CreateBVH fuel triangles = some root) ∧
      ∀ cf, CreateCFBVH (some root) junk junkTri = .ok cf →
        ∀ fuel, CountBoxes root ≤ fuel →
          BVH_IntersectTriangles false cull ⟨triangles, cf._triIndexList, cf._pCFBVH⟩
              origin ray avoidSelf p kAB kBC kCA fuel =
            .ok (scanAll cull triangles cf._triIndexList origin ray avoidSelf p kAB kBC kCA) := by
  obtain ⟨t, ht, hc⟩ := CreateBVH_total triangles
  have hR := ht _ (le_refl _)
  have hcont := Recurse_contain (boxOfTriangle triangles) _ _ _ _ (gatherWork_boxOf triangles) hR
  have hperm := Recurse_perm _ _ _ _ hR
  rw [gatherWork_pTri] at hperm
  obtain ⟨c1, c2, c3⟩ := Recurse_count _ _ _ _ hR
  rw [gatherWork_length] at c1 c2 c3
  have hlen : 1 ≤ triangles.length := List.length_pos.mpr hne
  generalize hroot : t.setBox (boxBottom (gatherWork triangles)) (boxTop (gatherWork triangles))
    = root at hc hcont
  have hcb : CountBoxes root ≤ triangles.length := by
    rw [← hroot, CountBoxes_setBox]
    by_cases h2 : triangles.length < 2
    · rw [c1 h2]; exact hlen
    · have := c2 (by omega); omega
  have hml : maxLeafCount root ≤ triangles.length := by
    rw [← hroot, maxLeafCount_setBox]; exact c3
  have hlt : ∀ j ∈ leafTris root, j < triangles.length := by
    intro j hj
    rw [← hroot, leafTris_setBox] at hj
    exact List.mem_range.mp (hperm.mem_iff.mp hj)
  refine ⟨root, hc, ?_⟩
  intro cf hcf fuel hf
  obtain ⟨hd, rfl⟩ := CreateCFBVH_ok root junk junkTri cf hcf
  simp only [BVH_IntersectTriangles, Bool.false_eq_true, if_false]
  rw [traverse_root _ _ _ _ _ _ _ _ _ (by omega) hd hf]
  simp only [travList]
  rw [travTree_normal cull triangles origin ray avoidSelf root _ hcont hlt (by omega) hacc hray
    (le_refl _)]
  simp only [scanAll, Bool.false_eq_true, if_false]

theorem flatTriangle_accepts (x0 y0 c : ℚ) : AcceptsInsideBox (flatTriangle x0 y0 c) := by
  intro p hp h1 h2 h3
  simp only [flatTriangle, dot] at hp h1 h2 h3
  simp only [triBottom, triTop, flatTriangle, Vector3.le, Vector3.assignSmaller,
    Vector3.assignBigger]
  have hx1 : x0 ≤ p._x := by linarith
  have hy1 : y0 ≤ p._y := by linarith
  have hx2 : p._x ≤ x0 + 1 := by linarith
  have hy2 : p._y ≤ y0 + 1 := by linarith
  have hz : p._z = c := by linarith
  refine ⟨⟨?_, ?_, ?_⟩, ⟨?_, ?_, ?_⟩⟩
  · exact le_trans (min_le_right _ _) hx1
  · exact le_trans (min_le_left _ _) (le_trans (min_le_right _ _) hy1)
  · exact le_trans (min_le_right _ _) (le_of_eq hz.symm)
  · exact le_trans hx2 (le_trans (le_max_right _ _) (le_max_left _ _))
  · exact le_trans hy2 (le_max_right _ _)
  · exact le_trans (le_of_eq hz) (le_max_right _ _)

theorem fourTriangles_accept : ∀ tri ∈ fourTriangles, AcceptsInsideBox tri := by
  intro tri htri
  simp only [fourTriangles, List.mem_cons, List.mem_singleton, List.not_mem_nil, or_false] at htri
  rcases htri with rfl | rfl | rfl | rfl <;> exact flatTriangle_accepts _ _ _

/-- C5, at a list of four triangles and the unit ray along `+z`. -/
theorem C5_traversal_matches_scan_witness :
    fourTriangles ≠ [] ∧ fourTriangles.length < 2 ^ 31 ∧
    (∀ tri ∈ fourTriangles, AcceptsInsideBox tri) ∧
    1 ≤ FLT_MAX * dot ⟨0, 0, 1⟩ ⟨0, 0, 1⟩ ∧
    ∃ root, (∀ fuel, 1023 + fourTriangles.length ≤ fuel →
        CreateBVH fuel fourTriangles = some root) ∧
      ∀ cf, CreateCFBVH (some root) junk0 junkTri0 = .ok cf →
        ∀ fuel, CountBoxes root ≤ fuel →
          BVH_IntersectTriangles false true ⟨fourTriangles, cf._triIndexList, cf._pCFBVH⟩
              ⟨1 / 4, 1 / 4, 0⟩ ⟨0, 0, 1⟩ none ⟨0, 0, 0⟩ 0 0 0 fuel =
            .ok (scanAll true fourTriangles cf._triIndexList ⟨1 / 4, 1 / 4, 0⟩ ⟨0, 0, 1⟩ none
              ⟨0, 0, 0⟩ 0 0 0) :=
  ⟨by simp [fourTriangles], by simp [fourTriangles], fourTriangles_accept,
    by norm_num [FLT_MAX, dot],
    C5_traversal_matches_scan fourTriangles (by simp [fourTriangles]) (by simp [fourTriangles])
      fourTriangles_accept junk0 junkTri0 true ⟨1 / 4, 1 / 4, 0⟩ ⟨0, 0, 1⟩
      (by norm_num [FLT_MAX, dot]) none ⟨0, 0, 0⟩ 0 0 0⟩

/-! ## C11: the counters and the arrays after the compaction -/

theorem leafCountSum_append (xs ys : List CacheFriendlyBVHNode) :
    leafCountSum (xs ++ ys) = leafCountSum xs + leafCountSum ys := by
  induction xs with
  | nil => simp [leafCountSum]
  | cons x xs ih =>
    show _ + leafCountSum (xs ++ ys) = _ + leafCountSum xs + _
    rw [ih]; omega

theorem leafCountSum_layout (t : BVHNode) (i off : Nat)
    (hn : i + CountBoxes t ≤ 2 ^ 31) (hc : maxLeafCount t < 2 ^ 31) :
    leafCountSum (layout t i off) = CountTriangles t := by
  induction t generalizing i off with
  | BVHInner b t l r ihl ihr =>
    simp only [CountBoxes] at hn
    simp only [maxLeafCount, max_lt_iff] at hc
    have hl := CountBoxes_pos l
    have hr := CountBoxes_pos r
    simp only [layout, leafCountSum, leafCountSum_append, CountTriangles,
      leafBit_inner b t (i + 1) _ (by omega), Bool.false_eq_true, if_false,
      ihl (i + 1) off (by omega) hc.1,
      ihr (i + 1 + CountBoxes l) (off + CountTriangles l) (by omega) hc.2]
    omega
  | BVHLeaf b t ts =>
    simp only [maxLeafCount] at hc
    simp only [layout, leafCountSum, leafBit_leaf, if_true, CountTriangles,
      CacheFriendlyBVHNode.count, tag_and_low _ hc]
    omega

/-- C11: for every tree, whatever the two freshly allocated arrays hold,
`PopulateCacheFriendlyBVH` run from the counters (0, 0) succeeds and ends with the
node counter at `CountBoxes - 1` and the triangle counter at `CountTriangles`; the
two arrays have these sizes and every slot of them has been written (they are the
pre-order layout of the tree and the list of the triangles of its leaves, with
nothing left of the initial contents); when the node count and the leaf sizes stay
below `2^31`, the triangle counts of the leaf records add up to the length of the
index list; and `CreateCFBVH` takes neither its internal-consistency abort nor an
out-of-bounds write. -/
theorem C11_populate_postcondition (root : BVHNode) (junk : Nat → CacheFriendlyBVHNode)
    (junkTri : Nat → Nat) :
    (∃ st, compactArrays root junk junkTri = some st ∧
      st.idxBoxes = CountBoxes root - 1 ∧ st.idxTriList = CountTriangles root ∧
      st._pCFBVH.length = CountBoxes root ∧ st._triIndexList.length = CountTriangles root ∧
      st._pCFBVH = layout root 0 0 ∧ st._triIndexList = leafTris root ∧
      (CountBoxes root < 2 ^ 31 → maxLeafCount root < 2 ^ 31 →
        leafCountSum st._pCFBVH = st._triIndexList.length)) ∧
    CreateCFBVH (some root) junk junkTri ≠ .error .internalBug ∧
    CreateCFBVH (some root) junk junkTri ≠ .error .outOfBounds := by
  refine ⟨⟨_, compactArrays_eq root junk junkTri, rfl, rfl, layout_length root 0 0,
    leafTris_length root, rfl, rfl, ?_⟩, ?_, ?_⟩
  · intro hn hc
    simp only [leafTris_length]
    exact leafCountSum_layout root 0 0 (by omega) hc
  · rw [CreateCFBVH_eq]; split <;> simp
  · rw [CreateCFBVH_eq]; split <;> simp

/-! ## C12: the triangle to avoid -/

theorem triangleStep_self (stop cull : Bool) (origin ray : Vector3) (a : Nat)
    (triangle : Triangle) (st : RayState) :
    triangleStep stop cull origin ray (some a) a triangle st = .next st := by
  simp [triangleStep, triangleTest]

theorem triangleStep_other (stop cull : Bool) (origin ray : Vector3) (a ti : Nat)
    (triangle : Triangle) (st : RayState) (h : ti ≠ a) :
    triangleStep stop cull origin ray (some a) ti triangle st =
      triangleStep stop cull origin ray none ti triangle st := by
  have h1 : ¬ (some a = some ti) := fun e => h (Option.some.inj e).symm
  simp only [triangleStep, triangleTest, h1, if_false, reduceCtorEq]

theorem leafLoop_skipping (stop cull : Bool) (scene : Scene) (origin ray : Vector3) (a : Nat)
    (ha : a < scene._triangles.length) (n i : Nat) (st : RayState) :
    leafLoop stop cull scene origin ray (some a) n i st =
      leafLoopSkipping stop cull scene origin ray a n i st := by
  induction n generalizing i st with
  | zero => rfl
  | succ n ih =>
    rw [leafLoop, leafLoopSkipping]
    cases scene._triIndexList[i]? with
    | none => rfl
    | some ti =>
      simp only
      by_cases hti : ti = a
      · subst hti
        rw [if_pos rfl, List.getElem?_eq_getElem ha]
        simp only [triangleStep_self]
        exact ih _ _
      · rw [if_neg hti]
        cases scene._triangles[ti]? with
        | none => rfl
        | some triangle =>
          simp only [triangleStep_other stop cull origin ray a ti triangle st hti]
          cases triangleStep stop cull origin ray none ti triangle st with
          | returnTrue s => rfl
          | next s => exact ih _ _

theorem traverse_skipping (stop cull : Bool) (scene : Scene) (origin ray : Vector3) (a : Nat)
    (ha : a < scene._triangles.length) (fuel : Nat) (is : List Nat) (st : RayState) :
    traverse stop cull scene origin ray (some a) fuel is st =
      traverseSkipping stop cull scene origin ray a fuel is st := by
  induction fuel generalizing is st with
  | zero =>
    cases is with
    | nil => simp [traverse, traverseSkipping]
    | cons i is => simp [traverse, traverseSkipping]
  | succ f ih =>
    cases is with
    | nil => simp [traverse, traverseSkipping]
    | cons i is =>
      rw [traverse, traverseSkipping]
      simp only [ih, leafLoop_skipping stop cull scene origin ray a ha]

/-- The loop of a leaf that skips the entries of triangle `a` never makes `a` the
best triangle. -/
theorem leafLoopSkipping_best (stop cull : Bool) (scene : Scene) (origin ray : Vector3)
    (a n i : Nat) (st : RayState) (h : st.pBestTri ≠ some a) (fl : Flow)
    (hr : leafLoopSkipping stop cull scene origin ray a n i st = .ok fl) :
    ∀ s, fl = .next s ∨ fl = .returnTrue s → s.pBestTri ≠ some a := by
  induction n generalizing i st with
  | zero =>
    simp only [leafLoopSkipping, Except.ok.injEq] at hr
    subst hr
    intro s hs
    rcases hs with hs | hs
    · cases hs; exact h
    · cases hs
  | succ n ih =>
    rw [leafLoopSkipping] at hr
    cases hti : scene._triIndexList[i]? with
    | none => rw [hti] at hr; cases hr
    | some ti =>
      rw [hti] at hr
      simp only at hr
      by_cases e : ti = a
      · rw [if_pos e] at hr
        exact ih _ _ h hr
      · rw [if_neg e] at hr
        cases htr : scene._triangles[ti]? with
        | none => rw [htr] at hr; cases hr
        | some triangle =>
          rw [htr] at hr
          simp only at hr
          have key : ∀ fl1, triangleStep stop cull origin ray none ti triangle st = fl1 →
              ∀ s, fl1 = .next s ∨ fl1 = .returnTrue s → s.pBestTri ≠ some a := by
            intro fl1 h1 s hs
            unfold triangleStep at h1
            cases htt : triangleTest cull origin ray none ti triangle with
            | none =>
              rw [htt] at h1
              simp only at h1; subst h1
              rcases hs with hs | hs
              · cases hs; exact h
              · cases hs
            | some v =>
              obtain ⟨hit, k1, k2, k3⟩ := v
              rw [htt] at h1
              simp only at h1
              split_ifs at h1 <;> subst h1 <;> rcases hs with hs | hs <;> cases hs
              · exact h
              · exact h
              · exact fun e1 => e (Option.some.inj e1)
              · exact h
          cases hstep : triangleStep stop cull origin ray none ti triangle st with
          | returnTrue s1 =>
            rw [hstep] at hr
            simp only [Except.ok.injEq] at hr
            subst hr
            exact key _ hstep
          | next s1 =>
            rw [hstep] at hr
            exact ih _ _ (key _ hstep s1 (Or.inl rfl)) hr

theorem traverseSkipping_best (stop cull : Bool) (scene : Scene) (origin ray : Vector3)
    (a fuel : Nat) (is : List Nat) (st : RayState) (h : st.pBestTri ≠ some a)
    (r : Bool × RayState)
    (hr : traverseSkipping stop cull scene origin ray a fuel is st = .ok r) :
    r.2.pBestTri ≠ some a := by
  induction fuel generalizing is st with
  | zero =>
    cases is with
    | nil =>
      simp only [traverseSkipping, Except.ok.injEq] at hr
      subst hr; exact h
    | cons i is => simp [traverseSkipping] at hr
  | succ f ih =>
    cases is with
    | nil =>
      simp only [traverseSkipping, Except.ok.injEq] at hr
      subst hr; exact h
    | cons i is =>
      rw [traverseSkipping] at hr
      cases hA : scene._pCFBVH[i]? with
      | none => rw [hA] at hr; cases hr
      | some n =>
        rw [hA] at hr
        simp only at hr
        split_ifs at hr with hb hhit hov
        · exact ih _ _ h hr
        · exact ih _ _ h hr
        · cases hl : leafLoopSkipping stop cull scene origin ray a
              (n.count &&& 0x7fffffff) n.startIndexInTriIndexList st with
          | error e => rw [hl] at hr; cases hr
          | ok fl =>
            rw [hl] at hr
            have hb := leafLoopSkipping_best stop cull scene origin ray a _ _ st h fl hl
            cases fl with
            | returnTrue s =>
              simp only [Except.ok.injEq] at hr
              subst hr; exact hb s (Or.inr rfl)
            | next s => exact ih _ _ (hb s (Or.inl rfl)) hr

/-- The loop that skips the entries of triangle `a` does not read the data of
triangle `a`. -/
theorem leafLoopSkipping_set (stop cull : Bool) (scene : Scene) (origin ray : Vector3)
    (a : Nat) (x : Triangle) (n i : Nat) (st : RayState) :
    leafLoopSkipping stop cull
        ⟨scene._triangles.set a x, scene._triIndexList, scene._pCFBVH⟩ origin ray a n i st =
      leafLoopSkipping stop cull scene origin ray a n i st := by
  induction n generalizing i st with
  | zero => rfl
  | succ n ih =>
    rw [leafLoopSkipping, leafLoopSkipping]
    simp only
    cases scene._triIndexList[i]? with
    | none => rfl
    | some ti =>
      simp only
      by_cases hti : ti = a
      · rw [if_pos hti, if_pos hti]
        exact ih _ _
      · rw [if_neg hti, if_neg hti, List.getElem?_set_ne (fun e => hti e.symm)]
        cases scene._triangles[ti]? with
        | none => rfl
        | some triangle =>
          simp only
          cases triangleStep stop cull origin ray none ti triangle st with
          | returnTrue s => rfl
          | next s => exact ih _ _

theorem traverseSkipping_set (stop cull : Bool) (scene : Scene) (origin ray : Vector3)
    (a : Nat) (x : Triangle) (fuel : Nat) (is : List Nat) (st : RayState) :
    traverseSkipping stop cull
        ⟨scene._triangles.set a x, scene._triIndexList, scene._pCFBVH⟩ origin ray a fuel is st =
      traverseSkipping stop cull scene origin ray a fuel is st := by
  induction fuel generalizing is st with
  | zero =>
    cases is with
    | nil => simp [traverseSkipping]
    | cons i is => simp [traverseSkipping]
  | succ f ih =>
    cases is with
    | nil => simp [traverseSkipping]
    | cons i is =>
      rw [traverseSkipping, traverseSkipping]
      simp only [ih, leafLoopSkipping_set]

/-- C12: for every compacted hierarchy, ray, mode and culling choice, and every
triangle `a` of the scene passed as `avoidSelf`, the query is the query without a
triangle to avoid run with every entry of the index list that refers to `a`
skipped; the triangle `a` is never the reported hit; and the answer (the shadow
flag included) does not depend on the data of triangle `a`. -/
theorem C12_avoid_self (stop cull : Bool) (scene : Scene) (origin ray : Vector3) (a : Nat)
    (ha : a < scene._triangles.length) (pointHitInWorldSpace : Vector3) (kAB kBC kCA : ℚ)
    (fuel : Nat) :
    BVH_IntersectTriangles stop cull scene origin ray (some a) pointHitInWorldSpace
        kAB kBC kCA fuel =
      intersectSkipping stop cull scene origin ray a pointHitInWorldSpace kAB kBC kCA fuel ∧
    (∀ r, BVH_IntersectTriangles stop cull scene origin ray (some a) pointHitInWorldSpace
        kAB kBC kCA fuel = .ok r → r.2.pBestTri ≠ some a) ∧
    (∀ x : Triangle,
      BVH_IntersectTriangles stop cull
          ⟨scene._triangles.set a x, scene._triIndexList, scene._pCFBVH⟩ origin ray (some a)
          pointHitInWorldSpace kAB kBC kCA fuel =
        BVH_IntersectTriangles stop cull scene origin ray (some a) pointHitInWorldSpace
          kAB kBC kCA fuel) := by
  have e : ∀ sc : Scene, a < sc._triangles.length →
      BVH_IntersectTriangles stop cull sc origin ray (some a) pointHitInWorldSpace
        kAB kBC kCA fuel =
      intersectSkipping stop cull sc origin ray a pointHitInWorldSpace kAB kBC kCA fuel := by
    intro sc hsc
    unfold BVH_IntersectTriangles intersectSkipping
    exact traverse_skipping stop cull sc origin ray a hsc fuel _ _
  refine ⟨e scene ha, ?_, ?_⟩
  · intro r hr
    rw [e scene ha] at hr
    unfold intersectSkipping at hr
    exact traverseSkipping_best stop cull scene origin ray a fuel _ _ (by simp) r hr
  · intro x
    rw [e scene ha, e _ (by simpa using ha)]
    unfold intersectSkipping
    exact traverseSkipping_set stop cull scene origin ray a x fuel _ _

theorem C12_avoid_self_witness :
    0 < shadowScene._triangles.length ∧
    BVH_IntersectTriangles true false shadowScene ⟨1 / 4, 1 / 4, 0⟩ ⟨0, 0, 3⟩ (some 0)
        ⟨1 / 4, 1 / 4, 3⟩ 0 0 0 1 =
      intersectSkipping true false shadowScene ⟨1 / 4, 1 / 4, 0⟩ ⟨0, 0, 3⟩ 0
        ⟨1 / 4, 1 / 4, 3⟩ 0 0 0 1 ∧
    (∀ r, BVH_IntersectTriangles true false shadowScene ⟨1 / 4, 1 / 4, 0⟩ ⟨0, 0, 3⟩ (some 0)
        ⟨1 / 4, 1 / 4, 3⟩ 0 0 0 1 = .ok r → r.2.pBestTri ≠ some 0) ∧
    (∀ x : Triangle,
      BVH_IntersectTriangles true false
          ⟨shadowScene._triangles.set 0 x, shadowScene._triIndexList, shadowScene._pCFBVH⟩
          ⟨1 / 4, 1 / 4, 0⟩ ⟨0, 0, 3⟩ (some 0) ⟨1 / 4, 1 / 4, 3⟩ 0 0 0 1 =
        BVH_IntersectTriangles true false shadowScene ⟨1 / 4, 1 / 4, 0⟩ ⟨0, 0, 3⟩ (some 0)
          ⟨1 / 4, 1 / 4, 3⟩ 0 0 0 1) :=
  ⟨by decide, C12_avoid_self true false shadowScene ⟨1 / 4, 1 / 4, 0⟩ ⟨0, 0, 3⟩ 0 (by decide)
    ⟨1 / 4, 1 / 4, 3⟩ 0 0 0 1⟩

/-! ## C13: the cache file read back -/

theorem flatMap_length_const {α : Type} (enc : α → List Nat) (size : Nat) (xs : List α)
    (h : ∀ x ∈ xs, (enc x).length = size) : (xs.flatMap enc).length = size * xs.length := by
  induction xs with
  | nil => simp
  | cons x xs ih =>
    simp only [List.flatMap_cons, List.length_append, List.length_cons]
    rw [h x (List.mem_cons_self _ _), ih (fun y hy => h y (List.mem_cons_of_mem _ hy))]
    ring

theorem readItems_flatMap {α : Type} (enc : α → List Nat) (dec : List Nat → α) (size : Nat)
    (xs : List α) (rest : List Nat)
    (h : ∀ x ∈ xs, (enc x).length = size ∧ dec (enc x) = x) :
    readItems dec size xs.length (xs.flatMap enc ++ rest) = xs := by
  induction xs with
  | nil => rfl
  | cons x xs ih =>
    obtain ⟨h1, h2⟩ := h x (List.mem_cons_self _ _)
    simp only [List.flatMap_cons, List.length_cons, readItems, List.append_assoc]
    rw [List.take_left' h1, List.drop_left' h1, h2,
      ih (fun y hy => h y (List.mem_cons_of_mem _ hy))]

theorem fread_append (size count : Nat) (a rest : List Nat) (ha : a.length = size * count)
    (hs : 0 < size) : fread size count (a ++ rest) = (count, a, rest) := by
  unfold fread
  rw [List.take_left' ha, List.drop_left' ha]
  have : count ≤ (a ++ rest).length / size := by
    rw [Nat.le_div_iff_mul_le hs, List.length_append, ha, Nat.mul_comm]
    omega
  rw [Nat.min_eq_left this]

theorem fwrite_all (bytes : List Nat) (size count : Nat) (fs : Files)
    (hb : bytes.length = size * count) (hs : 0 < size) (hroom : bytes.length ≤ fs.room) :
    fwrite bytes size fs =
      (count, { fs with cache := some (fs.cache.getD [] ++ bytes),
                        room := fs.room - bytes.length }) := by
  unfold fwrite
  simp only [List.take_of_length_le hroom, hb, Nat.mul_div_cancel_left count hs]

theorem storeCache_full (L : Layout) (cf : CFBVH) (fs : Files) (hF : L.Faithful cf)
    (hn : cf._pCFBVH.length = cf._pCFBVH_No) (hm : cf._triIndexList.length = cf._triIndexListNo)
    (hw : fs.writable = true) (hroom : (cacheImage L cf).length ≤ fs.room) :
    storeCache L cf fs =
      { fs with cache := some (cacheImage L cf),
                room := fs.room - (cacheImage L cf).length } := by
  obtain ⟨hsU, hsN, hsI, hU, hN, hI⟩ := hF
  have l1 : (L.unsignedBytes cf._pCFBVH_No).length = L.unsignedSize * 1 := by
    rw [(hU _ (by simp)).1, Nat.mul_one]
  have l2 : (L.unsignedBytes cf._triIndexListNo).length = L.unsignedSize * 1 := by
    rw [(hU _ (by simp)).1, Nat.mul_one]
  have l3 : ((cf._pCFBVH.take cf._pCFBVH_No).flatMap L.nodeBytes).length =
      L.nodeSize * cf._pCFBVH_No := by
    rw [List.take_of_length_le (by omega), flatMap_length_const _ _ _ (fun x hx => (hN x hx).1), hn]
  have l4 : ((cf._triIndexList.take cf._triIndexListNo).flatMap L.intBytes).length =
      L.intSize * cf._triIndexListNo := by
    rw [List.take_of_length_le (by omega), flatMap_length_const _ _ _ (fun x hx => (hI x hx).1), hm]
  have t3 : cf._pCFBVH.take cf._pCFBVH_No = cf._pCFBVH := List.take_of_length_le (by omega)
  have t4 : cf._triIndexList.take cf._triIndexListNo = cf._triIndexList :=
    List.take_of_length_le (by omega)
  have hlen : (cacheImage L cf).length =
      (L.unsignedBytes cf._pCFBVH_No).length + ((L.unsignedBytes cf._triIndexListNo).length +
        (((cf._pCFBVH.take cf._pCFBVH_No).flatMap L.nodeBytes).length +
          ((cf._triIndexList.take cf._triIndexListNo).flatMap L.intBytes).length)) := by
    simp only [cacheImage, List.length_append, t3, t4]
  unfold storeCache Files.fopenWrite
  simp only [hw, if_true]
  rw [fwrite_all _ _ 1 _ l1 hsU (by simp only; omega)]
  simp only [ne_eq, not_true_eq_false, if_false]
  rw [fwrite_all _ _ 1 _ l2 hsU (by simp only; omega)]
  simp only [ne_eq, not_true_eq_false, if_false]
  rw [fwrite_all _ _ cf._pCFBVH_No _ l3 hsN (by simp only; omega)]
  simp only [ne_eq, not_true_eq_false, if_false]
  rw [fwrite_all _ _ cf._triIndexListNo _ l4 hsI (by simp only; omega)]
  simp only [ne_eq, not_true_eq_false, if_false, ite_self, Files.fclose, Option.getD_some,
    List.nil_append, t3, t4, Nat.add_sub_cancel]
  congr 1
  · simp only [cacheImage, List.append_assoc]
  · rw [hlen, t3, t4]; omega

/-- The load path on a cache file that holds the image of a compacted hierarchy. -/
theorem load_image (L : Layout) (memory : Nat) (junk : Nat → CacheFriendlyBVHNode) (junkTri : Nat → Nat)
    (fuel : Nat) (recurse : SceneState → Files → Except UpdateError (SceneState × Files))
    (cf : CFBVH) (st : SceneState) (fs : Files) (hF : L.Faithful cf)
    (hn : cf._pCFBVH.length = cf._pCFBVH_No) (hm : cf._triIndexList.length = cf._triIndexListNo)
    (hmem : cf._pCFBVH_No * L.nodeSize + cf._triIndexListNo * L.intSize ≤ memory)
    (hnull : st._pCFBVH = none) (hfile : fs.cache = some (cacheImage L cf)) :
    updateBody L memory junk junkTri fuel recurse false st fs =
      .ok (⟨st._triangles, st._pSceneBVH, cf._triIndexListNo, some cf._triIndexList,
        cf._pCFBVH_No, some cf._pCFBVH⟩, fs) := by
  obtain ⟨hsU, hsN, hsI, hU, hN, hI⟩ := hF
  have l1 : (L.unsignedBytes cf._pCFBVH_No).length = L.unsignedSize * 1 := by
    rw [(hU _ (by simp)).1, Nat.mul_one]
  have l2 : (L.unsignedBytes cf._triIndexListNo).length = L.unsignedSize * 1 := by
    rw [(hU _ (by simp)).1, Nat.mul_one]
  have l3 : (cf._pCFBVH.flatMap L.nodeBytes).length = L.nodeSize * cf._pCFBVH_No := by
    rw [flatMap_length_const _ _ _ (fun x hx => (hN x hx).1), hn]
  have l4 : (cf._triIndexList.flatMap L.intBytes).length = L.intSize * cf._triIndexListNo := by
    rw [flatMap_length_const _ _ _ (fun x hx => (hI x hx).1), hm]
  have d1 : L.bytesUnsigned (L.unsignedBytes cf._pCFBVH_No) = cf._pCFBVH_No :=
    (hU _ (by simp)).2
  have d2 : L.bytesUnsigned (L.unsignedBytes cf._triIndexListNo) = cf._triIndexListNo :=
    (hU _ (by simp)).2
  have d3 : readItems L.bytesNode L.nodeSize cf._pCFBVH_No (cf._pCFBVH.flatMap L.nodeBytes) =
      cf._pCFBVH := by
    have := readItems_flatMap L.nodeBytes L.bytesNode L.nodeSize cf._pCFBVH [] hN
    rwa [hn, List.append_nil] at this
  have d4 : readItems L.bytesInt L.intSize cf._triIndexListNo
      (cf._triIndexList.flatMap L.intBytes) = cf._triIndexList := by
    have := readItems_flatMap L.intBytes L.bytesInt L.intSize cf._triIndexList [] hI
    rwa [hm, List.append_nil] at this
  have r4 : fread L.intSize cf._triIndexListNo (cf._triIndexList.flatMap L.intBytes) =
      (cf._triIndexListNo, cf._triIndexList.flatMap L.intBytes, []) := by
    have := fread_append L.intSize cf._triIndexListNo _ [] l4 hsI
    rwa [List.append_nil] at this
  unfold updateBody
  rw [hnull]
  simp only [Option.isSome_none, Bool.false_eq_true, if_false, Files.fopenRead, hfile,
    Option.map_some', cacheImage]
  rw [fread_append _ 1 _ _ l1 hsU]
  simp only [ne_eq, not_true_eq_false, if_false, d1]
  rw [fread_append _ 1 _ _ l2 hsU]
  simp only [ne_eq, not_true_eq_false, if_false, d2]
  rw [if_neg (by omega), if_neg (by omega)]
  rw [fread_append _ _ _ _ l3 hsN]
  simp only [ne_eq, not_true_eq_false, if_false, d3]
  rw [r4]
  simp only [ne_eq, not_true_eq_false, if_false, d4, Files.fclose, Nat.add_sub_cancel]
  have hfs : fs = ⟨some (cacheImage L cf), fs.writable, fs.room, fs.openHandles⟩ := by
    rw [← hfile]
  conv_rhs => rw [hfs]
  rfl

/-- C13: for every layout and every compacted hierarchy whose counts are the
lengths of its arrays and whose counts, records and entries the layout represents
faithfully, the save path writes the image of the hierarchy when the file can be
written in full, and the load path on that file, into any scene with no hierarchy
in memory and with the memory for the two arrays (the memory that held them when
they were saved), yields the same two counts and two arrays equal to the
originals, leaving the rest of the scene and the files as they were. -/
theorem C13_cache_round_trip (L : Layout) (memory : Nat) (junk : Nat → CacheFriendlyBVHNode)
    (junkTri : Nat → Nat) (fuel : Nat) (cf : CFBVH) (st : SceneState) (fs : Files)
    (hF : L.Faithful cf) (hn : cf._pCFBVH.length = cf._pCFBVH_No)
    (hm : cf._triIndexList.length = cf._triIndexListNo)
    (hw : fs.writable = true) (hroom : (cacheImage L cf).length ≤ fs.room)
    (hmem : cf._pCFBVH_No * L.nodeSize + cf._triIndexListNo * L.intSize ≤ memory)
    (hnull : st._pCFBVH = none) :
    (storeCache L cf fs).cache = some (cacheImage L cf) ∧
    UpdateBoundingVolumeHierarchy L memory junk junkTri fuel false st (storeCache L cf fs) =
      .ok (⟨st._triangles, st._pSceneBVH, cf._triIndexListNo, some cf._triIndexList,
        cf._pCFBVH_No, some cf._pCFBVH⟩, storeCache L cf fs) := by
  have hs := storeCache_full L cf fs hF hn hm hw hroom
  have hc : (storeCache L cf fs).cache = some (cacheImage L cf) := by rw [hs]
  refine ⟨hc, ?_⟩
  unfold UpdateBoundingVolumeHierarchy
  exact load_image L memory junk junkTri fuel _ cf st _ hF hn hm hmem hnull hc

theorem C13_cache_round_trip_witness :
    exampleLayout.Faithful smallCF ∧ smallCF._pCFBVH.length = smallCF._pCFBVH_No ∧
    smallCF._triIndexList.length = smallCF._triIndexListNo ∧
    noCacheFiles.writable = true ∧ (cacheImage exampleLayout smallCF).length ≤ noCacheFiles.room ∧
    smallCF._pCFBVH_No * exampleLayout.nodeSize +
      smallCF._triIndexListNo * exampleLayout.intSize ≤ 112 ∧
    oneTriangleState._pCFBVH = none ∧
    (storeCache exampleLayout smallCF noCacheFiles).cache =
      some (cacheImage exampleLayout smallCF) ∧
    UpdateBoundingVolumeHierarchy exampleLayout 112 junk0 junkTri0 0 false oneTriangleState
        (storeCache exampleLayout smallCF noCacheFiles) =
      .ok (⟨oneTriangleState._triangles, oneTriangleState._pSceneBVH, smallCF._triIndexListNo,
        some smallCF._triIndexList, smallCF._pCFBVH_No, some smallCF._pCFBVH⟩,
        storeCache exampleLayout smallCF noCacheFiles) :=
  ⟨by unfold Layout.Faithful; decide!, rfl, rfl, rfl, by decide!, by decide, rfl,
    C13_cache_round_trip exampleLayout 112 junk0 junkTri0 0 smallCF oneTriangleState noCacheFiles
      (by unfold Layout.Faithful; decide!) rfl rfl rfl (by decide!) (by decide) rfl⟩

/-! ## The cache file: what a forced call and a short read leave in the scene -/

theorem freshBuild_congr (junk : Nat → CacheFriendlyBVHNode) (junkTri : Nat → Nat) (fuel : Nat)
    (st st1 : SceneState) (h : st1._triangles = st._triangles) :
    freshBuild junk junkTri fuel st1 = freshBuild junk junkTri fuel st := by
  unfold freshBuild
  rw [h]

theorem rebuildAndStore_scene (L : Layout) (junk : Nat → CacheFriendlyBVHNode)
    (junkTri : Nat → Nat) (fuel : Nat) (fpOpen : Bool) (st : SceneState) (fs : Files) :
    (rebuildAndStore L junk junkTri fuel fpOpen st fs).map Prod.fst =
      freshBuild junk junkTri fuel st := by
  unfold rebuildAndStore freshBuild
  cases CreateBVH fuel st._triangles with
  | none => rfl
  | some root =>
    simp only
    cases CreateCFBVH (some root) junk junkTri with
    | error e => rfl
    | ok cf => rfl

theorem updateBody_forced (L : Layout) (memory : Nat) (junk : Nat → CacheFriendlyBVHNode)
    (junkTri : Nat → Nat) (fuel : Nat)
    (recurse : SceneState → Files → Except UpdateError (SceneState × Files))
    (st : SceneState) (fs : Files) (hnull : st._pCFBVH = none) :
    (updateBody L memory junk junkTri fuel recurse true st fs).map Prod.fst =
      freshBuild junk junkTri fuel st := by
  unfold updateBody
  rw [hnull]
  simp only [Option.isSome_none, Bool.false_eq_true, if_false]
  cases fs.fopenRead with
  | none => exact rebuildAndStore_scene L junk junkTri fuel false st fs
  | some p => exact rebuildAndStore_scene L junk junkTri fuel true st p.2

theorem UpdateForced_scene (L : Layout) (memory : Nat) (junk : Nat → CacheFriendlyBVHNode)
    (junkTri : Nat → Nat) (fuel : Nat) (st : SceneState) (fs : Files)
    (hnull : st._pCFBVH = none) :
    (UpdateForced L memory junk junkTri fuel st fs).map Prod.fst = freshBuild junk junkTri fuel st :=
  updateBody_forced L memory junk junkTri fuel _ st fs hnull

theorem updateBody_true (L : Layout) (memory memory1 : Nat) (junk : Nat → CacheFriendlyBVHNode)
    (junkTri : Nat → Nat)
    (fuel : Nat) (r r1 : SceneState → Files → Except UpdateError (SceneState × Files))
    (st : SceneState) (fs : Files) :
    updateBody L memory junk junkTri fuel r true st fs =
      updateBody L memory1 junk junkTri fuel r1 true st fs := by
  unfold updateBody
  simp only [if_true]

/-- The call with `forceRecalc` set is `UpdateForced`. -/
theorem Update_true (L : Layout) (memory : Nat) (junk : Nat → CacheFriendlyBVHNode)
    (junkTri : Nat → Nat)
    (fuel : Nat) (st : SceneState) (fs : Files) :
    UpdateBoundingVolumeHierarchy L memory junk junkTri fuel true st fs =
      UpdateForced L memory junk junkTri fuel st fs :=
  updateBody_true L memory memory junk junkTri fuel _ _ st fs

/-- A short read whose allocations, if it reaches them, are granted ends as a
build from scratch. -/
theorem update_short (L : Layout) (memory : Nat) (junk : Nat → CacheFriendlyBVHNode)
    (junkTri : Nat → Nat) (fuel : Nat) (st : SceneState) (fs : Files) (content : List Nat)
    (hnull : st._pCFBVH = none) (hfile : fs.cache = some content)
    (hshort : ReadsShort L content) (hmem : ¬ AllocFails L memory content) :
    (UpdateBoundingVolumeHierarchy L memory junk junkTri fuel false st fs).map Prod.fst =
      freshBuild junk junkTri fuel st := by
  unfold UpdateBoundingVolumeHierarchy updateBody
  rw [hnull]
  simp only [Option.isSome_none, Bool.false_eq_true, if_false, Files.fopenRead, hfile,
    Option.map_some']
  unfold ReadsShort at hshort
  unfold AllocFails at hmem
  simp only at hshort hmem
  split_ifs with h1 h2 a1 a2 h3 h4
  · rw [UpdateForced_scene _ _ _ _ _ _ _ rfl]
    exact freshBuild_congr _ _ _ _ _ rfl
  · rw [UpdateForced_scene _ _ _ _ _ _ _ rfl]
    exact freshBuild_congr _ _ _ _ _ rfl
  · exfalso
    exact hmem ⟨not_not.mp h1, not_not.mp h2, by omega⟩
  · exfalso
    exact hmem ⟨not_not.mp h1, not_not.mp h2, by omega⟩
  · rw [UpdateForced_scene _ _ _ _ _ _ _ rfl]
    exact freshBuild_congr _ _ _ _ _ rfl
  · rw [UpdateForced_scene _ _ _ _ _ _ _ rfl]
    exact freshBuild_congr _ _ _ _ _ rfl
  · exfalso
    rcases hshort with h | h | h | h
    · exact h1 h
    · exact h2 h
    · exact h3 h
    · exact h4 h

/-- When the two counts are read and the arrays they announce are more than the
allocator can give, the call ends in `std::bad_alloc`, before the third read. -/
theorem update_abort (L : Layout) (memory : Nat) (junk : Nat → CacheFriendlyBVHNode)
    (junkTri : Nat → Nat) (fuel : Nat) (st : SceneState) (fs : Files) (content : List Nat)
    (hnull : st._pCFBVH = none) (hfile : fs.cache = some content)
    (hfail : AllocFails L memory content) :
    UpdateBoundingVolumeHierarchy L memory junk junkTri fuel false st fs = .error .badAlloc := by
  unfold UpdateBoundingVolumeHierarchy updateBody
  rw [hnull]
  simp only [Option.isSome_none, Bool.false_eq_true, if_false, Files.fopenRead, hfile,
    Option.map_some']
  unfold AllocFails at hfail
  simp only at hfail
  obtain ⟨f1, f2, f3⟩ := hfail
  rw [if_neg (not_not.mpr f1), if_neg (not_not.mpr f2)]
  split_ifs with a1 a2
  all_goals first | rfl | (exfalso; omega)

/-- C14 fails on a truncated file that announces more than the memory can hold:
the cache file of the eight bytes `ff ff ff ff 00 00 00 00` holds the two counts
and nothing of the `4294967295` records it announces, so the third read would come
up short; with an allocator that can give `2^36` bytes the call ends in
`std::bad_alloc` at line 757, before that read, while a build from scratch of the
scene returns a hierarchy.  And so it is for every layout, scene and cache file on
which the counts are read and the arrays are more than the allocator can give;
every other short read does end as a build from scratch (the short reads of the
counts, lines 749-756, and the short reads of the arrays when they were
allocated). -/
theorem C14_truncated_file_aborts :
    oneTriangleState._pCFBVH = none ∧
    hugeCountFiles.cache = some [255, 255, 255, 255, 0, 0, 0, 0] ∧
    ReadsShort exampleLayout [255, 255, 255, 255, 0, 0, 0, 0] ∧
    UpdateBoundingVolumeHierarchy exampleLayout (2 ^ 36) junk0 junkTri0 0 false oneTriangleState
        hugeCountFiles = .error .badAlloc ∧
    freshBuild junk0 junkTri0 0 oneTriangleState =
      .ok ⟨[flatTriangle 0 0 (3 / 2)],
        some (.BVHLeaf ⟨0, 0, 3 / 2⟩ ⟨1, 1, 3 / 2⟩ [0]), 1, some [0], 1,
        some [⟨⟨0, 0, 3 / 2⟩, ⟨1, 1, 3 / 2⟩, 0x80000000 ||| 1, 0⟩]⟩ ∧
    (∀ (L : Layout) (memory : Nat) (junk : Nat → CacheFriendlyBVHNode) (junkTri : Nat → Nat)
      (fuel : Nat) (st : SceneState) (fs : Files) (content : List Nat),
      st._pCFBVH = none → fs.cache = some content → AllocFails L memory content →
      UpdateBoundingVolumeHierarchy L memory junk junkTri fuel false st fs =
        .error .badAlloc) ∧
    (∀ (L : Layout) (memory : Nat) (junk : Nat → CacheFriendlyBVHNode) (junkTri : Nat → Nat)
      (fuel : Nat) (st : SceneState) (fs : Files) (content : List Nat),
      st._pCFBVH = none → fs.cache = some content → ReadsShort L content →
      ¬ AllocFails L memory content →
      (UpdateBoundingVolumeHierarchy L memory junk junkTri fuel false st fs).map Prod.fst =
        freshBuild junk junkTri fuel st) := by
  refine ⟨rfl, rfl, ?_, ?_, by decide!, ?_, ?_⟩
  · unfold ReadsShort
    decide
  · exact update_abort exampleLayout (2 ^ 36) junk0 junkTri0 0 oneTriangleState hugeCountFiles
      [255, 255, 255, 255, 0, 0, 0, 0] rfl rfl (by unfold AllocFails; decide)
  · intro L memory junk junkTri fuel st fs content hnull hfile hfail
    exact update_abort L memory junk junkTri fuel st fs content hnull hfile hfail
  · intro L memory junk junkTri fuel st fs content hnull hfile hshort hmem
    exact update_short L memory junk junkTri fuel st fs content hnull hfile hshort hmem

/-! ## C15: the forced call -/

/-- C15 as the code has it: for every scene state with no compacted hierarchy in
memory (`_pCFBVH` null), whatever the files hold and whatever memory the
allocator can give, the call with `forceRecalc` set ends, as far as the scene is concerned, exactly as a build from scratch of the
triangles of the scene, which reads nothing of the cache file. -/
theorem C15_forced_rebuild (L : Layout) (memory : Nat) (junk : Nat → CacheFriendlyBVHNode)
    (junkTri : Nat → Nat) (fuel : Nat) (st : SceneState) (fs : Files)
    (hnull : st._pCFBVH = none) :
    (UpdateBoundingVolumeHierarchy L memory junk junkTri fuel true st fs).map Prod.fst =
      freshBuild junk junkTri fuel st := by
  rw [Update_true]
  exact UpdateForced_scene L memory junk junkTri fuel st fs hnull

theorem C15_forced_rebuild_witness :
    oneTriangleState._pCFBVH = none ∧
    (UpdateBoundingVolumeHierarchy exampleLayout 0 junk0 junkTri0 0 true oneTriangleState
        zeroCountsFiles).map Prod.fst =
      freshBuild junk0 junkTri0 0 oneTriangleState :=
  ⟨rfl, C15_forced_rebuild exampleLayout 0 junk0 junkTri0 0 oneTriangleState zeroCountsFiles rfl⟩

/-- C15 fails when a compacted hierarchy is in memory: the scene of one triangle
loads the cache file that holds the counts 0 and 0, and the call with
`forceRecalc` set that follows changes nothing, although a build from scratch of
the scene gives a tree and one node record. -/
theorem C15_counterexample :
    UpdateBoundingVolumeHierarchy exampleLayout 0 junk0 junkTri0 0 false oneTriangleState
        zeroCountsFiles = .ok (loadedZeroState, zeroCountsFiles) ∧
    UpdateBoundingVolumeHierarchy exampleLayout 0 junk0 junkTri0 0 true loadedZeroState
        zeroCountsFiles = .ok (loadedZeroState, zeroCountsFiles) ∧
    freshBuild junk0 junkTri0 0 loadedZeroState =
      .ok ⟨[flatTriangle 0 0 (3 / 2)],
        some (.BVHLeaf ⟨0, 0, 3 / 2⟩ ⟨1, 1, 3 / 2⟩ [0]), 1, some [0], 1,
        some [⟨⟨0, 0, 3 / 2⟩, ⟨1, 1, 3 / 2⟩, 0x80000000 ||| 1, 0⟩]⟩ :=
  ⟨by decide!, by decide!, by decide!⟩

/-! ## C16: the file handles -/

theorem storeCache_handles (L : Layout) (cf : CFBVH) (fs : Files) :
    (storeCache L cf fs).openHandles = fs.openHandles := by
  unfold storeCache Files.fopenWrite
  by_cases hw : fs.writable = true
  · simp only [hw, if_true]
    split_ifs <;> simp [fwrite, Files.fclose]
  · simp only [hw, Bool.false_eq_true, if_false]

theorem rebuildAndStore_handles (L : Layout) (junk : Nat → CacheFriendlyBVHNode)
    (junkTri : Nat → Nat) (fuel : Nat) (fpOpen : Bool) (st : SceneState) (fs : Files)
    (r : SceneState × Files) (h : rebuildAndStore L junk junkTri fuel fpOpen st fs = .ok r) :
    r.2.openHandles = if fpOpen then fs.openHandles - 1 else fs.openHandles := by
  unfold rebuildAndStore at h
  cases hb : CreateBVH fuel st._triangles with
  | none => rw [hb] at h; cases h
  | some root =>
    rw [hb] at h
    simp only at h
    cases hc : CreateCFBVH (some root) junk junkTri with
    | error e => rw [hc] at h; cases h
    | ok cf =>
      rw [hc] at h
      simp only [Except.ok.injEq] at h
      subst h
      simp only [storeCache_handles]
      cases fpOpen <;> simp [Files.fclose]

theorem UpdateForced_handles (L : Layout) (memory : Nat) (junk : Nat → CacheFriendlyBVHNode)
    (junkTri : Nat → Nat) (fuel : Nat) (st : SceneState) (fs : Files)
    (r : SceneState × Files) (h : UpdateForced L memory junk junkTri fuel st fs = .ok r) :
    r.2.openHandles = fs.openHandles := by
  unfold UpdateForced updateBody at h
  by_cases h0 : st._pCFBVH.isSome = true
  · rw [if_pos h0] at h
    simp only [Except.ok.injEq] at h
    subst h; rfl
  · rw [if_neg h0] at h
    simp only [if_true] at h
    unfold Files.fopenRead at h
    cases hc : fs.cache with
    | none =>
      rw [hc] at h
      simp only [Option.map_none'] at h
      simpa using rebuildAndStore_handles L junk junkTri fuel false st fs r h
    | some content =>
      rw [hc] at h
      simp only [Option.map_some'] at h
      simpa using rebuildAndStore_handles L junk junkTri fuel true st _ r h

/-- When the read of the first count comes up short, the memory that the allocator
can give plays no part. -/
theorem update_count_short (L : Layout) (memory memory1 : Nat)
    (junk : Nat → CacheFriendlyBVHNode) (junkTri : Nat → Nat) (fuel : Nat) (st : SceneState)
    (fs : Files) (content : List Nat) (hnull : st._pCFBVH = none)
    (hfile : fs.cache = some content) (h1 : 1 ≠ (fread L.unsignedSize 1 content).1) :
    UpdateBoundingVolumeHierarchy L memory junk junkTri fuel false st fs =
      UpdateBoundingVolumeHierarchy L memory1 junk junkTri fuel false st fs := by
  unfold UpdateBoundingVolumeHierarchy updateBody
  rw [hnull]
  simp only [Option.isSome_none, Bool.false_eq_true, if_false, Files.fopenRead, hfile,
    Option.map_some']
  rw [if_pos h1, if_pos h1]
  exact updateBody_true L memory memory1 junk junkTri fuel _ _ _ _

/-- The handles left open by a call without `forceRecalc` on a scene with no
hierarchy in memory and an existing cache file: one when a read came up short,
none otherwise. -/
theorem Update_handles (L : Layout) (memory : Nat) (junk : Nat → CacheFriendlyBVHNode)
    (junkTri : Nat → Nat) (fuel : Nat) (st : SceneState) (fs : Files) (content : List Nat)
    (hnull : st._pCFBVH = none) (hfile : fs.cache = some content)
    (r : SceneState × Files)
    (h : UpdateBoundingVolumeHierarchy L memory junk junkTri fuel false st fs = .ok r) :
    (ReadsShort L content → r.2.openHandles = fs.openHandles + 1) ∧
    (¬ ReadsShort L content → r.2.openHandles = fs.openHandles) := by
  unfold UpdateBoundingVolumeHierarchy updateBody at h
  rw [hnull] at h
  simp only [Option.isSome_none, Bool.false_eq_true, if_false, Files.fopenRead, hfile,
    Option.map_some'] at h
  unfold ReadsShort
  simp only
  split_ifs at h with h1 h2 a1 a2 h3 h4
  · have := UpdateForced_handles _ _ _ _ _ _ _ r h
    exact ⟨fun _ => this, fun hn => absurd (Or.inl h1) hn⟩
  · have := UpdateForced_handles _ _ _ _ _ _ _ r h
    exact ⟨fun _ => this, fun hn => absurd (Or.inr (Or.inl h2)) hn⟩
  · have := UpdateForced_handles _ _ _ _ _ _ _ r h
    exact ⟨fun _ => this, fun hn => absurd (Or.inr (Or.inr (Or.inl h3))) hn⟩
  · have := UpdateForced_handles _ _ _ _ _ _ _ r h
    exact ⟨fun _ => this, fun hn => absurd (Or.inr (Or.inr (Or.inr h4))) hn⟩
  · simp only [Except.ok.injEq] at h
    subst h
    refine ⟨fun hs => ?_, fun _ => by simp [Files.fclose]⟩
    rcases hs with hs | hs | hs | hs
    · exact absurd hs h1
    · exact absurd hs h2
    · exact absurd hs h3
    · exact absurd hs h4

/-- C16 fails on the short reads: with an empty cache file and no hierarchy in
memory the call returns with one handle open, the one of
`fopen(BVHcacheFilename.c_str(), "rb")`; and so it is for every layout, scene and
cache file on which one of the four reads comes up short, while the call closes
every handle it opened on all its other returns (hierarchy already in memory,
no cache file, `forceRecalc` set with or without a write error, complete load). -/
theorem C16_handle_left_open :
    emptyCacheFiles.openHandles = 0 ∧
    (∀ memory : Nat,
      (UpdateBoundingVolumeHierarchy exampleLayout memory junk0 junkTri0 0 false oneTriangleState
        emptyCacheFiles).map (fun p => p.2.openHandles) = .ok 1) ∧
    (∀ (L : Layout) (memory : Nat) (junk : Nat → CacheFriendlyBVHNode) (junkTri : Nat → Nat)
      (fuel : Nat) (st : SceneState) (fs : Files) (content : List Nat) (r : SceneState × Files),
      st._pCFBVH = none → fs.cache = some content → ReadsShort L content →
      UpdateBoundingVolumeHierarchy L memory junk junkTri fuel false st fs = .ok r →
      r.2.openHandles = fs.openHandles + 1) ∧
    (∀ (L : Layout) (memory : Nat) (junk : Nat → CacheFriendlyBVHNode) (junkTri : Nat → Nat)
      (fuel : Nat) (forceRecalc : Bool) (st : SceneState) (fs : Files) (r : SceneState × Files),
      (st._pCFBVH.isSome ∨ fs.cache = none ∨ forceRecalc = true ∨
        ∃ content, fs.cache = some content ∧ ¬ ReadsShort L content) →
      UpdateBoundingVolumeHierarchy L memory junk junkTri fuel forceRecalc st fs = .ok r →
      r.2.openHandles = fs.openHandles) := by
  refine ⟨rfl, ?_, ?_, ?_⟩
  · intro memory
    rw [update_count_short exampleLayout memory 0 junk0 junkTri0 0 oneTriangleState
      emptyCacheFiles [] rfl rfl (by decide)]
    decide!
  · intro L memory junk junkTri fuel st fs content r hnull hfile hshort h
    exact (Update_handles L memory junk junkTri fuel st fs content hnull hfile r h).1 hshort
  · intro L memory junk junkTri fuel forceRecalc st fs r hcase h
    by_cases h0 : st._pCFBVH.isSome = true
    · unfold UpdateBoundingVolumeHierarchy updateBody at h
      rw [if_pos h0] at h
      simp only [Except.ok.injEq] at h
      subst h; rfl
    · cases forceRecalc with
      | true =>
        rw [Update_true] at h
        exact UpdateForced_handles L memory junk junkTri fuel st fs r h
      | false =>
        have hnull : st._pCFBVH = none := by
          cases hp : st._pCFBVH with
          | none => rfl
          | some x => rw [hp] at h0; exact absurd rfl h0
        rcases hcase with hc | hc | hc | ⟨content, hc, hns⟩
        · exact absurd hc h0
        · unfold UpdateBoundingVolumeHierarchy updateBody at h
          rw [if_neg h0] at h
          simp only [Files.fopenRead, hc, Option.map_none'] at h
          simpa using rebuildAndStore_handles L junk junkTri fuel false st fs r h
        · cases hc
        · exact (Update_handles L memory junk junkTri fuel st fs content hnull hc r h).2 hns

/-! ## C17: the build does not depend on the progress report -/

theorem sampleLoopR_erase (work : List BBoxTmp) (axis : Int) (stop step pctStep : ℚ)
    (fuel : Nat) (testSplit pctStart : ℚ) (best : Best) (rep : Report) :
    (sampleLoopR work axis stop step pctStep fuel testSplit pctStart best rep).map Prod.fst =
      sampleLoop work axis stop step fuel testSplit best := by
  induction fuel generalizing testSplit pctStart best rep with
  | zero =>
    unfold sampleLoopR sampleLoop
    split_ifs <;> rfl
  | succ f ih =>
    unfold sampleLoopR sampleLoop
    split_ifs
    · exact ih _ _ _ _
    · rfl

theorem axisPassR_erase (work : List BBoxTmp) (depth : Nat) (bottom top : Vector3)
    (pct pctSpan : ℚ) (fuel : Nat) (axis : Int) (best : Best) (rep : Report) :
    (axisPassR work depth bottom top pct pctSpan fuel axis best rep).map Prod.fst =
      axisPass work depth bottom top fuel axis best := by
  unfold axisPassR axisPass
  simp only
  split_ifs
  · rfl
  · exact sampleLoopR_erase _ _ _ _ _ _ _ _ _ _

theorem searchSplitR_erase (work : List BBoxTmp) (depth : Nat) (pct pctSpan : ℚ) (fuel : Nat)
    (rep : Report) :
    (searchSplitR work depth pct pctSpan fuel rep).map Prod.fst =
      searchSplit work depth fuel := by
  unfold searchSplitR searchSplit
  simp only
  rw [← axisPassR_erase work depth _ _ pct pctSpan fuel 0 _ rep]
  cases axisPassR work depth (boxBottom work) (boxTop work) pct pctSpan fuel 0
      ⟨(work.length : ℚ) * surface (boxBottom work) (boxTop work), FLT_MAX, -1⟩ rep with
  | none => rfl
  | some p0 =>
    simp only [Option.some_bind, Option.map_some']
    rw [← axisPassR_erase work depth _ _ pct pctSpan fuel 1 _ p0.2]
    cases axisPassR work depth (boxBottom work) (boxTop work) pct pctSpan fuel 1 p0.1 p0.2 with
    | none => rfl
    | some p1 =>
      simp only [Option.some_bind, Option.map_some']
      exact axisPassR_erase work depth _ _ pct pctSpan fuel 2 _ p1.2

theorem RecurseR_zero (work : List BBoxTmp) (pct : ℚ) (depth : Nat) (rep : Report) :
    RecurseR 0 work pct depth rep =
      if work.length < 4 then some (mkLeaf work, rep) else none := rfl

theorem RecurseR_succ (f : Nat) (work : List BBoxTmp) (pct : ℚ) (depth : Nat) (rep : Report) :
    RecurseR (f + 1) work pct depth rep =
      if work.length < 4 then some (mkLeaf work, rep)
      else
        match searchSplitR work depth pct (11 / 3 ^ depth) f rep with
        | none => none
        | some (best, rep1) =>
          if best.bestAxis = -1 then some (mkLeaf work, rep1)
          else
            match RecurseR f (leftPart work best.bestAxis best.bestSplit)
                (pct + 3 * (11 / 3 ^ depth)) (depth + 1)
                (reportTick (pct + 3 * (11 / 3 ^ depth)) rep1) with
            | none => none
            | some (l, rep2) =>
              match RecurseR f (rightPart work best.bestAxis best.bestSplit)
                  (pct + 6 * (11 / 3 ^ depth)) (depth + 1)
                  (reportTick (pct + 6 * (11 / 3 ^ depth)) rep2) with
              | none => none
              | some (r, rep3) =>
                some (.BVHInner Vector3.zero Vector3.zero
                  (l.setBox (boxBottom (leftPart work best.bestAxis best.bestSplit))
                    (boxTop (leftPart work best.bestAxis best.bestSplit)))
                  (r.setBox (boxBottom (rightPart work best.bestAxis best.bestSplit))
                    (boxTop (rightPart work best.bestAxis best.bestSplit))), rep3) := rfl

theorem RecurseR_erase (fuel : Nat) (work : List BBoxTmp) (pct : ℚ) (depth : Nat)
    (rep : Report) :
    (RecurseR fuel work pct depth rep).map Prod.fst = Recurse fuel work depth := by
  induction fuel generalizing work pct depth rep with
  | zero =>
    rw [RecurseR_zero, Recurse_zero]
    split_ifs <;> rfl
  | succ f ih =>
    rw [Recurse_succ, RecurseR_succ]
    split_ifs with h4
    · rfl
    · rw [← searchSplitR_erase work depth pct (11 / 3 ^ depth) f rep]
      cases searchSplitR work depth pct (11 / 3 ^ depth) f rep with
      | none => rfl
      | some p =>
        obtain ⟨best, rep1⟩ := p
        simp only [Option.map_some']
        split_ifs with hax
        · rfl
        · rw [← ih (leftPart work best.bestAxis best.bestSplit) (pct + 3 * (11 / 3 ^ depth))
            (depth + 1) (reportTick (pct + 3 * (11 / 3 ^ depth)) rep1)]
          cases RecurseR f (leftPart work best.bestAxis best.bestSplit)
              (pct + 3 * (11 / 3 ^ depth)) (depth + 1)
              (reportTick (pct + 3 * (11 / 3 ^ depth)) rep1) with
          | none => rfl
          | some pl =>
            obtain ⟨l, rep2⟩ := pl
            simp only [Option.map_some']
            rw [← ih (rightPart work best.bestAxis best.bestSplit) (pct + 6 * (11 / 3 ^ depth))
              (depth + 1) (reportTick (pct + 6 * (11 / 3 ^ depth)) rep2)]
            cases RecurseR f (rightPart work best.bestAxis best.bestSplit)
                (pct + 6 * (11 / 3 ^ depth)) (depth + 1)
                (reportTick (pct + 6 * (11 / 3 ^ depth)) rep2) with
            | none => rfl
            | some pr => rfl

theorem CreateBVHR_erase (fuel : Nat) (triangles : List Triangle) (rep : Report) :
    (CreateBVHR fuel triangles rep).map Prod.fst = CreateBVH fuel triangles := by
  unfold CreateBVHR CreateBVH
  simp only
  rw [← RecurseR_erase fuel (gatherWork triangles) 0 0 rep]
  cases RecurseR fuel (gatherWork triangles) 0 0 rep with
  | none => rfl
  | some p => rfl

/-- C17: for every triangle list, two builds give the same tree and the same
compacted output, whatever the value of `g_reportCounter` at the start of each
build, whatever the `pct` given to `Recurse`, and whatever the two freshly
allocated arrays hold at the start of each compaction (every field of every
record is written: nothing of the initial contents is left); with enough fuel the
build returns that tree. -/
theorem C17_build_deterministic (triangles : List Triangle) (rep rep1 : Report)
    (junk junk1 : Nat → CacheFriendlyBVHNode) (junkTri junkTri1 : Nat → Nat) :
    (∀ fuel, (CreateBVHR fuel triangles rep).map Prod.fst = CreateBVH fuel triangles ∧
      (CreateBVHR fuel triangles rep).map Prod.fst =
        (CreateBVHR fuel triangles rep1).map Prod.fst ∧
      (CreateBVHR fuel triangles rep).map (fun p => CreateCFBVH (some p.1) junk junkTri) =
        (CreateBVHR fuel triangles rep1).map (fun p => CreateCFBVH (some p.1) junk1 junkTri1)) ∧
    (∀ fuel work pct pct1 depth,
      (RecurseR fuel work pct depth rep).map Prod.fst =
        (RecurseR fuel work pct1 depth rep1).map Prod.fst) ∧
    (∀ root, compactArrays root junk junkTri = compactArrays root junk1 junkTri1 ∧
      CreateCFBVH (some root) junk junkTri = CreateCFBVH (some root) junk1 junkTri1) ∧
    (∃ root, ∀ fuel, 1023 + triangles.length ≤ fuel →
      (CreateBVHR fuel triangles rep).map Prod.fst = some root ∧
      (CreateBVHR fuel triangles rep1).map Prod.fst = some root) := by
  have hcf : ∀ root, CreateCFBVH (some root) junk junkTri =
      CreateCFBVH (some root) junk1 junkTri1 := by
    intro root; rw [CreateCFBVH_eq, CreateCFBVH_eq]
  refine ⟨?_, ?_, ?_, ?_⟩
  · intro fuel
    have e1 := CreateBVHR_erase fuel triangles rep
    have e2 := CreateBVHR_erase fuel triangles rep1
    refine ⟨e1, by rw [e1, e2], ?_⟩
    cases h1 : CreateBVHR fuel triangles rep with
    | none =>
      rw [h1] at e1
      cases h2 : CreateBVHR fuel triangles rep1 with
      | none => rfl
      | some p2 => rw [h2, ← e1] at e2; cases e2
    | some p1 =>
      rw [h1] at e1
      cases h2 : CreateBVHR fuel triangles rep1 with
      | none => rw [h2, ← e1] at e2; cases e2
      | some p2 =>
        rw [h2, ← e1] at e2
        simp only [Option.map_some', Option.some.injEq] at e2 ⊢
        rw [e2]; exact hcf _
  · intro fuel work pct pct1 depth
    rw [RecurseR_erase, RecurseR_erase]
  · intro root
    exact ⟨by rw [compactArrays_eq, compactArrays_eq], hcf root⟩
  · obtain ⟨t, _, hroot⟩ := CreateBVH_total triangles
    refine ⟨t.setBox (boxBottom (gatherWork triangles)) (boxTop (gatherWork triangles)),
      fun fuel hf => ?_⟩
    rw [CreateBVHR_erase, CreateBVHR_erase]
    exact ⟨hroot fuel hf, hroot fuel hf⟩

/-! ## C18: the SSE variant against the scalar variant -/

theorem toVector3_min (a b : M128 ℚ) :
    SSETOVECTOR3 (_mm_min_ps a b) = (SSETOVECTOR3 a).assignSmaller (SSETOVECTOR3 b) := rfl

theorem toVector3_max (a b : M128 ℚ) :
    SSETOVECTOR3 (_mm_max_ps a b) = (SSETOVECTOR3 a).assignBigger (SSETOVECTOR3 b) := rfl

theorem toVector3_set1_max : SSETOVECTOR3 (_mm_set1_ps FLT_MAX) = vecMax := rfl

theorem toVector3_set1_min : SSETOVECTOR3 (_mm_set1_ps (-FLT_MAX)) = vecMin := rfl

theorem sseSurface_eq (top bottom : M128 ℚ) :
    sseSurface top bottom = surface (SSETOVECTOR3 bottom) (SSETOVECTOR3 top) := rfl

/-- The shuffle sequence computes `sx*sy + sy*sz + sz*sx` with the operations in
the order of the scalar expression, whatever the arithmetic is. -/
theorem sseSurface_order {α : Type} [Sub α] [Mul α] [Add α] (top bottom : M128 α) :
    sseSurface top bottom =
      (top.e3 - bottom.e3) * (top.e2 - bottom.e2) + (top.e2 - bottom.e2) * (top.e1 - bottom.e1) +
        (top.e1 - bottom.e1) * (top.e3 - bottom.e3) := rfl

theorem centerValue_eq (axis : Int) (v : BBoxTmpSSE) :
    centerValue axis v = v.toScalar._center.onAxis axis := by
  unfold centerValue Vector3.onAxis
  split_ifs <;> rfl

theorem foldBottom_sse (sw : List BBoxTmpSSE) (acc : M128 ℚ) :
    SSETOVECTOR3 (sw.foldl (fun a v => _mm_min_ps a v._bottom) acc) =
      (sw.map BBoxTmpSSE.toScalar).foldl (fun a v => a.assignSmaller v._bottom)
        (SSETOVECTOR3 acc) := by
  induction sw generalizing acc with
  | nil => rfl
  | cons v vs ih =>
    simp only [List.foldl_cons, List.map_cons]
    rw [ih]
    rfl

theorem foldTop_sse (sw : List BBoxTmpSSE) (acc : M128 ℚ) :
    SSETOVECTOR3 (sw.foldl (fun a v => _mm_max_ps a v._top) acc) =
      (sw.map BBoxTmpSSE.toScalar).foldl (fun a v => a.assignBigger v._top)
        (SSETOVECTOR3 acc) := by
  induction sw generalizing acc with
  | nil => rfl
  | cons v vs ih =>
    simp only [List.foldl_cons, List.map_cons]
    rw [ih]
    rfl

theorem sseBottom_eq (sw : List BBoxTmpSSE) :
    SSETOVECTOR3 (sseBottom sw) = boxBottom (sw.map BBoxTmpSSE.toScalar) :=
  foldBottom_sse sw _

theorem sseTop_eq (sw : List BBoxTmpSSE) :
    SSETOVECTOR3 (sseTop sw) = boxTop (sw.map BBoxTmpSSE.toScalar) :=
  foldTop_sse sw _

/-- The scalar accumulators that hold the coordinates of the SSE accumulators. -/
theorem splitFold_sse (axis : Int) (s : ℚ) (sw : List BBoxTmpSSE) (acc : SplitAccSSE) :
    let r := sw.foldl (splitStepSSE axis s) acc
    (sw.map BBoxTmpSSE.toScalar).foldl (splitStep axis s)
        ⟨SSETOVECTOR3 acc.lbottom, SSETOVECTOR3 acc.ltop, SSETOVECTOR3 acc.rbottom,
          SSETOVECTOR3 acc.rtop, acc.countLeft, acc.countRight⟩ =
      ⟨SSETOVECTOR3 r.lbottom, SSETOVECTOR3 r.ltop, SSETOVECTOR3 r.rbottom,
        SSETOVECTOR3 r.rtop, r.countLeft, r.countRight⟩ := by
  induction sw generalizing acc with
  | nil => rfl
  | cons v vs ih =>
    simp only [List.foldl_cons, List.map_cons]
    rw [← ih (splitStepSSE axis s acc v)]
    congr 1
    simp only [splitStep, splitStepSSE, centerValue_eq]
    split_ifs <;> rfl

theorem splitScan_sse (sw : List BBoxTmpSSE) (axis : Int) (s : ℚ) :
    splitScan (sw.map BBoxTmpSSE.toScalar) axis s =
      ⟨SSETOVECTOR3 (splitScanSSE sw axis s).lbottom, SSETOVECTOR3 (splitScanSSE sw axis s).ltop,
        SSETOVECTOR3 (splitScanSSE sw axis s).rbottom, SSETOVECTOR3 (splitScanSSE sw axis s).rtop,
        (splitScanSSE sw axis s).countLeft, (splitScanSSE sw axis s).countRight⟩ :=
  splitFold_sse axis s sw SplitAccSSE.init

theorem tryCandidate_sse (sw : List BBoxTmpSSE) (axis : Int) (s : ℚ) (best : BestSSE) :
    (tryCandidateSSE sw axis s best).toBest =
      tryCandidate (sw.map BBoxTmpSSE.toScalar) axis s best.toBest := by
  unfold tryCandidateSSE tryCandidate
  rw [splitScan_sse]
  simp only [sseSurface_eq]
  rw [mul_comm ((splitScanSSE sw axis s).countLeft : ℚ),
    mul_comm ((splitScanSSE sw axis s).countRight : ℚ)]
  split_ifs with h1 h2 h3 h3
  · rfl
  · rfl
  · exact absurd h2 h3
  · exact absurd h3 h2
  · rfl

theorem tryCandidate_counts (sw : List BBoxTmpSSE) (axis : Int) (s : ℚ) (best : BestSSE)
    (h : CountsOK sw best) : CountsOK sw (tryCandidateSSE sw axis s best) := by
  unfold tryCandidateSSE
  simp only
  split_ifs with h1 h2
  · exact h
  · right
    have hc := splitScan_counts (sw.map BBoxTmpSSE.toScalar) axis s
    rw [splitScan_sse] at hc
    exact hc
  · exact h

theorem sampleLoop_sse (sw : List BBoxTmpSSE) (axis : Int) (stop step : ℚ) (fuel : Nat)
    (t : ℚ) (best : BestSSE) (h : CountsOK sw best) :
    (sampleLoopSSE sw axis stop step fuel t best).map BestSSE.toBest =
      sampleLoop (sw.map BBoxTmpSSE.toScalar) axis stop step fuel t best.toBest ∧
    ∀ b, sampleLoopSSE sw axis stop step fuel t best = some b → CountsOK sw b := by
  induction fuel generalizing t best with
  | zero =>
    unfold sampleLoopSSE sampleLoop
    split_ifs
    · exact ⟨rfl, fun b hb => by cases hb⟩
    · exact ⟨rfl, fun b hb => by cases hb; exact h⟩
  | succ f ih =>
    unfold sampleLoopSSE sampleLoop
    split_ifs
    · have := ih (t + step) (tryCandidateSSE sw axis t best) (tryCandidate_counts sw axis t best h)
      rw [tryCandidate_sse] at this
      exact this
    · exact ⟨rfl, fun b hb => by cases hb; exact h⟩

theorem axisPass_sse (sw : List BBoxTmpSSE) (depth : Nat) (bottom top : Vector3) (fuel : Nat)
    (axis : Int) (best : BestSSE) (h : CountsOK sw best) :
    (axisPassSSE sw depth bottom top fuel axis best).map BestSSE.toBest =
      axisPass (sw.map BBoxTmpSSE.toScalar) depth bottom top fuel axis best.toBest ∧
    ∀ b, axisPassSSE sw depth bottom top fuel axis best = some b → CountsOK sw b := by
  unfold axisPassSSE axisPass
  simp only
  split_ifs
  · exact ⟨rfl, fun b hb => by cases hb; exact h⟩
  · exact sampleLoop_sse sw axis _ _ fuel _ best h

theorem searchSplit_sse (sw : List BBoxTmpSSE) (depth fuel : Nat) :
    (searchSplitSSE sw depth fuel).map BestSSE.toBest =
      searchSplit (sw.map BBoxTmpSSE.toScalar) depth fuel ∧
    ∀ b, searchSplitSSE sw depth fuel = some b → CountsOK sw b := by
  unfold searchSplitSSE searchSplit
  simp only [sseBottom_eq, sseTop_eq, sseSurface_eq, List.length_map]
  have h0 : CountsOK sw ⟨(sw.length : ℚ) * surface (boxBottom (sw.map BBoxTmpSSE.toScalar))
      (boxTop (sw.map BBoxTmpSSE.toScalar)), FLT_MAX, -1, 0, 0⟩ := Or.inl rfl
  obtain ⟨e0, c0⟩ := axisPass_sse sw depth (boxBottom (sw.map BBoxTmpSSE.toScalar))
    (boxTop (sw.map BBoxTmpSSE.toScalar)) fuel 0 _ h0
  simp only [BestSSE.toBest] at e0
  rw [← e0]
  cases hp0 : axisPassSSE sw depth (boxBottom (sw.map BBoxTmpSSE.toScalar))
      (boxTop (sw.map BBoxTmpSSE.toScalar)) fuel 0
      ⟨(sw.length : ℚ) * surface (boxBottom (sw.map BBoxTmpSSE.toScalar))
        (boxTop (sw.map BBoxTmpSSE.toScalar)), FLT_MAX, -1, 0, 0⟩ with
  | none => exact ⟨rfl, fun b hb => by cases hb⟩
  | some b0 =>
    obtain ⟨e1, c1⟩ := axisPass_sse sw depth (boxBottom (sw.map BBoxTmpSSE.toScalar))
      (boxTop (sw.map BBoxTmpSSE.toScalar)) fuel 1 b0 (c0 b0 hp0)
    simp only [Option.map_some', Option.some_bind]
    rw [← e1]
    cases hp1 : axisPassSSE sw depth (boxBottom (sw.map BBoxTmpSSE.toScalar))
        (boxTop (sw.map BBoxTmpSSE.toScalar)) fuel 1 b0 with
    | none => exact ⟨rfl, fun b hb => by cases hb⟩
    | some b1 =>
      simp only [Option.map_some', Option.some_bind]
      exact axisPass_sse sw depth _ _ fuel 2 b1 (c1 b1 hp1)

theorem leftPart_sse (sw : List BBoxTmpSSE) (axis : Int) (s : ℚ) :
    (leftPartSSE sw axis s).map BBoxTmpSSE.toScalar =
      leftPart (sw.map BBoxTmpSSE.toScalar) axis s := by
  unfold leftPartSSE leftPart
  rw [List.filter_map]
  congr 2
  funext v
  simp only [Function.comp, centerValue_eq]

theorem rightPart_sse (sw : List BBoxTmpSSE) (axis : Int) (s : ℚ) :
    (rightPartSSE sw axis s).map BBoxTmpSSE.toScalar =
      rightPart (sw.map BBoxTmpSSE.toScalar) axis s := by
  unfold rightPartSSE rightPart
  rw [List.filter_map]
  congr 2
  funext v
  simp only [Function.comp, centerValue_eq]

/-- The partition loop stores the two parts and accumulates their boxes when the
two arrays have room for them. -/
theorem partition_sse (axis : Int) (s : ℚ) (capL capR : Nat) (sw : List BBoxTmpSSE)
    (acc : PartSSE)
    (hL : acc.left.length + (leftPartSSE sw axis s).length ≤ capL)
    (hR : acc.right.length + (rightPartSSE sw axis s).length ≤ capR) :
    partitionSSE axis s capL capR sw acc =
      .ok ⟨acc.left ++ leftPartSSE sw axis s, acc.right ++ rightPartSSE sw axis s,
        (leftPartSSE sw axis s).foldl (fun a v => _mm_min_ps a v._bottom) acc.lbottom,
        (leftPartSSE sw axis s).foldl (fun a v => _mm_max_ps a v._top) acc.ltop,
        (rightPartSSE sw axis s).foldl (fun a v => _mm_min_ps a v._bottom) acc.rbottom,
        (rightPartSSE sw axis s).foldl (fun a v => _mm_max_ps a v._top) acc.rtop⟩ := by
  induction sw generalizing acc with
  | nil => simp [partitionSSE, leftPartSSE, rightPartSSE]
  | cons v vs ih =>
    unfold partitionSSE
    by_cases hv : centerValue axis v < s
    · have e1 : leftPartSSE (v :: vs) axis s = v :: leftPartSSE vs axis s := by
        simp [leftPartSSE, List.filter_cons, hv]
      have e2 : rightPartSSE (v :: vs) axis s = rightPartSSE vs axis s := by
        simp [rightPartSSE, List.filter_cons, hv]
      rw [e1] at hL ⊢
      rw [e2] at hR ⊢
      simp only [List.length_cons] at hL
      rw [if_pos hv, if_pos (by omega)]
      refine (ih _ ?_ ?_).trans ?_
      · simp only [List.length_append, List.length_singleton]; omega
      · exact hR
      · simp only [List.append_assoc, List.singleton_append, List.foldl_cons]
    · have e1 : leftPartSSE (v :: vs) axis s = leftPartSSE vs axis s := by
        simp [leftPartSSE, List.filter_cons, hv]
      have e2 : rightPartSSE (v :: vs) axis s = v :: rightPartSSE vs axis s := by
        simp [rightPartSSE, List.filter_cons, hv]
      rw [e1] at hL ⊢
      rw [e2] at hR ⊢
      simp only [List.length_cons] at hR
      rw [if_neg hv, if_pos (by omega)]
      refine (ih _ ?_ ?_).trans ?_
      · exact hL
      · simp only [List.length_append, List.length_singleton]; omega
      · simp only [List.append_assoc, List.singleton_append, List.foldl_cons]

theorem mkLeaf_sse (sw : List BBoxTmpSSE) :
    mkLeafSSE sw = mkLeaf (sw.map BBoxTmpSSE.toScalar) := by
  simp [mkLeafSSE, mkLeaf, BBoxTmpSSE.toScalar, Function.comp]

theorem RecurseSSE_zero (size : Nat) (work : List BBoxTmpSSE) (depth : Nat) :
    RecurseSSE 0 size work depth =
      if work.length < size then .error .outOfBounds
      else if size < 4 then .ok (mkLeafSSE (work.take size))
      else .error .outOfFuel := rfl

theorem RecurseSSE_succ (f size : Nat) (work : List BBoxTmpSSE) (depth : Nat) :
    RecurseSSE (f + 1) size work depth =
      if work.length < size then .error .outOfBounds
      else if size < 4 then .ok (mkLeafSSE (work.take size))
      else
        match searchSplitSSE (work.take size) depth f with
        | none => .error .outOfFuel
        | some best =>
          if best.bestAxis = -1 then .ok (mkLeafSSE (work.take size))
          else
            match partitionSSE best.bestAxis best.bestSplit best.bestCountLeft
                best.bestCountRight (work.take size) PartSSE.init with
            | .error e => .error e
            | .ok p =>
              match RecurseSSE f p.left.length p.left (depth + 1) with
              | .error e => .error e
              | .ok l =>
                match RecurseSSE f p.right.length p.right (depth + 1) with
                | .error e => .error e
                | .ok r =>
                  .ok (.BVHInner Vector3.zero Vector3.zero
                    (l.setBox (SSETOVECTOR3 p.lbottom) (SSETOVECTOR3 p.ltop))
                    (r.setBox (SSETOVECTOR3 p.rbottom) (SSETOVECTOR3 p.rtop))) := rfl

/-- What the partition loop returns for the split found by the search. -/
theorem partition_best (sw : List BBoxTmpSSE) (best : BestSSE) (hc : CountsOK sw best)
    (hax : best.bestAxis ≠ -1) :
    partitionSSE best.bestAxis best.bestSplit best.bestCountLeft best.bestCountRight sw
        PartSSE.init =
      .ok ⟨leftPartSSE sw best.bestAxis best.bestSplit,
        rightPartSSE sw best.bestAxis best.bestSplit,
        sseBottom (leftPartSSE sw best.bestAxis best.bestSplit),
        sseTop (leftPartSSE sw best.bestAxis best.bestSplit),
        sseBottom (rightPartSSE sw best.bestAxis best.bestSplit),
        sseTop (rightPartSSE sw best.bestAxis best.bestSplit)⟩ := by
  rcases hc with h | ⟨h1, h2⟩
  · exact absurd h hax
  · rw [← leftPart_sse, List.length_map] at h1
    rw [← rightPart_sse, List.length_map] at h2
    rw [partition_sse _ _ _ _ sw PartSSE.init (by simp [PartSSE.init, h1])
      (by simp [PartSSE.init, h2])]
    simp [PartSSE.init, sseBottom, sseTop]

theorem Recurse_sse (fuel : Nat) (sw : List BBoxTmpSSE) (depth : Nat) :
    RecurseSSE fuel sw.length sw depth =
      ofScalar (Recurse fuel (sw.map BBoxTmpSSE.toScalar) depth) := by
  induction fuel generalizing sw depth with
  | zero =>
    rw [RecurseSSE_zero, Recurse_zero, List.take_length, List.length_map, mkLeaf_sse,
      if_neg (lt_irrefl _)]
    split_ifs <;> rfl
  | succ f ih =>
    rw [RecurseSSE_succ, Recurse_succ, List.take_length, List.length_map, mkLeaf_sse,
      if_neg (lt_irrefl _)]
    split_ifs with h4
    · rfl
    · obtain ⟨e, c⟩ := searchSplit_sse sw depth f
      rw [← e]
      cases hs : searchSplitSSE sw depth f with
      | none => rfl
      | some best =>
        simp only [Option.map_some']
        have hax : best.toBest.bestAxis = best.bestAxis := rfl
        have hsp : best.toBest.bestSplit = best.bestSplit := rfl
        rw [hax, hsp]
        split_ifs with h1
        · rfl
        · rw [partition_best sw best (c best hs) h1]
          simp only
          rw [ih, ih, leftPart_sse, rightPart_sse, sseBottom_eq, sseTop_eq, sseBottom_eq,
            sseTop_eq, leftPart_sse, rightPart_sse]
          cases Recurse f (leftPart (sw.map BBoxTmpSSE.toScalar) best.bestAxis best.bestSplit)
              (depth + 1) with
          | none => rfl
          | some l =>
            cases Recurse f (rightPart (sw.map BBoxTmpSSE.toScalar) best.bestAxis best.bestSplit)
                (depth + 1) with
            | none => rfl
            | some r => rfl

theorem gatherWork_sse (triangles : List Triangle) :
    (gatherWorkSSE triangles).map BBoxTmpSSE.toScalar = gatherWork triangles := by
  unfold gatherWorkSSE gatherWork
  rw [List.map_map]
  rfl

theorem CreateBVH_sse (fuel : Nat) (triangles : List Triangle) (hne : triangles ≠ []) :
    CreateBVHSSE fuel triangles = ofScalar (CreateBVH fuel triangles) := by
  unfold CreateBVHSSE CreateBVH
  have hlen : ¬ triangles.length = 0 := by
    intro h; exact hne (List.length_eq_zero.mp h)
  have hw : (gatherWorkSSE triangles).length = triangles.length := by
    simp [gatherWorkSSE]
  rw [if_neg hlen]
  simp only
  rw [← hw, Recurse_sse, sseBottom_eq, sseTop_eq, gatherWork_sse]
  cases Recurse fuel (gatherWork triangles) 0 with
  | none => rfl
  | some root => rfl

/-- C18: the SSE variant of `Recurse`, on every work array and at every depth,
returns the tree of the scalar variant on the same items (same shape, same boxes,
same triangles in the same order), and so does the SSE `CreateBVH` on every
non-empty triangle list, with enough fuel for both; the search finds the same
cost, split value and axis; the shuffle sequence computes
`sx*sy + sy*sz + sz*sx` with the operations in that order, whatever the
arithmetic; and the partition loop fills `left` and `right` with exactly
`bestCountLeft` and `bestCountRight` items, never storing beyond them. -/
theorem C18_sse_same_tree :
    (∀ (fuel : Nat) (sw : List BBoxTmpSSE) (depth : Nat),
      RecurseSSE fuel sw.length sw depth =
        ofScalar (Recurse fuel (sw.map BBoxTmpSSE.toScalar) depth)) ∧
    (∀ (fuel : Nat) (triangles : List Triangle), triangles ≠ [] →
      CreateBVHSSE fuel triangles = ofScalar (CreateBVH fuel triangles)) ∧
    (∀ triangles : List Triangle, triangles ≠ [] →
      ∃ root, ∀ fuel, 1023 + triangles.length ≤ fuel →
        CreateBVHSSE fuel triangles = .ok root ∧ CreateBVH fuel triangles = some root) ∧
    (∀ (sw : List BBoxTmpSSE) (depth fuel : Nat),
      (searchSplitSSE sw depth fuel).map BestSSE.toBest =
        searchSplit (sw.map BBoxTmpSSE.toScalar) depth fuel) ∧
    (∀ (α : Type) [Sub α] [Mul α] [Add α] (top bottom : M128 α),
      sseSurface top bottom =
        (top.e3 - bottom.e3) * (top.e2 - bottom.e2) +
          (top.e2 - bottom.e2) * (top.e1 - bottom.e1) +
          (top.e1 - bottom.e1) * (top.e3 - bottom.e3)) ∧
    (∀ (sw : List BBoxTmpSSE) (depth fuel : Nat) (best : BestSSE),
      searchSplitSSE sw depth fuel = some best → best.bestAxis ≠ -1 →
      ∃ p, partitionSSE best.bestAxis best.bestSplit best.bestCountLeft best.bestCountRight
          sw PartSSE.init = .ok p ∧
        p.left.length = best.bestCountLeft ∧ p.right.length = best.bestCountRight ∧
        p.left.map BBoxTmpSSE.toScalar =
          leftPart (sw.map BBoxTmpSSE.toScalar) best.bestAxis best.bestSplit ∧
        p.right.map BBoxTmpSSE.toScalar =
          rightPart (sw.map BBoxTmpSSE.toScalar) best.bestAxis best.bestSplit) := by
  refine ⟨Recurse_sse, CreateBVH_sse, ?_, fun sw depth fuel => (searchSplit_sse sw depth fuel).1,
    fun α _ _ _ top bottom => sseSurface_order top bottom, ?_⟩
  · intro triangles hne
    obtain ⟨t, _, hroot⟩ := CreateBVH_total triangles
    refine ⟨t.setBox (boxBottom (gatherWork triangles)) (boxTop (gatherWork triangles)),
      fun fuel hf => ?_⟩
    rw [CreateBVH_sse fuel triangles hne, hroot fuel hf]
    exact ⟨rfl, rfl⟩
  · intro sw depth fuel best hs hax
    have hc := (searchSplit_sse sw depth fuel).2 best hs
    refine ⟨_, partition_best sw best hc hax, ?_, ?_, leftPart_sse sw _ _, rightPart_sse sw _ _⟩
    · rcases hc with h | ⟨h1, _⟩
      · exact absurd h hax
      · rw [h1, ← leftPart_sse, List.length_map]
    · rcases hc with h | ⟨_, h2⟩
      · exact absurd h hax
      · rw [h2, ← rightPart_sse, List.length_map]

/-! ## C19: a ray that misses the box of the root -/

theorem leafLoopCounted_erase (stop cull : Bool) (scene : Scene) (origin ray : Vector3)
    (avoidSelf : Option Nat) (n i : Nat) (st : RayState) (k : Nat) :
    (leafLoopCounted stop cull scene origin ray avoidSelf n i st k).map Prod.fst =
      leafLoop stop cull scene origin ray avoidSelf n i st := by
  induction n generalizing i st k with
  | zero => rfl
  | succ n ih =>
    rw [leafLoopCounted, leafLoop]
    cases scene._triIndexList[i]? with
    | none => rfl
    | some ti =>
      simp only
      cases scene._triangles[ti]? with
      | none => rfl
      | some triangle =>
        simp only
        cases triangleStep stop cull origin ray avoidSelf ti triangle st with
        | returnTrue s => rfl
        | next s => exact ih _ _ _

/-- The counted traversal returns what `traverse` returns. -/
theorem traverseCounted_erase (stop cull : Bool) (scene : Scene) (origin ray : Vector3)
    (avoidSelf : Option Nat) (fuel : Nat) (is : List Nat) (st : RayState) (w : Work) :
    (traverseCounted stop cull scene origin ray avoidSelf fuel is st w).map Prod.fst =
      traverse stop cull scene origin ray avoidSelf fuel is st := by
  induction fuel generalizing is st w with
  | zero =>
    cases is with
    | nil => simp [traverse, traverseCounted, Except.map]
    | cons i is => simp [traverse, traverseCounted, Except.map]
  | succ f ih =>
    cases is with
    | nil => simp [traverse, traverseCounted, Except.map]
    | cons i is =>
      rw [traverse, traverseCounted]
      cases scene._pCFBVH[i]? with
      | none => rfl
      | some n =>
        simp only
        split_ifs with hb hhit hov
        · rfl
        · exact ih _ _ _
        · exact ih _ _ _
        · have hl := leafLoopCounted_erase stop cull scene origin ray avoidSelf
            (n.count &&& 0x7fffffff) n.startIndexInTriIndexList st w.triangleTests
          cases hc : leafLoopCounted stop cull scene origin ray avoidSelf
              (n.count &&& 0x7fffffff) n.startIndexInTriIndexList st w.triangleTests with
          | error e =>
            rw [hc] at hl
            rw [← hl]; rfl
          | ok p =>
            obtain ⟨fl, k⟩ := p
            rw [hc] at hl
            rw [← hl]
            cases fl with
            | returnTrue s => rfl
            | next s => exact ih _ _ _

/-- C19 as the code has it: when the record at index 0 is an inner node whose box
the ray misses, the call makes that one box test, pushes nothing, enters no leaf,
takes no triangle from the index list, and returns false with the outputs as they
came in (no best triangle); the plain model returns the same. -/
theorem C19_root_miss (stop cull : Bool) (scene : Scene) (origin ray : Vector3)
    (avoidSelf : Option Nat) (pointHitInWorldSpace : Vector3) (kAB kBC kCA : ℚ) (fuel : Nat)
    (root : CacheFriendlyBVHNode) (h0 : scene._pCFBVH[0]? = some root)
    (hinner : root.leafBit = false) (hmiss : RayIntersectsBox origin ray root = false) :
    intersectCounted stop cull scene origin ray avoidSelf pointHitInWorldSpace kAB kBC kCA
        (fuel + 1) =
      .ok ((false, ⟨none, pointHitInWorldSpace, kAB, kBC, kCA,
        if stop then distancesq origin pointHitInWorldSpace else FLT_MAX⟩), ⟨1, 0, 0, 0⟩) ∧
    BVH_IntersectTriangles stop cull scene origin ray avoidSelf pointHitInWorldSpace
        kAB kBC kCA (fuel + 1) =
      .ok (false, ⟨none, pointHitInWorldSpace, kAB, kBC, kCA,
        if stop then distancesq origin pointHitInWorldSpace else FLT_MAX⟩) := by
  have e : intersectCounted stop cull scene origin ray avoidSelf pointHitInWorldSpace
      kAB kBC kCA (fuel + 1) =
      .ok ((false, ⟨none, pointHitInWorldSpace, kAB, kBC, kCA,
        if stop then distancesq origin pointHitInWorldSpace else FLT_MAX⟩), ⟨1, 0, 0, 0⟩) := by
    unfold intersectCounted
    simp only
    rw [traverseCounted, h0]
    simp only [hinner, Bool.not_false, if_true, hmiss, Bool.false_eq_true, if_false]
    cases fuel <;> cases stop <;> simp [traverseCounted]
  refine ⟨e, ?_⟩
  have h := traverseCounted_erase stop cull scene origin ray avoidSelf (fuel + 1) [0]
    ⟨none, pointHitInWorldSpace, kAB, kBC, kCA,
      if stop then distancesq origin pointHitInWorldSpace else FLT_MAX⟩ ⟨0, 0, 0, 0⟩
  unfold intersectCounted at e
  simp only at e
  rw [e] at h
  unfold BVH_IntersectTriangles
  simp only
  rw [← h]
  rfl

theorem C19_root_miss_witness :
    smallScene._pCFBVH[0]? = some ⟨⟨0, 0, 0⟩, ⟨3, 1, 1⟩, 1, 2⟩ ∧
    (⟨⟨0, 0, 0⟩, ⟨3, 1, 1⟩, 1, 2⟩ : CacheFriendlyBVHNode).leafBit = false ∧
    RayIntersectsBox ⟨5, 5, 0⟩ ⟨0, 0, 1⟩ ⟨⟨0, 0, 0⟩, ⟨3, 1, 1⟩, 1, 2⟩ = false ∧
    intersectCounted false true smallScene ⟨5, 5, 0⟩ ⟨0, 0, 1⟩ none ⟨0, 0, 0⟩ 0 0 0 (0 + 1) =
      .ok ((false, ⟨none, ⟨0, 0, 0⟩, 0, 0, 0,
        if false then distancesq ⟨5, 5, 0⟩ ⟨0, 0, 0⟩ else FLT_MAX⟩), ⟨1, 0, 0, 0⟩) ∧
    BVH_IntersectTriangles false true smallScene ⟨5, 5, 0⟩ ⟨0, 0, 1⟩ none ⟨0, 0, 0⟩ 0 0 0
        (0 + 1) =
      .ok (false, ⟨none, ⟨0, 0, 0⟩, 0, 0, 0,
        if false then distancesq ⟨5, 5, 0⟩ ⟨0, 0, 0⟩ else FLT_MAX⟩) :=
  ⟨rfl, by decide, by decide!,
    C19_root_miss false true smallScene ⟨5, 5, 0⟩ ⟨0, 0, 1⟩ none ⟨0, 0, 0⟩ 0 0 0 0
      ⟨⟨0, 0, 0⟩, ⟨3, 1, 1⟩, 1, 2⟩ rfl (by decide) (by decide!)⟩

/-- C19 fails when the root is a leaf: for the scene of one triangle, whose
hierarchy as built by `CreateBVH` and `CreateCFBVH` is a single leaf record, the
ray from `(5, 5, 0)` along `+z` misses the box of the root, yet the call makes no
box test at all, enters the leaf and tests its triangle. -/
theorem C19_counterexample :
    (CreateBVH 0 shadowScene._triangles).map
        (fun root => CreateCFBVH (some root) junk0 junkTri0) =
      some (.ok ⟨1, shadowScene._triIndexList, 1, shadowScene._pCFBVH⟩) ∧
    shadowScene._pCFBVH[0]? =
      some ⟨⟨0, 0, 3 / 2⟩, ⟨1, 1, 3 / 2⟩, 0x80000000 ||| 1, 0⟩ ∧
    RayIntersectsBox ⟨5, 5, 0⟩ ⟨0, 0, 1⟩
      ⟨⟨0, 0, 3 / 2⟩, ⟨1, 1, 3 / 2⟩, 0x80000000 ||| 1, 0⟩ = false ∧
    intersectCounted false false shadowScene ⟨5, 5, 0⟩ ⟨0, 0, 1⟩ none ⟨0, 0, 0⟩ 0 0 0 1 =
      .ok ((false, ⟨none, ⟨0, 0, 0⟩, 0, 0, 0, FLT_MAX⟩), ⟨0, 0, 1, 1⟩) :=
  ⟨by decide!, rfl, by decide!, by decide!⟩

/-! ## C20: the box test against the set of points of the ray in the box -/

theorem guard_iff (N F : ℚ) (T1 : ℚ × ℚ) :
    (if N > F then none else if F < 0 then none else some (N, F)) = some T1 ↔
      T1 = (N, F) ∧ N ≤ F ∧ 0 ≤ F := by
  by_cases h1 : N > F
  · rw [if_pos h1]
    constructor
    · intro h; cases h
    · intro h; exact absurd h.2.1 (not_le.mpr h1)
  · by_cases h2 : F < 0
    · rw [if_neg h1, if_pos h2]
      constructor
      · intro h; cases h
      · intro h; exact absurd h.2.2 (not_le.mpr h2)
    · simp only [h1, h2, if_false, Option.some.injEq]
      constructor
      · intro h; exact ⟨h.symm, not_lt.mp h1, not_lt.mp h2⟩
      · intro h; exact h.1.symm

theorem checkNearAndFar_iff (o r b t : ℚ) (T T1 : ℚ × ℚ) :
    checkNearAndFar o r b t T = some T1 ↔
      parallelOutside o r b t = false ∧ T1 = slabNarrow o r b t T ∧
      (r ≠ 0 → (slabNarrow o r b t T).1 ≤ (slabNarrow o r b t T).2 ∧
        0 ≤ (slabNarrow o r b t T).2) := by
  unfold checkNearAndFar slabNarrow parallelOutside
  by_cases hr : r = 0
  · simp only [hr, if_true, true_and, ne_eq, not_true_eq_false, false_implies, and_true,
      decide_eq_false_iff_not, not_or, not_lt]
    by_cases h1 : o < b
    · simp [h1]
    · by_cases h2 : o > t
      · simp [h1, h2]
      · simp only [h1, h2, if_false, Option.some.injEq]
        constructor
        · intro h; exact ⟨⟨not_lt.mp h1, not_lt.mp h2⟩, h.symm⟩
        · intro h; exact h.2.symm
  · simp only [hr, if_false, false_and, decide_False, true_and, ne_eq, not_false_eq_true,
      true_implies]
    exact guard_iff _ _ _

theorem slabNarrow_of_ne (o r b t : ℚ) (T : ℚ × ℚ) (hr : r ≠ 0) :
    slabNarrow o r b t T =
      (max (min ((b - o) / r) ((t - o) / r)) T.1, min (max ((b - o) / r) ((t - o) / r)) T.2) := by
  unfold slabNarrow
  simp only [hr, if_false]
  have e1 : (if (b - o) / r > (t - o) / r then (t - o) / r else (b - o) / r) =
      min ((b - o) / r) ((t - o) / r) := by
    split_ifs with h
    · exact (min_eq_right (le_of_lt h)).symm
    · exact (min_eq_left (not_lt.mp h)).symm
  have e2 : (if (b - o) / r > (t - o) / r then (b - o) / r else (t - o) / r) =
      max ((b - o) / r) ((t - o) / r) := by
    split_ifs with h
    · exact (max_eq_left (le_of_lt h)).symm
    · exact (max_eq_right (not_lt.mp h)).symm
  rw [e1, e2]
  congr 1
  · split_ifs with h
    · exact (max_eq_left (le_of_lt h)).symm
    · exact (max_eq_right (not_lt.mp h)).symm
  · split_ifs with h
    · exact (min_eq_left (le_of_lt h)).symm
    · exact (min_eq_right (not_lt.mp h)).symm

theorem slabNarrow_mono (o r b t : ℚ) (T : ℚ × ℚ) :
    T.1 ≤ (slabNarrow o r b t T).1 ∧ (slabNarrow o r b t T).2 ≤ T.2 := by
  by_cases hr : r = 0
  · simp [slabNarrow, hr]
  · rw [slabNarrow_of_ne o r b t T hr]
    exact ⟨le_max_right _ _, min_le_right _ _⟩

/-- Under `bottom ≤ top`, the narrowed interval holds the parameters of the old
interval whose point lies between the two planes. -/
theorem slabNarrow_mem (o r b t : ℚ) (T : ℚ × ℚ) (hbt : b ≤ t) (s : ℚ) :
    (parallelOutside o r b t = false ∧
      (slabNarrow o r b t T).1 ≤ s ∧ s ≤ (slabNarrow o r b t T).2) ↔
    ((T.1 ≤ s ∧ s ≤ T.2) ∧ b ≤ r * s + o ∧ r * s + o ≤ t) := by
  by_cases hr : r = 0
  · simp only [slabNarrow, parallelOutside, hr, if_true, true_and, zero_mul, zero_add,
      decide_eq_false_iff_not, not_or, not_lt, gt_iff_lt]
    tauto
  · rw [slabNarrow_of_ne o r b t T hr]
    simp only [parallelOutside, hr, false_and, decide_False, true_and, max_le_iff, le_min_iff]
    rcases lt_or_gt_of_ne hr with hneg | hpos
    · have e1 : s ≤ (b - o) / r ↔ b ≤ r * s + o := by
        rw [le_div_iff_of_neg hneg]; constructor <;> intro h <;> linarith
      have e2 : (t - o) / r ≤ s ↔ r * s + o ≤ t := by
        rw [div_le_iff_of_neg hneg]; constructor <;> intro h <;> linarith
      have e3 : (t - o) / r ≤ (b - o) / r := by
        rw [div_le_div_right_of_neg hneg]; linarith
      rw [min_eq_right e3, max_eq_left e3, e1, e2]
      tauto
    · have e1 : (b - o) / r ≤ s ↔ b ≤ r * s + o := by
        rw [div_le_iff₀ hpos]; constructor <;> intro h <;> linarith
      have e2 : s ≤ (t - o) / r ↔ r * s + o ≤ t := by
        rw [le_div_iff₀ hpos]; constructor <;> intro h <;> linarith
      have e3 : (b - o) / r ≤ (t - o) / r := by
        rw [div_le_div_iff_of_pos_right hpos]; linarith
      rw [min_eq_left e3, max_eq_right e3, e1, e2]
      tauto

theorem RayIntersectsBox_eq_late (origin ray : Vector3) (box : CacheFriendlyBVHNode) :
    RayIntersectsBox origin ray box = RayIntersectsBoxLate origin ray box := by
  have hF : (-FLT_MAX : ℚ) ≤ FLT_MAX ∧ (0 : ℚ) ≤ FLT_MAX := by norm_num [FLT_MAX]
  have key : ∀ (o r b t : ℚ) (T : ℚ × ℚ), T.1 ≤ T.2 ∧ 0 ≤ T.2 →
      checkNearAndFar o r b t T =
        if parallelOutside o r b t = false ∧
          ((slabNarrow o r b t T).1 ≤ (slabNarrow o r b t T).2 ∧ 0 ≤ (slabNarrow o r b t T).2)
        then some (slabNarrow o r b t T) else none := by
    intro o r b t T hT
    split_ifs with h
    · rw [checkNearAndFar_iff]
      exact ⟨h.1, rfl, fun _ => h.2⟩
    · cases hc : checkNearAndFar o r b t T with
      | none => rfl
      | some T1 =>
        exfalso
        rw [checkNearAndFar_iff] at hc
        apply h
        refine ⟨hc.1, ?_⟩
        by_cases hr : r = 0
        · simpa [slabNarrow, hr] using hT
        · exact hc.2.2 hr
  have back : ∀ (o r b t : ℚ) (T : ℚ × ℚ),
      (slabNarrow o r b t T).1 ≤ (slabNarrow o r b t T).2 ∧ 0 ≤ (slabNarrow o r b t T).2 →
      T.1 ≤ T.2 ∧ 0 ≤ T.2 := by
    intro o r b t T h
    have m := slabNarrow_mono o r b t T
    exact ⟨by linarith [h.1, m.1, m.2], by linarith [h.2, m.2]⟩
  unfold RayIntersectsBox RayIntersectsBoxLate
  simp only
  generalize hTx : slabNarrow origin._x ray._x box._bottom._x box._top._x (-FLT_MAX, FLT_MAX) = Tx
  generalize hTy : slabNarrow origin._y ray._y box._bottom._y box._top._y Tx = Ty
  generalize hTz : slabNarrow origin._z ray._z box._bottom._z box._top._z Ty = Tz
  rw [key _ _ _ _ _ hF, hTx]
  by_cases hz : Tz.1 ≤ Tz.2 ∧ 0 ≤ Tz.2
  · have hy : Ty.1 ≤ Ty.2 ∧ 0 ≤ Ty.2 := back origin._z ray._z box._bottom._z box._top._z Ty (hTz ▸ hz)
    have hx : Tx.1 ≤ Tx.2 ∧ 0 ≤ Tx.2 := back origin._y ray._y box._bottom._y box._top._y Tx (hTy ▸ hy)
    by_cases ox : parallelOutside origin._x ray._x box._bottom._x box._top._x = false
    · rw [if_pos ⟨ox, hx⟩]
      simp only
      rw [key _ _ _ _ _ hx, hTy]
      by_cases oy : parallelOutside origin._y ray._y box._bottom._y box._top._y = false
      · rw [if_pos ⟨oy, hy⟩]
        simp only
        rw [key _ _ _ _ _ hy, hTz]
        by_cases oz : parallelOutside origin._z ray._z box._bottom._z box._top._z = false
        · rw [if_pos ⟨oz, hz⟩]
          simp [ox, oy, oz, hz.1, hz.2]
        · rw [if_neg (fun h => oz h.1)]
          simp only [Bool.not_eq_false] at oz
          simp [oz]
      · rw [if_neg (fun h => oy h.1)]
        simp only [Bool.not_eq_false] at oy
        simp [oy]
    · rw [if_neg (fun h => ox h.1)]
      simp only [Bool.not_eq_false] at ox
      simp [ox]
  · have hlate : (decide (Tz.1 ≤ Tz.2) && decide (0 ≤ Tz.2)) = false := by
      by_cases h1 : Tz.1 ≤ Tz.2
      · have h2 : ¬ 0 ≤ Tz.2 := fun h => hz ⟨h1, h⟩
        simp [h2]
      · simp [h1]
    have hR : ∀ b1 b2 b3 : Bool,
        (b1 && b2 && b3 && decide (Tz.1 ≤ Tz.2) && decide (0 ≤ Tz.2)) = false := by
      intro b1 b2 b3
      rw [Bool.and_assoc, hlate, Bool.and_false]
    rw [hR]
    split_ifs with hx
    · simp only
      rw [key _ _ _ _ _ hx.2, hTy]
      split_ifs with hy
      · simp only
        rw [key _ _ _ _ _ hy.2, hTz]
        rw [if_neg (fun h => hz h.2)]
      · rfl
    · rfl

/-- C20: in exact arithmetic, for every box with `bottom ≤ top` on each axis and
every ray origin and direction, `RayIntersectsBox` answers true exactly when some
parameter `s` with `0 ≤ s ≤ FLT_MAX` puts the point `origin + s * direction` in the
closed box; and, for every box, the answer is that of the test which narrows the
interval on the three axes first and rejects only at the end, so the early
rejections of the axes never change it. -/
theorem C20_box_test_exact (origin ray b t : Vector3) (w0 w1 : Nat) (hbox : b.le t) :
    (RayIntersectsBox origin ray ⟨b, t, w0, w1⟩ = true ↔
      ∃ s : ℚ, 0 ≤ s ∧ s ≤ FLT_MAX ∧
        b.le ((ray.scale s).add origin) ∧ ((ray.scale s).add origin).le t) ∧
    (∀ box : CacheFriendlyBVHNode,
      RayIntersectsBox origin ray box = RayIntersectsBoxLate origin ray box) := by
  refine ⟨?_, fun box => RayIntersectsBox_eq_late origin ray box⟩
  obtain ⟨hx, hy, hz⟩ := hbox
  have hF : (0 : ℚ) ≤ FLT_MAX := by norm_num [FLT_MAX]
  rw [RayIntersectsBox_eq_late]
  unfold RayIntersectsBoxLate
  simp only [Bool.and_eq_true, Bool.not_eq_true', decide_eq_true_eq]
  have mx := slabNarrow_mem origin._x ray._x b._x t._x (-FLT_MAX, FLT_MAX) hx
  generalize slabNarrow origin._x ray._x b._x t._x (-FLT_MAX, FLT_MAX) = Tx at mx ⊢
  have my := slabNarrow_mem origin._y ray._y b._y t._y Tx hy
  generalize slabNarrow origin._y ray._y b._y t._y Tx = Ty at my ⊢
  have mz := slabNarrow_mem origin._z ray._z b._z t._z Ty hz
  generalize slabNarrow origin._z ray._z b._z t._z Ty = Tz at mz ⊢
  constructor
  · rintro ⟨⟨⟨⟨ox, oy⟩, oz⟩, h1⟩, h2⟩
    have s1 : Tz.1 ≤ max Tz.1 0 := le_max_left _ _
    have s2 : max Tz.1 0 ≤ Tz.2 := max_le h1 h2
    obtain ⟨⟨y1, y2⟩, bz, tz⟩ := (mz (max Tz.1 0)).mp ⟨oz, s1, s2⟩
    obtain ⟨⟨x1, x2⟩, by_, ty⟩ := (my (max Tz.1 0)).mp ⟨oy, y1, y2⟩
    obtain ⟨⟨_, f2⟩, bx, tx⟩ := (mx (max Tz.1 0)).mp ⟨ox, x1, x2⟩
    exact ⟨max Tz.1 0, le_max_right _ _, f2, ⟨bx, by_, bz⟩, ⟨tx, ty, tz⟩⟩
  · rintro ⟨s, s0, sF, ⟨bx, by_, bz⟩, ⟨tx, ty, tz⟩⟩
    simp only [Vector3.scale, Vector3.add] at bx by_ bz tx ty tz
    obtain ⟨ox, x1, x2⟩ := (mx s).mpr ⟨⟨by simp only; linarith, sF⟩, bx, tx⟩
    obtain ⟨oy, y1, y2⟩ := (my s).mpr ⟨⟨x1, x2⟩, by_, ty⟩
    obtain ⟨oz, z1, z2⟩ := (mz s).mpr ⟨⟨y1, y2⟩, bz, tz⟩
    exact ⟨⟨⟨⟨ox, oy⟩, oz⟩, le_trans z1 z2⟩, le_trans s0 z2⟩

theorem C20_box_test_exact_witness :
    (⟨0, 0, 0⟩ : Vector3).le ⟨1, 1, 1⟩ ∧
    ((RayIntersectsBox ⟨2, 1 / 2, 1 / 2⟩ ⟨-1, 0, 0⟩ ⟨⟨0, 0, 0⟩, ⟨1, 1, 1⟩, 1, 2⟩ = true ↔
      ∃ s : ℚ, 0 ≤ s ∧ s ≤ FLT_MAX ∧
        (⟨0, 0, 0⟩ : Vector3).le (((⟨-1, 0, 0⟩ : Vector3).scale s).add ⟨2, 1 / 2, 1 / 2⟩) ∧
        (((⟨-1, 0, 0⟩ : Vector3).scale s).add ⟨2, 1 / 2, 1 / 2⟩).le ⟨1, 1, 1⟩) ∧
    (∀ box : CacheFriendlyBVHNode,
      RayIntersectsBox ⟨2, 1 / 2, 1 / 2⟩ ⟨-1, 0, 0⟩ box =
        RayIntersectsBoxLate ⟨2, 1 / 2, 1 / 2⟩ ⟨-1, 0, 0⟩ box)) :=
  ⟨by decide!, C20_box_test_exact ⟨2, 1 / 2, 1 / 2⟩ ⟨-1, 0, 0⟩ ⟨0, 0, 0⟩ ⟨1, 1, 1⟩ 1 2
    (by decide!)⟩

/-! ## The search as a fold over its candidates -/

theorem splitFold_boxes (axis : Int) (s : ℚ) (work : List BBoxTmp) (acc : SplitAcc) :
    (work.foldl (splitStep axis s) acc).lbottom =
      (leftPart work axis s).foldl (fun a v => a.assignSmaller v._bottom) acc.lbottom ∧
    (work.foldl (splitStep axis s) acc).ltop =
      (leftPart work axis s).foldl (fun a v => a.assignBigger v._top) acc.ltop ∧
    (work.foldl (splitStep axis s) acc).rbottom =
      (rightPart work axis s).foldl (fun a v => a.assignSmaller v._bottom) acc.rbottom ∧
    (work.foldl (splitStep axis s) acc).rtop =
      (rightPart work axis s).foldl (fun a v => a.assignBigger v._top) acc.rtop := by
  induction work generalizing acc with
  | nil => simp [leftPart, rightPart]
  | cons v vs ih =>
    simp only [List.foldl_cons]
    obtain ⟨h1, h2, h3, h4⟩ := ih (splitStep axis s acc v)
    rw [h1, h2, h3, h4]
    by_cases hv : v._center.onAxis axis < s
    · simp [splitStep, leftPart, rightPart, hv, List.filter_cons]
    · simp [splitStep, leftPart, rightPart, hv, List.filter_cons]

theorem splitScan_boxes (work : List BBoxTmp) (axis : Int) (s : ℚ) :
    (splitScan work axis s).lbottom = boxBottom (leftPart work axis s) ∧
    (splitScan work axis s).ltop = boxTop (leftPart work axis s) ∧
    (splitScan work axis s).rbottom = boxBottom (rightPart work axis s) ∧
    (splitScan work axis s).rtop = boxTop (rightPart work axis s) :=
  splitFold_boxes axis s work SplitAcc.init

/-- The body of the sampling loop keeps the best split unless the candidate is
usable and strictly cheaper. -/
theorem tryCandidate_eq (work : List BBoxTmp) (axis : Int) (s : ℚ) (best : Best) :
    tryCandidate work axis s best =
      if Usable work axis s ∧ sahCost work axis s < best.minCost then
        ⟨sahCost work axis s, s, axis⟩
      else best := by
  obtain ⟨c1, c2⟩ := splitScan_counts work axis s
  obtain ⟨b1, b2, b3, b4⟩ := splitScan_boxes work axis s
  unfold tryCandidate Usable sahCost
  simp only [c1, c2, b1, b2, b3, b4]
  by_cases hu : (leftPart work axis s).length ≤ 1 ∨ (rightPart work axis s).length ≤ 1
  · rw [if_pos hu, if_neg]
    intro h
    rcases hu with hu | hu <;> omega
  · rw [if_neg hu]
    have hu2 : 2 ≤ (leftPart work axis s).length ∧ 2 ≤ (rightPart work axis s).length := by
      constructor <;> omega
    by_cases hc : surface (boxBottom (leftPart work axis s)) (boxTop (leftPart work axis s)) *
          ((leftPart work axis s).length : ℚ) +
        surface (boxBottom (rightPart work axis s)) (boxTop (rightPart work axis s)) *
          ((rightPart work axis s).length : ℚ) < best.minCost
    · rw [if_pos hc, if_pos ⟨hu2, hc⟩]
    · rw [if_neg hc, if_neg (fun h => hc h.2)]

theorem sampleLoop_values (work : List BBoxTmp) (axis : Int) (stop step : ℚ) (fuel : Nat)
    (ts : ℚ) (best : Best) :
    sampleLoop work axis stop step fuel ts best =
      (sampleValues stop step fuel ts).map fun vs =>
        vs.foldl (fun b s => tryCandidate work axis s b) best := by
  induction fuel generalizing ts best with
  | zero =>
    unfold sampleLoop sampleValues
    split_ifs <;> rfl
  | succ f ih =>
    unfold sampleLoop sampleValues
    split_ifs
    · simp only
      rw [ih]
      cases sampleValues stop step f (ts + step) with
      | none => rfl
      | some vs => rfl
    · rfl

theorem axisPass_values (work : List BBoxTmp) (depth : Nat) (bottom top : Vector3) (fuel : Nat)
    (axis : Int) (best : Best) :
    axisPass work depth bottom top fuel axis best =
      (axisValues depth bottom top fuel axis).map fun vs =>
        (vs.map fun s => (axis, s)).foldl (fun b c => tryCandidate work c.1 c.2 b) best := by
  unfold axisPass axisValues
  simp only
  split_ifs
  · rfl
  · rw [sampleLoop_values]
    cases sampleValues _ _ fuel _ with
    | none => rfl
    | some vs => simp [List.foldl_map]

theorem searchSplit_candidates (work : List BBoxTmp) (depth fuel : Nat) :
    searchSplit work depth fuel =
      (candidates work depth fuel).map fun cs =>
        cs.foldl (fun b c => tryCandidate work c.1 c.2 b) ⟨baseCost work, FLT_MAX, -1⟩ := by
  unfold searchSplit candidates baseCost
  simp only [axisPass_values]
  cases axisValues depth (boxBottom work) (boxTop work) fuel 0 with
  | none => rfl
  | some v0 =>
    cases axisValues depth (boxBottom work) (boxTop work) fuel 1 with
    | none => rfl
    | some v1 =>
      cases axisValues depth (boxBottom work) (boxTop work) fuel 2 with
      | none => rfl
      | some v2 => simp [List.foldl_append]

theorem bestOf_step (work : List BBoxTmp) (pre : List (Int × ℚ)) (c : Int × ℚ) (b : Best)
    (h : BestOf work pre b) : BestOf work (pre ++ [c]) (tryCandidate work c.1 c.2 b) := by
  rw [tryCandidate_eq]
  have hle : b.minCost ≤ baseCost work ∧
      ∀ c1 ∈ pre, Usable work c1.1 c1.2 → b.minCost ≤ sahCost work c1.1 c1.2 := by
    rcases h with ⟨_, h2, h3⟩ | ⟨i, _, _, _, h4, h5, _⟩
    · exact ⟨le_of_eq h2, fun c1 hc hu => h2 ▸ h3 c1 hc hu⟩
    · exact ⟨le_of_lt h4, h5⟩
  by_cases hc : Usable work c.1 c.2 ∧ sahCost work c.1 c.2 < b.minCost
  · rw [if_pos hc]
    right
    refine ⟨pre.length, by simp, hc.1, rfl, lt_of_lt_of_le hc.2 hle.1, ?_, ?_⟩
    · intro c1 hc1 hu
      rcases List.mem_append.mp hc1 with hm | hm
      · exact le_of_lt (lt_of_lt_of_le hc.2 (hle.2 c1 hm hu))
      · rw [List.mem_singleton.mp hm]
    · intro j c1 hj hg hu
      rw [List.getElem?_append_left hj] at hg
      exact lt_of_lt_of_le hc.2 (hle.2 c1 (List.getElem?_mem hg) hu)
  · rw [if_neg hc]
    have hnew : Usable work c.1 c.2 → b.minCost ≤ sahCost work c.1 c.2 := by
      intro hu
      by_contra hlt
      exact hc ⟨hu, not_le.mp hlt⟩
    rcases h with ⟨h1, h2, h3⟩ | ⟨i, h1, h2, h3, h4, h5, h6⟩
    · left
      refine ⟨h1, h2, ?_⟩
      intro c1 hc1 hu
      rcases List.mem_append.mp hc1 with hm | hm
      · exact h3 c1 hm hu
      · rw [List.mem_singleton.mp hm] at hu ⊢
        exact h2 ▸ hnew hu
    · right
      have hi : i < pre.length := by
        by_contra hge
        rw [List.getElem?_eq_none (not_lt.mp hge)] at h1
        cases h1
      refine ⟨i, by rw [List.getElem?_append_left hi]; exact h1, h2, h3, h4, ?_, ?_⟩
      · intro c1 hc1 hu
        rcases List.mem_append.mp hc1 with hm | hm
        · exact h5 c1 hm hu
        · rw [List.mem_singleton.mp hm] at hu ⊢
          exact hnew hu
      · intro j c1 hj hg hu
        rw [List.getElem?_append_left (lt_trans hj hi)] at hg
        exact h6 j c1 hj hg hu

theorem bestOf_fold (work : List BBoxTmp) (pre cs : List (Int × ℚ)) (b : Best)
    (h : BestOf work pre b) :
    BestOf work (pre ++ cs) (cs.foldl (fun b c => tryCandidate work c.1 c.2 b) b) := by
  induction cs generalizing pre b with
  | nil => simpa using h
  | cons c cs ih =>
    have := ih (pre ++ [c]) _ (bestOf_step work pre c b h)
    simpa using this

theorem candidates_axis (work : List BBoxTmp) (depth fuel : Nat) (cs : List (Int × ℚ))
    (h : candidates work depth fuel = some cs) : ∀ c ∈ cs, c.1 ≠ -1 := by
  unfold candidates at h
  simp only [Option.bind_eq_some, Option.map_eq_some'] at h
  obtain ⟨v0, _, v1, _, v2, _, rfl⟩ := h
  intro c hc
  simp only [List.mem_append, List.mem_map] at hc
  rcases hc with (⟨s, _, rfl⟩ | ⟨s, _, rfl⟩) | ⟨s, _, rfl⟩ <;> simp

/-- What the search returns, in terms of its candidates. -/
theorem searchSplit_bestOf (work : List BBoxTmp) (depth fuel : Nat) (best : Best)
    (h : searchSplit work depth fuel = some best) :
    ∃ cs, candidates work depth fuel = some cs ∧ BestOf work cs best ∧
      (best.bestAxis = -1 ↔
        ∀ c ∈ cs, Usable work c.1 c.2 → ¬ sahCost work c.1 c.2 < baseCost work) := by
  rw [searchSplit_candidates] at h
  cases hc : candidates work depth fuel with
  | none => rw [hc] at h; cases h
  | some cs =>
    rw [hc] at h
    simp only [Option.map_some', Option.some.injEq] at h
    have h0 : BestOf work [] ⟨baseCost work, FLT_MAX, -1⟩ :=
      Or.inl ⟨rfl, rfl, fun c hc => by cases hc⟩
    have hb := bestOf_fold work [] cs _ h0
    rw [h, List.nil_append] at hb
    refine ⟨cs, rfl, hb, ?_⟩
    have hax := candidates_axis work depth fuel cs hc
    constructor
    · intro h1 c hcm hu
      rcases hb with ⟨_, _, h3⟩ | ⟨i, hi, _⟩
      · exact not_lt.mpr (h3 c hcm hu)
      · exact absurd h1 (hax _ (List.getElem?_mem hi))
    · intro hall
      rcases hb with ⟨h1, _, _⟩ | ⟨i, hi, hu, hm, hlt, _⟩
      · exact h1
      · exact absurd (hm ▸ hlt) (hall _ (List.getElem?_mem hi) hu)

/-! ## The counted build -/

theorem sampleLoopC_eq (work : List BBoxTmp) (axis : Int) (stop step : ℚ) (fuel : Nat)
    (ts : ℚ) (best : Best) (k : Nat) :
    sampleLoopC work axis stop step fuel ts best k =
      (sampleLoop work axis stop step fuel ts best).bind fun b =>
        (sampleValues stop step fuel ts).map fun vs => (b, k + vs.length) := by
  induction fuel generalizing ts best k with
  | zero =>
    unfold sampleLoopC sampleLoop sampleValues
    split_ifs <;> rfl
  | succ f ih =>
    unfold sampleLoopC sampleLoop sampleValues
    split_ifs
    · simp only
      rw [ih]
      cases sampleLoop work axis stop step f (ts + step) (tryCandidate work axis ts best) with
      | none => rfl
      | some b =>
        cases sampleValues stop step f (ts + step) with
        | none => rfl
        | some vs =>
          simp only [Option.some_bind, Option.map_some', List.length_cons]
          congr 2
          omega
    · rfl

theorem axisPassC_eq (work : List BBoxTmp) (depth : Nat) (bottom top : Vector3) (fuel : Nat)
    (axis : Int) (best : Best) (k : Nat) :
    axisPassC work depth bottom top fuel axis best k =
      (axisPass work depth bottom top fuel axis best).bind fun b =>
        (axisValues depth bottom top fuel axis).map fun vs => (b, k + vs.length) := by
  unfold axisPassC axisPass axisValues
  simp only
  split_ifs
  · rfl
  · exact sampleLoopC_eq _ _ _ _ _ _ _ _

theorem axisPass_isSome (work : List BBoxTmp) (depth : Nat) (bottom top : Vector3) (fuel : Nat)
    (axis : Int) (best : Best) :
    (axisPass work depth bottom top fuel axis best).isSome =
      (axisValues depth bottom top fuel axis).isSome := by
  rw [axisPass_values]
  cases axisValues depth bottom top fuel axis <;> rfl

theorem searchSplitC_eq (work : List BBoxTmp) (depth fuel k : Nat) :
    searchSplitC work depth fuel k =
      (searchSplit work depth fuel).bind fun b =>
        (candidates work depth fuel).map fun cs => (b, k + cs.length) := by
  unfold searchSplitC searchSplit candidates
  simp only [axisPassC_eq, axisPass_values]
  cases axisValues depth (boxBottom work) (boxTop work) fuel 0 with
  | none => rfl
  | some v0 =>
    cases axisValues depth (boxBottom work) (boxTop work) fuel 1 with
    | none => rfl
    | some v1 =>
      cases axisValues depth (boxBottom work) (boxTop work) fuel 2 with
      | none => rfl
      | some v2 =>
        simp only [Option.map_some', Option.some_bind, List.length_append, List.length_map]
        congr 2
        omega

theorem RecurseC_zero (work : List BBoxTmp) (depth : Nat) (w : BuildWork) :
    RecurseC 0 work depth w =
      if work.length < 4 then some (mkLeaf work, { w with calls := w.calls + 1 }) else none :=
  rfl

theorem RecurseC_succ (f : Nat) (work : List BBoxTmp) (depth : Nat) (w : BuildWork) :
    RecurseC (f + 1) work depth w =
      if work.length < 4 then some (mkLeaf work, { w with calls := w.calls + 1 })
      else
        match searchSplitC work depth f w.candidates with
        | none => none
        | some (best, k) =>
          if best.bestAxis = -1 then some (mkLeaf work, ⟨w.calls + 1, k⟩)
          else
            match RecurseC f (leftPart work best.bestAxis best.bestSplit) (depth + 1)
                ⟨w.calls + 1, k⟩ with
            | none => none
            | some (l, w1) =>
              match RecurseC f (rightPart work best.bestAxis best.bestSplit) (depth + 1) w1 with
              | none => none
              | some (r, w2) =>
                some (.BVHInner Vector3.zero Vector3.zero
                  (l.setBox (boxBottom (leftPart work best.bestAxis best.bestSplit))
                    (boxTop (leftPart work best.bestAxis best.bestSplit)))
                  (r.setBox (boxBottom (rightPart work best.bestAxis best.bestSplit))
                    (boxTop (rightPart work best.bestAxis best.bestSplit))), w2) := rfl

theorem searchSplitC_fst (work : List BBoxTmp) (depth fuel k : Nat) :
    (searchSplitC work depth fuel k).map Prod.fst = searchSplit work depth fuel := by
  rw [searchSplitC_eq, searchSplit_candidates]
  cases candidates work depth fuel <;> rfl

/-- The counted build returns the tree of `Recurse`. -/
theorem RecurseC_erase (fuel : Nat) (work : List BBoxTmp) (depth : Nat) (w : BuildWork) :
    (RecurseC fuel work depth w).map Prod.fst = Recurse fuel work depth := by
  induction fuel generalizing work depth w with
  | zero =>
    rw [RecurseC_zero, Recurse_zero]
    split_ifs <;> rfl
  | succ f ih =>
    rw [Recurse_succ, RecurseC_succ]
    split_ifs with h4
    · rfl
    · rw [← searchSplitC_fst work depth f w.candidates]
      cases searchSplitC work depth f w.candidates with
      | none => rfl
      | some p =>
        obtain ⟨best, k⟩ := p
        simp only [Option.map_some']
        split_ifs with hax
        · rfl
        · rw [← ih (leftPart work best.bestAxis best.bestSplit) (depth + 1) ⟨w.calls + 1, k⟩]
          cases RecurseC f (leftPart work best.bestAxis best.bestSplit) (depth + 1)
              ⟨w.calls + 1, k⟩ with
          | none => rfl
          | some pl =>
            obtain ⟨l, w1⟩ := pl
            simp only [Option.map_some']
            rw [← ih (rightPart work best.bestAxis best.bestSplit) (depth + 1) w1]
            cases RecurseC f (rightPart work best.bestAxis best.bestSplit) (depth + 1) w1 with
            | none => rfl
            | some pr => rfl

/-- The leaf of a work list holds the triangles of the items in the order of the
list. -/
theorem leafTris_mkLeaf (work : List BBoxTmp) :
    leafTris (mkLeaf work) = work.map BBoxTmp._pTri := rfl

/-- A search that ends without a split makes `Recurse` return the leaf of the
whole list after the one call. -/
theorem Recurse_no_split (work : List BBoxTmp) (depth f : Nat) (cs : List (Int × ℚ))
    (hlen : 4 ≤ work.length) (hc : candidates work depth f = some cs)
    (hnone : ∀ c ∈ cs, Usable work c.1 c.2 → ¬ sahCost work c.1 c.2 < baseCost work)
    (w : BuildWork) :
    Recurse (f + 1) work depth = some (mkLeaf work) ∧
    RecurseC (f + 1) work depth w =
      some (mkLeaf work, ⟨w.calls + 1, w.candidates + cs.length⟩) := by
  have hs : ∃ best, searchSplit work depth f = some best := by
    rw [searchSplit_candidates, hc]
    exact ⟨_, rfl⟩
  obtain ⟨best, hb⟩ := hs
  obtain ⟨cs1, hc1, _, hiff⟩ := searchSplit_bestOf work depth f best hb
  rw [hc] at hc1
  cases hc1
  have hax : best.bestAxis = -1 := hiff.mpr hnone
  constructor
  · rw [Recurse_succ, if_neg (by omega), hb]
    simp only [hax, if_true]
  · rw [RecurseC_succ, if_neg (by omega), searchSplitC_eq, hb, hc]
    simp only [Option.some_bind, Option.map_some', hax, if_true]

/-! ## C22, C23, C24: the split chosen by `Recurse` and the two leaf cases -/

/-- C22: whenever `Recurse` returns an inner node, it was built from the two parts
of the split (axis, value) that the search returned; that split is one of the
candidates evaluated, leaves at least two items on each side, has the least cost
`surface(leftBox)*leftCount + surface(rightBox)*rightCount` among the candidates
that do, a cost strictly below the baseline `count*surface(unionBox)`, and every
usable candidate evaluated before it (axes 0, 1, 2 in turn, split values in the
order of the loop) costs strictly more. -/
theorem C22_first_minimum (fuel : Nat) (work : List BBoxTmp) (depth : Nat) (t : BVHNode)
    (h : Recurse fuel work depth = some t) (hinner : t.IsLeaf = false) :
    ∃ f best cs i l r, fuel = f + 1 ∧ searchSplit work depth f = some best ∧
      candidates work depth f = some cs ∧
      Recurse f (leftPart work best.bestAxis best.bestSplit) (depth + 1) = some l ∧
      Recurse f (rightPart work best.bestAxis best.bestSplit) (depth + 1) = some r ∧
      t = .BVHInner Vector3.zero Vector3.zero
        (l.setBox (boxBottom (leftPart work best.bestAxis best.bestSplit))
          (boxTop (leftPart work best.bestAxis best.bestSplit)))
        (r.setBox (boxBottom (rightPart work best.bestAxis best.bestSplit))
          (boxTop (rightPart work best.bestAxis best.bestSplit))) ∧
      cs[i]? = some (best.bestAxis, best.bestSplit) ∧
      Usable work best.bestAxis best.bestSplit ∧
      (∀ c ∈ cs, Usable work c.1 c.2 →
        sahCost work best.bestAxis best.bestSplit ≤ sahCost work c.1 c.2) ∧
      sahCost work best.bestAxis best.bestSplit < baseCost work ∧
      (∀ (j : Nat) (c : Int × ℚ), j < i → cs[j]? = some c → Usable work c.1 c.2 →
        sahCost work best.bestAxis best.bestSplit < sahCost work c.1 c.2) := by
  rcases Recurse_cases fuel work depth t h with hleaf | ⟨f, best, l, r, hf, _, hs, hax, hl, hr, ht⟩
  · rw [hleaf] at hinner
    cases hinner
  · obtain ⟨cs, hc, hb, _⟩ := searchSplit_bestOf work depth f best hs
    rcases hb with ⟨h1, _⟩ | ⟨i, hi, hu, hm, hlt, hmin, hfirst⟩
    · exact absurd h1 hax
    · exact ⟨f, best, cs, i, l, r, hf, hs, hc, hl, hr, ht, hi, hu,
        fun c hc hu1 => hm ▸ hmin c hc hu1, hm ▸ hlt,
        fun j c hj hg hu1 => hm ▸ hfirst j c hj hg hu1⟩

theorem C22_first_minimum_witness :
    Recurse 3 goodWork 255 = some twoLeafTree ∧ twoLeafTree.IsLeaf = false ∧
    ∃ f best cs i l r, 3 = f + 1 ∧ searchSplit goodWork 255 f = some best ∧
      candidates goodWork 255 f = some cs ∧
      Recurse f (leftPart goodWork best.bestAxis best.bestSplit) (255 + 1) = some l ∧
      Recurse f (rightPart goodWork best.bestAxis best.bestSplit) (255 + 1) = some r ∧
      twoLeafTree = .BVHInner Vector3.zero Vector3.zero
        (l.setBox (boxBottom (leftPart goodWork best.bestAxis best.bestSplit))
          (boxTop (leftPart goodWork best.bestAxis best.bestSplit)))
        (r.setBox (boxBottom (rightPart goodWork best.bestAxis best.bestSplit))
          (boxTop (rightPart goodWork best.bestAxis best.bestSplit))) ∧
      cs[i]? = some (best.bestAxis, best.bestSplit) ∧
      Usable goodWork best.bestAxis best.bestSplit ∧
      (∀ c ∈ cs, Usable goodWork c.1 c.2 →
        sahCost goodWork best.bestAxis best.bestSplit ≤ sahCost goodWork c.1 c.2) ∧
      sahCost goodWork best.bestAxis best.bestSplit < baseCost goodWork ∧
      (∀ (j : Nat) (c : Int × ℚ), j < i → cs[j]? = some c → Usable goodWork c.1 c.2 →
        sahCost goodWork best.bestAxis best.bestSplit < sahCost goodWork c.1 c.2) :=
  ⟨by decide!, rfl, C22_first_minimum 3 goodWork 255 twoLeafTree (by decide!) rfl⟩

theorem candidates_degenerate (work : List BBoxTmp) (depth fuel : Nat)
    (h : ∀ axis : Int, |(boxTop work).onAxis axis - (boxBottom work).onAxis axis| < 1 / 10000) :
    candidates work depth fuel = some [] := by
  unfold candidates axisValues
  simp only [h, if_true, Option.some_bind, Option.map_some', List.map_nil, List.append_nil]

theorem candidates_some (work : List BBoxTmp) (depth f : Nat) (hw : WellFormed work)
    (hne : work ≠ []) (hf : 1022 ≤ f) : ∃ cs, candidates work depth f = some cs := by
  obtain ⟨b, hb⟩ := searchSplit_some work depth f hw hne hf
  rw [searchSplit_candidates] at hb
  cases hc : candidates work depth f with
  | none => rw [hc] at hb; cases hb
  | some cs => exact ⟨cs, rfl⟩

/-- C23: for every work list of 4 or more items (their boxes have
`_bottom ≤ _top`, as every box has), with fuel for the 1022 iterations of a sampling loop, the
search ends after finitely many candidates, and if none of them is usable with a
cost strictly below the baseline, `Recurse` returns the leaf that holds the
triangles of all the items in the order of the list, after that one call of
`Recurse` (no recursive call); in particular, when the extent of the box is below
`1e-4` on the three axes, no candidate is evaluated and this is so for every fuel,
whatever the size of the list. -/
theorem C23_leaf_fallback (work : List BBoxTmp) (depth f : Nat)
    (hlen : 4 ≤ work.length) (hw : WellFormed work) (hf : 1022 ≤ f)
    (hnone : ∀ cs, candidates work depth f = some cs →
      ∀ c ∈ cs, Usable work c.1 c.2 → ¬ sahCost work c.1 c.2 < baseCost work)
    (w : BuildWork) :
    ∃ cs, candidates work depth f = some cs ∧
      Recurse (f + 1) work depth = some (mkLeaf work) ∧
      (mkLeaf work).IsLeaf = true ∧ leafTris (mkLeaf work) = work.map BBoxTmp._pTri ∧
      RecurseC (f + 1) work depth w =
        some (mkLeaf work, ⟨w.calls + 1, w.candidates + cs.length⟩) ∧
      ((∀ axis : Int,
          |(boxTop work).onAxis axis - (boxBottom work).onAxis axis| < 1 / 10000) →
        ∀ f1 : Nat, candidates work depth f1 = some [] ∧
          Recurse (f1 + 1) work depth = some (mkLeaf work) ∧
          RecurseC (f1 + 1) work depth w =
            some (mkLeaf work, ⟨w.calls + 1, w.candidates⟩)) := by
  have hne : work ≠ [] := by
    intro h; rw [h] at hlen; simp at hlen
  obtain ⟨cs, hc⟩ := candidates_some work depth f hw hne hf
  obtain ⟨h1, h2⟩ := Recurse_no_split work depth f cs hlen hc (hnone cs hc) w
  refine ⟨cs, hc, h1, rfl, rfl, h2, ?_⟩
  intro hdeg f1
  have hc1 := candidates_degenerate work depth f1 hdeg
  obtain ⟨k1, k2⟩ := Recurse_no_split work depth f1 [] hlen hc1 (fun c hc => by cases hc) w
  exact ⟨hc1, k1, k2⟩

theorem pointWork_candidates (f : Nat) : candidates pointWork 0 f = some [] := by
  apply candidates_degenerate
  intro axis
  have hb : boxBottom pointWork = ⟨0, 0, 0⟩ := by decide!
  have ht : boxTop pointWork = ⟨0, 0, 0⟩ := by decide!
  rw [hb, ht]
  unfold Vector3.onAxis
  split_ifs <;> norm_num

theorem C23_leaf_fallback_witness :
    4 ≤ pointWork.length ∧ WellFormed pointWork ∧ 1022 ≤ 1022 ∧
    (∀ cs, candidates pointWork 0 1022 = some cs →
      ∀ c ∈ cs, Usable pointWork c.1 c.2 → ¬ sahCost pointWork c.1 c.2 < baseCost pointWork) ∧
    ∃ cs, candidates pointWork 0 1022 = some cs ∧
      Recurse (1022 + 1) pointWork 0 = some (mkLeaf pointWork) ∧
      (mkLeaf pointWork).IsLeaf = true ∧
      leafTris (mkLeaf pointWork) = pointWork.map BBoxTmp._pTri ∧
      RecurseC (1022 + 1) pointWork 0 ⟨0, 0⟩ =
        some (mkLeaf pointWork, ⟨0 + 1, 0 + cs.length⟩) ∧
      ((∀ axis : Int,
          |(boxTop pointWork).onAxis axis - (boxBottom pointWork).onAxis axis| < 1 / 10000) →
        ∀ f1 : Nat, candidates pointWork 0 f1 = some [] ∧
          Recurse (f1 + 1) pointWork 0 = some (mkLeaf pointWork) ∧
          RecurseC (f1 + 1) pointWork 0 ⟨0, 0⟩ = some (mkLeaf pointWork, ⟨0 + 1, 0⟩)) :=
  ⟨by decide, by unfold WellFormed; decide!, le_refl _,
    (fun cs hcs c hc => by
      rw [pointWork_candidates] at hcs
      cases hcs
      cases hc),
    C23_leaf_fallback pointWork 0 1022 (by decide) (by unfold WellFormed; decide!) (le_refl _)
      (fun cs hcs c hc => by
        rw [pointWork_candidates] at hcs
        cases hcs
        cases hc)
      ⟨0, 0⟩⟩

/-- C24: for every work list with fewer than 4 items, at every depth and with any
fuel, `Recurse` returns the leaf whose triangles are those of the items in the order
of the list, with that one call of `Recurse` and no candidate split evaluated. -/
theorem C24_small_list_leaf (fuel : Nat) (work : List BBoxTmp) (depth : Nat)
    (hlen : work.length < 4) (w : BuildWork) :
    Recurse fuel work depth = some (mkLeaf work) ∧
    (mkLeaf work).IsLeaf = true ∧ leafTris (mkLeaf work) = work.map BBoxTmp._pTri ∧
    RecurseC fuel work depth w = some (mkLeaf work, ⟨w.calls + 1, w.candidates⟩) := by
  refine ⟨?_, rfl, rfl, ?_⟩
  · cases fuel with
    | zero => rw [Recurse_zero, if_pos hlen]
    | succ f => rw [Recurse_succ, if_pos hlen]
  · cases fuel with
    | zero => rw [RecurseC_zero, if_pos hlen]
    | succ f => rw [RecurseC_succ, if_pos hlen]

theorem C24_small_list_leaf_witness :
    threeWork.length < 4 ∧
    Recurse 0 threeWork 5 = some (mkLeaf threeWork) ∧
    (mkLeaf threeWork).IsLeaf = true ∧
    leafTris (mkLeaf threeWork) = threeWork.map BBoxTmp._pTri ∧
    RecurseC 0 threeWork 5 ⟨0, 0⟩ = some (mkLeaf threeWork, ⟨0 + 1, 0⟩) :=
  ⟨by decide, C24_small_list_leaf 0 threeWork 5 (by decide) ⟨0, 0⟩⟩

/-! ## C25: the split values sampled on an axis -/

theorem sampleValues_closed (start stop step : ℚ) (K : Nat)
    (hK : ∀ j : Nat, 1 ≤ j → (start + (j : ℚ) * step < stop - step ↔ j ≤ K)) :
    ∀ (n j fuel : Nat), 1 ≤ j → j + n = K + 1 → n ≤ fuel →
      sampleValues stop step fuel (start + (j : ℚ) * step) =
        some ((List.range' j n).map fun (k : Nat) => start + (k : ℚ) * step) := by
  intro n
  induction n with
  | zero =>
    intro j fuel hj hjn _
    unfold sampleValues
    rw [if_neg]
    · rfl
    · rw [hK j hj]; omega
  | succ n ih =>
    intro j fuel hj hjn hf
    obtain ⟨f, rfl⟩ : ∃ f, fuel = f + 1 := ⟨fuel - 1, by omega⟩
    unfold sampleValues
    rw [if_pos ((hK j hj).mpr (by omega))]
    simp only
    have e : start + (j : ℚ) * step + step = start + ((j + 1 : Nat) : ℚ) * step := by
      push_cast; ring
    rw [e, ih (j + 1) f (by omega) (by omega) (by omega)]
    simp [List.range'_succ]

theorem sample_cond (depth : Nat) (start stop : ℚ) (he : 0 < stop - start) (j : Nat)
    (hj : 1 ≤ j) :
    start + (j : ℚ) * ((stop - start) / (1024 / ((depth : ℚ) + 1))) <
        stop - (stop - start) / (1024 / ((depth : ℚ) + 1)) ↔ j ≤ sampleCount depth := by
  have hd : (0 : ℚ) < (depth : ℚ) + 1 := by positivity
  have hstep : (stop - start) / (1024 / ((depth : ℚ) + 1)) =
      (stop - start) * (((depth : ℚ) + 1) / 1024) := by
    field_simp
  rw [hstep]
  have key : start + (j : ℚ) * ((stop - start) * (((depth : ℚ) + 1) / 1024)) <
      stop - (stop - start) * (((depth : ℚ) + 1) / 1024) ↔
      ((j : ℚ) + 1) * ((depth : ℚ) + 1) < 1024 := by
    constructor
    · intro h
      have h1 : (stop - start) * ((((j : ℚ) + 1) * ((depth : ℚ) + 1)) / 1024) <
          (stop - start) * 1 := by
        have : (stop - start) * ((((j : ℚ) + 1) * ((depth : ℚ) + 1)) / 1024) =
            (j : ℚ) * ((stop - start) * (((depth : ℚ) + 1) / 1024)) +
              (stop - start) * (((depth : ℚ) + 1) / 1024) := by ring
        rw [this]; linarith
      have h2 := lt_of_mul_lt_mul_left h1 (le_of_lt he)
      rw [div_lt_one (by norm_num)] at h2
      exact h2
    · intro h
      have h2 : (((j : ℚ) + 1) * ((depth : ℚ) + 1)) / 1024 < 1 := by
        rw [div_lt_one (by norm_num)]; exact h
      have h1 := mul_lt_mul_of_pos_left h2 he
      have : (stop - start) * ((((j : ℚ) + 1) * ((depth : ℚ) + 1)) / 1024) =
          (j : ℚ) * ((stop - start) * (((depth : ℚ) + 1) / 1024)) +
            (stop - start) * (((depth : ℚ) + 1) / 1024) := by ring
      rw [this] at h1; linarith
  rw [key]
  have cast : ((j : ℚ) + 1) * ((depth : ℚ) + 1) < 1024 ↔ (j + 1) * (depth + 1) < 1024 := by
    have : ((j : ℚ) + 1) * ((depth : ℚ) + 1) = (((j + 1) * (depth + 1) : Nat) : ℚ) := by
      push_cast; ring
    rw [this]
    exact_mod_cast Iff.rfl
  rw [cast]
  unfold sampleCount
  have hdiv : j + 1 ≤ 1023 / (depth + 1) ↔ (j + 1) * (depth + 1) ≤ 1023 :=
    Nat.le_div_iff_mul_le (by omega)
  constructor
  · intro h
    have := hdiv.mpr (by omega)
    omega
  · intro h
    have := hdiv.mp (by omega)
    omega

theorem sampleCount_antitone (d1 d2 : Nat) (h : d1 ≤ d2) : sampleCount d2 ≤ sampleCount d1 := by
  unfold sampleCount
  have : 1023 / (d2 + 1) ≤ 1023 / (d1 + 1) := Nat.div_le_div_left (by omega) (by omega)
  omega

/-- C25: in exact arithmetic, on an axis whose extent `e = stop - start` is at least
`1e-4`, at depth `d`, the step of the loop is `e * (d + 1) / 1024` and, with fuel
for 1022 iterations, the split values visited are, in this order,
`start + k * step` for `k = 1, ..., sampleCount d`, which are exactly the
`start + k * step` with `k ≥ 1` an integer and `start + k * step < stop - step`;
their number `1023 / (d + 1) - 1` is 1022 at depth 0, where the step is `e / 1024`,
and never increases with the depth. -/
theorem C25_sample_values (depth : Nat) (bottom top : Vector3) (axis : Int) (fuel : Nat)
    (he : 1 / 10000 ≤ top.onAxis axis - bottom.onAxis axis) (hf : 1022 ≤ fuel) :
    (top.onAxis axis - bottom.onAxis axis) / (1024 / ((depth : ℚ) + 1)) =
      (top.onAxis axis - bottom.onAxis axis) * ((depth : ℚ) + 1) / 1024 ∧
    (∃ vs, axisValues depth bottom top fuel axis = some vs ∧
      vs = (List.range' 1 (sampleCount depth)).map (fun k : Nat =>
        bottom.onAxis axis +
          (k : ℚ) * ((top.onAxis axis - bottom.onAxis axis) * ((depth : ℚ) + 1) / 1024)) ∧
      vs.length = sampleCount depth ∧
      ∀ s : ℚ, s ∈ vs ↔ ∃ k : Nat, 1 ≤ k ∧
        s = bottom.onAxis axis +
          (k : ℚ) * ((top.onAxis axis - bottom.onAxis axis) * ((depth : ℚ) + 1) / 1024) ∧
        bottom.onAxis axis +
            (k : ℚ) * ((top.onAxis axis - bottom.onAxis axis) * ((depth : ℚ) + 1) / 1024) <
          top.onAxis axis -
            (top.onAxis axis - bottom.onAxis axis) * ((depth : ℚ) + 1) / 1024) ∧
    (depth = 0 → (top.onAxis axis - bottom.onAxis axis) / (1024 / ((depth : ℚ) + 1)) =
      (top.onAxis axis - bottom.onAxis axis) / 1024) ∧
    sampleCount 0 = 1022 ∧
    (∀ d1 d2 : Nat, d1 ≤ d2 → sampleCount d2 ≤ sampleCount d1) := by
  have hd : (0 : ℚ) < (depth : ℚ) + 1 := by positivity
  have hpos : 0 < top.onAxis axis - bottom.onAxis axis := by linarith
  have hstep : (top.onAxis axis - bottom.onAxis axis) / (1024 / ((depth : ℚ) + 1)) =
      (top.onAxis axis - bottom.onAxis axis) * ((depth : ℚ) + 1) / 1024 := by
    field_simp
  have hcnt : sampleCount depth ≤ 1022 := by
    have := sampleCount_antitone 0 depth (Nat.zero_le _)
    simpa [sampleCount] using this
  refine ⟨hstep, ?_, ?_, rfl, sampleCount_antitone⟩
  · have hK := sample_cond depth (bottom.onAxis axis) (top.onAxis axis) hpos
    rw [hstep] at hK
    have hv : axisValues depth bottom top fuel axis =
        some ((List.range' 1 (sampleCount depth)).map (fun k : Nat =>
          bottom.onAxis axis +
            (k : ℚ) * ((top.onAxis axis - bottom.onAxis axis) * ((depth : ℚ) + 1) / 1024))) := by
      unfold axisValues
      simp only
      rw [if_neg (by rw [abs_of_pos hpos]; linarith), hstep]
      have := sampleValues_closed (bottom.onAxis axis) (top.onAxis axis)
        ((top.onAxis axis - bottom.onAxis axis) * ((depth : ℚ) + 1) / 1024) (sampleCount depth)
        hK (sampleCount depth) 1 fuel (le_refl _) (by omega) (by omega)
      simpa using this
    refine ⟨_, hv, rfl, by simp, ?_⟩
    intro s
    simp only [List.mem_map, List.mem_range'_1]
    constructor
    · rintro ⟨k, ⟨hk1, hk2⟩, rfl⟩
      exact ⟨k, hk1, rfl, (hK k hk1).mpr (by omega)⟩
    · rintro ⟨k, hk1, rfl, hlt⟩
      exact ⟨k, ⟨hk1, by have := (hK k hk1).mp hlt; omega⟩, rfl⟩
  · intro h0
    subst h0
    norm_num

theorem C25_sample_values_witness :
    (1 : ℚ) / 10000 ≤ (⟨1, 1, 1⟩ : Vector3).onAxis 0 - (⟨0, 0, 0⟩ : Vector3).onAxis 0 ∧
    1022 ≤ 1022 ∧
    ((⟨1, 1, 1⟩ : Vector3).onAxis 0 - (⟨0, 0, 0⟩ : Vector3).onAxis 0) /
        (1024 / (((255 : Nat) : ℚ) + 1)) =
      ((⟨1, 1, 1⟩ : Vector3).onAxis 0 - (⟨0, 0, 0⟩ : Vector3).onAxis 0) *
        (((255 : Nat) : ℚ) + 1) / 1024 ∧
    (∃ vs, axisValues 255 ⟨0, 0, 0⟩ ⟨1, 1, 1⟩ 1022 0 = some vs ∧
      vs = (List.range' 1 (sampleCount 255)).map (fun k : Nat =>
        (⟨0, 0, 0⟩ : Vector3).onAxis 0 +
          (k : ℚ) * (((⟨1, 1, 1⟩ : Vector3).onAxis 0 - (⟨0, 0, 0⟩ : Vector3).onAxis 0) *
            (((255 : Nat) : ℚ) + 1) / 1024)) ∧
      vs.length = sampleCount 255 ∧
      ∀ s : ℚ, s ∈ vs ↔ ∃ k : Nat, 1 ≤ k ∧
        s = (⟨0, 0, 0⟩ : Vector3).onAxis 0 +
          (k : ℚ) * (((⟨1, 1, 1⟩ : Vector3).onAxis 0 - (⟨0, 0, 0⟩ : Vector3).onAxis 0) *
            (((255 : Nat) : ℚ) + 1) / 1024) ∧
        (⟨0, 0, 0⟩ : Vector3).onAxis 0 +
            (k : ℚ) * (((⟨1, 1, 1⟩ : Vector3).onAxis 0 - (⟨0, 0, 0⟩ : Vector3).onAxis 0) *
              (((255 : Nat) : ℚ) + 1) / 1024) <
          (⟨1, 1, 1⟩ : Vector3).onAxis 0 -
            ((⟨1, 1, 1⟩ : Vector3).onAxis 0 - (⟨0, 0, 0⟩ : Vector3).onAxis 0) *
              (((255 : Nat) : ℚ) + 1) / 1024) ∧
    ((255 : Nat) = 0 → ((⟨1, 1, 1⟩ : Vector3).onAxis 0 - (⟨0, 0, 0⟩ : Vector3).onAxis 0) /
        (1024 / (((255 : Nat) : ℚ) + 1)) =
      ((⟨1, 1, 1⟩ : Vector3).onAxis 0 - (⟨0, 0, 0⟩ : Vector3).onAxis 0) / 1024) ∧
    sampleCount 0 = 1022 ∧
    (∀ d1 d2 : Nat, d1 ≤ d2 → sampleCount d2 ≤ sampleCount d1) :=
  ⟨by norm_num [Vector3.onAxis], le_refl _,
    C25_sample_values 255 ⟨0, 0, 0⟩ ⟨1, 1, 1⟩ 0 1022 (by norm_num [Vector3.onAxis]) (le_refl _)⟩

/-! ## C29: the leaves of the tree of `Recurse` -/

theorem minLeaf_setBox (k : Nat) (t : BVHNode) (b c : Vector3) :
    MinLeaf k (t.setBox b c) ↔ MinLeaf k t := by
  cases t <;> rfl

theorem countLeaves_setBox (t : BVHNode) (b c : Vector3) :
    countLeaves (t.setBox b c) = countLeaves t := by
  cases t <;> rfl

theorem countLeaves_pos (t : BVHNode) : 0 < countLeaves t := by
  induction t with
  | BVHInner b t l r ihl ihr => simp only [countLeaves]; omega
  | BVHLeaf b t ts => simp [countLeaves]

theorem CountBoxes_leaves (t : BVHNode) : CountBoxes t + 1 = 2 * countLeaves t := by
  induction t with
  | BVHInner b t l r ihl ihr => simp only [CountBoxes, countLeaves]; omega
  | BVHLeaf b t ts => simp [CountBoxes, countLeaves]

theorem minLeaf_leaves (k : Nat) (t : BVHNode) (h : MinLeaf k t) :
    k * countLeaves t ≤ CountTriangles t := by
  induction t with
  | BVHInner b t l r ihl ihr =>
    obtain ⟨_, _, hl, hr⟩ := h
    have := ihl hl
    have := ihr hr
    simp only [countLeaves, CountTriangles, Nat.mul_add]
    omega
  | BVHLeaf b t ts =>
    simp only [countLeaves, CountTriangles, Nat.mul_one]
    exact h

theorem minLeaf_subtrees (k : Nat) (t s : BVHNode) (h : MinLeaf k t) (hs : s ∈ subtrees t) :
    MinLeaf k s := by
  induction t with
  | BVHInner b t l r ihl ihr =>
    simp only [subtrees, List.mem_cons, List.mem_append] at hs
    rcases hs with rfl | hs | hs
    · exact h
    · exact ihl h.2.2.1 hs
    · exact ihr h.2.2.2 hs
  | BVHLeaf b t ts =>
    simp only [subtrees, List.mem_singleton] at hs
    rw [hs]; exact h

theorem Recurse_triangles (fuel : Nat) (work : List BBoxTmp) (depth : Nat) (t : BVHNode)
    (h : Recurse fuel work depth = some t) : CountTriangles t = work.length := by
  have := (Recurse_perm fuel work depth t h).length_eq
  rw [leafTris_length, List.length_map] at this
  exact this

theorem Recurse_minLeaf (fuel : Nat) (work : List BBoxTmp) (depth : Nat) (t : BVHNode)
    (h : Recurse fuel work depth = some t) (hN : 2 ≤ work.length) : MinLeaf 2 t := by
  induction fuel generalizing work depth t with
  | zero =>
    rcases Recurse_cases 0 work depth t h with rfl | ⟨f, _, _, _, hf, _⟩
    · simpa [mkLeaf, MinLeaf] using hN
    · cases hf
  | succ n ih =>
    rcases Recurse_cases (n + 1) work depth t h with rfl | ⟨f, best, l, r, hf, _, hs, hax, hl, hr, rfl⟩
    · simpa [mkLeaf, MinLeaf] using hN
    · obtain rfl : f = n := by omega
      obtain ⟨p1, _, p3, _⟩ := searchSplit_parts work depth f best hs hax
      have tl := Recurse_triangles _ _ _ _ hl
      have tr := Recurse_triangles _ _ _ _ hr
      refine ⟨?_, ?_, ?_, ?_⟩
      · rw [CountTriangles_setBox, tl]; exact p1
      · rw [CountTriangles_setBox, tr]; exact p3
      · rw [minLeaf_setBox]; exact ih _ _ _ hl p1
      · rw [minLeaf_setBox]; exact ih _ _ _ hr p3

/-- C29: in every tree that `Recurse` returns for a work list of `N ≥ 2` items,
every leaf holds at least 2 triangles and each child of an inner node holds at
least 2 items; the leaves hold the `N` items between them, so the tree has at most
`N / 2` leaves and, with one node less than twice its leaves, at most `N - 1`
nodes. -/
theorem C29_leaf_sizes (fuel : Nat) (work : List BBoxTmp) (depth : Nat) (t : BVHNode)
    (h : Recurse fuel work depth = some t) (hN : 2 ≤ work.length) :
    (∀ s ∈ subtrees t, ∀ (b c : Vector3) (ts : List Nat),
      s = .BVHLeaf b c ts → 2 ≤ ts.length) ∧
    (∀ s ∈ subtrees t, ∀ (b c : Vector3) (l r : BVHNode),
      s = .BVHInner b c l r → 2 ≤ CountTriangles l ∧ 2 ≤ CountTriangles r) ∧
    CountTriangles t = work.length ∧
    countLeaves t ≤ work.length / 2 ∧
    CountBoxes t + 1 = 2 * countLeaves t ∧
    CountBoxes t ≤ work.length - 1 := by
  have hm := Recurse_minLeaf fuel work depth t h hN
  have ht := Recurse_triangles fuel work depth t h
  have hl := minLeaf_leaves 2 t hm
  have hb := CountBoxes_leaves t
  refine ⟨?_, ?_, ht, ?_, hb, ?_⟩
  · intro s hs b c ts e
    have := minLeaf_subtrees 2 t s hm hs
    rw [e] at this
    exact this
  · intro s hs b c l r e
    have := minLeaf_subtrees 2 t s hm hs
    rw [e] at this
    exact ⟨this.1, this.2.1⟩
  · rw [Nat.le_div_iff_mul_le (by norm_num)]
    omega
  · omega

theorem C29_leaf_sizes_witness :
    Recurse 3 goodWork 255 = some twoLeafTree ∧ 2 ≤ goodWork.length ∧
    (∀ s ∈ subtrees twoLeafTree, ∀ (b c : Vector3) (ts : List Nat),
      s = .BVHLeaf b c ts → 2 ≤ ts.length) ∧
    (∀ s ∈ subtrees twoLeafTree, ∀ (b c : Vector3) (l r : BVHNode),
      s = .BVHInner b c l r → 2 ≤ CountTriangles l ∧ 2 ≤ CountTriangles r) ∧
    CountTriangles twoLeafTree = goodWork.length ∧
    countLeaves twoLeafTree ≤ goodWork.length / 2 ∧
    CountBoxes twoLeafTree + 1 = 2 * countLeaves twoLeafTree ∧
    CountBoxes twoLeafTree ≤ goodWork.length - 1 :=
  ⟨by decide!, by decide!, C29_leaf_sizes 3 goodWork 255 twoLeafTree (by decide!) (by decide!)⟩

/-! ## C21: the boxes of the tree are tight -/

theorem vec_ext {a b : Vector3} (hx : a._x = b._x) (hy : a._y = b._y) (hz : a._z = b._z) :
    a = b := by
  cases a; cases b; simp only [Vector3.mk.injEq]; exact ⟨hx, hy, hz⟩

theorem assignSmaller_assoc (a b c : Vector3) :
    (a.assignSmaller b).assignSmaller c = a.assignSmaller (b.assignSmaller c) := by
  simp only [Vector3.assignSmaller, min_assoc]

theorem assignBigger_assoc (a b c : Vector3) :
    (a.assignBigger b).assignBigger c = a.assignBigger (b.assignBigger c) := by
  simp only [Vector3.assignBigger, max_assoc]

theorem assignSmaller_of_le {a b : Vector3} (h : a.le b) : a.assignSmaller b = a := by
  apply vec_ext
  · exact min_eq_left h.1
  · exact min_eq_left h.2.1
  · exact min_eq_left h.2.2

theorem assignBigger_of_le {a b : Vector3} (h : b.le a) : a.assignBigger b = a := by
  apply vec_ext
  · exact max_eq_left h.1
  · exact max_eq_left h.2.1
  · exact max_eq_left h.2.2

theorem max_right_comm3 (a b c : ℚ) : max (max a b) c = max (max a c) b := by
  rw [max_assoc, max_comm b c, ← max_assoc]

theorem assignSmaller_rcomm : RightCommutative Vector3.assignSmaller :=
  ⟨fun a b c => by
    simp only [Vector3.assignSmaller, Vector3.mk.injEq]
    exact ⟨min_right_comm _ _ _, min_right_comm _ _ _, min_right_comm _ _ _⟩⟩

theorem assignBigger_rcomm : RightCommutative Vector3.assignBigger :=
  ⟨fun a b c => by
    simp only [Vector3.assignBigger, Vector3.mk.injEq]
    exact ⟨max_right_comm3 _ _ _, max_right_comm3 _ _ _, max_right_comm3 _ _ _⟩⟩

theorem foldMin_acc (a c : Vector3) (vs : List Vector3) :
    vs.foldl Vector3.assignSmaller (a.assignSmaller c) =
      a.assignSmaller (vs.foldl Vector3.assignSmaller c) := by
  induction vs generalizing c with
  | nil => rfl
  | cons v vs ih => simp only [List.foldl_cons, assignSmaller_assoc, ih]

theorem foldMax_acc (a c : Vector3) (vs : List Vector3) :
    vs.foldl Vector3.assignBigger (a.assignBigger c) =
      a.assignBigger (vs.foldl Vector3.assignBigger c) := by
  induction vs generalizing c with
  | nil => rfl
  | cons v vs ih => simp only [List.foldl_cons, assignBigger_assoc, ih]

/-- What the accumulation of `assignSmaller` yields. -/
theorem foldMin_spec (vs : List Vector3) (acc : Vector3) :
    (vs.foldl Vector3.assignSmaller acc).le acc ∧
    (∀ v ∈ vs, (vs.foldl Vector3.assignSmaller acc).le v) ∧
    ((vs.foldl Vector3.assignSmaller acc)._x = acc._x ∨
      ∃ v ∈ vs, (vs.foldl Vector3.assignSmaller acc)._x = v._x) ∧
    ((vs.foldl Vector3.assignSmaller acc)._y = acc._y ∨
      ∃ v ∈ vs, (vs.foldl Vector3.assignSmaller acc)._y = v._y) ∧
    ((vs.foldl Vector3.assignSmaller acc)._z = acc._z ∨
      ∃ v ∈ vs, (vs.foldl Vector3.assignSmaller acc)._z = v._z) := by
  induction vs generalizing acc with
  | nil =>
    exact ⟨le_refl3 _, fun v hv => absurd hv (List.not_mem_nil v), Or.inl rfl, Or.inl rfl, Or.inl rfl⟩
  | cons w ws ih =>
    simp only [List.foldl_cons]
    obtain ⟨h1, h2, hx, hy, hz⟩ := ih (acc.assignSmaller w)
    have ha : (acc.assignSmaller w).le acc := ⟨min_le_left _ _, min_le_left _ _, min_le_left _ _⟩
    have hw : (acc.assignSmaller w).le w := ⟨min_le_right _ _, min_le_right _ _, min_le_right _ _⟩
    refine ⟨le_trans3 h1 ha, ?_, ?_, ?_, ?_⟩
    · intro v hv
      rcases List.mem_cons.mp hv with rfl | hv
      · exact le_trans3 h1 hw
      · exact h2 v hv
    · rcases hx with hx | ⟨v, hv, hx⟩
      · rcases min_choice acc._x w._x with hm | hm
        · exact Or.inl (hx.trans hm)
        · exact Or.inr ⟨w, List.mem_cons_self _ _, hx.trans hm⟩
      · exact Or.inr ⟨v, List.mem_cons_of_mem _ hv, hx⟩
    · rcases hy with hy | ⟨v, hv, hy⟩
      · rcases min_choice acc._y w._y with hm | hm
        · exact Or.inl (hy.trans hm)
        · exact Or.inr ⟨w, List.mem_cons_self _ _, hy.trans hm⟩
      · exact Or.inr ⟨v, List.mem_cons_of_mem _ hv, hy⟩
    · rcases hz with hz | ⟨v, hv, hz⟩
      · rcases min_choice acc._z w._z with hm | hm
        · exact Or.inl (hz.trans hm)
        · exact Or.inr ⟨w, List.mem_cons_self _ _, hz.trans hm⟩
      · exact Or.inr ⟨v, List.mem_cons_of_mem _ hv, hz⟩

/-- What the accumulation of `assignBigger` yields. -/
theorem foldMax_spec (vs : List Vector3) (acc : Vector3) :
    acc.le (vs.foldl Vector3.assignBigger acc) ∧
    (∀ v ∈ vs, v.le (vs.foldl Vector3.assignBigger acc)) ∧
    ((vs.foldl Vector3.assignBigger acc)._x = acc._x ∨
      ∃ v ∈ vs, (vs.foldl Vector3.assignBigger acc)._x = v._x) ∧
    ((vs.foldl Vector3.assignBigger acc)._y = acc._y ∨
      ∃ v ∈ vs, (vs.foldl Vector3.assignBigger acc)._y = v._y) ∧
    ((vs.foldl Vector3.assignBigger acc)._z = acc._z ∨
      ∃ v ∈ vs, (vs.foldl Vector3.assignBigger acc)._z = v._z) := by
  induction vs generalizing acc with
  | nil =>
    exact ⟨le_refl3 _, fun v hv => absurd hv (List.not_mem_nil v), Or.inl rfl, Or.inl rfl, Or.inl rfl⟩
  | cons w ws ih =>
    simp only [List.foldl_cons]
    obtain ⟨h1, h2, hx, hy, hz⟩ := ih (acc.assignBigger w)
    have ha : acc.le (acc.assignBigger w) := ⟨le_max_left _ _, le_max_left _ _, le_max_left _ _⟩
    have hw : w.le (acc.assignBigger w) := ⟨le_max_right _ _, le_max_right _ _, le_max_right _ _⟩
    refine ⟨le_trans3 ha h1, ?_, ?_, ?_, ?_⟩
    · intro v hv
      rcases List.mem_cons.mp hv with rfl | hv
      · exact le_trans3 hw h1
      · exact h2 v hv
    · rcases hx with hx | ⟨v, hv, hx⟩
      · rcases max_choice acc._x w._x with hm | hm
        · exact Or.inl (hx.trans hm)
        · exact Or.inr ⟨w, List.mem_cons_self _ _, hx.trans hm⟩
      · exact Or.inr ⟨v, List.mem_cons_of_mem _ hv, hx⟩
    · rcases hy with hy | ⟨v, hv, hy⟩
      · rcases max_choice acc._y w._y with hm | hm
        · exact Or.inl (hy.trans hm)
        · exact Or.inr ⟨w, List.mem_cons_self _ _, hy.trans hm⟩
      · exact Or.inr ⟨v, List.mem_cons_of_mem _ hv, hy⟩
    · rcases hz with hz | ⟨v, hv, hz⟩
      · rcases max_choice acc._z w._z with hm | hm
        · exact Or.inl (hz.trans hm)
        · exact Or.inr ⟨w, List.mem_cons_self _ _, hz.trans hm⟩
      · exact Or.inr ⟨v, List.mem_cons_of_mem _ hv, hz⟩

theorem vertexMin_le_vecMax (vs : List Vector3) : (vertexMin vs).le vecMax :=
  (foldMin_spec vs vecMax).1

theorem vecMin_le_vertexMax (vs : List Vector3) : vecMin.le (vertexMax vs) :=
  (foldMax_spec vs vecMin).1

theorem vertexMin_append (xs ys : List Vector3) :
    vertexMin (xs ++ ys) = (vertexMin xs).assignSmaller (vertexMin ys) := by
  unfold vertexMin
  rw [List.foldl_append]
  have h := assignSmaller_of_le (vertexMin_le_vecMax xs)
  unfold vertexMin at h
  rw [← foldMin_acc, h]

theorem vertexMax_append (xs ys : List Vector3) :
    vertexMax (xs ++ ys) = (vertexMax xs).assignBigger (vertexMax ys) := by
  unfold vertexMax
  rw [List.foldl_append]
  have h := assignBigger_of_le (vecMin_le_vertexMax xs)
  unfold vertexMax at h
  rw [← foldMax_acc, h]

theorem vertexMin_perm {xs ys : List Vector3} (h : xs.Perm ys) : vertexMin xs = vertexMin ys :=
  @List.Perm.foldl_eq _ _ _ _ _ assignSmaller_rcomm h vecMax

theorem vertexMax_perm {xs ys : List Vector3} (h : xs.Perm ys) : vertexMax xs = vertexMax ys :=
  @List.Perm.foldl_eq _ _ _ _ _ assignBigger_rcomm h vecMin

/-- For points in the range of `coord`, the accumulation from `vecMax` over a
non-empty list is the componentwise minimum. -/
theorem vertexMin_isMin (vs : List Vector3) (hne : vs ≠ [])
    (hr : ∀ v ∈ vs, InFloatRange v) : IsMinOf (vertexMin vs) vs := by
  obtain ⟨w, hw⟩ := List.exists_mem_of_ne_nil vs hne
  obtain ⟨_, h2, hx, hy, hz⟩ := foldMin_spec vs vecMax
  refine ⟨h2, ?_, ?_, ?_⟩
  · rcases hx with hx | hx
    · exact ⟨w, hw, le_antisymm (h2 w hw).1 (hx ▸ (hr w hw).2.1)⟩
    · exact hx
  · rcases hy with hy | hy
    · exact ⟨w, hw, le_antisymm (h2 w hw).2.1 (hy ▸ (hr w hw).2.2.1)⟩
    · exact hy
  · rcases hz with hz | hz
    · exact ⟨w, hw, le_antisymm (h2 w hw).2.2 (hz ▸ (hr w hw).2.2.2)⟩
    · exact hz

theorem vertexMax_isMax (vs : List Vector3) (hne : vs ≠ [])
    (hr : ∀ v ∈ vs, InFloatRange v) : IsMaxOf (vertexMax vs) vs := by
  obtain ⟨w, hw⟩ := List.exists_mem_of_ne_nil vs hne
  obtain ⟨_, h2, hx, hy, hz⟩ := foldMax_spec vs vecMin
  refine ⟨h2, ?_, ?_, ?_⟩
  · rcases hx with hx | hx
    · exact ⟨w, hw, le_antisymm (hx ▸ (hr w hw).1.1) (h2 w hw).1⟩
    · exact hx
  · rcases hy with hy | hy
    · exact ⟨w, hw, le_antisymm (hy ▸ (hr w hw).1.2.1) (h2 w hw).2.1⟩
    · exact hy
  · rcases hz with hz | hz
    · exact ⟨w, hw, le_antisymm (hz ▸ (hr w hw).1.2.2) (h2 w hw).2.2⟩
    · exact hz

/-- The box accumulated over a work list whose items carry the accumulation over
the points of their entry is the accumulation over all these points. -/
theorem boxBottom_vertices (V : Nat → List Vector3) (work : List BBoxTmp)
    (hbox : ∀ v ∈ work, v._bottom = vertexMin (V v._pTri)) :
    boxBottom work = vertexMin ((work.map BBoxTmp._pTri).flatMap V) := by
  have key : ∀ (ws : List BBoxTmp) (acc : Vector3), acc.le vecMax →
      (∀ v ∈ ws, v._bottom = vertexMin (V v._pTri)) →
      ws.foldl (fun acc v => acc.assignSmaller v._bottom) acc =
        ((ws.map BBoxTmp._pTri).flatMap V).foldl Vector3.assignSmaller acc := by
    intro ws
    induction ws with
    | nil => intro acc _ _; rfl
    | cons w ws ih =>
      intro acc hacc hb
      simp only [List.foldl_cons, List.map_cons, List.flatMap_cons, List.foldl_append]
      have h1 : acc.assignSmaller w._bottom = (V w._pTri).foldl Vector3.assignSmaller acc := by
        rw [hb w (List.mem_cons_self _ _)]
        unfold vertexMin
        rw [← foldMin_acc, assignSmaller_of_le hacc]
      rw [h1]
      apply ih
      · exact le_trans3 (foldMin_spec _ _).1 hacc
      · exact fun v hv => hb v (List.mem_cons_of_mem _ hv)
  exact key work vecMax (le_refl3 _) hbox

theorem boxTop_vertices (V : Nat → List Vector3) (work : List BBoxTmp)
    (hbox : ∀ v ∈ work, v._top = vertexMax (V v._pTri)) :
    boxTop work = vertexMax ((work.map BBoxTmp._pTri).flatMap V) := by
  have key : ∀ (ws : List BBoxTmp) (acc : Vector3), vecMin.le acc →
      (∀ v ∈ ws, v._top = vertexMax (V v._pTri)) →
      ws.foldl (fun acc v => acc.assignBigger v._top) acc =
        ((ws.map BBoxTmp._pTri).flatMap V).foldl Vector3.assignBigger acc := by
    intro ws
    induction ws with
    | nil => intro acc _ _; rfl
    | cons w ws ih =>
      intro acc hacc hb
      simp only [List.foldl_cons, List.map_cons, List.flatMap_cons, List.foldl_append]
      have h1 : acc.assignBigger w._top = (V w._pTri).foldl Vector3.assignBigger acc := by
        rw [hb w (List.mem_cons_self _ _)]
        unfold vertexMax
        rw [← foldMax_acc, assignBigger_of_le hacc]
      rw [h1]
      apply ih
      · exact le_trans3 hacc (foldMax_spec _ _).1
      · exact fun v hv => hb v (List.mem_cons_of_mem _ hv)
  exact key work vecMin (le_refl3 _) hbox

theorem workBox_tight (V : Nat → List Vector3) (work : List BBoxTmp) (ts : List Nat)
    (hbox : ∀ v ∈ work, v._bottom = vertexMin (V v._pTri) ∧ v._top = vertexMax (V v._pTri))
    (hp : ts.Perm (work.map BBoxTmp._pTri)) :
    boxBottom work = vertexMin (ts.flatMap V) ∧ boxTop work = vertexMax (ts.flatMap V) := by
  rw [boxBottom_vertices V work (fun v hv => (hbox v hv).1),
    boxTop_vertices V work (fun v hv => (hbox v hv).2)]
  exact ⟨(vertexMin_perm (hp.flatMap_right V)).symm, (vertexMax_perm (hp.flatMap_right V)).symm⟩

theorem Recurse_tight (V : Nat → List Vector3) (fuel : Nat) (work : List BBoxTmp)
    (depth : Nat) (t : BVHNode)
    (hbox : ∀ v ∈ work, v._bottom = vertexMin (V v._pTri) ∧ v._top = vertexMax (V v._pTri))
    (h : Recurse fuel work depth = some t) :
    TightBoxes V (t.setBox (boxBottom work) (boxTop work)) := by
  induction fuel generalizing work depth t with
  | zero =>
    rcases Recurse_cases _ _ _ _ h with rfl | ⟨f, _, _, _, hf, _⟩
    · exact workBox_tight V work _ hbox (List.Perm.refl _)
    · omega
  | succ f ih =>
    have hperm := Recurse_perm _ _ _ _ h
    rcases Recurse_cases _ _ _ _ h with rfl | ⟨f', best, l, r, hf, _, _, _, hl, hr, rfl⟩
    · exact workBox_tight V work _ hbox (List.Perm.refl _)
    · obtain rfl : f' = f := by omega
      simp only [leafTris, leafTris_setBox] at hperm
      obtain ⟨e1, e2⟩ := workBox_tight V work _ hbox hperm
      refine ⟨?_, ?_, ?_, ?_⟩
      · simp only [leafTris_setBox]; exact e1
      · simp only [leafTris_setBox]; exact e2
      · exact ih _ _ _ (fun v hv => hbox v (List.mem_of_mem_filter hv)) hl
      · exact ih _ _ _ (fun v hv => hbox v (List.mem_of_mem_filter hv)) hr

theorem tightBoxes_root (V : Nat → List Vector3) (t : BVHNode) (h : TightBoxes V t) :
    t._bottom = vertexMin ((leafTris t).flatMap V) ∧
    t._top = vertexMax ((leafTris t).flatMap V) := by
  cases t with
  | BVHLeaf b1 t1 ts => exact h
  | BVHInner b1 t1 l r => exact ⟨h.1, h.2.1⟩

theorem tightBoxes_subtrees (V : Nat → List Vector3) (t s : BVHNode) (h : TightBoxes V t)
    (hs : s ∈ subtrees t) : TightBoxes V s := by
  induction t with
  | BVHLeaf b t ts =>
    simp only [subtrees, List.mem_singleton] at hs
    subst hs
    exact h
  | BVHInner b t l r ihl ihr =>
    simp only [subtrees, List.mem_cons, List.mem_append] at hs
    rcases hs with rfl | hs | hs
    · exact h
    · exact ihl h.2.2.1 hs
    · exact ihr h.2.2.2 hs

theorem tightBoxes_union (V : Nat → List Vector3) (b t : Vector3) (l r : BVHNode)
    (h : TightBoxes V (.BVHInner b t l r)) :
    b = l._bottom.assignSmaller r._bottom ∧ t = l._top.assignBigger r._top := by
  obtain ⟨h1, h2, hl, hr⟩ := h
  obtain ⟨l1, l2⟩ := tightBoxes_root V l hl
  obtain ⟨r1, r2⟩ := tightBoxes_root V r hr
  rw [h1, h2, l1, l2, r1, r2, List.flatMap_append, vertexMin_append, vertexMax_append]
  exact ⟨rfl, rfl⟩

theorem gatherWork_vertices (triangles : List Triangle) :
    ∀ v ∈ gatherWork triangles, v._bottom = vertexMin (triVertices triangles v._pTri) ∧
      v._top = vertexMax (triVertices triangles v._pTri) := by
  intro v hv
  simp only [gatherWork, List.mem_map] at hv
  obtain ⟨p, hp, rfl⟩ := hv
  have := List.mem_enum_iff_getElem?.mp hp
  simp only [triVertices, mkBBoxTmp, this]
  exact ⟨rfl, rfl⟩

theorem leafTris_subtrees (t s : BVHNode) (hs : s ∈ subtrees t) :
    ∀ j ∈ leafTris s, j ∈ leafTris t := by
  induction t with
  | BVHLeaf b t ts =>
    intro j hj
    simp only [subtrees, List.mem_singleton] at hs
    subst hs; exact hj
  | BVHInner b t l r ihl ihr =>
    intro j hj
    simp only [subtrees, List.mem_cons, List.mem_append] at hs
    rcases hs with rfl | hs | hs
    · exact hj
    · simp only [leafTris, List.mem_append]; exact Or.inl (ihl hs j hj)
    · simp only [leafTris, List.mem_append]; exact Or.inr (ihr hs j hj)

theorem minLeaf_mono (j k : Nat) (t : BVHNode) (h : MinLeaf k t) (hjk : j ≤ k) : MinLeaf j t := by
  induction t with
  | BVHInner b t l r ihl ihr =>
    obtain ⟨h1, h2, hl, hr⟩ := h
    exact ⟨le_trans hjk h1, le_trans hjk h2, ihl hl, ihr hr⟩
  | BVHLeaf b t ts => exact le_trans hjk h

theorem minLeaf_count (k : Nat) (t : BVHNode) (h : MinLeaf k t) : k ≤ CountTriangles t := by
  cases t with
  | BVHInner b t l r =>
    have := h.1
    simp only [CountTriangles]
    omega
  | BVHLeaf b t ts => exact h

/-- Every subtree of a tree built by `Recurse` from a non-empty work list holds a
triangle. -/
theorem Recurse_minLeaf_one (fuel : Nat) (work : List BBoxTmp) (depth : Nat) (t : BVHNode)
    (h : Recurse fuel work depth = some t) (hne : work ≠ []) : MinLeaf 1 t := by
  have hpos : 1 ≤ work.length := List.length_pos.mpr hne
  by_cases h2 : 2 ≤ work.length
  · exact minLeaf_mono 1 2 t (Recurse_minLeaf fuel work depth t h h2) (by decide)
  · rcases Recurse_cases _ _ _ _ h with rfl | ⟨f, _, _, _, _, hlen, _⟩
    · simpa [mkLeaf, MinLeaf] using hpos
    · omega

theorem minLeaf_nonempty (t s : BVHNode) (hm : MinLeaf 1 t) (hs : s ∈ subtrees t) :
    leafTris s ≠ [] := by
  intro e
  have := minLeaf_count 1 s (minLeaf_subtrees 1 t s hm hs)
  rw [← leafTris_length, e] at this
  simp at this

theorem triVertices_mem (triangles : List Triangle) (j : Nat) (v : Vector3)
    (hv : v ∈ triVertices triangles j) :
    ∃ tri ∈ triangles, v = tri._vertexA ∨ v = tri._vertexB ∨ v = tri._vertexC := by
  unfold triVertices at hv
  cases ht : triangles[j]? with
  | none => rw [ht] at hv; cases hv
  | some tri =>
    rw [ht] at hv
    refine ⟨tri, List.getElem?_mem ht, ?_⟩
    simpa using hv

theorem triVertices_ne (triangles : List Triangle) (j : Nat) (hj : j < triangles.length) :
    triVertices triangles j ≠ [] := by
  unfold triVertices
  rw [List.getElem?_eq_getElem hj]
  exact List.cons_ne_nil _ _

/-- C21: for every non-empty list of triangles whose vertices have coordinates in
the range of `coord`, `CreateBVH` returns a tree (the same for every amount of
fuel that suffices) in which every node holds at least one triangle of the list
in the leaves below it, and the box of every node is the componentwise minimum
and maximum over the vertices of exactly these triangles: `_bottom` is below every
such vertex and each of its coordinates is attained by one of them, and so for
`_top`. Hence the box of an inner node is the union of the boxes of its two
children. -/
theorem C21_tight_boxes (triangles : List Triangle) (hne : triangles ≠ [])
    (hr : ∀ tri ∈ triangles, tri.InFloatRange) :
    ∃ root, (∀ fuel, 1023 + triangles.length ≤ fuel → CreateBVH fuel triangles = some root) ∧
      (∀ fuel r, CreateBVH fuel triangles = some r → r = root) ∧
      ∀ s ∈ subtrees root,
        leafTris s ≠ [] ∧ (∀ j ∈ leafTris s, j < triangles.length) ∧
        IsMinOf s._bottom (subtreeVertices triangles s) ∧
        IsMaxOf s._top (subtreeVertices triangles s) ∧
        ∀ (b t : Vector3) (l r : BVHNode), s = .BVHInner b t l r →
          b = l._bottom.assignSmaller r._bottom ∧ t = l._top.assignBigger r._top := by
  obtain ⟨t, ht, hc⟩ := CreateBVH_total triangles
  have hR := ht _ (le_refl _)
  have hwne : gatherWork triangles ≠ [] := by
    intro e
    have := gatherWork_length triangles
    rw [e] at this
    exact hne (List.length_eq_zero.mp this.symm)
  have htight := Recurse_tight (triVertices triangles) _ _ _ _ (gatherWork_vertices triangles) hR
  have hmin := (minLeaf_setBox 1 t (boxBottom (gatherWork triangles))
    (boxTop (gatherWork triangles))).mpr (Recurse_minLeaf_one _ _ _ _ hR hwne)
  have hperm := Recurse_perm _ _ _ _ hR
  rw [gatherWork_pTri, ← leafTris_setBox t (boxBottom (gatherWork triangles))
    (boxTop (gatherWork triangles))] at hperm
  generalize hroot : t.setBox (boxBottom (gatherWork triangles)) (boxTop (gatherWork triangles))
    = root at hc htight hmin hperm
  refine ⟨root, hc, ?_, ?_⟩
  · intro fuel r hr1
    have h2 := hc (max fuel (1023 + triangles.length)) (le_max_right _ _)
    simp only [CreateBVH] at hr1 h2
    cases hf : Recurse fuel (gatherWork triangles) 0 with
    | none => rw [hf] at hr1; cases hr1
    | some t1 =>
      rw [hf] at hr1
      rw [Recurse_mono_le _ _ _ _ _ hf (le_max_left _ _)] at h2
      simp only [Option.map_some', Option.some.injEq] at hr1 h2
      rw [← hr1, h2]
  · intro s hs
    have hsne := minLeaf_nonempty root s hmin hs
    have hlt : ∀ j ∈ leafTris s, j < triangles.length := fun j hj =>
      List.mem_range.mp (hperm.mem_iff.mp (leafTris_subtrees root s hs j hj))
    have hts := tightBoxes_subtrees _ root s htight hs
    obtain ⟨e1, e2⟩ := tightBoxes_root _ s hts
    have hvne : subtreeVertices triangles s ≠ [] := by
      obtain ⟨j, hj⟩ := List.exists_mem_of_ne_nil _ hsne
      obtain ⟨v, hv⟩ := List.exists_mem_of_ne_nil _ (triVertices_ne triangles j (hlt j hj))
      intro e
      have : v ∈ subtreeVertices triangles s := List.mem_flatMap.mpr ⟨j, hj, hv⟩
      rw [e] at this
      cases this
    have hvr : ∀ v ∈ subtreeVertices triangles s, InFloatRange v := by
      intro v hv
      obtain ⟨j, _, hvj⟩ := List.mem_flatMap.mp hv
      obtain ⟨tri, htri, hv3⟩ := triVertices_mem triangles j v hvj
      obtain ⟨ra, rb, rc⟩ := hr tri htri
      rcases hv3 with rfl | rfl | rfl
      · exact ra
      · exact rb
      · exact rc
    refine ⟨hsne, hlt, ?_, ?_, ?_⟩
    · rw [e1]; exact vertexMin_isMin _ hvne hvr
    · rw [e2]; exact vertexMax_isMax _ hvne hvr
    · intro b tt l r e
      rw [e] at hts
      exact tightBoxes_union _ b tt l r hts

theorem C21_tight_boxes_witness :
    fourTriangles ≠ [] ∧ (∀ tri ∈ fourTriangles, tri.InFloatRange) ∧
    ∃ root, (∀ fuel, 1023 + fourTriangles.length ≤ fuel →
        CreateBVH fuel fourTriangles = some root) ∧
      (∀ fuel r, CreateBVH fuel fourTriangles = some r → r = root) ∧
      ∀ s ∈ subtrees root,
        leafTris s ≠ [] ∧ (∀ j ∈ leafTris s, j < fourTriangles.length) ∧
        IsMinOf s._bottom (subtreeVertices fourTriangles s) ∧
        IsMaxOf s._top (subtreeVertices fourTriangles s) ∧
        ∀ (b t : Vector3) (l r : BVHNode), s = .BVHInner b t l r →
          b = l._bottom.assignSmaller r._bottom ∧ t = l._top.assignBigger r._top :=
  ⟨by simp [fourTriangles], by decide!,
    C21_tight_boxes fourTriangles (by simp [fourTriangles]) (by decide!)⟩

/-! ## C26: the leaf bit and the count of the records -/

theorem maxLeafCount_subtrees (t s : BVHNode) (hs : s ∈ subtrees t) :
    maxLeafCount s ≤ maxLeafCount t := by
  induction t with
  | BVHInner b t l r ihl ihr =>
    simp only [subtrees, List.mem_cons, List.mem_append] at hs
    rcases hs with rfl | hs | hs
    · exact le_refl _
    · exact le_trans (ihl hs) (le_max_left _ _)
    · exact le_trans (ihr hs) (le_max_right _ _)
  | BVHLeaf b t ts =>
    simp only [subtrees, List.mem_singleton] at hs
    rw [hs]

/-- The record at the pre-order position of a subtree. -/
theorem record_of_subtree (root : BVHNode) (i : Nat) (s : BVHNode)
    (hs : (subtrees root)[i]? = some s) :
    ∃ off, Embeds (layout root 0 0) (leafTris root) s i off ∧ i + CountBoxes s ≤ CountBoxes root ∧
      (∀ (b t : Vector3) (l r : BVHNode), s = .BVHInner b t l r →
        (layout root 0 0)[i]? = some ⟨b, t, i + 1, i + 1 + CountBoxes l⟩) ∧
      (∀ (b t : Vector3) (ts : List Nat), s = .BVHLeaf b t ts →
        (layout root 0 0)[i]? = some ⟨b, t, 0x80000000 ||| ts.length, off⟩) := by
  obtain ⟨off, he, hle⟩ := subtrees_embeds _ _ root 0 0 i s (embeds_root root) hs
  simp only [zero_add] at he hle
  refine ⟨off, he, hle, ?_, ?_⟩
  · intro b t l r e
    rw [e] at he
    exact (embeds_inner he).1
  · intro b t ts e
    rw [e] at he
    exact (embeds_leaf he).1

/-- C26: for every tree with fewer than `2^31` nodes and fewer than `2^31`
triangles in each leaf, the compaction succeeds and, at every index of the node
array, the leaf test of the traversal (`count & 0x80000000`) is true exactly when
the record was compacted from a leaf (the node at that position of the pre-order);
on such a record `count & 0x7fffffff` is the number of triangles of the leaf, and
on the record of an inner node the word holds the index of the left child. -/
theorem C26_leaf_bit (root : BVHNode) (junk : Nat → CacheFriendlyBVHNode)
    (junkTri : Nat → Nat) (hn : CountBoxes root < 2 ^ 31) (hc : maxLeafCount root < 2 ^ 31) :
    ∃ st, compactArrays root junk junkTri = some st ∧
      st._pCFBVH.length = (subtrees root).length ∧
      ∀ (i : Nat) (s : BVHNode), (subtrees root)[i]? = some s →
        ∃ n, st._pCFBVH[i]? = some n ∧ n.leafBit = s.IsLeaf ∧
          (∀ (b t : Vector3) (ts : List Nat), s = .BVHLeaf b t ts →
            n.count &&& 0x7fffffff = ts.length) ∧
          (∀ (b t : Vector3) (l r : BVHNode), s = .BVHInner b t l r →
            n.idxLeft = i + 1 ∧ n.count &&& 0x80000000 = 0) := by
  refine ⟨_, compactArrays_eq root junk junkTri, ?_, ?_⟩
  · simp only [layout_length, subtrees_length]
  · intro i s hs
    obtain ⟨off, _, hle, hin, hlf⟩ := record_of_subtree root i s hs
    have hpos := CountBoxes_pos s
    have hmem : s ∈ subtrees root := List.getElem?_mem hs
    cases s with
    | BVHInner b t l r =>
      have hi : i + 1 < 2 ^ 31 := by omega
      refine ⟨_, hin b t l r rfl, ?_, ?_, ?_⟩
      · rw [leafBit_inner b t (i + 1) _ hi]; rfl
      · intro b1 t1 ts e; cases e
      · intro b1 t1 l1 r1 _
        exact ⟨rfl, small_and_high (i + 1) hi⟩
    | BVHLeaf b t ts =>
      have hts : ts.length < 2 ^ 31 := by
        have := maxLeafCount_subtrees root _ hmem
        simp only [maxLeafCount] at this
        omega
      refine ⟨_, hlf b t ts rfl, ?_, ?_, ?_⟩
      · rw [leafBit_leaf]; rfl
      · intro b1 t1 ts1 e
        cases e
        exact tag_and_low _ hts
      · intro b1 t1 l1 r1 e; cases e

theorem C26_leaf_bit_witness :
    CountBoxes smallTree < 2 ^ 31 ∧ maxLeafCount smallTree < 2 ^ 31 ∧
    ∃ st, compactArrays smallTree junk0 junkTri0 = some st ∧
      st._pCFBVH.length = (subtrees smallTree).length ∧
      ∀ (i : Nat) (s : BVHNode), (subtrees smallTree)[i]? = some s →
        ∃ n, st._pCFBVH[i]? = some n ∧ n.leafBit = s.IsLeaf ∧
          (∀ (b t : Vector3) (ts : List Nat), s = .BVHLeaf b t ts →
            n.count &&& 0x7fffffff = ts.length) ∧
          (∀ (b t : Vector3) (l r : BVHNode), s = .BVHInner b t l r →
            n.idxLeft = i + 1 ∧ n.count &&& 0x80000000 = 0) :=
  ⟨by decide, by decide, C26_leaf_bit smallTree junk0 junkTri0 (by decide) (by decide)⟩

/-! ## C30: the pre-order layout and the leaf ranges -/

theorem leafTris_flatten (t : BVHNode) : leafTris t = (leafLists t).flatten := by
  induction t with
  | BVHInner b t l r ihl ihr => simp only [leafTris, leafLists, List.flatten_append, ihl, ihr]
  | BVHLeaf b t ts => simp only [leafTris, leafLists, List.flatten_cons, List.flatten_nil, List.append_nil]

theorem leafSpans_counts (t : BVHNode) (off : Nat) :
    (leafSpans t off).map Prod.snd = (leafLists t).map List.length := by
  induction t generalizing off with
  | BVHInner b t l r ihl ihr => simp only [leafSpans, leafLists, List.map_append, ihl, ihr]
  | BVHLeaf b t ts => rfl

theorem leafSpans_chained (t : BVHNode) (off : Nat) (rest : List (Nat × Nat)) (b : Nat)
    (h : Chained rest (off + CountTriangles t) b) : Chained (leafSpans t off ++ rest) off b := by
  induction t generalizing off rest b with
  | BVHInner bb tt l r ihl ihr =>
    simp only [leafSpans, List.append_assoc]
    apply ihl
    apply ihr
    simp only [CountTriangles] at h
    rw [Nat.add_assoc]
    exact h
  | BVHLeaf bb tt ts =>
    simp only [leafSpans, List.singleton_append, Chained, CountTriangles] at h ⊢
    exact ⟨trivial, h⟩

/-- Slices of the index list at the spans of a tree are the leaves' lists. -/
theorem leafSpans_slices (t : BVHNode) (off : Nat) (T : List Nat)
    (hT : (T.drop off).take (CountTriangles t) = leafTris t) :
    (leafSpans t off).map (fun p => (T.drop p.1).take p.2) = leafLists t := by
  induction t generalizing off with
  | BVHInner b tt l r ihl ihr =>
    simp only [leafSpans, leafLists, List.map_append]
    simp only [CountTriangles, leafTris] at hT
    have hl : (T.drop off).take (CountTriangles l) = leafTris l := by
      have := congrArg (List.take (CountTriangles l)) hT
      rw [List.take_take, Nat.min_eq_left (Nat.le_add_right _ _)] at this
      rw [this]
      exact List.take_left' (leafTris_length l)
    have hr : (T.drop (off + CountTriangles l)).take (CountTriangles r) = leafTris r := by
      have := congrArg (List.drop (CountTriangles l)) hT
      rw [List.drop_take, List.drop_drop, List.drop_left' (leafTris_length l)] at this
      rw [← this]
      congr 2
      omega
    rw [ihl off hl, ihr _ hr]
  | BVHLeaf b tt ts =>
    simp only [leafSpans, leafLists, List.map_cons, List.map_nil]
    simp only [CountTriangles, leafTris] at hT
    rw [hT]

/-- The spans read from the records of a layout are the spans of the tree. -/
theorem arraySpans_layout (t : BVHNode) (i off : Nat) (hn : i + CountBoxes t < 2 ^ 31)
    (hc : maxLeafCount t < 2 ^ 31) : arraySpans (layout t i off) = leafSpans t off := by
  induction t generalizing i off with
  | BVHInner b tt l r ihl ihr =>
    simp only [CountBoxes] at hn
    simp only [maxLeafCount] at hc
    have hl := ihl (i + 1) off (by omega) (lt_of_le_of_lt (le_max_left _ _) hc)
    have hr := ihr (i + 1 + CountBoxes l) (off + CountTriangles l) (by omega)
      (lt_of_le_of_lt (le_max_right _ _) hc)
    have hb : CacheFriendlyBVHNode.leafBit ⟨b, tt, i + 1, i + 1 + CountBoxes l⟩ = false :=
      leafBit_inner b tt (i + 1) _ (by omega)
    simp only [arraySpans] at hl hr ⊢
    simp only [layout, leafSpans, List.filter_cons, hb, List.filter_append, List.map_append,
      hl, hr, Bool.false_eq_true, if_false]
  | BVHLeaf b tt ts =>
    simp only [maxLeafCount] at hc
    have hb : CacheFriendlyBVHNode.leafBit ⟨b, tt, 0x80000000 ||| ts.length, off⟩ = true :=
      leafBit_leaf b tt ts.length off
    simp only [arraySpans, layout, leafSpans, List.filter_cons, hb, List.filter_nil,
      List.map_cons, List.map_nil, if_true]
    have := tag_and_low ts.length hc
    simp only [CacheFriendlyBVHNode.startIndexInTriIndexList, CacheFriendlyBVHNode.count] at this ⊢
    rw [this]

theorem chained_bounds (xs : List (Nat × Nat)) (a b : Nat) (h : Chained xs a b) :
    a ≤ b ∧ ∀ p ∈ xs, a ≤ p.1 ∧ p.1 + p.2 ≤ b := by
  induction xs generalizing a with
  | nil =>
    simp only [Chained] at h
    exact ⟨le_of_eq h, fun p hp => by cases hp⟩
  | cons q rest ih =>
    obtain ⟨h1, h2⟩ := h
    obtain ⟨e1, e2⟩ := ih _ h2
    refine ⟨by omega, ?_⟩
    intro p hp
    rcases List.mem_cons.1 hp with rfl | hp
    · omega
    · have := e2 p hp
      omega

theorem chained_pairwise (xs : List (Nat × Nat)) (a b : Nat) (h : Chained xs a b) :
    xs.Pairwise fun p q => p.1 + p.2 ≤ q.1 := by
  induction xs generalizing a with
  | nil => exact List.Pairwise.nil
  | cons q rest ih =>
    obtain ⟨h1, h2⟩ := h
    refine List.Pairwise.cons ?_ (ih _ h2)
    intro p hp
    have := (chained_bounds _ _ _ h2).2 p hp
    omega

theorem subtrees_head (t : BVHNode) : (subtrees t)[0]? = some t := by
  cases t <;> simp only [subtrees, List.getElem?_cons_zero]

/-- A subtree takes a contiguous range of the pre-order. -/
theorem subtrees_range (t : BVHNode) (k : Nat) (s : BVHNode) (hs : (subtrees t)[k]? = some s) :
    k + CountBoxes s ≤ CountBoxes t ∧ ((subtrees t).drop k).take (CountBoxes s) = subtrees s := by
  induction t generalizing k with
  | BVHLeaf b t ts =>
    cases k with
    | zero =>
      simp only [subtrees, List.getElem?_cons_zero, Option.some.injEq] at hs
      subst hs
      exact ⟨le_refl _, rfl⟩
    | succ k => simp [subtrees] at hs
  | BVHInner b t l r ihl ihr =>
    cases k with
    | zero =>
      simp only [subtrees, List.getElem?_cons_zero, Option.some.injEq] at hs
      subst hs
      refine ⟨by omega, ?_⟩
      rw [List.drop_zero, ← subtrees_length, List.take_length]
    | succ k =>
      simp only [subtrees, List.getElem?_cons_succ] at hs
      simp only [CountBoxes, subtrees, List.drop_succ_cons]
      by_cases hk : k < CountBoxes l
      · rw [List.getElem?_append_left (by rw [subtrees_length]; exact hk)] at hs
        obtain ⟨e1, e2⟩ := ihl _ hs
        refine ⟨by omega, ?_⟩
        rw [List.drop_append_of_le_length (by rw [subtrees_length]; omega)]
        rw [List.take_append_of_le_length (by rw [List.length_drop, subtrees_length]; omega)]
        exact e2
      · rw [List.getElem?_append_right (by rw [subtrees_length]; omega), subtrees_length] at hs
        obtain ⟨e1, e2⟩ := ihr _ hs
        refine ⟨by omega, ?_⟩
        rw [List.drop_append_eq_append_drop, List.drop_of_length_le (by rw [subtrees_length]; omega),
          List.nil_append, subtrees_length]
        exact e2

theorem subtrees_children (t : BVHNode) (k : Nat) (b tt : Vector3) (l r : BVHNode)
    (hs : (subtrees t)[k]? = some (.BVHInner b tt l r)) :
    (subtrees t)[k + 1]? = some l ∧ (subtrees t)[k + 1 + CountBoxes l]? = some r := by
  obtain ⟨hle, hr⟩ := subtrees_range t k _ hs
  have hl1 := CountBoxes_pos l
  have hr1 := CountBoxes_pos r
  simp only [CountBoxes] at hle
  have key : ∀ j, j < CountBoxes (.BVHInner b tt l r) →
      (subtrees t)[k + j]? = (subtrees (.BVHInner b tt l r))[j]? := by
    intro j hj
    rw [← hr, List.getElem?_take_of_lt hj, List.getElem?_drop]
  constructor
  · rw [key 1 (by simp only [CountBoxes]; omega)]
    simp only [subtrees, List.getElem?_cons_succ]
    rw [List.getElem?_append_left (by rw [subtrees_length]; omega)]
    exact subtrees_head l
  · rw [Nat.add_assoc, key (1 + CountBoxes l) (by simp only [CountBoxes]; omega)]
    rw [Nat.add_comm 1]
    simp only [subtrees, List.getElem?_cons_succ]
    rw [List.getElem?_append_right (by rw [subtrees_length]), subtrees_length, Nat.sub_self]
    exact subtrees_head r

theorem embeds_slices {A : List CacheFriendlyBVHNode} {T : List Nat} {s : BVHNode} {i off : Nat}
    (h : Embeds A T s i off) :
    (A.drop i).take (CountBoxes s) = layout s i off ∧
    (T.drop off).take (CountTriangles s) = leafTris s := by
  obtain ⟨hA, hT, hAl, hTl⟩ := h
  constructor
  · apply List.ext_getElem?
    intro j
    by_cases hj : j < CountBoxes s
    · rw [List.getElem?_take_of_lt hj, List.getElem?_drop, hA j hj]
    · rw [List.getElem?_eq_none (by rw [List.length_take, List.length_drop]; omega),
        List.getElem?_eq_none (by rw [layout_length]; omega)]
  · apply List.ext_getElem?
    intro j
    by_cases hj : j < CountTriangles s
    · rw [List.getElem?_take_of_lt hj, List.getElem?_drop, hT j hj]
    · rw [List.getElem?_eq_none (by rw [List.length_take, List.length_drop]; omega),
        List.getElem?_eq_none (by rw [leafTris_length]; omega)]

/-- C30: for every tree the compaction writes the nodes in pre-order: the root is
at index 0, the subtree at position `i` of the pre-order takes the contiguous
range of records from `i` on, as many as it has nodes, the record of an inner node
at index `i` has its left child at `i + 1` and its right child at
`i + 1 + CountBoxes(left)`, and a leaf record holds the start of its triangles in
the index list. The ranges (start, count) of the leaves, taken from left to right,
follow one another from 0 to the length of the index list, so they are pairwise
disjoint and cover it; the slice of each range is the list of its leaf; and, for
fewer than `2^31` nodes and triangles per leaf, these ranges are the ones read
from the leaf records of the array in the order of the array. -/
theorem C30_preorder_layout (root : BVHNode) (junk : Nat → CacheFriendlyBVHNode)
    (junkTri : Nat → Nat) :
    ∃ st, compactArrays root junk junkTri = some st ∧
      st._pCFBVH.length = CountBoxes root ∧
      st._triIndexList.length = CountTriangles root ∧
      (subtrees root)[0]? = some root ∧
      (∀ (i : Nat) (s : BVHNode), (subtrees root)[i]? = some s →
        ∃ off, i + CountBoxes s ≤ CountBoxes root ∧
          off + CountTriangles s ≤ CountTriangles root ∧
          (st._pCFBVH.drop i).take (CountBoxes s) = layout s i off ∧
          ((subtrees root).drop i).take (CountBoxes s) = subtrees s ∧
          (st._triIndexList.drop off).take (CountTriangles s) = leafTris s ∧
          (∀ (b t : Vector3) (l r : BVHNode), s = .BVHInner b t l r →
            st._pCFBVH[i]? = some ⟨b, t, i + 1, i + 1 + CountBoxes l⟩ ∧
            (subtrees root)[i + 1]? = some l ∧
            (subtrees root)[i + 1 + CountBoxes l]? = some r) ∧
          (∀ (b t : Vector3) (ts : List Nat), s = .BVHLeaf b t ts →
            st._pCFBVH[i]? = some ⟨b, t, 0x80000000 ||| ts.length, off⟩)) ∧
      Chained (leafSpans root 0) 0 st._triIndexList.length ∧
      (leafSpans root 0).Pairwise (fun p q => p.1 + p.2 ≤ q.1) ∧
      (leafSpans root 0).map (fun p => (st._triIndexList.drop p.1).take p.2) = leafLists root ∧
      st._triIndexList = (leafLists root).flatten ∧
      (CountBoxes root < 2 ^ 31 → maxLeafCount root < 2 ^ 31 →
        arraySpans st._pCFBVH = leafSpans root 0) := by
  have hch : Chained (leafSpans root 0) 0 (leafTris root).length := by
    have := leafSpans_chained root 0 [] (leafTris root).length
      (by rw [leafTris_length, Nat.zero_add]; rfl)
    rw [List.append_nil] at this
    exact this
  refine ⟨_, compactArrays_eq root junk junkTri, layout_length _ _ _, leafTris_length _,
    subtrees_head root, ?_, hch, chained_pairwise _ _ _ hch, ?_, leafTris_flatten root, ?_⟩
  · intro i s hs
    obtain ⟨off, he, hle, hin, hlf⟩ := record_of_subtree root i s hs
    obtain ⟨e1, e2⟩ := embeds_slices he
    have hT := he.2.2.2
    rw [leafTris_length] at hT
    refine ⟨off, hle, hT, e1, (subtrees_range root i s hs).2, e2, ?_, hlf⟩
    intro b t l r e
    rw [e] at hs
    exact ⟨hin b t l r e, subtrees_children root i b t l r hs⟩
  · apply leafSpans_slices
    rw [List.drop_zero, ← leafTris_length, List.take_length]
  · intro hn hc
    exact arraySpans_layout root 0 0 (by omega) hc

/-! ## C27: when the cache file is loaded -/

theorem readItems_length {α : Type} (decode : List Nat → α) (size n : Nat) (bytes : List Nat) :
    (readItems decode size n bytes).length = n := by
  induction n generalizing bytes with
  | zero => rfl
  | succ k ih => simp only [readItems, List.length_cons, ih]

/-- With 4-byte counts and entries and 32-byte records, one of the four reads comes
up short exactly when the file is shorter than the two counts and the two arrays
that the counts announce. -/
theorem readsShort_iff (L : Layout) (content : List Nat)
    (hL : L.unsignedSize = 4 ∧ L.nodeSize = 32 ∧ L.intSize = 4) :
    ReadsShort L content ↔
      content.length < 8 + 32 * L.bytesUnsigned (content.take 4) +
        4 * L.bytesUnsigned ((content.drop 4).take 4) := by
  obtain ⟨h1, h2, h3⟩ := hL
  unfold ReadsShort fread
  simp only [h1, h2, h3, Nat.mul_one, List.length_drop, List.drop_drop]
  generalize L.bytesUnsigned (content.take 4) = n
  generalize L.bytesUnsigned ((content.drop 4).take 4) = m
  generalize content.length = len
  have e1 : ∀ a b : Nat, a ≠ min a b ↔ b < a := by
    intro a b
    constructor
    · intro h
      by_contra hc
      exact h (Nat.min_eq_left (by omega)).symm
    · intro h e
      have := Nat.min_le_right a b
      omega
  simp only [e1]
  have d1 : len / 4 < 1 ↔ len < 4 := by
    rw [Nat.div_lt_iff_lt_mul (by decide)]
  have d2 : (len - 4) / 4 < 1 ↔ len - 4 < 4 := by
    rw [Nat.div_lt_iff_lt_mul (by decide)]
  have d3 : (len - (4 + 4)) / 32 < n ↔ len - (4 + 4) < n * 32 := by
    rw [Nat.div_lt_iff_lt_mul (by decide)]
  have d4 : (len - (4 + 4 + 32 * n)) / 4 < m ↔ len - (4 + 4 + 32 * n) < m * 4 := by
    rw [Nat.div_lt_iff_lt_mul (by decide)]
  rw [d1, d2, d3, d4]
  omega

theorem fclose_fopenRead (fs fs1 : Files) (content stream : List Nat)
    (hfile : fs.cache = some content) (h : fs.fopenRead = some (stream, fs1)) :
    stream = content ∧ fs1.fclose = fs := by
  unfold Files.fopenRead at h
  rw [hfile] at h
  simp only [Option.map_some', Option.some.injEq, Prod.mk.injEq] at h
  obtain ⟨h1, h2⟩ := h
  refine ⟨h1.symm, ?_⟩
  rw [← h2]
  cases fs
  simp only at hfile
  simp only [Files.fclose, Nat.add_sub_cancel, hfile]

/-- The load path on a file that is long enough, when the two arrays are
allocated. -/
theorem load_long (L : Layout) (memory : Nat) (junk : Nat → CacheFriendlyBVHNode)
    (junkTri : Nat → Nat)
    (fuel : Nat) (recurse : SceneState → Files → Except UpdateError (SceneState × Files))
    (st : SceneState) (fs : Files) (content : List Nat)
    (hnull : st._pCFBVH = none) (hfile : fs.cache = some content)
    (hlong : ¬ ReadsShort L content) (hmem : ¬ AllocFails L memory content) :
    updateBody L memory junk junkTri fuel recurse false st fs =
      .ok (⟨st._triangles, st._pSceneBVH, L.bytesUnsigned ((content.drop L.unsignedSize).take
          L.unsignedSize),
        some (readItems L.bytesInt L.intSize
          (L.bytesUnsigned ((content.drop L.unsignedSize).take L.unsignedSize))
          ((content.drop (L.unsignedSize + L.unsignedSize +
            L.nodeSize * L.bytesUnsigned (content.take L.unsignedSize))).take
              (L.intSize * L.bytesUnsigned ((content.drop L.unsignedSize).take L.unsignedSize)))),
        L.bytesUnsigned (content.take L.unsignedSize),
        some (readItems L.bytesNode L.nodeSize (L.bytesUnsigned (content.take L.unsignedSize))
          ((content.drop (L.unsignedSize + L.unsignedSize)).take
            (L.nodeSize * L.bytesUnsigned (content.take L.unsignedSize))))⟩, fs) := by
  unfold ReadsShort at hlong
  simp only [not_or, not_not] at hlong
  obtain ⟨h1, h2, h3, h4⟩ := hlong
  unfold AllocFails at hmem
  simp only at hmem
  have hopen : fs.fopenRead = some (content, { fs with openHandles := fs.openHandles + 1 }) := by
    unfold Files.fopenRead
    rw [hfile]
    rfl
  have hclose := (fclose_fopenRead fs _ content content hfile hopen).2
  unfold updateBody
  rw [hnull, hopen]
  simp only [Option.isSome_none, Bool.false_eq_true, if_false]
  rw [if_neg (not_not.mpr h1), if_neg (not_not.mpr h2),
    if_neg (fun a => hmem ⟨h1, h2, by omega⟩), if_neg (fun a => hmem ⟨h1, h2, by omega⟩),
    if_neg (not_not.mpr h3), if_neg (not_not.mpr h4), hclose]
  simp only [fread, Nat.mul_one, List.drop_drop]

/-- With 4-byte counts and entries and 32-byte records, the allocations fail
exactly when the file holds the two counts and the arrays they announce are more
than the allocator can give. -/
theorem allocFails_iff (L : Layout) (memory : Nat) (content : List Nat)
    (hL : L.unsignedSize = 4 ∧ L.nodeSize = 32 ∧ L.intSize = 4) :
    AllocFails L memory content ↔
      8 ≤ content.length ∧
        memory < 32 * L.bytesUnsigned (content.take 4) +
          4 * L.bytesUnsigned ((content.drop 4).take 4) := by
  obtain ⟨h1, h2, h3⟩ := hL
  unfold AllocFails fread
  simp only [h1, h2, h3, Nat.mul_one, List.length_drop]
  generalize L.bytesUnsigned (content.take 4) = n
  generalize L.bytesUnsigned ((content.drop 4).take 4) = m
  generalize content.length = len
  have e1 : ∀ b : Nat, 1 = min 1 b ↔ 1 ≤ b := by
    intro b
    constructor
    · intro h
      have := Nat.min_le_right 1 b
      omega
    · intro h
      exact (Nat.min_eq_left h).symm
  rw [e1, e1, Nat.le_div_iff_mul_le (by decide), Nat.le_div_iff_mul_le (by decide)]
  omega

/-- C27 fails on a truncated file that announces more than the memory can hold:
the cache file of the eight bytes `ff ff ff ff 00 00 00 00` has fewer than
`8 + 32*n + 4*m` bytes (`n = 4294967295`, `m = 0`), and with an allocator that can
give `2^36` bytes the call neither rebuilds nor loads: it ends in `std::bad_alloc`
at line 757, for every fuel of the build, while a build from scratch returns a
hierarchy.  In general, for a layout with 4-byte counts and entries and 32-byte
records, a scene with no compacted hierarchy in memory and `forceRecalc` false:
a read comes up short exactly when the file has fewer than `8 + 32*n + 4*m` bytes;
the call ends as a build from scratch when the file cannot be opened, when it has
fewer than 8 bytes, and when it is truncated and the arrays of `n` records and `m`
entries can be allocated; it ends in `std::bad_alloc` when the file has its 8
bytes and the arrays cannot be allocated, truncated or not; and otherwise it builds
nothing, leaves the tree pointer and the files as they were, and the scene
receives `n`, `m` and the records and entries decoded from the file. -/
theorem C27_truncated_no_rebuild :
    oneTriangleState._pCFBVH = none ∧
    hugeCountFiles.cache = some [255, 255, 255, 255, 0, 0, 0, 0] ∧
    ([255, 255, 255, 255, 0, 0, 0, 0] : List Nat).length <
      8 + 32 * exampleLayout.bytesUnsigned (([255, 255, 255, 255, 0, 0, 0, 0] : List Nat).take 4)
        + 4 * exampleLayout.bytesUnsigned
          ((([255, 255, 255, 255, 0, 0, 0, 0] : List Nat).drop 4).take 4) ∧
    (∀ fuel : Nat,
      UpdateBoundingVolumeHierarchy exampleLayout (2 ^ 36) junk0 junkTri0 fuel false
        oneTriangleState hugeCountFiles = .error .badAlloc) ∧
    freshBuild junk0 junkTri0 0 oneTriangleState =
      .ok ⟨[flatTriangle 0 0 (3 / 2)],
        some (.BVHLeaf ⟨0, 0, 3 / 2⟩ ⟨1, 1, 3 / 2⟩ [0]), 1, some [0], 1,
        some [⟨⟨0, 0, 3 / 2⟩, ⟨1, 1, 3 / 2⟩, 0x80000000 ||| 1, 0⟩]⟩ ∧
    (∀ (L : Layout) (memory : Nat) (junk : Nat → CacheFriendlyBVHNode) (junkTri : Nat → Nat)
      (fuel : Nat) (st : SceneState) (fs : Files),
      (L.unsignedSize = 4 ∧ L.nodeSize = 32 ∧ L.intSize = 4) → st._pCFBVH = none →
      (fs.cache = none →
        (UpdateBoundingVolumeHierarchy L memory junk junkTri fuel false st fs).map Prod.fst =
          freshBuild junk junkTri fuel st) ∧
      ∀ content, fs.cache = some content →
        (ReadsShort L content ↔
          content.length < 8 + 32 * L.bytesUnsigned (content.take 4) +
            4 * L.bytesUnsigned ((content.drop 4).take 4)) ∧
        (content.length < 8 →
          (UpdateBoundingVolumeHierarchy L memory junk junkTri fuel false st fs).map Prod.fst =
            freshBuild junk junkTri fuel st) ∧
        (8 ≤ content.length →
          memory < 32 * L.bytesUnsigned (content.take 4) +
            4 * L.bytesUnsigned ((content.drop 4).take 4) →
          UpdateBoundingVolumeHierarchy L memory junk junkTri fuel false st fs =
            .error .badAlloc) ∧
        (content.length < 8 + 32 * L.bytesUnsigned (content.take 4) +
            4 * L.bytesUnsigned ((content.drop 4).take 4) →
          32 * L.bytesUnsigned (content.take 4) +
            4 * L.bytesUnsigned ((content.drop 4).take 4) ≤ memory →
          (UpdateBoundingVolumeHierarchy L memory junk junkTri fuel false st fs).map Prod.fst =
            freshBuild junk junkTri fuel st) ∧
        (8 + 32 * L.bytesUnsigned (content.take 4) +
            4 * L.bytesUnsigned ((content.drop 4).take 4) ≤ content.length →
          32 * L.bytesUnsigned (content.take 4) +
            4 * L.bytesUnsigned ((content.drop 4).take 4) ≤ memory →
          ∃ nodes entries,
            UpdateBoundingVolumeHierarchy L memory junk junkTri fuel false st fs =
              .ok (⟨st._triangles, st._pSceneBVH, L.bytesUnsigned ((content.drop 4).take 4),
                some entries, L.bytesUnsigned (content.take 4), some nodes⟩, fs) ∧
            nodes = readItems L.bytesNode 32 (L.bytesUnsigned (content.take 4))
              ((content.drop 8).take (32 * L.bytesUnsigned (content.take 4))) ∧
            entries = readItems L.bytesInt 4 (L.bytesUnsigned ((content.drop 4).take 4))
              ((content.drop (8 + 32 * L.bytesUnsigned (content.take 4))).take
                (4 * L.bytesUnsigned ((content.drop 4).take 4))) ∧
            nodes.length = L.bytesUnsigned (content.take 4) ∧
            entries.length = L.bytesUnsigned ((content.drop 4).take 4))) := by
  refine ⟨rfl, rfl, by decide, ?_, by decide!, ?_⟩
  · intro fuel
    exact update_abort exampleLayout (2 ^ 36) junk0 junkTri0 fuel oneTriangleState hugeCountFiles
      [255, 255, 255, 255, 0, 0, 0, 0] rfl rfl (by unfold AllocFails; decide)
  · intro L memory junk junkTri fuel st fs hL hnull
    constructor
    · intro hnone
      unfold UpdateBoundingVolumeHierarchy updateBody
      rw [hnull]
      simp only [Option.isSome_none, Bool.false_eq_true, if_false, Files.fopenRead, hnone,
        Option.map_none']
      exact rebuildAndStore_scene L junk junkTri fuel false st fs
    · intro content hfile
      have hiff := readsShort_iff L content hL
      have haf := allocFails_iff L memory content hL
      refine ⟨hiff, ?_, ?_, ?_, ?_⟩
      · intro h8
        exact update_short L memory junk junkTri fuel st fs content hnull hfile
          (hiff.mpr (by omega)) (fun h => by have := (haf.mp h).1; omega)
      · intro h8 hm
        exact update_abort L memory junk junkTri fuel st fs content hnull hfile
          (haf.mpr ⟨h8, hm⟩)
      · intro hshort hm
        exact update_short L memory junk junkTri fuel st fs content hnull hfile
          (hiff.mpr hshort) (fun h => by have := (haf.mp h).2; omega)
      · intro hlong hm
        have hns : ¬ ReadsShort L content := fun h => absurd (hiff.mp h) (by omega)
        have hna : ¬ AllocFails L memory content := fun h => by
          have := (haf.mp h).2
          omega
        have := load_long L memory junk junkTri fuel (UpdateForced L memory junk junkTri fuel)
          st fs content hnull hfile hns hna
        obtain ⟨h1, h2, h3⟩ := hL
        rw [h1, h2, h3] at this
        exact ⟨_, _, this, rfl, rfl, readItems_length _ _ _ _, readItems_length _ _ _ _⟩

/-! ## C28: what the traversal writes -/

/-- One triangle: the step of the plain model, and either nothing is assigned and
the outputs stay, or (normal mode) the six assignments of a recorded hit. -/
theorem triangleStepW_spec (stop cull : Bool) (origin ray : Vector3) (avoidSelf : Option Nat)
    (idx : Nat) (tri : Triangle) (st : RayState) :
    (triangleStepW stop cull origin ray avoidSelf idx tri st).1 =
      triangleStep stop cull origin ray avoidSelf idx tri st ∧
    (((triangleStepW stop cull origin ray avoidSelf idx tri st).2 = [] ∧
        ((triangleStepW stop cull origin ray avoidSelf idx tri st).1 = .next st ∨
          (stop = true ∧
            (triangleStepW stop cull origin ray avoidSelf idx tri st).1 = .returnTrue st))) ∨
      (stop = false ∧
        (triangleStepW stop cull origin ray avoidSelf idx tri st).2 =
          [.bestTriDist, .pBestTri, .pointHitInWorldSpace, .kAB, .kBC, .kCA] ∧
        ∃ st1, (triangleStepW stop cull origin ray avoidSelf idx tri st).1 = .next st1 ∧
          st1.pBestTri ≠ none)) := by
  unfold triangleStepW triangleStep
  cases triangleTest cull origin ray avoidSelf idx tri with
  | none => exact ⟨rfl, Or.inl ⟨rfl, Or.inl rfl⟩⟩
  | some q =>
    obtain ⟨hit, kt1, kt2, kt3⟩ := q
    simp only
    cases stop with
    | true =>
      by_cases hd : distancesq st.pointHitInWorldSpace hit < st.bestTriDist
      · simp [hd]
      · simp [hd]
    | false =>
      by_cases hd : distancesq origin hit < st.bestTriDist
      · simp [hd]
      · simp [hd]

/-- The leaf loop: the result of the plain model; the log grows by assignments of
the loop counter and, in normal mode, of recorded hits; the outputs stay as they
were unless a hit was recorded. -/
theorem leafLoopW_spec (stop cull : Bool) (scene : Scene) (origin ray : Vector3)
    (avoidSelf : Option Nat) (n i : Nat) (st : RayState) (log : List Loc) :
    (leafLoopW stop cull scene origin ray avoidSelf n i st log).1 =
      leafLoop stop cull scene origin ray avoidSelf n i st ∧
    ∃ extra, (leafLoopW stop cull scene origin ray avoidSelf n i st log).2 = log ++ extra ∧
      (∀ loc ∈ extra, loc = .loopIndex ∨
        (stop = false ∧
          loc ∈ [Loc.bestTriDist, .pBestTri, .pointHitInWorldSpace, .kAB, .kBC, .kCA])) ∧
      (∀ st1, (leafLoopW stop cull scene origin ray avoidSelf n i st log).1 = .ok (.next st1) ∨
          (leafLoopW stop cull scene origin ray avoidSelf n i st log).1 = .ok (.returnTrue st1) →
        (st1 = st ∧ ∀ loc ∈ extra, loc.isHitOutput = false) ∨
        (stop = false ∧ st1.pBestTri ≠ none ∧ ∃ loc ∈ extra, loc.isHitOutput = true)) ∧
      (stop = false → ∀ st1,
        (leafLoopW stop cull scene origin ray avoidSelf n i st log).1 ≠ .ok (.returnTrue st1)) := by
  induction n generalizing i st log with
  | zero =>
    refine ⟨rfl, [], (List.append_nil _).symm, fun loc h => absurd h (List.not_mem_nil _), ?_, ?_⟩
    · intro st1 h
      simp only [leafLoopW, Except.ok.injEq, Flow.next.injEq, reduceCtorEq, or_false] at h
      exact Or.inl ⟨h.symm, fun loc h => absurd h (List.not_mem_nil _)⟩
    · intro _ st1 h
      simp only [leafLoopW, Except.ok.injEq, reduceCtorEq] at h
  | succ n ih =>
    rw [leafLoopW, leafLoop]
    cases scene._triIndexList[i]? with
    | none =>
      refine ⟨rfl, [], (List.append_nil _).symm, fun loc h => absurd h (List.not_mem_nil _),
        ?_, ?_⟩
      · intro st1 h
        simp only [reduceCtorEq, or_self] at h
      · intro _ st1 h
        simp only [reduceCtorEq] at h
    | some ti =>
      simp only
      cases scene._triangles[ti]? with
      | none =>
        refine ⟨rfl, [], (List.append_nil _).symm, fun loc h => absurd h (List.not_mem_nil _),
          ?_, ?_⟩
        · intro st1 h
          simp only [reduceCtorEq, or_self] at h
        · intro _ st1 h
          simp only [reduceCtorEq] at h
      | some triangle =>
        simp only
        obtain ⟨e1, e2⟩ := triangleStepW_spec stop cull origin ray avoidSelf ti triangle st
        rw [← e1]
        rcases e2 with ⟨hnil, hst | ⟨hstop, hst⟩⟩ | ⟨hstop, hblock, st1, hst, hbest⟩
        · rw [hst, hnil]
          simp only [List.append_nil]
          obtain ⟨i1, extra, i2, i3, i4, i5⟩ := ih (i + 1) st (log ++ [.loopIndex])
          refine ⟨i1, Loc.loopIndex :: extra, ?_, ?_, ?_, i5⟩
          · rw [i2, List.append_assoc]; rfl
          · intro loc hloc
            rcases List.mem_cons.mp hloc with rfl | hloc
            · exact Or.inl rfl
            · exact i3 loc hloc
          · intro s1 hs1
            rcases i4 s1 hs1 with ⟨a, b⟩ | ⟨a, b, loc, c, d⟩
            · refine Or.inl ⟨a, ?_⟩
              intro loc hloc
              rcases List.mem_cons.mp hloc with rfl | hloc
              · rfl
              · exact b loc hloc
            · exact Or.inr ⟨a, b, loc, List.mem_cons_of_mem _ c, d⟩
        · rw [hst, hnil]
          refine ⟨rfl, [], rfl, fun loc h => absurd h (List.not_mem_nil _), ?_, ?_⟩
          · intro s1 hs1
            simp only [Except.ok.injEq, reduceCtorEq, Flow.returnTrue.injEq, false_or] at hs1
            exact Or.inl ⟨hs1.symm, fun loc h => absurd h (List.not_mem_nil _)⟩
          · intro hf
            rw [hstop] at hf
            cases hf
        · rw [hst, hblock]
          simp only
          obtain ⟨i1, extra, i2, i3, i4, i5⟩ := ih (i + 1) st1
            (log ++ [.bestTriDist, .pBestTri, .pointHitInWorldSpace, .kAB, .kBC, .kCA] ++
              [.loopIndex])
          refine ⟨i1, [.bestTriDist, .pBestTri, .pointHitInWorldSpace, .kAB, .kBC, .kCA] ++
            ([.loopIndex] ++ extra), ?_, ?_, ?_, i5⟩
          · rw [i2]
            simp only [List.append_assoc]
          · intro loc hloc
            rcases List.mem_append.mp hloc with hloc | hloc
            · exact Or.inr ⟨hstop, hloc⟩
            · rcases List.mem_append.mp hloc with hloc | hloc
              · exact Or.inl (List.mem_singleton.mp hloc)
              · exact i3 loc hloc
          · intro s1 hs1
            refine Or.inr ⟨hstop, ?_, Loc.pointHitInWorldSpace, by simp, rfl⟩
            rcases i4 s1 hs1 with ⟨a, _⟩ | ⟨_, b, _⟩
            · rw [a]; exact hbest
            · exact b

/-- The loop over the stack: the result of the plain model; the log grows by
assignments of `stackIdx`, of the loop counter, of stack slots (below
`BVH_STACK_SIZE` unless the call ends in the failure of the assertion) and, in
normal mode, of recorded hits; the outputs stay unless a hit was recorded; the
flag of normal mode tells whether there is a best triangle. -/
theorem traverseW_spec (stop cull : Bool) (scene : Scene) (origin ray : Vector3)
    (avoidSelf : Option Nat) (fuel : Nat) (stack : List Nat) (st : RayState) (log : List Loc) :
    (traverseW stop cull scene origin ray avoidSelf fuel stack st log).1 =
      traverse stop cull scene origin ray avoidSelf fuel stack st ∧
    ∃ extra, (traverseW stop cull scene origin ray avoidSelf fuel stack st log).2 = log ++ extra ∧
      (∀ loc ∈ extra, loc = .stackIdx ∨ loc = .loopIndex ∨
        (∃ i, loc = .stackSlot i ∧
          ((traverseW stop cull scene origin ray avoidSelf fuel stack st log).1 ≠
            .error .stackOverflow → i < BVH_STACK_SIZE)) ∨
        (stop = false ∧
          loc ∈ [Loc.bestTriDist, .pBestTri, .pointHitInWorldSpace, .kAB, .kBC, .kCA])) ∧
      (∀ flag st1,
        (traverseW stop cull scene origin ray avoidSelf fuel stack st log).1 = .ok (flag, st1) →
        ((st1 = st ∧ ∀ loc ∈ extra, loc.isHitOutput = false) ∨
          (stop = false ∧ st1.pBestTri ≠ none ∧ ∃ loc ∈ extra, loc.isHitOutput = true)) ∧
        (stop = false → flag = st1.pBestTri.isSome)) := by
  induction fuel generalizing stack st log with
  | zero =>
    cases stack with
    | nil =>
      refine ⟨by simp [traverse, traverseW], [], by simp [traverseW],
        fun loc h => absurd h (List.not_mem_nil _), ?_⟩
      intro flag st1 h
      simp only [traverseW, Except.ok.injEq, Prod.mk.injEq] at h
      obtain ⟨h1, h2⟩ := h
      refine ⟨Or.inl ⟨h2.symm, fun loc h => absurd h (List.not_mem_nil _)⟩, ?_⟩
      intro hs
      rw [hs] at h1
      rw [← h1, ← h2]
      rfl
    | cons c cs =>
      refine ⟨by simp [traverse, traverseW], [], by simp [traverseW],
        fun loc h => absurd h (List.not_mem_nil _), ?_⟩
      intro flag st1 h
      simp [traverseW] at h
  | succ f ih =>
    cases stack with
    | nil =>
      refine ⟨by simp [traverse, traverseW], [], by simp [traverseW],
        fun loc h => absurd h (List.not_mem_nil _), ?_⟩
      intro flag st1 h
      simp only [traverseW, Except.ok.injEq, Prod.mk.injEq] at h
      obtain ⟨h1, h2⟩ := h
      refine ⟨Or.inl ⟨h2.symm, fun loc h => absurd h (List.not_mem_nil _)⟩, ?_⟩
      intro hs
      rw [hs] at h1
      rw [← h1, ← h2]
      rfl
    | cons c cs =>
      rw [traverse, traverseW]
      cases scene._pCFBVH[c]? with
      | none =>
        refine ⟨rfl, [.stackIdx], rfl, ?_, ?_⟩
        · intro loc hloc
          exact Or.inl (List.mem_singleton.mp hloc)
        · intro flag st1 h
          simp only [reduceCtorEq] at h
      | some n =>
        simp only
        by_cases hb : (!n.leafBit) = true
        · rw [if_pos hb, if_pos hb]
          by_cases hhit : RayIntersectsBox origin ray n = true
          · rw [if_pos hhit, if_pos hhit]
            by_cases hov : cs.length + 2 > BVH_STACK_SIZE
            · rw [if_pos hov, if_pos hov]
              refine ⟨rfl, [.stackIdx, .stackSlot cs.length, .stackIdx,
                .stackSlot (cs.length + 1), .stackIdx], by simp, ?_, ?_⟩
              · intro loc hloc
                simp only [List.mem_cons, List.mem_singleton, List.not_mem_nil, or_false] at hloc
                rcases hloc with rfl | rfl | rfl | rfl | rfl
                · exact Or.inl rfl
                · exact Or.inr (Or.inr (Or.inl ⟨_, rfl, fun h => absurd rfl h⟩))
                · exact Or.inl rfl
                · exact Or.inr (Or.inr (Or.inl ⟨_, rfl, fun h => absurd rfl h⟩))
                · exact Or.inl rfl
              · intro flag st1 h
                simp only [reduceCtorEq] at h
            · rw [if_neg hov, if_neg hov]
              obtain ⟨i1, extra, i2, i3, i4⟩ := ih (n.idxLeft :: n.idxRight :: cs) st
                (log ++ [.stackIdx] ++
                  [.stackSlot cs.length, .stackIdx, .stackSlot (cs.length + 1), .stackIdx])
              refine ⟨i1, [.stackIdx, .stackSlot cs.length, .stackIdx,
                .stackSlot (cs.length + 1), .stackIdx] ++ extra, ?_, ?_, ?_⟩
              · rw [i2]
                simp only [List.append_assoc, List.cons_append, List.nil_append]
              · intro loc hloc
                rcases List.mem_append.mp hloc with hloc | hloc
                · simp only [List.mem_cons, List.mem_singleton, List.not_mem_nil,
                    or_false] at hloc
                  rcases hloc with rfl | rfl | rfl | rfl | rfl
                  · exact Or.inl rfl
                  · exact Or.inr (Or.inr (Or.inl ⟨_, rfl, fun _ => by omega⟩))
                  · exact Or.inl rfl
                  · exact Or.inr (Or.inr (Or.inl ⟨_, rfl, fun _ => by omega⟩))
                  · exact Or.inl rfl
                · exact i3 loc hloc
              · intro flag st1 h
                obtain ⟨a, b⟩ := i4 flag st1 h
                refine ⟨?_, b⟩
                rcases a with ⟨a1, a2⟩ | ⟨a1, a2, loc, a3, a4⟩
                · refine Or.inl ⟨a1, ?_⟩
                  intro loc hloc
                  rcases List.mem_append.mp hloc with hloc | hloc
                  · simp only [List.mem_cons, List.mem_singleton, List.not_mem_nil,
                      or_false] at hloc
                    rcases hloc with rfl | rfl | rfl | rfl | rfl <;> rfl
                  · exact a2 loc hloc
                · exact Or.inr ⟨a1, a2, loc, List.mem_append_right _ a3, a4⟩
          · rw [if_neg hhit, if_neg hhit]
            obtain ⟨i1, extra, i2, i3, i4⟩ := ih cs st (log ++ [.stackIdx])
            refine ⟨i1, [.stackIdx] ++ extra, ?_, ?_, ?_⟩
            · rw [i2, List.append_assoc]
            · intro loc hloc
              rcases List.mem_append.mp hloc with hloc | hloc
              · exact Or.inl (List.mem_singleton.mp hloc)
              · exact i3 loc hloc
            · intro flag st1 h
              obtain ⟨a, b⟩ := i4 flag st1 h
              refine ⟨?_, b⟩
              rcases a with ⟨a1, a2⟩ | ⟨a1, a2, loc, a3, a4⟩
              · refine Or.inl ⟨a1, ?_⟩
                intro loc hloc
                rcases List.mem_append.mp hloc with hloc | hloc
                · rw [List.mem_singleton.mp hloc]; rfl
                · exact a2 loc hloc
              · exact Or.inr ⟨a1, a2, loc, List.mem_append_right _ a3, a4⟩
        · rw [if_neg hb, if_neg hb]
          obtain ⟨l1, lextra, l2, l3, l4, l5⟩ := leafLoopW_spec stop cull scene origin ray
            avoidSelf (n.count &&& 0x7fffffff) n.startIndexInTriIndexList st (log ++ [.stackIdx])
          rw [← l1]
          cases hr : (leafLoopW stop cull scene origin ray avoidSelf (n.count &&& 0x7fffffff)
              n.startIndexInTriIndexList st (log ++ [.stackIdx])).1 with
          | error e =>
            refine ⟨rfl, [.stackIdx] ++ lextra, ?_, ?_, ?_⟩
            · rw [l2, List.append_assoc]
            · intro loc hloc
              rcases List.mem_append.mp hloc with hloc | hloc
              · exact Or.inl (List.mem_singleton.mp hloc)
              · rcases l3 loc hloc with h | h
                · exact Or.inr (Or.inl h)
                · exact Or.inr (Or.inr (Or.inr h))
            · intro flag st1 h
              simp only [reduceCtorEq] at h
          | ok fl =>
            cases fl with
            | returnTrue s1 =>
              refine ⟨rfl, [.stackIdx] ++ lextra, ?_, ?_, ?_⟩
              · rw [l2, List.append_assoc]
              · intro loc hloc
                rcases List.mem_append.mp hloc with hloc | hloc
                · exact Or.inl (List.mem_singleton.mp hloc)
                · rcases l3 loc hloc with h | h
                  · exact Or.inr (Or.inl h)
                  · exact Or.inr (Or.inr (Or.inr h))
              · intro flag st1 h
                simp only [Except.ok.injEq, Prod.mk.injEq] at h
                obtain ⟨h1, h2⟩ := h
                subst h2
                refine ⟨?_, ?_⟩
                · rcases l4 s1 (Or.inr hr) with ⟨a1, a2⟩ | ⟨a1, a2, loc, a3, a4⟩
                  · refine Or.inl ⟨a1, ?_⟩
                    intro loc hloc
                    rcases List.mem_append.mp hloc with hloc | hloc
                    · rw [List.mem_singleton.mp hloc]; rfl
                    · exact a2 loc hloc
                  · exact Or.inr ⟨a1, a2, loc, List.mem_append_right _ a3, a4⟩
                · intro hs
                  exact absurd hr (l5 hs s1)
            | next s1 =>
              simp only
              obtain ⟨i1, extra, i2, i3, i4⟩ := ih cs s1
                (leafLoopW stop cull scene origin ray avoidSelf (n.count &&& 0x7fffffff)
                  n.startIndexInTriIndexList st (log ++ [.stackIdx])).2
              refine ⟨i1, [.stackIdx] ++ lextra ++ extra, ?_, ?_, ?_⟩
              · rw [i2, l2]
                simp only [List.append_assoc]
              · intro loc hloc
                rcases List.mem_append.mp hloc with hloc | hloc
                · rcases List.mem_append.mp hloc with hloc | hloc
                  · exact Or.inl (List.mem_singleton.mp hloc)
                  · rcases l3 loc hloc with h | h
                    · exact Or.inr (Or.inl h)
                    · exact Or.inr (Or.inr (Or.inr h))
                · exact i3 loc hloc
              · intro flag st1 h
                obtain ⟨a, b⟩ := i4 flag st1 h
                refine ⟨?_, b⟩
                rcases l4 s1 (Or.inl hr) with ⟨c1, c2⟩ | ⟨c1, c2, cloc, c3, c4⟩
                · rcases a with ⟨a1, a2⟩ | ⟨a1, a2, loc, a3, a4⟩
                  · refine Or.inl ⟨a1.trans c1, ?_⟩
                    intro loc hloc
                    rcases List.mem_append.mp hloc with hloc | hloc
                    · rcases List.mem_append.mp hloc with hloc | hloc
                      · rw [List.mem_singleton.mp hloc]; rfl
                      · exact c2 loc hloc
                    · exact a2 loc hloc
                  · exact Or.inr ⟨a1, a2, loc, List.mem_append_right _ a3, a4⟩
                · refine Or.inr ⟨c1, ?_, cloc,
                    List.mem_append_left _ (List.mem_append_right _ c3), c4⟩
                  rcases a with ⟨a1, _⟩ | ⟨_, a2, _⟩
                  · rw [a1]; exact c2
                  · exact a2

/-- C28: for every call of `BVH_IntersectTriangles` (any scene, any ray, however
far the loop gets), with the assignments of the source logged: the logged model
returns what the plain one returns; every location assigned is private to the call
(a slot of `stack`, `stackIdx`, `bestTriDist`, the loop counter) or one of the
five output parameters, never an entry of the node array, of the triangle index
list or of the triangles; the slots of `stack` assigned are below
`BVH_STACK_SIZE` unless the call ends in the failure of the assertion of line 227.
In shadow mode the hit point and the three edge distances are never assigned, and a
call that returns leaves them as they came in, with a null triangle.  In normal
mode a call that returns gives `true` exactly when the triangle is non-null, has
assigned the hit point or an edge distance exactly when the triangle is non-null
(a hit was recorded), and with a null triangle leaves them as they came in. -/
theorem C28_writes (stop cull : Bool) (scene : Scene) (origin ray : Vector3)
    (avoidSelf : Option Nat) (p : Vector3) (kAB kBC kCA : ℚ) (fuel : Nat) :
    (BVH_IntersectTrianglesW stop cull scene origin ray avoidSelf p kAB kBC kCA fuel).1 =
      BVH_IntersectTriangles stop cull scene origin ray avoidSelf p kAB kBC kCA fuel ∧
    (∀ loc ∈ (BVH_IntersectTrianglesW stop cull scene origin ray avoidSelf p kAB kBC kCA fuel).2,
      (loc.isPrivate = true ∨ loc.isOutput = true) ∧ loc.isScene = false) ∧
    ((BVH_IntersectTrianglesW stop cull scene origin ray avoidSelf p kAB kBC kCA fuel).1 ≠
        .error .stackOverflow →
      ∀ i, Loc.stackSlot i ∈
          (BVH_IntersectTrianglesW stop cull scene origin ray avoidSelf p kAB kBC kCA fuel).2 →
        i < BVH_STACK_SIZE) ∧
    (stop = true →
      (∀ loc ∈
          (BVH_IntersectTrianglesW stop cull scene origin ray avoidSelf p kAB kBC kCA fuel).2,
        loc.isHitOutput = false) ∧
      ∀ flag st,
        BVH_IntersectTriangles stop cull scene origin ray avoidSelf p kAB kBC kCA fuel =
          .ok (flag, st) →
        st.pBestTri = none ∧ st.pointHitInWorldSpace = p ∧ st.kAB = kAB ∧ st.kBC = kBC ∧
          st.kCA = kCA) ∧
    (stop = false → ∀ flag st,
      BVH_IntersectTriangles stop cull scene origin ray avoidSelf p kAB kBC kCA fuel =
        .ok (flag, st) →
      (flag = true ↔ st.pBestTri ≠ none) ∧
      ((∃ loc ∈
          (BVH_IntersectTrianglesW stop cull scene origin ray avoidSelf p kAB kBC kCA fuel).2,
        loc.isHitOutput = true) ↔ st.pBestTri ≠ none) ∧
      (st.pBestTri = none →
        st.pointHitInWorldSpace = p ∧ st.kAB = kAB ∧ st.kBC = kBC ∧ st.kCA = kCA)) := by
  obtain ⟨h1, extra, h2, h3, h4⟩ := traverseW_spec stop cull scene origin ray avoidSelf fuel [0]
    { pBestTri := none, pointHitInWorldSpace := p, kAB := kAB, kBC := kBC, kCA := kCA,
      bestTriDist := if stop then distancesq origin p else FLT_MAX }
    [.pBestTri, .bestTriDist, .stackIdx, .stackSlot 0, .stackIdx]
  have hW : BVH_IntersectTrianglesW stop cull scene origin ray avoidSelf p kAB kBC kCA fuel =
      traverseW stop cull scene origin ray avoidSelf fuel [0]
        { pBestTri := none, pointHitInWorldSpace := p, kAB := kAB, kBC := kBC, kCA := kCA,
          bestTriDist := if stop then distancesq origin p else FLT_MAX }
        [.pBestTri, .bestTriDist, .stackIdx, .stackSlot 0, .stackIdx] := rfl
  have hP : BVH_IntersectTriangles stop cull scene origin ray avoidSelf p kAB kBC kCA fuel =
      traverse stop cull scene origin ray avoidSelf fuel [0]
        { pBestTri := none, pointHitInWorldSpace := p, kAB := kAB, kBC := kBC, kCA := kCA,
          bestTriDist := if stop then distancesq origin p else FLT_MAX } := rfl
  rw [hW, hP, ← h1, h2]
  have hinit : ∀ loc ∈ [Loc.pBestTri, .bestTriDist, .stackIdx, .stackSlot 0, .stackIdx],
      (loc.isPrivate = true ∨ loc.isOutput = true) ∧ loc.isScene = false ∧
        loc.isHitOutput = false ∧ ∀ i, loc = .stackSlot i → i < BVH_STACK_SIZE := by
    intro loc hloc
    simp only [List.mem_cons, List.mem_singleton, List.not_mem_nil, or_false] at hloc
    rcases hloc with rfl | rfl | rfl | rfl | rfl
    · exact ⟨Or.inr rfl, rfl, rfl, fun i h => by cases h⟩
    · exact ⟨Or.inl rfl, rfl, rfl, fun i h => by cases h⟩
    · exact ⟨Or.inl rfl, rfl, rfl, fun i h => by cases h⟩
    · exact ⟨Or.inl rfl, rfl, rfl, fun i h => by cases h; decide⟩
    · exact ⟨Or.inl rfl, rfl, rfl, fun i h => by cases h⟩
  have hblock : ∀ loc ∈ [Loc.bestTriDist, .pBestTri, .pointHitInWorldSpace, .kAB, .kBC, .kCA],
      (loc.isPrivate = true ∨ loc.isOutput = true) ∧ loc.isScene = false ∧
        ∀ i, loc ≠ .stackSlot i := by
    intro loc hloc
    simp only [List.mem_cons, List.mem_singleton, List.not_mem_nil, or_false] at hloc
    rcases hloc with rfl | rfl | rfl | rfl | rfl | rfl
    · exact ⟨Or.inl rfl, rfl, fun i h => by cases h⟩
    · exact ⟨Or.inr rfl, rfl, fun i h => by cases h⟩
    · exact ⟨Or.inr rfl, rfl, fun i h => by cases h⟩
    · exact ⟨Or.inr rfl, rfl, fun i h => by cases h⟩
    · exact ⟨Or.inr rfl, rfl, fun i h => by cases h⟩
    · exact ⟨Or.inr rfl, rfl, fun i h => by cases h⟩
  have hextraHit : stop = true → ∀ loc ∈ extra, loc.isHitOutput = false := by
    intro hs loc hloc
    rcases h3 loc hloc with rfl | rfl | ⟨i, rfl, _⟩ | ⟨hf, _⟩
    · rfl
    · rfl
    · rfl
    · rw [hs] at hf; cases hf
  refine ⟨rfl, ?_, ?_, ?_, ?_⟩
  · intro loc hloc
    rcases List.mem_append.mp hloc with hloc | hloc
    · exact ⟨(hinit loc hloc).1, (hinit loc hloc).2.1⟩
    · rcases h3 loc hloc with rfl | rfl | ⟨i, rfl, _⟩ | ⟨_, hb⟩
      · exact ⟨Or.inl rfl, rfl⟩
      · exact ⟨Or.inl rfl, rfl⟩
      · exact ⟨Or.inl rfl, rfl⟩
      · exact ⟨(hblock loc hb).1, (hblock loc hb).2.1⟩
  · intro hne i hi
    rcases List.mem_append.mp hi with hi | hi
    · exact (hinit _ hi).2.2.2 i rfl
    · rcases h3 _ hi with h | h | ⟨j, hj, hlt⟩ | ⟨_, hb⟩
      · cases h
      · cases h
      · cases hj
        exact hlt hne
      · exact absurd rfl ((hblock _ hb).2.2 i)
  · intro hs
    refine ⟨?_, ?_⟩
    · intro loc hloc
      rcases List.mem_append.mp hloc with hloc | hloc
      · exact (hinit loc hloc).2.2.1
      · exact hextraHit hs loc hloc
    · intro flag st hok
      rcases (h4 flag st hok).1 with ⟨a1, _⟩ | ⟨a1, _⟩
      · rw [a1]
        exact ⟨rfl, rfl, rfl, rfl, rfl⟩
      · rw [hs] at a1; cases a1
  · intro hs flag st hok
    obtain ⟨a, b⟩ := h4 flag st hok
    have hflag := b hs
    refine ⟨?_, ?_, ?_⟩
    · rw [hflag]
      cases st.pBestTri <;> simp
    · constructor
      · rintro ⟨loc, hloc, hhit⟩
        rcases List.mem_append.mp hloc with hloc | hloc
        · rw [(hinit loc hloc).2.2.1] at hhit
          cases hhit
        · rcases a with ⟨_, a2⟩ | ⟨_, a2, _⟩
          · rw [a2 loc hloc] at hhit
            cases hhit
          · exact a2
      · intro hbest
        rcases a with ⟨a1, _⟩ | ⟨_, _, loc, a3, a4⟩
        · rw [a1] at hbest
          exact absurd rfl hbest
        · exact ⟨loc, List.mem_append_right _ a3, a4⟩
    · intro hnone
      rcases a with ⟨a1, _⟩ | ⟨_, a2, _⟩
      · rw [a1]
        exact ⟨rfl, rfl, rfl, rfl⟩
      · exact absurd hnone a2

end Renderer
